import Mathlib

/-!
# qtmindmap: the node/edge model and the interaction controller

A shallow embedding of the graph engine of the mind-map editor
(`node.cpp`, `graphlogic.cpp`, `graphwidget.cpp`).

* Objects living on the C++ heap are identified by an address, a natural
  number handed out by `State.nextId`.  A pointer is an `Option Nat`
  (`none` is the null pointer).
* The widget keeps a list of nodes only; every node keeps its own list of
  `EdgeElement`s.  An `Edge` is immutable once it has been set up, so an
  `EdgeElement` carries the edge record itself together with the address of
  the edge, and pointer comparison of edges is comparison of `Edge.id`.
* An operation returns `none` where the C++ code dereferences a null or
  dangling pointer, takes `first()` of an empty list or deletes an object
  twice; it returns `some` of the state it leaves behind otherwise.
* Painting, positions, colours and text are not part of the model; the
  angle of an edge is an input of `Node.calculateBiggestAngle`.
-/

namespace QtMindMap

/-! ## Data model -/

/-- Status bar texts of `graphlogic.cpp` / `graphwidget.cpp`. -/
inductive Msg where
  /-- "No active node." -/
  | noActiveNode
  /-- "Base node cannot be deleted." -/
  | baseNodeCannotBeDeleted
  /-- "Root element cannot be an edge target." -/
  | rootCannotBeEdgeTarget
  /-- "There is already an edge between these two nodes." -/
  | edgeAlreadyExists
  /-- "The graph is acyclic, edge added as secondary edge." -/
  | addedAsSecondary
  /-- "There no edge between these two nodes." -/
  | noSuchEdge
  /-- "Add edge: select destination node." -/
  | addEdgeSelectDestination
  /-- "Delete edge: select other end-node." -/
  | deleteEdgeSelectOtherEnd
  /-- "Edge adding cancelled." -/
  | edgeAddingCancelled
  /-- "Edge deleting cancelled." -/
  | edgeDeletingCancelled
  deriving DecidableEq, Repr

/-- What the controller sends out: `emit notification(..)` (or
`statusBarMsg(..)` in the widget) and `emit contentChanged()`. -/
inductive Signal where
  | notification (m : Msg)
  | contentChanged
  deriving DecidableEq, Repr

/-- The class `Edge`: `m_sourceNode`, `m_destNode` and the flag written by
`setSecondary`; `id` is the address of the object. -/
structure Edge where
  id : Nat
  m_sourceNode : Nat
  m_destNode : Nat
  m_secondary : Bool := false
  deriving DecidableEq, Repr

/-- The struct `EdgeElement` of a node: the edge and whether it starts here. -/
structure EdgeElement where
  edge : Edge
  startsFromThisNode : Bool
  deriving DecidableEq, Repr

/-- The class `Node` with the members set by its constructor
(`m_isActive(false)`, `m_number(-1)`, `m_hasBorder(true)`,
`m_numberIsSpecial(false)`); `id` is the address of the object. -/
structure Node where
  id : Nat
  m_edgeList : List EdgeElement := []
  m_isActive : Bool := false
  m_number : Int := -1
  m_hasBorder : Bool := true
  m_numberIsSpecial : Bool := false
  deriving DecidableEq, Repr

/-- `QApplication::keyboardModifiers()` as far as the controller reads it. -/
structure KeyboardModifiers where
  control : Bool := false
  shift : Bool := false
  deriving DecidableEq, Repr

/-- The members of `GraphLogic` (the same ones `GraphWidget` has); the nodes
of `m_nodeList` are stored in place of the pointers to them.  `signals` is the
log of everything emitted so far, oldest first. -/
structure State where
  m_nodeList : List Node := []
  m_activeNode : Option Nat := none
  m_showingNodeNumbers : Bool := false
  m_hintNumber : List Nat := []
  m_hintNode : Option Nat := none
  m_editingNode : Bool := false
  m_edgeAdding : Bool := false
  m_edgeDeleting : Bool := false
  signals : List Signal := []
  nextId : Nat := 0
  deriving DecidableEq, Repr

/-! ## Strings of digits -/

namespace QString

/-- Worker of `number`: the decimal digits of `n` in front of `acc`. -/
def numberAux : Nat → Nat → List Nat → List Nat
  | 0, _, acc => acc
  | fuel + 1, n, acc =>
    if n < 10 then n :: acc else numberAux fuel (n / 10) (n % 10 :: acc)

/-- `QString::number(n)` for `n ≥ 0`: the decimal digits, most significant
first. -/
def number (n : Nat) : List Nat := numberAux (n + 1) n []

/-- `QString::toInt()` of a string of digits: the value, or 0 when the string
is empty or the value does not fit a 32 bit `int`. -/
def toInt (digits : List Nat) : Nat :=
  let v := digits.foldl (fun acc d => 10 * acc + d) 0
  if digits.isEmpty then 0 else if v ≤ 2147483647 then v else 0

/-- `QString::startsWith`. -/
def startsWith (s t : List Nat) : Bool := t.isPrefixOf s

end QString

/-! ## `node.cpp` -/

namespace Node

/-- `Node::addEdge`: `m_edgeList.push_back(EdgeElement(edge, startsFromThisNode))`. -/
def addEdge (n : Node) (edge : Edge) (startsFromThisNode : Bool) : Node :=
  { n with m_edgeList := n.m_edgeList ++ [{ edge := edge, startsFromThisNode := startsFromThisNode }] }

/-- `Node::removeEdgeFromList`: erase the first element whose edge pointer is
`edge`. -/
def removeEdgeFromList (n : Node) (edge : Nat) : Node :=
  { n with m_edgeList := n.m_edgeList.eraseP (fun el => el.edge.id == edge) }

/-- `Node::setBorder`. -/
def setBorder (n : Node) (hasBorder : Bool) : Node :=
  { n with m_hasBorder := hasBorder }

/-- `Node::setActive`. -/
def setActive (n : Node) (active : Bool) : Node :=
  { n with m_isActive := active }

/-- `Node::showNumber`: `m_number = show ? number : -1`. -/
def showNumber (n : Node) (number : Nat) (show_ : Bool) (numberIsSpecial : Bool) : Node :=
  { n with m_number := if show_ then (number : Int) else -1,
           m_numberIsSpecial := numberIsSpecial }

/-- `Node::isConnected`: some edge of this node has `node` as its source or
as its destination. -/
def isConnected (n : Node) (node : Option Nat) : Bool :=
  n.m_edgeList.any (fun el =>
    some el.edge.m_sourceNode == node || some el.edge.m_destNode == node)

/-- `Node::edgesFrom`: the edges that start from this node. -/
def edgesFrom (n : Node) : List Edge :=
  (n.m_edgeList.filter (fun el => el.startsFromThisNode)).map (fun el => el.edge)

/-- Modelled from the spec: `Node::edgesToThis(excludeSecondaries)` is not in
`node.cpp`.  It is the mirror image of `edgesFrom` (spec 4.1,
`incidentEdges`): the edges that end in this node, without the secondary ones
when `excludeSecondaries` is set, which is the default at the call sites
`destination->edgesToThis()`. -/
def edgesToThis (n : Node) (excludeSecondaries : Bool) : List Edge :=
  ((n.m_edgeList.filter (fun el => !el.startsFromThisNode)).map (fun el => el.edge)).filter
    (fun e => !excludeSecondaries || !e.m_secondary)

/-- The test of the loop in `Node::deleteEdge`. -/
def deleteEdgeTest (n : Node) (otherEnd : Option Nat) (el : EdgeElement) : Bool :=
  (some el.edge.m_sourceNode == otherEnd && el.edge.m_destNode == n.id)
    || (el.edge.m_sourceNode == n.id && some el.edge.m_destNode == otherEnd)

end Node

namespace State

/-- Dereference a node pointer. -/
def findNode (s : State) (p : Nat) : Option Node :=
  s.m_nodeList.find? (fun n => n.id == p)

/-- Write through a node pointer. -/
def mapNode (s : State) (p : Nat) (f : Node → Node) : State :=
  { s with m_nodeList := s.m_nodeList.map (fun n => if n.id = p then f n else n) }

/-- Write through a node pointer that has to be live. -/
def updNode (s : State) (p : Nat) (f : Node → Node) : Option State :=
  if (s.findNode p).isSome then some (s.mapNode p f) else none

/-- Append to the log of emitted signals. -/
def emit (s : State) (sig : Signal) : State :=
  { s with signals := s.signals ++ [sig] }

end State

/-- Modelled from the spec: `Edge::~Edge` is not under src.  By the comment in
`Node::~Node` ("dtor of Edge will call removeEdgeFromList on booth nodes") and
the lifecycle rule of spec 3 it takes the edge out of the incidence lists of
its source and of its destination.  (A node that is itself being destroyed has
already left `m_nodeList`; its list is not kept.) -/
def Edge.destroy (e : Edge) (s : State) : State :=
  (s.mapNode e.m_sourceNode (fun n => n.removeEdgeFromList e.id)).mapNode e.m_destNode
    (fun n => n.removeEdgeFromList e.id)

/-- `Node::deleteEdge`: `delete` the first edge of the list that joins this
node and `otherEnd`, in either direction. -/
def Node.deleteEdge (n : Node) (otherEnd : Option Nat) (s : State) : State :=
  match n.m_edgeList.find? (n.deleteEdgeTest otherEnd) with
  | some el => Edge.destroy el.edge s
  | none => s

/-- `Node::~Node`: `foreach (EdgeElement element, m_edgeList) delete
element.edge;`.  The loop runs over a copy of the list, so an edge that is
in the list twice (an edge from the node to itself) is deleted twice, which
is undefined. -/
def Node.destroy (n : Node) (s : State) : Option State :=
  if (n.m_edgeList.map (fun el => el.edge.id)).Nodup then
    some (n.m_edgeList.foldl (fun st el => Edge.destroy el.edge st) s)
  else none

/-- The children of a node in the tree: destinations of its non-secondary
outgoing edges. -/
def Node.children (n : Node) : List Nat :=
  (n.edgesFrom.filter (fun e => !e.m_secondary)).map (fun e => e.m_destNode)

/-- One round of the closure computed by `subtree`. -/
def State.subtreeStep (s : State) (acc : List Nat) : List Nat :=
  (acc ++ acc.flatMap (fun p => match s.findNode p with
    | some n => n.children
    | none => [])).dedup

/-- Modelled from the spec: `Node::subtree` is not in `node.cpp`.  By spec 4.3
it is the node itself plus every node reachable from it over non-secondary
outgoing edges, as a set; the closure is reached after as many rounds as there
are nodes. -/
def State.subtree (s : State) (p : Nat) : List Nat :=
  (s.subtreeStep)^[s.m_nodeList.length] [p]

/-- `GraphLogic::allEdges` (`GraphWidget::edges`): the edges starting from
the nodes of `m_nodeList`, in list order. -/
def State.allEdges (s : State) : List Edge :=
  s.m_nodeList.flatMap (fun n => n.edgesFrom)

/-! ## `graphlogic.cpp` -/

namespace GraphLogic

/-- `GraphLogic::setActiveNode`.  `setBorder()` is called without argument; the
default declared in `node.h` (not under src) is taken to be `true`. -/
def setActiveNode (node : Option Nat) (s : State) : Option State :=
  match (match s.m_activeNode with
    | some a => s.updNode a (fun n => n.setBorder false)
    | none => some s) with
  | none => none
  | some s1 =>
    match node with
    | some p => ({ s1 with m_activeNode := some p } : State).updNode p (fun n => n.setBorder true)
    | none => some { s1 with m_activeNode := none }

/-- The loop of `showingAllNodeNumbers`, `i` being the running index.  The call
is `showNumber(i, show)`; the default of the third parameter is declared in
`node.h`, which is not under src, and is taken to be `false` (the special
number is set by the explicit `showNumber(.., .., true)` calls). -/
def showAllFrom (show_ : Bool) : Nat → List Node → List Node
  | _, [] => []
  | i, n :: rest => n.showNumber i show_ false :: showAllFrom show_ (i + 1) rest

/-- `GraphLogic::showingAllNodeNumbers`: show/hide numbers on all nodes. -/
def showingAllNodeNumbers (show_ : Bool) (s : State) : State :=
  { s with m_nodeList := showAllFrom show_ 0 s.m_nodeList }

/-- The loop of `showingNodeNumbersBeginWithNumber`: `i` is the running index,
the result holds the relabelled nodes, the number of hits added and the last
value written to `m_hintNode` (the given one if none was written). -/
def beginWithLoop (number : Nat) (show_ : Bool) :
    Nat → List Node → Option Nat → List Node × Nat × Option Nat
  | _, [], hint => ([], 0, hint)
  | i, n :: rest, hint =>
    if i = number then
      let r := beginWithLoop number show_ (i + 1) rest (some n.id)
      (n.showNumber i show_ true :: r.1, r.2.1 + 1, r.2.2)
    else if QString.startsWith (QString.number i) (QString.number number) then
      let r := beginWithLoop number show_ (i + 1) rest hint
      (n.showNumber i show_ false :: r.1, r.2.1 + 1, r.2.2)
    else
      let r := beginWithLoop number show_ (i + 1) rest hint
      (n :: r.1, r.2.1, r.2.2)

/-- `GraphLogic::addEdge(Node *source, Node *destination)`.  The edge is built
with its final `secondary` flag: nothing reads the edge between `new Edge` and
`setSecondary`. -/
def addEdge (source destination : Option Nat) (s : State) : Option State :=
  match s.m_activeNode with
  | none => some (s.emit (.notification .noActiveNode))
  | some _ =>
    match s.m_nodeList.head? with
    | none => none
    | some first =>
      if destination = some first.id then
        (setActiveNode destination s).map (fun t => t.emit (.notification .rootCannotBeEdgeTarget))
      else
        match source.bind s.findNode, destination.bind s.findNode with
        | some src, some dst =>
          if src.isConnected destination then
            (setActiveNode destination s).map (fun t => t.emit (.notification .edgeAlreadyExists))
          else
            let sec := !(dst.edgesToThis true).isEmpty
            let s1 := if sec then s.emit (.notification .addedAsSecondary) else s
            let edge : Edge :=
              { id := s1.nextId, m_sourceNode := src.id, m_destNode := dst.id, m_secondary := sec }
            let s2 := ({ s1 with nextId := s1.nextId + 1 } : State)
            let s3 := (s2.mapNode src.id (fun n => n.addEdge edge true)).mapNode dst.id
              (fun n => n.addEdge edge false)
            (setActiveNode destination s3).map (fun t => t.emit .contentChanged)
        | _, _ => none

/-- `GraphLogic::removeEdge(Node *source, Node *destination)`. -/
def removeEdge (source destination : Option Nat) (s : State) : Option State :=
  match s.m_activeNode with
  | none => some (s.emit (.notification .noActiveNode))
  | some _ =>
    match source.bind s.findNode with
    | none => none
    | some src =>
      if !src.isConnected destination then
        (setActiveNode destination s).map (fun t => t.emit (.notification .noSuchEdge))
      else
        (setActiveNode destination (src.deleteEdge destination s)).map
          (fun t => t.emit .contentChanged)

/-- `GraphLogic::selectNode`. -/
def selectNode (node : Option Nat) (s : State) : Option State :=
  let s1 := ({ showingAllNodeNumbers false s with m_showingNodeNumbers := false } : State)
  if s1.m_edgeAdding then
    (addEdge s1.m_activeNode node s1).map (fun t => { t with m_edgeAdding := false })
  else if s1.m_edgeDeleting then
    (removeEdge s1.m_activeNode node s1).map (fun t => { t with m_edgeDeleting := false })
  else
    setActiveNode node s1

/-- `GraphLogic::showingNodeNumbersBeginWithNumber`. -/
def showingNodeNumbersBeginWithNumber (number : Nat) (show_ : Bool) (s : State) : Option State :=
  let r := beginWithLoop number show_ 0 s.m_nodeList s.m_hintNode
  let s1 := ({ s with m_nodeList := r.1, m_hintNode := r.2.2 } : State)
  if r.2.1 = 1 then
    selectNode s1.m_hintNode s1
  else if r.2.1 = 0 then
    some (showingAllNodeNumbers false { s1 with m_showingNodeNumbers := false })
  else
    some s1

/-- `GraphLogic::showNodeNumbers`: re-draw numbers. -/
def showNodeNumbers (s : State) : Option State :=
  if s.m_hintNumber.isEmpty then
    match (showingAllNodeNumbers true s).m_nodeList with
    | [] => none
    | first :: rest =>
      some { s with m_nodeList := first.showNumber 0 true true :: rest,
                    m_hintNode := some first.id }
  else
    showingNodeNumbersBeginWithNumber (QString.toInt s.m_hintNumber) true
      (showingAllNodeNumbers false s)

/-- The body of the `foreach` of `removeNode`: forget the hint node if it is
this one, `m_nodeList.removeAll(node)`, `delete node`. -/
def deleteListed (node : Nat) (s : State) : Option State :=
  match s.findNode node with
  | none => none
  | some n =>
    n.destroy { s with
      m_hintNode := if s.m_hintNode = some node then none else s.m_hintNode,
      m_nodeList := s.m_nodeList.filter (fun m => m.id != node) }

/-- The `foreach(Node *node, nodeList)` of `removeNode`. -/
def deleteAll : List Nat → State → Option State
  | [], s => some s
  | node :: rest, s =>
    match deleteListed node s with
    | none => none
    | some s1 => deleteAll rest s1

/-- `GraphLogic::removeNode`. -/
def removeNode (mods : KeyboardModifiers) (s : State) : Option State :=
  match s.m_activeNode with
  | none => some (s.emit (.notification .noActiveNode))
  | some a =>
    match s.m_nodeList.head? with
    | none => none
    | some first =>
      if a = first.id then
        some (s.emit (.notification .baseNodeCannotBeDeleted))
      else
        let nodeList := if mods.control && mods.shift then s.subtree a else [a]
        match deleteAll nodeList s with
        | none => none
        | some s1 =>
          let s2 := ({ s1 with m_activeNode := none } : State).emit .contentChanged
          if s2.m_showingNodeNumbers then showNodeNumbers s2 else some s2

/-- `GraphLogic::nodeEdited`. -/
def nodeEdited (s : State) : State :=
  match s.m_activeNode with
  | none => s.emit (.notification .noActiveNode)
  | some _ => { s with m_editingNode := true }

/-- `GraphLogic::addEdge()`, the slot of key A. -/
def addEdgeSlot (s : State) : State :=
  { s.emit (.notification .addEdgeSelectDestination) with m_edgeAdding := true }

/-- `GraphLogic::removeEdge()`, the slot of key D. -/
def removeEdgeSlot (s : State) : State :=
  { s.emit (.notification .deleteEdgeSelectOtherEnd) with m_edgeDeleting := true }

/-- `GraphLogic::hintMode`. -/
def hintMode (s : State) : Option State :=
  let s1 := ({ s with m_showingNodeNumbers := !s.m_showingNodeNumbers } : State)
  if !s1.m_showingNodeNumbers then
    some (showingAllNodeNumbers false s1)
  else
    showNodeNumbers { s1 with m_hintNumber := [] }

/-- `GraphLogic::nodeLostFocus`. -/
def nodeLostFocus (s : State) : State :=
  if s.m_editingNode then
    { s with m_editingNode := false }
  else if s.m_edgeAdding then
    { s with m_edgeAdding := false }.emit (.notification .edgeAddingCancelled)
  else if s.m_edgeDeleting then
    { s with m_edgeDeleting := false }.emit (.notification .edgeDeletingCancelled)
  else if s.m_showingNodeNumbers then
    { showingAllNodeNumbers false { s with m_hintNumber := [] } with
      m_showingNodeNumbers := false }
  else s

/-- `GraphLogic::appendNumber`. -/
def appendNumber (num : Nat) (s : State) : Option State :=
  let s1 := ({ s with m_hintNumber := s.m_hintNumber ++ QString.number num } : State)
  showingNodeNumbersBeginWithNumber (QString.toInt s1.m_hintNumber) true
    (showingAllNodeNumbers false s1)

/-- `GraphLogic::delNumber`. -/
def delNumber (s : State) : Option State :=
  if !s.m_showingNodeNumbers && s.m_hintNumber.isEmpty then some s
  else showNodeNumbers { s with m_hintNumber := s.m_hintNumber.dropLast }

/-- `GraphLogic::applyNumber`. -/
def applyNumber (s : State) : Option State :=
  if s.m_hintNode.isSome && s.m_showingNodeNumbers then selectNode s.m_hintNode s else some s

/-- The members after the constructor `GraphLogic::GraphLogic`. -/
def ctor : State := {}

/-- `GraphLogic::addFirstNode`. -/
def addFirstNode (s : State) : Option State :=
  let node : Node := { id := s.nextId }
  let s1 := ({ s with m_nodeList := s.m_nodeList ++ [node], nextId := s.nextId + 1 } : State)
  match s1.m_nodeList.head? with
  | none => none
  | some first =>
    ({ s1 with m_activeNode := some first.id } : State).updNode first.id (fun n => n.setBorder true)

end GraphLogic

/-! ## `graphwidget.cpp` -/

namespace GraphWidget

/-- `GraphWidget::setActiveNode`: unlike the one of `GraphLogic` it calls
`setActive` on the new node without a null check.  `setActive()` is called
without argument; the default declared in `node.h` (not under src) is taken to
be `true`. -/
def setActiveNode (node : Option Nat) (s : State) : Option State :=
  match (match s.m_activeNode with
    | some a => s.updNode a (fun n => n.setActive false)
    | none => some s) with
  | none => none
  | some s1 =>
    match node with
    | some p => ({ s1 with m_activeNode := some p } : State).updNode p (fun n => n.setActive true)
    | none => none

/-- `GraphWidget::showingAllNodeNumbers`. -/
def showingAllNodeNumbers (show_ : Bool) (s : State) : State :=
  { s with m_nodeList := GraphLogic.showAllFrom show_ 0 s.m_nodeList }

/-- `GraphWidget::addEdge(Node *source, Node *destination)`.  Modelled from
the spec: the constructor `Edge::Edge` is not under src; nothing else in the
widget enters the new edge into the incidence lists of its two nodes, so the
constructor is taken to do what `GraphLogic::addEdge` spells out
(`source->addEdge(edge, true); destination->addEdge(edge, false)`). -/
def addEdge (source destination : Option Nat) (s : State) : Option State :=
  match s.m_nodeList.head? with
  | none => none
  | some first =>
    if destination = some first.id then
      some (s.emit (.notification .rootCannotBeEdgeTarget))
    else
      match source.bind s.findNode, destination.bind s.findNode with
      | some src, some dst =>
        if src.isConnected destination then
          some (s.emit (.notification .edgeAlreadyExists))
        else
          let sec := !(dst.edgesToThis true).isEmpty
          let s1 := if sec then s.emit (.notification .addedAsSecondary) else s
          let edge : Edge :=
            { id := s1.nextId, m_sourceNode := src.id, m_destNode := dst.id, m_secondary := sec }
          let s2 := ({ s1 with nextId := s1.nextId + 1 } : State)
          let s3 := (s2.mapNode src.id (fun n => n.addEdge edge true)).mapNode dst.id
            (fun n => n.addEdge edge false)
          some (s3.emit .contentChanged)
      | _, _ => none

/-- `GraphWidget::removeEdge(Node *source, Node *destination)`. -/
def removeEdge (source destination : Option Nat) (s : State) : Option State :=
  match source.bind s.findNode with
  | none => none
  | some src =>
    if !src.isConnected destination then
      some (s.emit (.notification .noSuchEdge))
    else
      some ((src.deleteEdge destination s).emit .contentChanged)

/-- `GraphWidget::nodeSelected`. -/
def nodeSelected (node : Option Nat) (s : State) : Option State :=
  let s1 := ({ showingAllNodeNumbers false s with m_showingNodeNumbers := false } : State)
  match node.bind s1.findNode with
  | none => none
  | some _ =>
    let s2 := ({ s1 with m_editingNode := false } : State)
    if s2.m_edgeAdding then
      (addEdge s2.m_activeNode node s2).map (fun t => { t with m_edgeAdding := false })
    else if s2.m_edgeDeleting then
      (removeEdge s2.m_activeNode node s2).map (fun t => { t with m_edgeDeleting := false })
    else
      setActiveNode node s2

/-- `GraphWidget::showingNodeNumbersBeginWithNumber`. -/
def showingNodeNumbersBeginWithNumber (number : Nat) (show_ : Bool) (s : State) : Option State :=
  let r := GraphLogic.beginWithLoop number show_ 0 s.m_nodeList s.m_hintNode
  let s1 := ({ s with m_nodeList := r.1, m_hintNode := r.2.2 } : State)
  if r.2.1 = 1 then
    nodeSelected s1.m_hintNode s1
  else if r.2.1 = 0 then
    some (showingAllNodeNumbers false { s1 with m_showingNodeNumbers := false })
  else
    some s1

/-- `GraphWidget::showNodeNumbers`. -/
def showNodeNumbers (s : State) : Option State :=
  if s.m_hintNumber.isEmpty then
    match (showingAllNodeNumbers true s).m_nodeList with
    | [] => none
    | first :: rest =>
      some { s with m_nodeList := first.showNumber 0 true true :: rest,
                    m_hintNode := some first.id }
  else
    showingNodeNumbersBeginWithNumber (QString.toInt s.m_hintNumber) true
      (showingAllNodeNumbers false s)

/-- `GraphWidget::editNode`. -/
def editNode (s : State) : State :=
  match s.m_activeNode with
  | none => s.emit (.notification .noActiveNode)
  | some _ => { s with m_editingNode := true }

/-- `GraphWidget::insertNode`.  The position of the new node is not
modelled; `node->setPos(..)` is taken to move the new node away from the
origin, where a new item stands, so that `Node::itemChange` is told
`ItemPositionHasChanged` and calls `contentChanged()`. -/
def insertNode (s : State) : Option State :=
  match s.m_activeNode with
  | none => some (s.emit (.notification .noActiveNode))
  | some a =>
    match s.findNode a with
    | none => none
    | some _ =>
      let node : Node := { id := s.nextId }
      let s0 := s.emit .contentChanged
      let s1 := ({ s0 with m_nodeList := s0.m_nodeList ++ [node], nextId := s0.nextId + 1 } : State)
      match addEdge (some a) (some node.id) s1 with
      | none => none
      | some s2 =>
        match setActiveNode (some node.id) s2 with
        | none => none
        | some s3 =>
          let s4 := (editNode s3).emit .contentChanged
          if s4.m_showingNodeNumbers then showNodeNumbers s4 else some s4

/-- `GraphWidget::removeNode`. -/
def removeNode (mods : KeyboardModifiers) (s : State) : Option State :=
  match s.m_activeNode with
  | none => some (s.emit (.notification .noActiveNode))
  | some a =>
    match s.m_nodeList.head? with
    | none => none
    | some first =>
      if a = first.id then
        some (s.emit (.notification .baseNodeCannotBeDeleted))
      else
        let nodeList := if mods.control && mods.shift then s.subtree a else [a]
        match GraphLogic.deleteAll nodeList s with
        | none => none
        | some s1 =>
          let s2 := ({ s1 with m_activeNode := none } : State).emit .contentChanged
          if s2.m_showingNodeNumbers then showNodeNumbers s2 else some s2

/-- The members after the constructor `GraphWidget::GraphWidget`. -/
def ctor : State := {}

/-- `GraphWidget::addFirstNode`. -/
def addFirstNode (s : State) : Option State :=
  let node : Node := { id := s.nextId }
  let s1 := ({ s with m_nodeList := s.m_nodeList ++ [node], nextId := s.nextId + 1 } : State)
  match s1.m_nodeList.head? with
  | none => none
  | some first =>
    ({ s1 with m_activeNode := some first.id } : State).updNode first.id (fun n => n.setActive true)

end GraphWidget

/-! ## Reachable states -/

/-- The operations on a document: the editing operations of `GraphLogic`,
`insertNode` of the widget (the `InsertNodeCommand` behind
`GraphLogic::insertNode` is not under src), and the widget versions of the
operations the widget has of its own. -/
inductive Op where
  | insertNode
  | removeNode (mods : KeyboardModifiers)
  | addEdge (source destination : Option Nat)
  | removeEdge (source destination : Option Nat)
  | selectNode (node : Option Nat)
  | nodeEdited
  | addEdgeSlot
  | removeEdgeSlot
  | hintMode
  | nodeLostFocus
  | appendNumber (num : Nat)
  | delNumber
  | applyNumber
  | widgetRemoveNode (mods : KeyboardModifiers)
  | widgetAddEdge (source destination : Option Nat)
  | widgetRemoveEdge (source destination : Option Nat)
  | widgetNodeSelected (node : Option Nat)
  deriving DecidableEq, Repr

/-- Run one operation. -/
def Op.run : Op → State → Option State
  | .insertNode, s => GraphWidget.insertNode s
  | .removeNode mods, s => GraphLogic.removeNode mods s
  | .addEdge source destination, s => GraphLogic.addEdge source destination s
  | .removeEdge source destination, s => GraphLogic.removeEdge source destination s
  | .selectNode node, s => GraphLogic.selectNode node s
  | .nodeEdited, s => some (GraphLogic.nodeEdited s)
  | .addEdgeSlot, s => some (GraphLogic.addEdgeSlot s)
  | .removeEdgeSlot, s => some (GraphLogic.removeEdgeSlot s)
  | .hintMode, s => GraphLogic.hintMode s
  | .nodeLostFocus, s => some (GraphLogic.nodeLostFocus s)
  | .appendNumber num, s => GraphLogic.appendNumber num s
  | .delNumber, s => GraphLogic.delNumber s
  | .applyNumber, s => GraphLogic.applyNumber s
  | .widgetRemoveNode mods, s => GraphWidget.removeNode mods s
  | .widgetAddEdge source destination, s => GraphWidget.addEdge source destination s
  | .widgetRemoveEdge source destination, s => GraphWidget.removeEdge source destination s
  | .widgetNodeSelected node, s => GraphWidget.nodeSelected node s

/-- Run a sequence of operations, first one first. -/
def runOps : List Op → State → Option State
  | [], s => some s
  | op :: rest, s =>
    match op.run s with
    | none => none
    | some s1 => runOps rest s1

/-- A new document: what `addFirstNode` makes of the freshly constructed
controller (see `addFirstNode_ctor`). -/
def newDocument : State :=
  { m_nodeList := [{ id := 0 }], m_activeNode := some 0, nextId := 1 }

/-- A new document of the widget: what `GraphWidget::addFirstNode` makes of the
freshly constructed widget (see `widget_addFirstNode_ctor`); the first node
carries the active flag. -/
def newScene : State :=
  { m_nodeList := [{ id := 0, m_isActive := true }], m_activeNode := some 0, nextId := 1 }

/-- The states a document can be in: those reached from a new document by
operations that are defined. -/
inductive Reachable : State → Prop where
  | init : Reachable newDocument
  | initWidget : Reachable newScene
  | step {s t : State} (op : Op) : Reachable s → op.run s = some t → Reachable t

/-! ## Well-formed documents -/

/-- The node that holds an element of an incidence list, going by the edge. -/
def EdgeElement.here (el : EdgeElement) : Nat :=
  if el.startsFromThisNode then el.edge.m_sourceNode else el.edge.m_destNode

/-- The node at the other end of the edge of an element. -/
def EdgeElement.there (el : EdgeElement) : Nat :=
  if el.startsFromThisNode then el.edge.m_destNode else el.edge.m_sourceNode

/-- The element the node at the other end holds for the same edge. -/
def EdgeElement.flip (el : EdgeElement) : EdgeElement :=
  { edge := el.edge, startsFromThisNode := !el.startsFromThisNode }

/-- An incoming edge that is not secondary. -/
def EdgeElement.isParentLink (el : EdgeElement) : Bool :=
  !el.startsFromThisNode && !el.edge.m_secondary

/-- The graph of a document: for every node its address and incidence list. -/
abbrev Skel := List (Nat × List EdgeElement)

/-- The graph held by a state. -/
def State.skel (s : State) : Skel := s.m_nodeList.map (fun n => (n.id, n.m_edgeList))

/-- The addresses of the nodes of a state, in list order. -/
def State.ids (s : State) : List Nat := s.m_nodeList.map (fun n => n.id)

namespace Skel

/-- The addresses of the nodes. -/
def ids (g : Skel) : List Nat := g.map Prod.fst

/-- Append an element to the incidence list of node `p`. -/
def addElem (g : Skel) (p : Nat) (el : EdgeElement) : Skel :=
  g.map (fun x => if x.1 = p then (x.1, x.2 ++ [el]) else x)

/-- Erase the first element for edge `e` from the incidence list of node `p`. -/
def eraseEdge (g : Skel) (p : Nat) (e : Nat) : Skel :=
  g.map (fun x => if x.1 = p then (x.1, x.2.eraseP (fun el => el.edge.id == e)) else x)

/-- Keep the elements whose edge passes `keep`, in every incidence list. -/
def filterEdges (g : Skel) (keep : Edge → Bool) : Skel :=
  g.map (fun x => (x.1, x.2.filter (fun el => keep el.edge)))

/-- Drop node `p`. -/
def removeNode (g : Skel) (p : Nat) : Skel := g.filter (fun x => x.1 != p)

/-- What `Edge::~Edge` does to the graph. -/
def destroyEdge (g : Skel) (e : Edge) : Skel :=
  eraseEdge (eraseEdge g e.m_sourceNode e.id) e.m_destNode e.id

/-- Drop the nodes `dead` and every element of an edge that touches one of them. -/
def removeNodes (g : Skel) (dead : List Nat) : Skel :=
  filterEdges (g.filter (fun x => !dead.contains x.1))
    (fun e => !dead.contains e.m_sourceNode && !dead.contains e.m_destNode)

end Skel

/-- The pointer structure of a document is sound: node addresses are distinct
and the root (address 0) is the first node; every element sits in the list of
the node its edge says; the node at the other end holds the flipped element;
an incidence list holds an edge once per direction; an address belongs to one
edge; addresses are below `next`; no edge ends in the root; a node has at most
one incoming non-secondary edge. -/
structure GraphOK (g : Skel) (next : Nat) : Prop where
  nodup : g.ids.Nodup
  root : g.ids.head? = some 0
  own : ∀ x ∈ g, ∀ el ∈ x.2, el.here = x.1
  mirror : ∀ x ∈ g, ∀ el ∈ x.2, ∃ y ∈ g, y.1 = el.there ∧ el.flip ∈ y.2
  keys : ∀ x ∈ g, (x.2.map (fun el => (el.edge.id, el.startsFromThisNode))).Nodup
  sameId : ∀ x ∈ g, ∀ y ∈ g, ∀ el ∈ x.2, ∀ el2 ∈ y.2, el.edge.id = el2.edge.id → el.edge = el2.edge
  fresh : ∀ x ∈ g, x.1 < next ∧ ∀ el ∈ x.2, el.edge.id < next
  rootNoIn : ∀ x ∈ g, ∀ el ∈ x.2, el.edge.m_destNode ≠ 0
  oneParent : ∀ x ∈ g, (x.2.filter EdgeElement.isParentLink).length ≤ 1

/-- A well-formed state: a sound graph, and the active node and the hint node
are live if they are set. -/
structure WF (s : State) : Prop where
  graph : GraphOK s.skel s.nextId
  activeLive : ∀ a, s.m_activeNode = some a → a ∈ s.ids
  hintLive : ∀ h, s.m_hintNode = some h → h ∈ s.ids

/-- The edge `addEdge(source, destination)` builds in state `s`, `src` and
`dst` being the two nodes: a fresh address, and secondary if the destination
has a non-secondary incoming edge. -/
def GraphLogic.newEdge (s : State) (src dst : Node) : Edge :=
  { id := s.nextId, m_sourceNode := src.id, m_destNode := dst.id,
    m_secondary := !(dst.edgesToThis true).isEmpty }

/-! ## Sample documents -/

/-- A chain: the root (0), its child (1), grandchild (3) and great-grandchild
(5), made by three `insertNode`s; the edges are 2, 4 and 6. -/
def chainDoc : State :=
  (runOps [.insertNode, .insertNode, .insertNode] newDocument).getD newDocument

/-- The chain with the shortcut edge 1 -> 5 added by `addEdge`. -/
def chainShortcut : State :=
  (GraphLogic.addEdge (some 1) (some 5) chainDoc).getD chainDoc

/-- The root (0) and one more node (1) with no edge between them: insert a
node, leave the editor (Escape), press D and pick the root, which deletes the
edge 0 -> 1 and makes the root the active node. -/
def rootPairDoc : State :=
  (runOps [.insertNode, .nodeLostFocus, .removeEdgeSlot, .selectNode (some 0)]
    newDocument).getD newDocument

/-- The root pair joined again by `addEdge(root, 1)`. -/
def rootPairJoined : State :=
  (GraphLogic.addEdge (some 0) (some 1) rootPairDoc).getD rootPairDoc

/-- The document after one `insertNode`: the root (0), its child (1) and the
edge 0 -> 1 (address 2); the child is active and being edited. -/
def oneChildDoc : State :=
  (runOps [.insertNode] newDocument).getD newDocument

/-- The operations behind `chainAtOne`. -/
def chainAtOneOps : List Op :=
  [.insertNode, .insertNode, .insertNode, .nodeLostFocus, .selectNode (some 1)]

/-- The chain with node 1 picked as the active node; its subtree is 1, 3, 5. -/
def chainAtOne : State := (runOps chainAtOneOps newDocument).getD newDocument

/-- The operations behind `hintDoc`: ten times Insert and Escape, then F and
the digit 1. -/
def hintDocOps : List Op :=
  (List.replicate 10 [Op.insertNode, Op.nodeLostFocus]).flatten ++ [.hintMode, .appendNumber 1]

/-- A chain of eleven nodes (list positions 0..10) in hint mode with the digit
1 typed: positions 1 and 10 are labelled, the node at position 10 (address 19)
is the active node. -/
def hintDoc : State := (runOps hintDocOps newDocument).getD newDocument

/-- The operations behind `selfLoopDoc`: Insert, Escape, D and a click on the
root (deletes the edge 0 -> 1), a click on node 1 (makes it active), A and a
click on node 1. -/
def selfLoopOps : List Op :=
  [.insertNode, .nodeLostFocus, .removeEdgeSlot, .selectNode (some 0), .selectNode (some 1),
    .addEdgeSlot, .selectNode (some 1)]

/-- The root and node 1, node 1 carrying a non-secondary edge to itself. -/
def selfLoopDoc : State := (runOps selfLoopOps newDocument).getD newDocument

/-- The operations behind `cycleDoc`: three times Insert and Escape (the chain
0 -> 1 -> 3 -> 5), a click on node 1, D and a click on the root (deletes the
edge 0 -> 1), a click on node 5, A and a click on node 1. -/
def cycleOps : List Op :=
  [.insertNode, .nodeLostFocus, .insertNode, .nodeLostFocus, .insertNode, .nodeLostFocus,
    .selectNode (some 1), .removeEdgeSlot, .selectNode (some 0), .selectNode (some 5),
    .addEdgeSlot, .selectNode (some 1)]

/-- The chain cut off from the root and closed to a ring 1 -> 3 -> 5 -> 1. -/
def cycleDoc : State := (runOps cycleOps newDocument).getD newDocument

/-! ## `node.cpp`: where to put a new node

`Node::calculateBiggestAngle` reads, for every element of `m_edgeList`, the
flag `startsFromThisNode` and the number `edge->getAngle()`.  The angle of an
edge is kept up to date by `Edge::adjust` from the positions of its two
nodes; here it is an input.  In this section a `double` is the rational
number it denotes and the arithmetic on it is exact: rounding is not part of
it.  It serves for the branch taken with one edge and for the range of the
result; which gap the loop selects depends on how the differences are
rounded, and is settled on the definitions of the next section. -/

/-- What `calculateBiggestAngle` reads of one element of `m_edgeList`. -/
structure EdgeAngle where
  /-- The flag `startsFromThisNode` of the element. -/
  startsFromThisNode : Bool
  /-- The number `edge->getAngle()` of the element. -/
  angle : ℚ

/-- The constant `Node::m_pi`: the `double` next to the literal
`3.14159265358979323846264338327950288419717`. -/
def Node.m_pi : ℚ := 884279719003555 / 281474976710656

/-- The constant `Node::m_oneAndHalfPi = Node::m_pi * 1.5`. -/
def Node.m_oneAndHalfPi : ℚ := Node.m_pi * (3 / 2)

/-- The constant `Node::m_twoPi = Node::m_pi * 2.0`. -/
def Node.m_twoPi : ℚ := Node.m_pi * 2

/-- The conversion `static_cast<int>(x)`: the fractional part is dropped,
that is, the value is rounded towards zero. -/
def Node.staticCastInt (x : ℚ) : Int :=
  if 0 ≤ x then ⌊x⌋ else ⌈x⌉

/-- The function `Node::doubleModulo`. -/
def Node.doubleModulo (devided devisor : ℚ) : ℚ :=
  devided - devisor * ((Node.staticCastInt (devided / devisor) : Int) : ℚ)

/-- The number pushed onto `tmp` for one element of `m_edgeList`. -/
def Node.tmpAngle (it : EdgeAngle) : ℚ :=
  if it.startsFromThisNode then it.angle
  else Node.doubleModulo (Node.m_pi + it.angle) Node.m_twoPi

/-- The list `tmp` of `calculateBiggestAngle` after `qSort`. -/
def Node.sortedAngles (m_edgeList : List EdgeAngle) : List ℚ :=
  (m_edgeList.map Node.tmpAngle).insertionSort (fun a b => a ≤ b)

/-- The second loop of `calculateBiggestAngle`, over the elements of `tmp`
from the second one on; the result is the pair `(max_prev, max)`. -/
def Node.gapLoop : List ℚ → ℚ → ℚ → ℚ → ℚ × ℚ
  | [], _, max_prev, max => (max_prev, max)
  | it :: rest, prev, max_prev, max =>
    if it - prev > max then Node.gapLoop rest it prev (it - prev)
    else Node.gapLoop rest it max_prev max

/-- The pair `(max_prev, max)` of `calculateBiggestAngle` when the loop over
the sorted list `tmp` has ended. -/
def Node.biggestGap (tmp : List ℚ) : ℚ × ℚ :=
  Node.gapLoop tmp.tail (tmp.headD 0) (tmp.getLastD 0)
    (Node.m_twoPi - tmp.getLastD 0 + tmp.headD 0)

/-- The function `Node::calculateBiggestAngle`. -/
def Node.calculateBiggestAngle (m_edgeList : List EdgeAngle) : ℚ :=
  match m_edgeList with
  | [] => Node.m_oneAndHalfPi
  | [first] =>
    if first.startsFromThisNode then Node.m_pi - first.angle
    else Node.m_twoPi - first.angle
  | first :: second :: rest =>
    Node.m_twoPi -
      Node.doubleModulo
        ((Node.biggestGap (Node.sortedAngles (first :: second :: rest))).1 +
          (Node.biggestGap (Node.sortedAngles (first :: second :: rest))).2 / 2)
        Node.m_twoPi

/-! ## `node.cpp` in double arithmetic

The functions of `node.cpp` that compute the direction of a new node, once
more, now with every operation rounded as the machine rounds it (IEEE 754
binary64, round to nearest, ties to even).  Every finite `double` is a whole
multiple of `2^-1074`; a `double` `d` is stored as the integer `d * 2^1074`,
so the order of the integers is the order of the doubles and `-` on the
stored integers is the exact difference.  Overflow to infinity and NaN are
not part of the model. -/

/-- A finite `double` `d`, stored as the integer `d * 2^1074`. -/
abbrev Double : Type := Int

/-- The number `2^1074`: what the stored integer of the double `1.0` is. -/
def Double.scale : Nat := 2 ^ 250 * 2 ^ 250 * 2 ^ 250 * 2 ^ 250 * 2 ^ 74

/-- Multiply `unit` by `step` as long as `t` has more than 53 binary digits
above `unit * step`. -/
def Double.ulpLoop (step : Nat) : Nat → Nat → Nat → Nat
  | 0, _, unit => unit
  | fuel + 1, t, unit =>
    if t < 2 ^ 53 * (unit * step) then unit else Double.ulpLoop step fuel t (unit * step)

/-- The spacing of the doubles around the stored integer `t`: the least
power of two `u` with `t < 2^53 * u` (found in steps of `2^64`, then of 2). -/
def Double.ulp (t : Nat) : Nat :=
  let u1 := Double.ulpLoop (2 ^ 64) 40 t 1
  let u2 := Double.ulpLoop 2 64 t u1
  if t < 2 ^ 53 * u2 then u2 else 2 * u2

/-- The stored integer of the double nearest to `a / q * 2^-1074`, for
`a ≥ 0` and `q > 0`: the multiple of the spacing nearest to `a / q`, the one
with the even quotient if two are equally near. -/
def Double.roundNat (a q : Nat) : Nat :=
  let unit := Double.ulp (a / q)
  let qt := a / (q * unit)
  let r := a % (q * unit)
  if 2 * r > q * unit ∨ (2 * r = q * unit ∧ qt % 2 = 1) then (qt + 1) * unit else qt * unit

/-- The double nearest to `p / q * 2^-1074`, for `q > 0`. -/
def Double.round (p : Int) (q : Nat) : Double :=
  if 0 ≤ p then (Double.roundNat p.toNat q : Int) else -(Double.roundNat (-p).toNat q : Int)

/-- The operation `a + b` on doubles. -/
def Double.add (a b : Double) : Double := Double.round (a + b) 1

/-- The operation `a - b` on doubles. -/
def Double.sub (a b : Double) : Double := Double.round (a - b) 1

/-- The operation `a * b` on doubles. -/
def Double.mul (a b : Double) : Double := Double.round (a * b) Double.scale

/-- The operation `a / b` on doubles, for `b` other than zero (for `b = 0`,
where the machine gives an infinity or NaN, the value here is 0). -/
def Double.div (a b : Double) : Double :=
  if 0 < b then Double.round (a * Double.scale) b.toNat
  else if b < 0 then Double.round (-(a * Double.scale)) (-b).toNat
  else 0

/-- The conversion of an `int` to `double`. -/
def Double.ofInt (z : Int) : Double := Double.round (z * Double.scale) 1

/-- The double nearest to `m / 2^e`. -/
def Double.ofParts (m : Int) (e : Nat) : Double := Double.round (m * Double.scale) (2 ^ e)

/-- What `calculateBiggestAngle` reads of one element of `m_edgeList`, the
angle being a `double`. -/
structure Machine.EdgeAngle where
  /-- The flag `startsFromThisNode` of the element. -/
  startsFromThisNode : Bool
  /-- The number `edge->getAngle()` of the element. -/
  angle : Double
  deriving DecidableEq

/-- The constant `Node::m_pi`: the `double` next to the literal
`3.14159265358979323846264338327950288419717`, which is
`884279719003555 / 2^48`. -/
def Machine.Node.m_pi : Double := Double.ofParts 884279719003555 48

/-- The constant `Node::m_oneAndHalfPi = Node::m_pi * 1.5`. -/
def Machine.Node.m_oneAndHalfPi : Double := Double.mul Machine.Node.m_pi (Double.ofParts 3 1)

/-- The constant `Node::m_twoPi = Node::m_pi * 2.0`. -/
def Machine.Node.m_twoPi : Double := Double.mul Machine.Node.m_pi (Double.ofInt 2)

/-- The conversion `static_cast<int>(x)`: the fractional part is dropped; the
conversion is undefined when the result does not fit an `int`. -/
def Machine.Node.staticCastInt (x : Double) : Option Int :=
  let z : Int := if 0 ≤ x then x / Double.scale else -((-x) / Double.scale)
  if -2147483648 ≤ z ∧ z ≤ 2147483647 then some z else none

/-- The function `Node::doubleModulo`; undefined when the quotient does not
fit an `int` or the divisor is zero. -/
def Machine.Node.doubleModulo (devided devisor : Double) : Option Double :=
  if devisor = 0 then none
  else
    match Machine.Node.staticCastInt (Double.div devided devisor) with
    | none => none
    | some z => some (Double.sub devided (Double.mul devisor (Double.ofInt z)))

/-- The number pushed onto `tmp` for one element of `m_edgeList`. -/
def Machine.Node.tmpAngle (it : Machine.EdgeAngle) : Option Double :=
  if it.startsFromThisNode then some it.angle
  else Machine.Node.doubleModulo (Double.add Machine.Node.m_pi it.angle) Machine.Node.m_twoPi

/-- The list `tmp` of `calculateBiggestAngle` before `qSort`. -/
def Machine.Node.tmpAngles : List Machine.EdgeAngle → Option (List Double)
  | [] => some []
  | it :: rest =>
    match Machine.Node.tmpAngle it, Machine.Node.tmpAngles rest with
    | some a, some r => some (a :: r)
    | _, _ => none

/-- The list `tmp` of `calculateBiggestAngle` after `qSort`. -/
def Machine.Node.sortedAngles (m_edgeList : List Machine.EdgeAngle) : Option (List Double) :=
  (Machine.Node.tmpAngles m_edgeList).map (fun tmp => tmp.insertionSort (fun a b => a ≤ b))

/-- The second loop of `calculateBiggestAngle`, over the elements of `tmp`
from the second one on; the result is the pair `(max_prev, max)`. -/
def Machine.Node.gapLoop : List Double → Double → Double → Double → Double × Double
  | [], _, max_prev, max => (max_prev, max)
  | it :: rest, prev, max_prev, max =>
    if Double.sub it prev > max then Machine.Node.gapLoop rest it prev (Double.sub it prev)
    else Machine.Node.gapLoop rest it max_prev max

/-- The gap across the end of the sorted list `tmp` as the code computes it:
`Node::m_twoPi - tmp.last() + tmp.first()`. -/
def Machine.Node.wrapGap (tmp : List Double) : Double :=
  Double.add (Double.sub Machine.Node.m_twoPi (tmp.getLastD 0)) (tmp.headD 0)

/-- The pair `(max_prev, max)` of `calculateBiggestAngle` when the loop over
the sorted list `tmp` has ended. -/
def Machine.Node.biggestGap (tmp : List Double) : Double × Double :=
  Machine.Node.gapLoop tmp.tail (tmp.headD 0) (tmp.getLastD 0) (Machine.Node.wrapGap tmp)

/-- The last line of `calculateBiggestAngle` for the pair `g = (max_prev,
max)`: `Node::m_twoPi - doubleModulo(max_prev + max / 2, Node::m_twoPi)`. -/
def Machine.Node.angleOfGap (g : Double × Double) : Option Double :=
  (Machine.Node.doubleModulo (Double.add g.1 (Double.div g.2 (Double.ofInt 2)))
    Machine.Node.m_twoPi).map (fun r => Double.sub Machine.Node.m_twoPi r)

/-- The function `Node::calculateBiggestAngle`. -/
def Machine.Node.calculateBiggestAngle (m_edgeList : List Machine.EdgeAngle) : Option Double :=
  match m_edgeList with
  | [] => some Machine.Node.m_oneAndHalfPi
  | [first] =>
    if first.startsFromThisNode then some (Double.sub Machine.Node.m_pi first.angle)
    else some (Double.sub Machine.Node.m_twoPi first.angle)
  | first :: second :: rest =>
    match Machine.Node.sortedAngles (first :: second :: rest) with
    | none => none
    | some tmp => Machine.Node.angleOfGap (Machine.Node.biggestGap tmp)

/-- Two edges that leave the node at 90 and 270 degrees: the doubles
`0x1.921fb54442d18p+0` and `0x1.2d97c7f3321d2p+2`. -/
def Machine.oppositeEdges : List Machine.EdgeAngle :=
  [⟨true, Double.ofParts 0x1921fb54442d18 52⟩, ⟨true, Double.ofParts 0x12d97c7f3321d2 50⟩]

/-! ## Hint numbers -/

/-- What a node shows of the hint overlay: `m_number` (`-1` for no number)
and `m_numberIsSpecial`. -/
def Node.label (n : Node) : Int × Bool := (n.m_number, n.m_numberIsSpecial)

/-- The labels of the nodes of a state, in list order. -/
def State.labels (s : State) : List (Int × Bool) := s.m_nodeList.map Node.label

/-- The test of the loop of `showingNodeNumbersBeginWithNumber` for a hit at
index `i`: `i == number`, or `QString::number(i)` starts with
`QString::number(number)`. -/
def GraphLogic.isHit (number i : Nat) : Bool :=
  decide (i = number) || QString.startsWith (QString.number i) (QString.number number)

/-- The label the loop of `showingNodeNumbersBeginWithNumber(number, true)`
leaves on the node at index `i` when the node showed no number before the
loop. -/
def GraphLogic.hitLabel (number i : Nat) : Int × Bool :=
  if i = number then ((i : Int), true)
  else if QString.startsWith (QString.number i) (QString.number number) then ((i : Int), false)
  else (-1, false)

/-- The hint overlay of `t` is the one of `s`: the same labels, the same
typed number and the same mode flag. -/
def State.sameHints (s t : State) : Prop :=
  t.labels = s.labels ∧ t.m_hintNumber = s.m_hintNumber ∧
    t.m_showingNodeNumbers = s.m_showingNodeNumbers

/-- The hint overlay is in order: at most one node is marked (its number is
drawn as special); a marked node shows the number that has been typed, if
any; and in hint mode a node that shows a number shows its list position. -/
structure HintOK (s : State) : Prop where
  oneSpecial : (s.labels.filter (fun x => x.2)).length ≤ 1
  specialNumber : ∀ x ∈ s.labels, x.2 = true → s.m_hintNumber ≠ [] →
    x.1 = (QString.toInt s.m_hintNumber : Int)
  inPlace : s.m_showingNodeNumbers = true →
    ∀ (i : Nat) (x : Int × Bool), s.labels[i]? = some x → x.1 = -1 ∨ x.1 = (i : Int)

/-- The operations behind `thirteenDoc`: twelve times Insert and Escape. -/
def thirteenOps : List Op :=
  (List.replicate 12 [Op.insertNode, Op.nodeLostFocus]).flatten

/-- A chain of thirteen nodes (list positions 0..12), not in hint mode; the
node at position 12 is the active node. -/
def thirteenDoc : State := (runOps thirteenOps newDocument).getD newDocument

/-- The operations behind `hintStartDoc`: ten times Insert and Escape, then
F. -/
def hintStartOps : List Op :=
  (List.replicate 10 [Op.insertNode, Op.nodeLostFocus]).flatten ++ [.hintMode]

/-- A chain of eleven nodes (list positions 0..10) in hint mode with nothing
typed yet. -/
def hintStartDoc : State := (runOps hintStartOps newDocument).getD newDocument

/-- The operations behind `strayNumbersDoc`: F, the digit 1 (the only index
is 0, so nothing is hit and hint mode is left) and Backspace. -/
def strayNumbersOps : List Op := [.hintMode, .appendNumber 1, .delNumber]

/-- A new document after F, 1 and Backspace: hint mode is off and the root
shows the number 0. -/
def strayNumbersDoc : State := (runOps strayNumbersOps newDocument).getD newDocument

/-- The operations behind `staleNumbersDoc`: twenty times Insert and Escape
(a chain of 21 nodes), a click on the node at position 1, F, the digits 2
(hits 2 and 20) and 9 (no hit, hint mode is left), Backspace and Delete. -/
def staleNumbersOps : List Op :=
  (List.replicate 20 [Op.insertNode, Op.nodeLostFocus]).flatten ++
    [.selectNode (some 1), .hintMode, .appendNumber 2, .appendNumber 9, .delNumber,
      .removeNode {}]

/-- The chain of 21 nodes after the node at position 1 has been deleted
while the numbers of Backspace were on show: the node that is now at
position 1 is marked and shows the number 2. -/
def staleNumbersDoc : State := (runOps staleNumbersOps newDocument).getD newDocument

/-! ## Positions and key events

The position of a node, its bounding rectangle and the rectangle of the scene
are kept apart from `State`, in a `Geometry`.  A `qreal` is the rational
number it denotes and the arithmetic on it is exact.  `insertNode` does not
write to the `Geometry`: the new node is found at whatever position the
`Geometry` holds for its address. -/

/-- `QPointF`. -/
structure QPointF where
  x : ℚ
  y : ℚ
  deriving DecidableEq

/-- `QRectF`, by its left, top, right and bottom coordinate: the rectangle
`QRectF(topLeft, bottomRight)`. -/
structure QRectF where
  left : ℚ
  top : ℚ
  right : ℚ
  bottom : ℚ

/-- `QRectF::contains(const QPointF &)` as Qt has it: a rectangle of negative
width or height is turned round first, one of width or height zero contains
nothing, and the border belongs to the rectangle. -/
def QRectF.contains (r : QRectF) (p : QPointF) : Bool :=
  let l := if r.right - r.left < 0 then r.right else r.left
  let rr := if r.right - r.left < 0 then r.left else r.right
  let t := if r.bottom - r.top < 0 then r.bottom else r.top
  let b := if r.bottom - r.top < 0 then r.top else r.bottom
  if l = rr then false
  else if p.x < l || p.x > rr then false
  else if t = b then false
  else if p.y < t || p.y > b then false
  else true

/-- What the code reads of the scene: `scene()->sceneRect()`, and `pos()` and
`boundingRect()` of the node at an address. -/
structure Geometry where
  sceneRect : QRectF
  pos : Nat → QPointF
  boundingRect : Nat → QRectF

/-- `Node::itemChange(ItemPositionChange, value)` for the node at address
`node`: the new position `value`, brought back into the fence (the rectangle
of the scene made smaller by the size of the node) if it is outside. -/
def Node.itemChange (g : Geometry) (node : Nat) (value : QPointF) : QPointF :=
  let rect : QRectF :=
    { left := g.sceneRect.left, top := g.sceneRect.top,
      right := g.sceneRect.right - (g.boundingRect node).right,
      bottom := g.sceneRect.bottom - (g.boundingRect node).bottom }
  if !rect.contains value then
    { x := min rect.right (max value.x rect.left),
      y := min rect.bottom (max value.y rect.top) }
  else value

/-- `QGraphicsItem::setPos` for a node, which has `ItemSendsGeometryChanges`
set: the position handed out by `itemChange(ItemPositionChange, ..)` is
stored, and if it differs from the old one `itemChange(ItemPositionHasChanged,
..)` runs, which calls `contentChanged()`. -/
def Node.setPos (node : Nat) (pos : QPointF) (sg : State × Geometry) : State × Geometry :=
  if sg.2.pos node = pos then sg
  else if Node.itemChange sg.2 node pos = sg.2.pos node then sg
  else (sg.1.emit .contentChanged,
    { sg.2 with pos := Function.update sg.2.pos node (Node.itemChange sg.2 node pos) })

/-- `QGraphicsItem::moveBy(dx, dy)`: `setPos(pos().x() + dx, pos().y() + dy)`. -/
def Node.moveBy (node : Nat) (dx dy : Int) (sg : State × Geometry) : State × Geometry :=
  Node.setPos node { x := (sg.2.pos node).x + dx, y := (sg.2.pos node).y + dy } sg

namespace GraphLogic

/-- `GraphLogic::move`. -/
def move (x y : Int) (mods : KeyboardModifiers) (sg : State × Geometry) :
    Option (State × Geometry) :=
  match sg.1.m_activeNode with
  | none => some (sg.1.emit (.notification .noActiveNode), sg.2)
  | some a =>
    match sg.1.findNode a with
    | none => none
    | some _ =>
      if mods.control && mods.shift then
        let r := (sg.1.subtree a).foldl (fun acc node => Node.moveBy node x y acc) sg
        some (r.1.emit .contentChanged, r.2)
      else
        let r := Node.moveBy a x y sg
        some (r.1.emit .contentChanged, r.2)

/-- `GraphLogic::moveUp`; without Ctrl the view is scrolled, which is not
part of the model. -/
def moveUp (mods : KeyboardModifiers) (sg : State × Geometry) : Option (State × Geometry) :=
  if mods.control then move 0 (-20) mods sg else some sg

/-- `GraphLogic::moveDown`. -/
def moveDown (mods : KeyboardModifiers) (sg : State × Geometry) : Option (State × Geometry) :=
  if mods.control then move 0 20 mods sg else some sg

/-- `GraphLogic::moveLeft`. -/
def moveLeft (mods : KeyboardModifiers) (sg : State × Geometry) : Option (State × Geometry) :=
  if mods.control then move (-20) 0 mods sg else some sg

/-- `GraphLogic::moveRight`. -/
def moveRight (mods : KeyboardModifiers) (sg : State × Geometry) : Option (State × Geometry) :=
  if mods.control then move 20 0 mods sg else some sg

/-- `GraphLogic::scaleUp` as far as the members of `State` go: the scale of
a node is not part of the model. -/
def scaleUp (s : State) : Option State :=
  match s.m_activeNode with
  | none => some (s.emit (.notification .noActiveNode))
  | some a =>
    match s.findNode a with
    | none => none
    | some _ => some s

/-- `GraphLogic::scaleDown` as far as the members of `State` go. -/
def scaleDown (s : State) : Option State :=
  match s.m_activeNode with
  | none => some (s.emit (.notification .noActiveNode))
  | some a =>
    match s.findNode a with
    | none => none
    | some _ => some s

/-- `GraphLogic::nodeColor` as far as the members of `State` go: colours are
not part of the model, and neither is the answer of the colour dialog. -/
def nodeColor (s : State) : Option State :=
  match s.m_activeNode with
  | none => some (s.emit (.notification .noActiveNode))
  | some a =>
    match s.findNode a with
    | none => none
    | some _ => some s

/-- `GraphLogic::nodeTextColor` as far as the members of `State` go. -/
def nodeTextColor (s : State) : Option State :=
  match s.m_activeNode with
  | none => some (s.emit (.notification .noActiveNode))
  | some a =>
    match s.findNode a with
    | none => none
    | some _ => some s

end GraphLogic

/-- The keys `processKeyEvent` tells apart; `digit d` is `Qt::Key_0 + d`. -/
inductive Key where
  | escape | plus | minus | digit (d : Fin 10) | insert | delete | f2 | c | t | a | d | f
  | up | down | left | right | backspace | returnKey | enter | other
  deriving DecidableEq

/-- What the code reads of a `QKeyEvent`.  `QApplication::keyboardModifiers()`
is taken to be `modifiers` of the event being handled. -/
structure QKeyEvent where
  key : Key
  modifiers : KeyboardModifiers := {}

/-- `Node::keyPressEvent` as far as the members of `State` go: the text of
the node is not part of the model; a key that is not a cursor key ends with
`contentChanged()`. -/
def Node.keyPressEvent (event : QKeyEvent) (s : State) : State :=
  match event.key with
  | .left => s
  | .right => s
  | .up => s
  | .down => s
  | _ => s.emit .contentChanged

/-- `GraphLogic::processKeyEvent`.  `insertNode` is the one of the widget,
as for `Op.insertNode`. -/
def GraphLogic.processKeyEvent (event : QKeyEvent) (sg : State × Geometry) :
    Option (State × Geometry) :=
  if event.key = .escape then some (GraphLogic.nodeLostFocus sg.1, sg.2)
  else if sg.1.m_editingNode then
    match sg.1.m_activeNode.bind sg.1.findNode with
    | none => none
    | some _ => some (Node.keyPressEvent event sg.1, sg.2)
  else if event.key = .plus && event.modifiers.control then
    (GraphLogic.scaleUp sg.1).map (fun t => (t, sg.2))
  else if event.key = .minus && event.modifiers.control then
    (GraphLogic.scaleDown sg.1).map (fun t => (t, sg.2))
  else
    match event.key with
    | .digit d =>
      if sg.1.m_showingNodeNumbers then
        (GraphLogic.appendNumber d.val sg.1).map (fun t => (t, sg.2))
      else some sg
    | .insert => (GraphWidget.insertNode sg.1).map (fun t => (t, sg.2))
    | .delete => (GraphLogic.removeNode event.modifiers sg.1).map (fun t => (t, sg.2))
    | .f2 => some (GraphLogic.nodeEdited sg.1, sg.2)
    | .c => (GraphLogic.nodeColor sg.1).map (fun t => (t, sg.2))
    | .t => (GraphLogic.nodeTextColor sg.1).map (fun t => (t, sg.2))
    | .a => some (GraphLogic.addEdgeSlot sg.1, sg.2)
    | .d => some (GraphLogic.removeEdgeSlot sg.1, sg.2)
    | .f => (GraphLogic.hintMode sg.1).map (fun t => (t, sg.2))
    | .up => GraphLogic.moveUp event.modifiers sg
    | .down => GraphLogic.moveDown event.modifiers sg
    | .left => GraphLogic.moveLeft event.modifiers sg
    | .right => GraphLogic.moveRight event.modifiers sg
    | .backspace => (GraphLogic.delNumber sg.1).map (fun t => (t, sg.2))
    | .returnKey => (GraphLogic.applyNumber sg.1).map (fun t => (t, sg.2))
    | .enter => (GraphLogic.applyNumber sg.1).map (fun t => (t, sg.2))
    | _ => some sg

/-- `GraphWidget::nodeLostFocus`: unlike the one of `GraphLogic` it leaves the
editor of the active node without a null check and sends nothing else. -/
def GraphWidget.nodeLostFocus (s : State) : Option State :=
  if s.m_editingNode then
    match s.m_activeNode.bind s.findNode with
    | none => none
    | some _ => some { s with m_editingNode := false }
  else if s.m_edgeAdding then
    some ({ s with m_edgeAdding := false }.emit (.notification .edgeAddingCancelled))
  else if s.m_edgeDeleting then
    some ({ s with m_edgeDeleting := false }.emit (.notification .edgeDeletingCancelled))
  else if s.m_showingNodeNumbers then
    some { GraphWidget.showingAllNodeNumbers false { s with m_hintNumber := [] } with
      m_showingNodeNumbers := false }
  else some s

/-- The states reached from a new document by key events and by selecting
live or null nodes, whatever the geometry of the scene is. -/
inductive KeyReachable : State → Prop where
  | init : KeyReachable newDocument
  | key (event : QKeyEvent) (g g' : Geometry) {s t : State} :
      KeyReachable s → GraphLogic.processKeyEvent event (s, g) = some (t, g') → KeyReachable t
  | select (node : Option Nat) {s t : State} :
      KeyReachable s → GraphLogic.selectNode node s = some t → KeyReachable t

/-- A scene of 100 by 100 in which every node measures 10 by 10 and stands
at (85, 0). -/
def smallScene : Geometry :=
  { sceneRect := { left := 0, top := 0, right := 100, bottom := 100 },
    pos := fun _ => { x := 85, y := 0 },
    boundingRect := fun _ => { left := 0, top := 0, right := 10, bottom := 10 } }

/-- A new document after the keys A, D, F and F2: edge adding, edge deleting,
hint mode and text edit are all on. -/
def allModesDoc : State :=
  GraphLogic.nodeEdited
    ((GraphLogic.hintMode
      (GraphLogic.removeEdgeSlot (GraphLogic.addEdgeSlot newDocument))).getD newDocument)

/-- The scene as `GraphWidget` sets it up (`setSceneRect(-400, -400, 800,
800)`), every node measuring 40 by 20, with node 5 standing at (350, 0), node
3 at (100, 0) and every other node at (0, 0). -/
def appScene : Geometry :=
  { sceneRect := { left := -400, top := -400, right := 400, bottom := 400 },
    pos := fun node =>
      if node = 5 then { x := 350, y := 0 }
      else if node = 3 then { x := 100, y := 0 }
      else { x := 0, y := 0 },
    boundingRect := fun _ => { left := 0, top := 0, right := 40, bottom := 20 } }

/-! ## The active flag

`GraphWidget::setActiveNode` marks the active node with `Node::setActive`
(`m_isActive`), `GraphLogic::setActiveNode` with `Node::setBorder`
(`m_hasBorder`). -/

/-- The address and the active flag of a node. -/
def Node.mark (n : Node) : Nat × Bool := (n.id, n.m_isActive)

/-- The addresses and active flags of the nodes of a state, in list order. -/
def State.marks (s : State) : List (Nat × Bool) := s.m_nodeList.map Node.mark

/-- Nothing of the active flags has changed from `s` to `t`: the flags, the
active node and, for the paths taken in hint mode, `m_showingNodeNumbers`. -/
def State.sameMarks (s t : State) : Prop :=
  t.marks = s.marks ∧ t.m_activeNode = s.m_activeNode ∧
    t.m_showingNodeNumbers = s.m_showingNodeNumbers

/-- The active flag is in order: a node carries it exactly when `m_activeNode`
points to it. -/
def ActiveOK (s : State) : Prop :=
  ∀ n ∈ s.m_nodeList, (n.m_isActive = true ↔ s.m_activeNode = some n.id)

/-- The states a document of the widget reaches from a new one through
`insertNode`, the selection of a node, `addEdge`, `removeEdge` and
`removeNode`, the two edge operations called directly or by their key (A, D)
and the selection that follows. -/
inductive WidgetReachable : State → Prop where
  | init : WidgetReachable newScene
  | insertNode {s t : State} :
      WidgetReachable s → GraphWidget.insertNode s = some t → WidgetReachable t
  | nodeSelected (node : Option Nat) {s t : State} :
      WidgetReachable s → GraphWidget.nodeSelected node s = some t → WidgetReachable t
  | addEdge (source destination : Option Nat) {s t : State} :
      WidgetReachable s → GraphWidget.addEdge source destination s = some t → WidgetReachable t
  | removeEdge (source destination : Option Nat) {s t : State} :
      WidgetReachable s → GraphWidget.removeEdge source destination s = some t →
      WidgetReachable t
  | removeNode (mods : KeyboardModifiers) {s t : State} :
      WidgetReachable s → GraphWidget.removeNode mods s = some t → WidgetReachable t
  | addEdgeSlot {s : State} : WidgetReachable s → WidgetReachable (GraphLogic.addEdgeSlot s)
  | removeEdgeSlot {s : State} :
      WidgetReachable s → WidgetReachable (GraphLogic.removeEdgeSlot s)

/-- The operations behind `sceneDoc`. -/
def sceneDocOps : List Op :=
  [.insertNode, .insertNode, .widgetNodeSelected (some 1)]

/-- A document of the widget: the root (0), its child (1) and grandchild (3),
with node 1 picked as the active node. -/
def sceneDoc : State := (runOps sceneDocOps newScene).getD newScene

/-! ## Lemmas on lists -/

theorem eraseP_eq_filter_of_unique {α : Type} (p : α → Bool) :
    ∀ (l : List α), l.Nodup → (∀ a ∈ l, ∀ b ∈ l, p a = true → p b = true → a = b) →
      l.eraseP p = l.filter (fun a => !p a)
  | [], _, _ => rfl
  | a :: t, hnd, huniq => by
    have hnd2 := List.nodup_cons.mp hnd
    by_cases hpa : p a = true
    · have hall : ∀ b ∈ t, (!p b) = true := by
        intro b hb
        by_contra hpb
        have hpb2 : p b = true := by simpa using hpb
        have := huniq a (List.mem_cons_self _ _) b (List.mem_cons_of_mem _ hb) hpa hpb2
        exact hnd2.1 (this ▸ hb)
      simp [List.eraseP_cons, hpa, List.filter_cons, List.filter_eq_self.mpr hall]
    · have ih := eraseP_eq_filter_of_unique p t hnd2.2
        (fun x hx y hy => huniq x (List.mem_cons_of_mem _ hx) y (List.mem_cons_of_mem _ hy))
      simp [List.eraseP_cons, hpa, List.filter_cons, ih]

theorem eraseP_eraseP_eq_filter {α : Type} (p : α → Bool) (u v : α) :
    ∀ (l : List α), l.Nodup → (∀ a ∈ l, p a = true → a = u ∨ a = v) →
      (l.eraseP p).eraseP p = l.filter (fun a => !p a)
  | [], _, _ => rfl
  | a :: t, hnd, hcl => by
    have hnd2 := List.nodup_cons.mp hnd
    by_cases hpa : p a = true
    · have huniq : ∀ x ∈ t, ∀ y ∈ t, p x = true → p y = true → x = y := by
        intro x hx y hy hpx hpy
        have hxa : x ≠ a := fun h => hnd2.1 (h ▸ hx)
        have hya : y ≠ a := fun h => hnd2.1 (h ▸ hy)
        rcases hcl a (List.mem_cons_self _ _) hpa with ha | ha <;>
        rcases hcl x (List.mem_cons_of_mem _ hx) hpx with h1 | h1 <;>
        rcases hcl y (List.mem_cons_of_mem _ hy) hpy with h2 | h2 <;>
        simp_all
      simp [List.eraseP_cons, hpa, List.filter_cons,
        eraseP_eq_filter_of_unique p t hnd2.2 huniq]
    · have ih := eraseP_eraseP_eq_filter p u v t hnd2.2
        (fun x hx => hcl x (List.mem_cons_of_mem _ hx))
      simp [List.eraseP_cons, hpa, List.filter_cons, ih]

theorem eraseP_eq_self_of_none {α : Type} (p : α → Bool) (l : List α)
    (h : ∀ a ∈ l, p a = false) : l.eraseP p = l := by
  induction l with
  | nil => rfl
  | cons a t ih =>
    have hpa : p a = false := h a (List.mem_cons_self _ _)
    simp [List.eraseP_cons, hpa, ih (fun x hx => h x (List.mem_cons_of_mem _ hx))]

/-! ## Lemmas on graphs -/

theorem Skel.mem_ids {g : Skel} {p : Nat} : p ∈ g.ids ↔ ∃ x ∈ g, x.1 = p := by
  simp [Skel.ids]

theorem Skel.mem_ids_of_mem {g : Skel} {x : Nat × List EdgeElement} (h : x ∈ g) : x.1 ∈ g.ids :=
  Skel.mem_ids.mpr ⟨x, h, rfl⟩

theorem Skel.eq_of_fst_eq {g : Skel} (hnd : g.ids.Nodup) {x y : Nat × List EdgeElement}
    (hx : x ∈ g) (hy : y ∈ g) (h : x.1 = y.1) : x = y :=
  List.inj_on_of_nodup_map hnd hx hy h

theorem EdgeElement.flip_edge (el : EdgeElement) : el.flip.edge = el.edge := rfl

theorem EdgeElement.ext_iff2 {a b : EdgeElement} :
    a = b ↔ a.edge = b.edge ∧ a.startsFromThisNode = b.startsFromThisNode := by
  cases a; cases b; simp

theorem EdgeElement.here_or (el : EdgeElement) :
    el.here = el.edge.m_sourceNode ∨ el.here = el.edge.m_destNode := by
  unfold EdgeElement.here; split <;> simp

theorem EdgeElement.there_or (el : EdgeElement) :
    el.there = el.edge.m_sourceNode ∨ el.there = el.edge.m_destNode := by
  unfold EdgeElement.there; split <;> simp

theorem Skel.ids_filterEdges (g : Skel) (k : Edge → Bool) :
    Skel.ids (Skel.filterEdges g k) = g.ids := by
  simp [Skel.ids, Skel.filterEdges, List.map_map, Function.comp_def]

theorem Skel.mem_filterEdges {g : Skel} {k : Edge → Bool} {x : Nat × List EdgeElement} :
    x ∈ Skel.filterEdges g k ↔ ∃ y ∈ g, x = (y.1, y.2.filter (fun el => k el.edge)) := by
  simp only [Skel.filterEdges, List.mem_map]
  constructor
  · rintro ⟨y, hy, rfl⟩; exact ⟨y, hy, rfl⟩
  · rintro ⟨y, hy, rfl⟩; exact ⟨y, hy, rfl⟩

/-- Dropping nodes and edges keeps a graph sound, as long as the root stays
and a kept edge has both its ends kept. -/
theorem GraphOK.restrict {g : Skel} {next : Nat} (h : GraphOK g next)
    (keepNode : Nat → Bool) (keepEdge : Edge → Bool) (h0 : keepNode 0 = true)
    (hends : ∀ e, keepEdge e = true →
      keepNode e.m_sourceNode = true ∧ keepNode e.m_destNode = true) :
    GraphOK (Skel.filterEdges (g.filter (fun x => keepNode x.1)) keepEdge) next := by
  have hmem : ∀ x, x ∈ Skel.filterEdges (g.filter (fun x => keepNode x.1)) keepEdge →
      ∃ y ∈ g, keepNode y.1 = true ∧ x = (y.1, y.2.filter (fun el => keepEdge el.edge)) := by
    intro x hx
    obtain ⟨y, hy, rfl⟩ := Skel.mem_filterEdges.mp hx
    obtain ⟨hy1, hy2⟩ := List.mem_filter.mp hy
    exact ⟨y, hy1, hy2, rfl⟩
  have hids : Skel.ids (Skel.filterEdges (g.filter (fun x => keepNode x.1)) keepEdge)
      = g.ids.filter keepNode := by
    rw [Skel.ids_filterEdges]
    simp [Skel.ids, List.filter_map, Function.comp_def]
  refine ⟨?_, ?_, ?_, ?_, ?_, ?_, ?_, ?_, ?_⟩
  · rw [hids]; exact h.nodup.filter _
  · rw [hids]
    have hr := h.root
    cases hg : g.ids with
    | nil => rw [hg] at hr; simp at hr
    | cons a t =>
      rw [hg] at hr
      simp only [List.head?_cons, Option.some.injEq] at hr
      subst hr
      simp [List.filter_cons, h0]
  · intro x hx el hel
    obtain ⟨y, hy, _, rfl⟩ := hmem x hx
    exact h.own y hy el (List.mem_filter.mp hel).1
  · intro x hx el hel
    obtain ⟨y, hy, _, rfl⟩ := hmem x hx
    obtain ⟨hel1, hel2⟩ := List.mem_filter.mp hel
    obtain ⟨z, hz, hz1, hz2⟩ := h.mirror y hy el hel1
    have hkz : keepNode z.1 = true := by
      rw [hz1]
      rcases el.there_or with ht | ht <;> rw [ht]
      · exact (hends _ hel2).1
      · exact (hends _ hel2).2
    refine ⟨(z.1, z.2.filter (fun el => keepEdge el.edge)), ?_, hz1, ?_⟩
    · exact Skel.mem_filterEdges.mpr ⟨z, List.mem_filter.mpr ⟨hz, hkz⟩, rfl⟩
    · exact List.mem_filter.mpr ⟨hz2, hel2⟩
  · intro x hx
    obtain ⟨y, hy, _, rfl⟩ := hmem x hx
    exact (h.keys y hy).sublist ((List.filter_sublist _).map _)
  · intro x hx x2 hx2 el hel el2 hel2
    obtain ⟨y, hy, _, rfl⟩ := hmem x hx
    obtain ⟨y2, hy2, _, rfl⟩ := hmem x2 hx2
    exact h.sameId y hy y2 hy2 el (List.mem_filter.mp hel).1 el2 (List.mem_filter.mp hel2).1
  · intro x hx
    obtain ⟨y, hy, _, rfl⟩ := hmem x hx
    exact ⟨(h.fresh y hy).1, fun el hel => (h.fresh y hy).2 el (List.mem_filter.mp hel).1⟩
  · intro x hx el hel
    obtain ⟨y, hy, _, rfl⟩ := hmem x hx
    exact h.rootNoIn y hy el (List.mem_filter.mp hel).1
  · intro x hx
    obtain ⟨y, hy, _, rfl⟩ := hmem x hx
    refine le_trans ?_ (h.oneParent y hy)
    simp only [List.filter_filter]
    apply List.Sublist.length_le
    apply List.monotone_filter_right
    intro a ha
    simp only [Bool.and_eq_true] at ha
    exact ha.1

theorem GraphOK.filterEdges {g : Skel} {next : Nat} (h : GraphOK g next) (k : Edge → Bool) :
    GraphOK (Skel.filterEdges g k) next := by
  have := h.restrict (fun _ => true) k rfl (fun _ _ => ⟨rfl, rfl⟩)
  simpa using this

theorem GraphOK.removeNodes {g : Skel} {next : Nat} (h : GraphOK g next) (dead : List Nat)
    (h0 : 0 ∉ dead) : GraphOK (Skel.removeNodes g dead) next := by
  unfold Skel.removeNodes
  apply h.restrict (fun p => !dead.contains p)
  · simpa using h0
  · intro e he
    simpa using he

/-- Under the soundness conditions `Edge::~Edge` removes exactly the elements
of the edge: erasing the first match at both ends is the same as filtering
the edge out of every incidence list. -/
theorem GraphOK.destroyEdge_eq {g : Skel} {next : Nat} (h : GraphOK g next) (e : Edge)
    (he : ∀ x ∈ g, ∀ el ∈ x.2, el.edge.id = e.id → el.edge = e) :
    Skel.destroyEdge g e = Skel.filterEdges g (fun e2 => e2.id != e.id) := by
  unfold Skel.destroyEdge Skel.eraseEdge Skel.filterEdges
  rw [List.map_map]
  apply List.map_congr_left
  rintro ⟨p, l⟩ hx
  have hnd : l.Nodup := (h.keys _ hx).of_map _
  have hown := h.own _ hx
  have hcl : ∀ a ∈ l, (a.edge.id == e.id) = true →
      a = ⟨e, true⟩ ∨ a = ⟨e, false⟩ := by
    intro a ha hid
    have h1 := he _ hx a ha (by simpa using hid)
    rcases hs : a.startsFromThisNode with _ | _
    · right; exact EdgeElement.ext_iff2.mpr ⟨h1, hs⟩
    · left; exact EdgeElement.ext_iff2.mpr ⟨h1, hs⟩
  have hsrc : p ≠ e.m_destNode → ∀ c ∈ l, (c.edge.id == e.id) = true → c = ⟨e, true⟩ := by
    intro hd c hc hpc
    rcases hcl c hc hpc with h1 | h1
    · exact h1
    · exfalso
      have := hown c hc
      rw [h1] at this
      simp [EdgeElement.here] at this
      exact hd this.symm
  have hdst : p ≠ e.m_sourceNode → ∀ c ∈ l, (c.edge.id == e.id) = true → c = ⟨e, false⟩ := by
    intro hs c hc hpc
    rcases hcl c hc hpc with h1 | h1
    · exfalso
      have := hown c hc
      rw [h1] at this
      simp [EdgeElement.here] at this
      exact hs this.symm
    · exact h1
  show (if (if p = e.m_sourceNode then (p, l.eraseP (fun el => el.edge.id == e.id)) else (p, l)).1
          = e.m_destNode
        then ((if p = e.m_sourceNode then (p, l.eraseP (fun el => el.edge.id == e.id)) else (p, l)).1,
          (if p = e.m_sourceNode then (p, l.eraseP (fun el => el.edge.id == e.id)) else (p, l)).2.eraseP
            (fun el => el.edge.id == e.id))
        else (if p = e.m_sourceNode then (p, l.eraseP (fun el => el.edge.id == e.id)) else (p, l)))
      = (p, l.filter (fun a => !(a.edge.id == e.id)))
  by_cases hs : p = e.m_sourceNode <;> by_cases hd : p = e.m_destNode
  · rw [if_pos hs, if_pos hd, eraseP_eraseP_eq_filter _ _ _ l hnd hcl]
  · rw [if_pos hs, if_neg hd, eraseP_eq_filter_of_unique _ l hnd]
    intro a ha b hb hpa hpb
    rw [hsrc hd a ha hpa, hsrc hd b hb hpb]
  · rw [if_neg hs, if_pos hd, eraseP_eq_filter_of_unique _ l hnd]
    intro a ha b hb hpa hpb
    rw [hdst hs a ha hpa, hdst hs b hb hpb]
  · rw [if_neg hs, if_neg hd]
    have : l.filter (fun a => !(a.edge.id == e.id)) = l := by
      apply List.filter_eq_self.mpr
      intro a ha
      by_contra hne
      have hpa : (a.edge.id == e.id) = true := by simpa using hne
      have h1 := hsrc hd a ha hpa
      have h2 := hdst hs a ha hpa
      rw [h1] at h2
      simp at h2
    rw [this]

theorem Skel.ids_addElem (g : Skel) (p : Nat) (el : EdgeElement) :
    Skel.ids (Skel.addElem g p el) = g.ids := by
  simp only [Skel.ids, Skel.addElem, List.map_map]
  apply List.map_congr_left
  intro x _
  simp only [Function.comp]
  split <;> rfl

/-- The two `Node::addEdge` calls of `addEdge`, node by node. -/
theorem Skel.addElem_addElem (g : Skel) (src dst : Nat) (e : Edge) :
    Skel.addElem (Skel.addElem g src ⟨e, true⟩) dst ⟨e, false⟩
      = g.map (fun x => (x.1, x.2 ++ ((if x.1 = src then [⟨e, true⟩] else []) ++
          (if x.1 = dst then [⟨e, false⟩] else [])))) := by
  simp only [Skel.addElem, List.map_map]
  apply List.map_congr_left
  rintro ⟨p, l⟩ _
  simp only [Function.comp]
  by_cases hs : p = src
  · subst hs
    by_cases hd : p = dst
    · subst hd; simp
    · simp [hd]
  · by_cases hd : p = dst
    · subst hd; simp [hs]
    · simp [hs, hd]

/-- Entering a new edge with a fresh address keeps the graph sound, provided
its ends are nodes of the graph, it does not end in the root, and it is
secondary if the destination has a parent edge already. -/
theorem GraphOK.addEdgeElems {g : Skel} {next : Nat} (h : GraphOK g next) (src dst : Nat) (sec : Bool)
    (hsrc : src ∈ g.ids) (hdst : dst ∈ g.ids) (hd0 : dst ≠ 0)
    (hsec : sec = false → ∀ y ∈ g, y.1 = dst → y.2.filter EdgeElement.isParentLink = []) :
    GraphOK (Skel.addElem (Skel.addElem g src
        ⟨{ id := next, m_sourceNode := src, m_destNode := dst, m_secondary := sec }, true⟩) dst
        ⟨{ id := next, m_sourceNode := src, m_destNode := dst, m_secondary := sec }, false⟩)
      (next + 1) := by
  rw [Skel.addElem_addElem]
  generalize he : ({ id := next, m_sourceNode := src, m_destNode := dst, m_secondary := sec } : Edge) = e
  have heid : e.id = next := by rw [← he]
  have hes : e.m_sourceNode = src := by rw [← he]
  have hed : e.m_destNode = dst := by rw [← he]
  have hesec : e.m_secondary = sec := by rw [← he]
  have hmem : ∀ x, x ∈ g.map (fun x => (x.1, x.2 ++ ((if x.1 = src then [⟨e, true⟩] else []) ++
      (if x.1 = dst then [⟨e, false⟩] else [])))) →
      ∃ y ∈ g, x = (y.1, y.2 ++ ((if y.1 = src then [⟨e, true⟩] else []) ++
        (if y.1 = dst then [⟨e, false⟩] else []))) := by
    intro x hx
    obtain ⟨y, hy, rfl⟩ := List.mem_map.mp hx
    exact ⟨y, hy, rfl⟩
  have hnew : ∀ (p : Nat) (el : EdgeElement),
      el ∈ ((if p = src then [(⟨e, true⟩ : EdgeElement)] else []) ++
        (if p = dst then [(⟨e, false⟩ : EdgeElement)] else [])) →
      (el = ⟨e, true⟩ ∧ p = src) ∨ (el = ⟨e, false⟩ ∧ p = dst) := by
    intro p el hel
    rcases List.mem_append.mp hel with h1 | h1
    · by_cases hp : p = src
      · rw [if_pos hp] at h1; left; exact ⟨by simpa using h1, hp⟩
      · rw [if_neg hp] at h1; simp at h1
    · by_cases hp : p = dst
      · rw [if_pos hp] at h1; right; exact ⟨by simpa using h1, hp⟩
      · rw [if_neg hp] at h1; simp at h1
  have hids : Skel.ids (g.map (fun x => (x.1, x.2 ++ ((if x.1 = src then [⟨e, true⟩] else []) ++
      (if x.1 = dst then [⟨e, false⟩] else []))))) = g.ids := by
    simp [Skel.ids, List.map_map, Function.comp_def]
  refine ⟨?_, ?_, ?_, ?_, ?_, ?_, ?_, ?_, ?_⟩
  · rw [hids]; exact h.nodup
  · rw [hids]; exact h.root
  · intro x hx el hel
    obtain ⟨y, hy, rfl⟩ := hmem x hx
    rcases List.mem_append.mp hel with h1 | h1
    · exact h.own y hy el h1
    · rcases hnew _ _ h1 with ⟨rfl, hp⟩ | ⟨rfl, hp⟩
      · simp [EdgeElement.here, hes, hp]
      · simp [EdgeElement.here, hed, hp]
  · intro x hx el hel
    obtain ⟨y, hy, rfl⟩ := hmem x hx
    rcases List.mem_append.mp hel with h1 | h1
    · obtain ⟨z, hz, hz1, hz2⟩ := h.mirror y hy el h1
      exact ⟨_, List.mem_map.mpr ⟨z, hz, rfl⟩, hz1, List.mem_append.mpr (Or.inl hz2)⟩
    · rcases hnew _ _ h1 with ⟨rfl, _⟩ | ⟨rfl, _⟩
      · obtain ⟨z, hz, hz1⟩ := Skel.mem_ids.mp hdst
        refine ⟨_, List.mem_map.mpr ⟨z, hz, rfl⟩, ?_, ?_⟩
        · simp [EdgeElement.there, hed, hz1]
        · simp [EdgeElement.flip, hz1]
      · obtain ⟨z, hz, hz1⟩ := Skel.mem_ids.mp hsrc
        refine ⟨_, List.mem_map.mpr ⟨z, hz, rfl⟩, ?_, ?_⟩
        · simp [EdgeElement.there, hes, hz1]
        · simp [EdgeElement.flip, hz1]
  · intro x hx
    obtain ⟨y, hy, rfl⟩ := hmem x hx
    simp only [List.map_append]
    refine List.Nodup.append (h.keys y hy) ?_ ?_
    · split_ifs <;> simp
    · intro k hk1 hk2
      obtain ⟨a, ha, rfl⟩ := List.mem_map.mp hk1
      have hlt := (h.fresh y hy).2 a ha
      rw [← List.map_append] at hk2
      obtain ⟨b, hb, hkb⟩ := List.mem_map.mp hk2
      have hbid : b.edge.id = next := by
        rcases hnew _ _ hb with ⟨rfl, _⟩ | ⟨rfl, _⟩ <;> exact heid
      have : b.edge.id = a.edge.id := congrArg Prod.fst hkb
      omega
  · intro x hx x2 hx2 el hel el2 hel2 hid
    obtain ⟨y, hy, rfl⟩ := hmem x hx
    obtain ⟨y2, hy2, rfl⟩ := hmem x2 hx2
    rcases List.mem_append.mp hel with h1 | h1 <;> rcases List.mem_append.mp hel2 with h2 | h2
    · exact h.sameId y hy y2 hy2 el h1 el2 h2 hid
    · exfalso
      have hlt := (h.fresh y hy).2 el h1
      have : el2.edge.id = next := by
        rcases hnew _ _ h2 with ⟨rfl, _⟩ | ⟨rfl, _⟩ <;> exact heid
      omega
    · exfalso
      have hlt := (h.fresh y2 hy2).2 el2 h2
      have : el.edge.id = next := by
        rcases hnew _ _ h1 with ⟨rfl, _⟩ | ⟨rfl, _⟩ <;> exact heid
      omega
    · rcases hnew _ _ h1 with ⟨rfl, _⟩ | ⟨rfl, _⟩ <;>
        rcases hnew _ _ h2 with ⟨rfl, _⟩ | ⟨rfl, _⟩ <;> rfl
  · intro x hx
    obtain ⟨y, hy, rfl⟩ := hmem x hx
    refine ⟨Nat.lt_succ_of_lt (h.fresh y hy).1, ?_⟩
    intro el hel
    rcases List.mem_append.mp hel with h1 | h1
    · exact Nat.lt_succ_of_lt ((h.fresh y hy).2 el h1)
    · have : el.edge.id = next := by
        rcases hnew _ _ h1 with ⟨rfl, _⟩ | ⟨rfl, _⟩ <;> exact heid
      omega
  · intro x hx el hel
    obtain ⟨y, hy, rfl⟩ := hmem x hx
    rcases List.mem_append.mp hel with h1 | h1
    · exact h.rootNoIn y hy el h1
    · have : el.edge = e := by
        rcases hnew _ _ h1 with ⟨rfl, _⟩ | ⟨rfl, _⟩ <;> rfl
      rw [this, hed]; exact hd0
  · intro x hx
    obtain ⟨y, hy, rfl⟩ := hmem x hx
    simp only [List.filter_append]
    have hA : (if y.1 = src then [(⟨e, true⟩ : EdgeElement)] else []).filter
        EdgeElement.isParentLink = [] := by
      split <;> simp [EdgeElement.isParentLink]
    rw [hA, List.nil_append]
    by_cases hyd : y.1 = dst
    · rw [if_pos hyd]
      cases hsc : sec with
      | true =>
        have : [(⟨e, false⟩ : EdgeElement)].filter EdgeElement.isParentLink = [] := by
          simp [EdgeElement.isParentLink, hesec, hsc]
        rw [this, List.append_nil]
        exact h.oneParent y hy
      | false =>
        rw [hsec hsc y hy hyd]
        simp only [List.nil_append]
        exact le_trans (List.length_filter_le _ _) (by simp)
    · rw [if_neg hyd]
      simp only [List.filter_nil, List.append_nil]
      exact h.oneParent y hy

/-- A new node with a fresh address and no edges keeps the graph sound. -/
theorem GraphOK.appendNode {g : Skel} {next : Nat} (h : GraphOK g next) :
    GraphOK (g ++ [(next, [])]) (next + 1) := by
  have hmem : ∀ x, x ∈ g ++ [((next, []) : Nat × List EdgeElement)] → x ∈ g ∨ x = (next, []) := by
    intro x hx
    rcases List.mem_append.mp hx with h1 | h1
    · exact Or.inl h1
    · exact Or.inr (by simpa using h1)
  refine ⟨?_, ?_, ?_, ?_, ?_, ?_, ?_, ?_, ?_⟩
  · have : Skel.ids (g ++ [((next, []) : Nat × List EdgeElement)]) = g.ids ++ [next] := by
      simp [Skel.ids]
    rw [this]
    refine List.Nodup.append h.nodup (List.nodup_singleton _) ?_
    intro p hp1 hp2
    obtain ⟨x, hx, rfl⟩ := Skel.mem_ids.mp hp1
    have := (h.fresh x hx).1
    have h2 : x.1 = next := by simpa using hp2
    omega
  · have hr := h.root
    cases hg : g with
    | nil => rw [hg] at hr; simp [Skel.ids] at hr
    | cons a t => rw [hg] at hr; simpa [Skel.ids] using hr
  · intro x hx el hel
    rcases hmem x hx with h1 | rfl
    · exact h.own x h1 el hel
    · simp at hel
  · intro x hx el hel
    rcases hmem x hx with h1 | rfl
    · obtain ⟨z, hz, hz1, hz2⟩ := h.mirror x h1 el hel
      exact ⟨z, List.mem_append.mpr (Or.inl hz), hz1, hz2⟩
    · simp at hel
  · intro x hx
    rcases hmem x hx with h1 | rfl
    · exact h.keys x h1
    · simp
  · intro x hx x2 hx2 el hel el2 hel2 hid
    rcases hmem x hx with h1 | rfl
    · rcases hmem x2 hx2 with h2 | rfl
      · exact h.sameId x h1 x2 h2 el hel el2 hel2 hid
      · simp at hel2
    · simp at hel
  · intro x hx
    rcases hmem x hx with h1 | rfl
    · exact ⟨Nat.lt_succ_of_lt (h.fresh x h1).1,
        fun el hel => Nat.lt_succ_of_lt ((h.fresh x h1).2 el hel)⟩
    · exact ⟨Nat.lt_succ_self _, fun el hel => by simp at hel⟩
  · intro x hx el hel
    rcases hmem x hx with h1 | rfl
    · exact h.rootNoIn x h1 el hel
    · simp at hel
  · intro x hx
    rcases hmem x hx with h1 | rfl
    · exact h.oneParent x h1
    · simp

/-! ## Lemmas on states -/

theorem State.ids_eq_skel_ids (s : State) : s.ids = Skel.ids s.skel := by
  simp [State.ids, State.skel, Skel.ids, List.map_map, Function.comp_def]

theorem State.findNode_some {s : State} {p : Nat} {n : Node} (h : s.findNode p = some n) :
    n ∈ s.m_nodeList ∧ n.id = p := by
  unfold State.findNode at h
  exact ⟨List.mem_of_find?_eq_some h, by simpa using List.find?_some h⟩

theorem State.findNode_isSome {s : State} {p : Nat} : (s.findNode p).isSome ↔ p ∈ s.ids := by
  unfold State.findNode State.ids
  rw [List.find?_isSome]
  simp

theorem State.findNode_skel {s : State} {p : Nat} {n : Node} (h : s.findNode p = some n) :
    (p, n.m_edgeList) ∈ s.skel := by
  obtain ⟨h1, h2⟩ := State.findNode_some h
  exact List.mem_map.mpr ⟨n, h1, by rw [h2]⟩

theorem State.findNode_mem_ids {s : State} {p : Nat} {n : Node} (h : s.findNode p = some n) :
    p ∈ s.ids :=
  State.findNode_isSome.mp (by rw [h]; rfl)

theorem State.exists_findNode {s : State} {p : Nat} (h : p ∈ s.ids) :
    ∃ n, s.findNode p = some n :=
  Option.isSome_iff_exists.mp (State.findNode_isSome.mpr h)

theorem State.skel_mapNode (s : State) (p : Nat) (f : Node → Node)
    (φ : List EdgeElement → List EdgeElement)
    (hf : ∀ n, (f n).id = n.id ∧ (f n).m_edgeList = φ n.m_edgeList) :
    (s.mapNode p f).skel = s.skel.map (fun x => if x.1 = p then (x.1, φ x.2) else x) := by
  simp only [State.skel, State.mapNode, List.map_map]
  apply List.map_congr_left
  intro n _
  simp only [Function.comp]
  by_cases h : n.id = p
  · simp [h, (hf n).2, ← (hf n).1]
    rw [(hf n).1, h]
  · simp [h]

theorem State.skel_mapNode_same (s : State) (p : Nat) (f : Node → Node)
    (hf : ∀ n, (f n).id = n.id ∧ (f n).m_edgeList = n.m_edgeList) :
    (s.mapNode p f).skel = s.skel := by
  rw [State.skel_mapNode s p f id hf]
  conv => rhs; rw [← List.map_id s.skel]
  apply List.map_congr_left
  intro x _
  split <;> rfl

theorem State.skel_mapNode_addEdge (s : State) (p : Nat) (e : Edge) (b : Bool) :
    (s.mapNode p (fun n => n.addEdge e b)).skel = Skel.addElem s.skel p ⟨e, b⟩ :=
  State.skel_mapNode s p (fun n => n.addEdge e b) (fun l => l ++ [(⟨e, b⟩ : EdgeElement)]) (fun _ => ⟨rfl, rfl⟩)

theorem State.skel_mapNode_removeEdgeFromList (s : State) (p : Nat) (e : Nat) :
    (s.mapNode p (fun n => n.removeEdgeFromList e)).skel = Skel.eraseEdge s.skel p e :=
  State.skel_mapNode s p (fun n => n.removeEdgeFromList e)
    (fun l => l.eraseP (fun el => el.edge.id == e)) (fun _ => ⟨rfl, rfl⟩)

theorem Edge.skel_destroy (e : Edge) (s : State) :
    (Edge.destroy e s).skel = Skel.destroyEdge s.skel e := by
  unfold Edge.destroy Skel.destroyEdge
  rw [State.skel_mapNode_removeEdgeFromList, State.skel_mapNode_removeEdgeFromList]

theorem Edge.destroy_eq (e : Edge) (s : State) :
    Edge.destroy e s = { s with m_nodeList := (Edge.destroy e s).m_nodeList } := rfl

theorem State.updNode_eq_some {s t : State} {p : Nat} {f : Node → Node}
    (h : s.updNode p f = some t) : p ∈ s.ids ∧ t = s.mapNode p f := by
  unfold State.updNode at h
  split at h
  · rename_i hsome
    exact ⟨State.findNode_isSome.mp hsome, by simpa using h.symm⟩
  · simp at h

theorem State.updNode_of_mem {s : State} {p : Nat} (f : Node → Node) (h : p ∈ s.ids) :
    s.updNode p f = some (s.mapNode p f) := by
  unfold State.updNode
  rw [if_pos (State.findNode_isSome.mpr h)]

/-- What `setActiveNode` does: the graph stays, the active node is the given
one, which is live if it is not null. -/
theorem GraphLogic.setActiveNode_spec {node : Option Nat} {s t : State}
    (h : GraphLogic.setActiveNode node s = some t) :
    t.skel = s.skel ∧ (∀ p, node = some p → p ∈ s.ids) ∧
      ∃ l, t = { s with m_nodeList := l, m_activeNode := node } := by
  unfold GraphLogic.setActiveNode at h
  have hb : ∀ b n, (Node.setBorder n b).id = n.id ∧ (Node.setBorder n b).m_edgeList = n.m_edgeList :=
    fun _ _ => ⟨rfl, rfl⟩
  cases ha : s.m_activeNode with
  | none =>
    rw [ha] at h
    simp only at h
    cases node with
    | none =>
      simp only [Option.some.injEq] at h
      subst h
      exact ⟨rfl, by simp, s.m_nodeList, by simp [ha]⟩
    | some p =>
      simp only at h
      obtain ⟨h1, h2⟩ := State.updNode_eq_some h
      subst h2
      refine ⟨?_, ?_, _, rfl⟩
      · rw [State.skel_mapNode_same _ _ _ (hb true)]; rfl
      · intro q hq; cases hq; exact h1
  | some a =>
    rw [ha] at h
    simp only at h
    cases h1 : s.updNode a (fun n => n.setBorder false) with
    | none => rw [h1] at h; simp at h
    | some s1 =>
      rw [h1] at h
      simp only at h
      obtain ⟨_, hs1⟩ := State.updNode_eq_some h1
      have hsk : s1.skel = s.skel := by rw [hs1, State.skel_mapNode_same _ _ _ (hb false)]
      have hids : s1.ids = s.ids := by rw [State.ids_eq_skel_ids, hsk, ← State.ids_eq_skel_ids]
      cases node with
      | none =>
        simp only [Option.some.injEq] at h
        subst h
        exact ⟨hsk, by simp, s1.m_nodeList, by rw [hs1]; rfl⟩
      | some p =>
        simp only at h
        obtain ⟨h2, h3⟩ := State.updNode_eq_some h
        subst h3
        refine ⟨?_, ?_, (s1.m_nodeList.map (fun n => if n.id = p then n.setBorder true else n)), ?_⟩
        · rw [State.skel_mapNode_same _ _ _ (hb true)]; exact hsk
        · intro q hq; cases hq
          have : p ∈ s1.ids := h2
          rw [hids] at this; exact this
        · rw [hs1]; rfl

/-- `setActiveNode` is defined when the old active node is live and the new
one is null or live. -/
theorem GraphLogic.setActiveNode_defined (node : Option Nat) (s : State)
    (hact : ∀ a, s.m_activeNode = some a → a ∈ s.ids)
    (hnode : ∀ p, node = some p → p ∈ s.ids) :
    ∃ t, GraphLogic.setActiveNode node s = some t := by
  unfold GraphLogic.setActiveNode
  have hb : ∀ b n, (Node.setBorder n b).id = n.id ∧ (Node.setBorder n b).m_edgeList = n.m_edgeList :=
    fun _ _ => ⟨rfl, rfl⟩
  have key : ∀ s1 : State, s1.ids = s.ids → ∃ t, (match node with
      | some p => ({ s1 with m_activeNode := some p } : State).updNode p (fun n => n.setBorder true)
      | none => some { s1 with m_activeNode := none }) = some t := by
    intro s1 hs1
    cases node with
    | none => exact ⟨_, rfl⟩
    | some p =>
      have : p ∈ ({ s1 with m_activeNode := some p } : State).ids := by
        show p ∈ s1.ids
        rw [hs1]; exact hnode p rfl
      exact ⟨_, State.updNode_of_mem _ this⟩
  cases ha : s.m_activeNode with
  | none => simpa using key s rfl
  | some a =>
    simp only
    rw [State.updNode_of_mem _ (hact a ha)]
    simp only
    apply key
    rw [State.ids_eq_skel_ids, State.skel_mapNode_same _ _ _ (hb false), ← State.ids_eq_skel_ids]

theorem State.skel_emit (s : State) (sig : Signal) : (s.emit sig).skel = s.skel := rfl

theorem State.ite_emit (c : Prop) [Decidable c] (s : State) (x : Signal) :
    (if c then s.emit x else s) = { s with signals := s.signals ++ (if c then [x] else []) } := by
  split <;> simp [State.emit]

/-- The outcomes of `GraphLogic::addEdge(source, destination)`. -/
theorem GraphLogic.addEdge_spec {source destination : Option Nat} {s t : State}
    (h : GraphLogic.addEdge source destination s = some t) :
    (s.m_activeNode = none ∧ t = s.emit (.notification .noActiveNode)) ∨
    (∃ a first, s.m_activeNode = some a ∧ s.m_nodeList.head? = some first ∧
      ((destination = some first.id ∧ t.skel = s.skel ∧
          ∃ l, t = { s with m_nodeList := l, m_activeNode := destination,
                            signals := s.signals ++ [.notification .rootCannotBeEdgeTarget] }) ∨
       (destination ≠ some first.id ∧ ∃ src dst, source.bind s.findNode = some src ∧
          destination.bind s.findNode = some dst ∧
          ((src.isConnected destination = true ∧ t.skel = s.skel ∧
              ∃ l, t = { s with m_nodeList := l, m_activeNode := destination,
                                signals := s.signals ++ [.notification .edgeAlreadyExists] }) ∨
           (src.isConnected destination = false ∧
              t.skel = Skel.addElem (Skel.addElem s.skel src.id
                  ⟨GraphLogic.newEdge s src dst, true⟩) dst.id
                  ⟨GraphLogic.newEdge s src dst, false⟩ ∧
              ∃ l, t = { s with m_nodeList := l, m_activeNode := destination,
                                nextId := s.nextId + 1,
                                signals := s.signals ++
                                  (if (GraphLogic.newEdge s src dst).m_secondary
                                    then [.notification .addedAsSecondary] else []) ++
                                  [.contentChanged] }))))) := by
  unfold GraphLogic.addEdge at h
  cases ha : s.m_activeNode with
  | none => rw [ha] at h; left; simp at h; exact ⟨rfl, h.symm⟩
  | some a =>
    right
    rw [ha] at h
    simp only at h
    cases hf : s.m_nodeList.head? with
    | none => rw [hf] at h; simp at h
    | some first =>
      rw [hf] at h
      simp only at h
      refine ⟨a, first, rfl, rfl, ?_⟩
      by_cases hd : destination = some first.id
      · left
        rw [if_pos hd] at h
        obtain ⟨t1, ht1, rfl⟩ := Option.map_eq_some'.mp h
        obtain ⟨hsk, _, l, rfl⟩ := GraphLogic.setActiveNode_spec ht1
        exact ⟨hd, hsk, l, rfl⟩
      · right
        rw [if_neg hd] at h
        refine ⟨hd, ?_⟩
        cases hsrc : source.bind s.findNode with
        | none => rw [hsrc] at h; simp at h
        | some src =>
          cases hdst : destination.bind s.findNode with
          | none => rw [hsrc, hdst] at h; simp at h
          | some dst =>
            rw [hsrc, hdst] at h
            simp only at h
            refine ⟨src, dst, rfl, rfl, ?_⟩
            by_cases hc : src.isConnected destination = true
            · left
              rw [if_pos hc] at h
              obtain ⟨t1, ht1, rfl⟩ := Option.map_eq_some'.mp h
              obtain ⟨hsk, _, l, rfl⟩ := GraphLogic.setActiveNode_spec ht1
              exact ⟨hc, hsk, l, rfl⟩
            · right
              rw [if_neg hc, State.ite_emit] at h
              obtain ⟨t1, ht1, rfl⟩ := Option.map_eq_some'.mp h
              obtain ⟨hsk, _, l, rfl⟩ := GraphLogic.setActiveNode_spec ht1
              refine ⟨by simpa using hc, ?_, l, ?_⟩
              · rw [State.skel_emit]
                show State.skel _ = _
                rw [hsk, State.skel_mapNode_addEdge, State.skel_mapNode_addEdge]
                rfl
              · simp [GraphLogic.newEdge, State.emit, State.mapNode]

theorem Node.edgesToThis_true (n : Node) :
    n.edgesToThis true = (n.m_edgeList.filter EdgeElement.isParentLink).map (fun el => el.edge) := by
  unfold Node.edgesToThis
  rw [List.filter_map, List.filter_filter]
  congr 1
  apply List.filter_congr
  intro el _
  simp [EdgeElement.isParentLink, Bool.and_comm]

theorem Node.edgesToThis_isEmpty (n : Node) :
    (n.edgesToThis true).isEmpty = true ↔ n.m_edgeList.filter EdgeElement.isParentLink = [] := by
  rw [Node.edgesToThis_true, List.isEmpty_iff, List.map_eq_nil_iff]

theorem WF.transfer {s t : State} (h : WF s) (hsk : t.skel = s.skel) (hn : t.nextId = s.nextId)
    (ha : ∀ a, t.m_activeNode = some a → a ∈ s.ids)
    (hh : ∀ p, t.m_hintNode = some p → p ∈ s.ids) : WF t := by
  have hids : t.ids = s.ids := by rw [State.ids_eq_skel_ids, hsk, ← State.ids_eq_skel_ids]
  refine ⟨?_, ?_, ?_⟩
  · rw [hsk, hn]; exact h.graph
  · rw [hids]; exact ha
  · rw [hids]; exact hh

theorem WF.head_id {s : State} (h : WF s) {first : Node} (hf : s.m_nodeList.head? = some first) :
    first.id = 0 := by
  have hr := h.graph.root
  cases hl : s.m_nodeList with
  | nil => rw [hl] at hf; simp at hf
  | cons a rest =>
    rw [hl] at hf
    simp only [List.head?_cons, Option.some.injEq] at hf
    subst hf
    simpa [State.skel, Skel.ids, hl] using hr

theorem WF.exists_head {s : State} (h : WF s) :
    ∃ first, s.m_nodeList.head? = some first ∧ first.id = 0 := by
  have hr := h.graph.root
  cases hl : s.m_nodeList with
  | nil => simp [State.skel, Skel.ids, hl] at hr
  | cons a rest => exact ⟨a, rfl, by simpa [State.skel, Skel.ids, hl] using hr⟩

theorem State.bind_findNode {s : State} {ptr : Option Nat} {n : Node}
    (h : ptr.bind s.findNode = some n) : ptr = some n.id ∧ s.findNode n.id = some n := by
  cases ptr with
  | none => simp at h
  | some p =>
    simp only [Option.some_bind] at h
    have := (State.findNode_some h).2
    subst this
    exact ⟨rfl, h⟩

/-- The graph after a successful `addEdge` is sound. -/
theorem WF.graph_newEdge {s : State} (h : WF s) {destination : Option Nat} {first src dst : Node}
    (hf : s.m_nodeList.head? = some first) (hd : destination ≠ some first.id)
    (hsrc : s.findNode src.id = some src) (hdst : destination.bind s.findNode = some dst) :
    GraphOK (Skel.addElem (Skel.addElem s.skel src.id ⟨GraphLogic.newEdge s src dst, true⟩) dst.id
      ⟨GraphLogic.newEdge s src dst, false⟩) (s.nextId + 1) := by
  obtain ⟨hd1, hd2⟩ := State.bind_findNode hdst
  apply h.graph.addEdgeElems
  · rw [← State.ids_eq_skel_ids]; exact State.findNode_mem_ids hsrc
  · rw [← State.ids_eq_skel_ids]; exact State.findNode_mem_ids hd2
  · intro h0
    apply hd
    rw [hd1, h.head_id hf, h0]
  · intro hsec y hy hy1
    have hmem := State.findNode_skel hd2
    have : y = (dst.id, dst.m_edgeList) :=
      Skel.eq_of_fst_eq h.graph.nodup hy hmem hy1
    rw [this]
    apply (Node.edgesToThis_isEmpty dst).mp
    simpa using hsec

theorem WF.addEdge {s t : State} (h : WF s) {source destination : Option Nat}
    (hr : GraphLogic.addEdge source destination s = some t) : WF t := by
  rcases GraphLogic.addEdge_spec hr with ⟨_, rfl⟩ | ⟨a, first, ha, hf, hcase⟩
  · exact h.transfer rfl rfl h.activeLive h.hintLive
  · have hfirst : first.id ∈ s.ids := by
      have : first ∈ s.m_nodeList := List.mem_of_mem_head? hf
      exact List.mem_map.mpr ⟨first, this, rfl⟩
    rcases hcase with ⟨hd, hsk, l, rfl⟩ | ⟨hd, src, dst, hsrc, hdst, hcase2⟩
    · refine h.transfer hsk rfl ?_ h.hintLive
      intro p hp
      have : some p = some first.id := by rw [← hp, ← hd]
      cases this; exact hfirst
    · obtain ⟨hd1, hd2⟩ := State.bind_findNode hdst
      obtain ⟨_, hs2⟩ := State.bind_findNode hsrc
      have hdl : ∀ p, destination = some p → p ∈ s.ids := by
        intro p hp
        rw [hd1] at hp; cases hp
        exact State.findNode_mem_ids hd2
      rcases hcase2 with ⟨_, hsk, l, rfl⟩ | ⟨_, hsk, l, ht⟩
      · exact h.transfer hsk rfl hdl h.hintLive
      · have hids : t.ids = s.ids := by
          rw [State.ids_eq_skel_ids, hsk, Skel.ids_addElem, Skel.ids_addElem,
            ← State.ids_eq_skel_ids]
        have hn : t.nextId = s.nextId + 1 := by rw [ht]
        refine ⟨?_, ?_, ?_⟩
        · rw [hsk, hn]; exact h.graph_newEdge hf hd hs2 hdst
        · rw [hids]; intro p hp; apply hdl; rw [← hp, ht]
        · rw [hids]; intro p hp; apply h.hintLive; rw [← hp, ht]

theorem Node.deleteEdge_frame (n : Node) (otherEnd : Option Nat) (s : State) :
    n.deleteEdge otherEnd s = { s with m_nodeList := (n.deleteEdge otherEnd s).m_nodeList } := by
  unfold Node.deleteEdge
  split <;> rfl

theorem Node.skel_deleteEdge (n : Node) (otherEnd : Option Nat) (s : State) :
    (n.deleteEdge otherEnd s).skel =
      match n.m_edgeList.find? (n.deleteEdgeTest otherEnd) with
      | some el => Skel.destroyEdge s.skel el.edge
      | none => s.skel := by
  unfold Node.deleteEdge
  split
  · rw [Edge.skel_destroy]
  · rfl

/-- Destroying an edge that is in the graph filters it out of every list. -/
theorem GraphOK.destroyEdge_of_mem {g : Skel} {next : Nat} (h : GraphOK g next)
    {x : Nat × List EdgeElement} (hx : x ∈ g) {el : EdgeElement} (hel : el ∈ x.2) :
    Skel.destroyEdge g el.edge = Skel.filterEdges g (fun e2 => e2.id != el.edge.id) :=
  h.destroyEdge_eq el.edge (fun y hy el2 hel2 hid => h.sameId y hy x hx el2 hel2 el hel hid)

theorem WF.graph_deleteEdge {s : State} (h : WF s) {n : Node} (hn : s.findNode n.id = some n)
    (otherEnd : Option Nat) :
    GraphOK (n.deleteEdge otherEnd s).skel s.nextId ∧
      (n.deleteEdge otherEnd s).ids = s.ids := by
  rw [State.ids_eq_skel_ids, State.ids_eq_skel_ids, Node.skel_deleteEdge]
  split
  · rename_i el hfind
    have hel : el ∈ n.m_edgeList := List.mem_of_find?_eq_some hfind
    rw [h.graph.destroyEdge_of_mem (State.findNode_skel hn) hel]
    exact ⟨h.graph.filterEdges _, Skel.ids_filterEdges _ _⟩
  · exact ⟨h.graph, rfl⟩

/-- The outcomes of `GraphLogic::removeEdge(source, destination)`. -/
theorem GraphLogic.removeEdge_spec {source destination : Option Nat} {s t : State}
    (h : GraphLogic.removeEdge source destination s = some t) :
    (s.m_activeNode = none ∧ t = s.emit (.notification .noActiveNode)) ∨
    (∃ a src, s.m_activeNode = some a ∧ source.bind s.findNode = some src ∧
      ((src.isConnected destination = false ∧ t.skel = s.skel ∧
          (∀ p, destination = some p → p ∈ s.ids) ∧
          ∃ l, t = { s with m_nodeList := l, m_activeNode := destination,
                            signals := s.signals ++ [.notification .noSuchEdge] }) ∨
       (src.isConnected destination = true ∧
          t.skel = (src.deleteEdge destination s).skel ∧
          (∀ p, destination = some p → p ∈ (src.deleteEdge destination s).ids) ∧
          ∃ l, t = { s with m_nodeList := l, m_activeNode := destination,
                            signals := s.signals ++ [.contentChanged] }))) := by
  unfold GraphLogic.removeEdge at h
  cases ha : s.m_activeNode with
  | none => rw [ha] at h; left; simp at h; exact ⟨rfl, h.symm⟩
  | some a =>
    right
    rw [ha] at h
    simp only at h
    cases hsrc : source.bind s.findNode with
    | none => rw [hsrc] at h; simp at h
    | some src =>
      rw [hsrc] at h
      simp only at h
      refine ⟨a, src, rfl, rfl, ?_⟩
      by_cases hc : src.isConnected destination = true
      · right
        rw [hc] at h
        simp only [Bool.not_true, Bool.false_eq_true, if_false] at h
        obtain ⟨t1, ht1, rfl⟩ := Option.map_eq_some'.mp h
        obtain ⟨hsk, hlive, l, ht⟩ := GraphLogic.setActiveNode_spec ht1
        refine ⟨hc, hsk, hlive, l, ?_⟩
        rw [ht, Node.deleteEdge_frame]
        rfl
      · left
        have hc2 : src.isConnected destination = false := by simpa using hc
        rw [hc2] at h
        simp only [Bool.not_false, if_true] at h
        obtain ⟨t1, ht1, rfl⟩ := Option.map_eq_some'.mp h
        obtain ⟨hsk, hlive, l, rfl⟩ := GraphLogic.setActiveNode_spec ht1
        exact ⟨hc2, hsk, hlive, l, rfl⟩

theorem WF.removeEdge {s t : State} (h : WF s) {source destination : Option Nat}
    (hr : GraphLogic.removeEdge source destination s = some t) : WF t := by
  rcases GraphLogic.removeEdge_spec hr with ⟨_, rfl⟩ | ⟨a, src, ha, hsrc, hcase⟩
  · exact h.transfer rfl rfl h.activeLive h.hintLive
  · obtain ⟨_, hs2⟩ := State.bind_findNode hsrc
    rcases hcase with ⟨hc, hsk, hlive, l, ht⟩ | ⟨hc, hsk, hlive, l, ht⟩
    · refine h.transfer hsk (by rw [ht]) ?_ (by intro p hp; apply h.hintLive; rw [← hp, ht])
      intro p hp
      apply hlive
      rw [← hp, ht]
    · obtain ⟨hg, hids⟩ := h.graph_deleteEdge hs2 destination
      have hids2 : t.ids = s.ids := by
        rw [State.ids_eq_skel_ids, hsk, ← State.ids_eq_skel_ids, hids]
      refine ⟨?_, ?_, ?_⟩
      · rw [hsk]; have : t.nextId = s.nextId := by rw [ht]
        rw [this]; exact hg
      · rw [hids2]; intro p hp; rw [← hids]; apply hlive; rw [← hp, ht]
      · rw [hids2]; intro p hp; apply h.hintLive; rw [← hp, ht]

theorem GraphLogic.showAllFrom_skel (b : Bool) :
    ∀ (i : Nat) (l : List Node),
      (GraphLogic.showAllFrom b i l).map (fun n => (n.id, n.m_edgeList))
        = l.map (fun n => (n.id, n.m_edgeList))
  | _, [] => rfl
  | i, n :: rest => by
    simp only [GraphLogic.showAllFrom, List.map_cons]
    rw [GraphLogic.showAllFrom_skel b (i + 1) rest]
    rfl

theorem GraphLogic.skel_showingAllNodeNumbers (b : Bool) (s : State) :
    (GraphLogic.showingAllNodeNumbers b s).skel = s.skel :=
  GraphLogic.showAllFrom_skel b 0 s.m_nodeList

theorem GraphLogic.beginWithLoop_skel (number : Nat) (b : Bool) :
    ∀ (i : Nat) (l : List Node) (hint : Option Nat),
      (GraphLogic.beginWithLoop number b i l hint).1.map (fun n => (n.id, n.m_edgeList))
        = l.map (fun n => (n.id, n.m_edgeList))
  | _, [], _ => rfl
  | i, n :: rest, hint => by
    unfold GraphLogic.beginWithLoop
    split
    · simp only [List.map_cons]
      rw [GraphLogic.beginWithLoop_skel number b (i + 1) rest]
      rfl
    · split
      · simp only [List.map_cons]
        rw [GraphLogic.beginWithLoop_skel number b (i + 1) rest]
        rfl
      · simp only [List.map_cons]
        rw [GraphLogic.beginWithLoop_skel number b (i + 1) rest]

theorem GraphLogic.beginWithLoop_hint (number : Nat) (b : Bool) :
    ∀ (i : Nat) (l : List Node) (hint : Option Nat),
      (GraphLogic.beginWithLoop number b i l hint).2.2 = hint ∨
        ∃ n ∈ l, (GraphLogic.beginWithLoop number b i l hint).2.2 = some n.id
  | _, [], _ => Or.inl rfl
  | i, n :: rest, hint => by
    unfold GraphLogic.beginWithLoop
    split
    · rcases GraphLogic.beginWithLoop_hint number b (i + 1) rest (some n.id) with h | ⟨m, hm, h⟩
      · right; exact ⟨n, List.mem_cons_self _ _, h⟩
      · right; exact ⟨m, List.mem_cons_of_mem _ hm, h⟩
    · split
      · rcases GraphLogic.beginWithLoop_hint number b (i + 1) rest hint with h | ⟨m, hm, h⟩
        · left; exact h
        · right; exact ⟨m, List.mem_cons_of_mem _ hm, h⟩
      · rcases GraphLogic.beginWithLoop_hint number b (i + 1) rest hint with h | ⟨m, hm, h⟩
        · left; exact h
        · right; exact ⟨m, List.mem_cons_of_mem _ hm, h⟩

theorem WF.beginWithLoop {s : State} (h : WF s) (number : Nat) (b : Bool) :
    WF { s with m_nodeList := (GraphLogic.beginWithLoop number b 0 s.m_nodeList s.m_hintNode).1,
                m_hintNode := (GraphLogic.beginWithLoop number b 0 s.m_nodeList s.m_hintNode).2.2 } := by
  refine h.transfer (GraphLogic.beginWithLoop_skel number b 0 s.m_nodeList s.m_hintNode) rfl
    h.activeLive ?_
  intro p hp
  rcases GraphLogic.beginWithLoop_hint number b 0 s.m_nodeList s.m_hintNode with h1 | ⟨n, hn, h1⟩
  · exact h.hintLive p (by rw [← h1]; exact hp)
  · have : some p = some n.id := by rw [← h1]; exact hp.symm
    cases this
    exact List.mem_map.mpr ⟨n, hn, rfl⟩

theorem WF.showingAllNodeNumbers {s : State} (h : WF s) (b : Bool) :
    WF (GraphLogic.showingAllNodeNumbers b s) :=
  h.transfer (GraphLogic.skel_showingAllNodeNumbers b s) rfl h.activeLive h.hintLive

theorem WF.setActiveNode {s t : State} (h : WF s) {node : Option Nat}
    (hr : GraphLogic.setActiveNode node s = some t) : WF t := by
  obtain ⟨hsk, hlive, l, rfl⟩ := GraphLogic.setActiveNode_spec hr
  exact h.transfer hsk rfl hlive h.hintLive

theorem WF.selectNode {s t : State} (h : WF s) {node : Option Nat}
    (hr : GraphLogic.selectNode node s = some t) : WF t := by
  unfold GraphLogic.selectNode at hr
  have h1 : WF ({ GraphLogic.showingAllNodeNumbers false s with
      m_showingNodeNumbers := false } : State) :=
    (h.showingAllNodeNumbers false).transfer rfl rfl
      (h.showingAllNodeNumbers false).activeLive (h.showingAllNodeNumbers false).hintLive
  simp only at hr
  split at hr
  · obtain ⟨t1, ht1, rfl⟩ := Option.map_eq_some'.mp hr
    have := h1.addEdge ht1
    exact this.transfer rfl rfl this.activeLive this.hintLive
  · split at hr
    · obtain ⟨t1, ht1, rfl⟩ := Option.map_eq_some'.mp hr
      have := h1.removeEdge ht1
      exact this.transfer rfl rfl this.activeLive this.hintLive
    · exact h1.setActiveNode hr

theorem WF.showingNodeNumbersBeginWithNumber {s t : State} (h : WF s) {number : Nat} {b : Bool}
    (hr : GraphLogic.showingNodeNumbersBeginWithNumber number b s = some t) : WF t := by
  unfold GraphLogic.showingNodeNumbersBeginWithNumber at hr
  have h1 := h.beginWithLoop number b
  simp only at hr
  split at hr
  · exact h1.selectNode hr
  · split at hr
    · simp only [Option.some.injEq] at hr
      subst hr
      have h2 : WF ({ ({ s with
          m_nodeList := (GraphLogic.beginWithLoop number b 0 s.m_nodeList s.m_hintNode).1,
          m_hintNode := (GraphLogic.beginWithLoop number b 0 s.m_nodeList s.m_hintNode).2.2 } : State)
          with m_showingNodeNumbers := false } : State) :=
        h1.transfer rfl rfl h1.activeLive h1.hintLive
      exact h2.showingAllNodeNumbers false
    · simp only [Option.some.injEq] at hr
      subst hr
      exact h1

theorem WF.showNodeNumbers {s t : State} (h : WF s)
    (hr : GraphLogic.showNodeNumbers s = some t) : WF t := by
  unfold GraphLogic.showNodeNumbers at hr
  split at hr
  · have h1 := h.showingAllNodeNumbers true
    split at hr
    · simp at hr
    · rename_i first rest hl
      simp only [Option.some.injEq] at hr
      subst hr
      have hsk : State.skel ({ s with
          m_nodeList := first.showNumber 0 true true :: rest,
          m_hintNode := some first.id } : State) = s.skel := by
        rw [← GraphLogic.skel_showingAllNodeNumbers true s]
        simp only [State.skel, hl, List.map_cons]
        rfl
      refine h.transfer hsk rfl h.activeLive ?_
      intro p hp
      simp only [Option.some.injEq] at hp
      subst hp
      have : first.id ∈ (GraphLogic.showingAllNodeNumbers true s).ids := by
        simp [State.ids, hl]
      rw [State.ids_eq_skel_ids, GraphLogic.skel_showingAllNodeNumbers,
        ← State.ids_eq_skel_ids] at this
      exact this
  · exact (h.showingAllNodeNumbers false).showingNodeNumbersBeginWithNumber hr

theorem WF.hintMode {s t : State} (h : WF s) (hr : GraphLogic.hintMode s = some t) : WF t := by
  unfold GraphLogic.hintMode at hr
  simp only at hr
  split at hr
  · simp only [Option.some.injEq] at hr
    subst hr
    have h1 : WF ({ s with m_showingNodeNumbers := !s.m_showingNodeNumbers } : State) :=
      h.transfer rfl rfl h.activeLive h.hintLive
    exact h1.showingAllNodeNumbers false
  · have h1 : WF ({ s with
        m_showingNodeNumbers := !s.m_showingNodeNumbers,
        m_hintNumber := [] } : State) := h.transfer rfl rfl h.activeLive h.hintLive
    exact h1.showNodeNumbers hr

theorem WF.appendNumber {s t : State} (h : WF s) {num : Nat}
    (hr : GraphLogic.appendNumber num s = some t) : WF t := by
  unfold GraphLogic.appendNumber at hr
  have h1 : WF ({ s with m_hintNumber := s.m_hintNumber ++ QString.number num } : State) :=
    h.transfer rfl rfl h.activeLive h.hintLive
  exact (h1.showingAllNodeNumbers false).showingNodeNumbersBeginWithNumber hr

theorem WF.delNumber {s t : State} (h : WF s) (hr : GraphLogic.delNumber s = some t) : WF t := by
  unfold GraphLogic.delNumber at hr
  split at hr
  · simp only [Option.some.injEq] at hr
    subst hr; exact h
  · have h1 : WF ({ s with m_hintNumber := s.m_hintNumber.dropLast } : State) :=
      h.transfer rfl rfl h.activeLive h.hintLive
    exact h1.showNodeNumbers hr

theorem WF.applyNumber {s t : State} (h : WF s) (hr : GraphLogic.applyNumber s = some t) :
    WF t := by
  unfold GraphLogic.applyNumber at hr
  split at hr
  · exact h.selectNode hr
  · simp only [Option.some.injEq] at hr
    subst hr; exact h

theorem WF.nodeEdited {s : State} (h : WF s) : WF (GraphLogic.nodeEdited s) := by
  unfold GraphLogic.nodeEdited
  split <;> exact h.transfer rfl rfl h.activeLive h.hintLive

theorem WF.nodeLostFocus {s : State} (h : WF s) : WF (GraphLogic.nodeLostFocus s) := by
  unfold GraphLogic.nodeLostFocus
  split
  · exact h.transfer rfl rfl h.activeLive h.hintLive
  · split
    · exact h.transfer rfl rfl h.activeLive h.hintLive
    · split
      · exact h.transfer rfl rfl h.activeLive h.hintLive
      · split
        · have h1 : WF ({ s with m_hintNumber := [] } : State) :=
            h.transfer rfl rfl h.activeLive h.hintLive
          have h2 := h1.showingAllNodeNumbers false
          exact h2.transfer rfl rfl h2.activeLive h2.hintLive
        · exact h

/-! ## Destroying nodes -/

theorem Skel.eraseEdge_filter (g : Skel) (k : Nat → Bool) (p e : Nat) :
    Skel.eraseEdge (g.filter (fun x => k x.1)) p e
      = (Skel.eraseEdge g p e).filter (fun x => k x.1) := by
  unfold Skel.eraseEdge
  rw [List.filter_map]
  congr 1
  apply List.filter_congr
  intro x _
  simp only [Function.comp]
  split <;> rfl

theorem Skel.destroyEdge_filter (g : Skel) (k : Nat → Bool) (e : Edge) :
    Skel.destroyEdge (g.filter (fun x => k x.1)) e
      = (Skel.destroyEdge g e).filter (fun x => k x.1) := by
  unfold Skel.destroyEdge
  rw [Skel.eraseEdge_filter, Skel.eraseEdge_filter]

theorem Skel.foldl_destroyEdge_filter (k : Nat → Bool) :
    ∀ (es : List EdgeElement) (g : Skel),
      es.foldl (fun g el => Skel.destroyEdge g el.edge) (g.filter (fun x => k x.1))
        = (es.foldl (fun g el => Skel.destroyEdge g el.edge) g).filter (fun x => k x.1)
  | [], _ => rfl
  | el :: rest, g => by
    simp only [List.foldl_cons]
    rw [Skel.destroyEdge_filter, Skel.foldl_destroyEdge_filter k rest]

theorem Skel.filterEdges_filterEdges (g : Skel) (k1 k2 : Edge → Bool) :
    Skel.filterEdges (Skel.filterEdges g k1) k2 = Skel.filterEdges g (fun e => k1 e && k2 e) := by
  unfold Skel.filterEdges
  rw [List.map_map]
  apply List.map_congr_left
  intro x _
  simp only [Function.comp, List.filter_filter]
  congr 1
  apply List.filter_congr
  intro el _
  exact Bool.and_comm _ _

theorem Skel.filterEdges_true (g : Skel) : Skel.filterEdges g (fun _ => true) = g := by
  unfold Skel.filterEdges
  conv => rhs; rw [← List.map_id g]
  apply List.map_congr_left
  intro x _
  simp

theorem Skel.filterEdges_filter (g : Skel) (k : Nat → Bool) (ke : Edge → Bool) :
    Skel.filterEdges (g.filter (fun x => k x.1)) ke
      = (Skel.filterEdges g ke).filter (fun x => k x.1) := by
  unfold Skel.filterEdges
  rw [List.filter_map]
  rfl

/-- Deleting the edges of a list one after the other filters them all out. -/
theorem GraphOK.foldl_destroyEdge {next : Nat} :
    ∀ (es : List EdgeElement) (g : Skel), GraphOK g next →
      (∀ el ∈ es, ∀ x ∈ g, ∀ el2 ∈ x.2, el2.edge.id = el.edge.id → el2.edge = el.edge) →
      es.foldl (fun g el => Skel.destroyEdge g el.edge) g
        = Skel.filterEdges g (fun e => !(es.map (fun el => el.edge.id)).contains e.id)
  | [], g, _, _ => by simp [Skel.filterEdges_true]
  | el :: rest, g, h, hes => by
    simp only [List.foldl_cons]
    rw [h.destroyEdge_eq el.edge (hes el (List.mem_cons_self _ _))]
    rw [GraphOK.foldl_destroyEdge rest _ (h.filterEdges _)]
    · rw [Skel.filterEdges_filterEdges]
      congr 1
      funext e
      simp only [List.map_cons, List.contains_cons, Bool.not_or, bne]
    · intro el1 hel1 x hx el2 hel2 hid
      obtain ⟨y, hy, rfl⟩ := Skel.mem_filterEdges.mp hx
      exact hes el1 (List.mem_cons_of_mem _ hel1) y hy el2 (List.mem_filter.mp hel2).1 hid

/-- What `delete node` leaves of the graph, `node` having left the list: the
other nodes, without the edges that touched `node`. -/
theorem GraphOK.destroyNode {g : Skel} {next : Nat} (h : GraphOK g next) {p : Nat}
    {l : List EdgeElement} (hp : (p, l) ∈ g) :
    l.foldl (fun g el => Skel.destroyEdge g el.edge) (Skel.removeNode g p)
      = Skel.removeNodes g [p] := by
  unfold Skel.removeNode Skel.removeNodes
  rw [Skel.foldl_destroyEdge_filter (fun q => q != p)]
  rw [h.foldl_destroyEdge l g
    (fun el hel x hx el2 hel2 hid => h.sameId x hx _ hp el2 hel2 el hel hid)]
  rw [Skel.filterEdges_filter g (fun q => !([p] : List Nat).contains q)]
  have hk : (fun x : Nat × List EdgeElement => !([p] : List Nat).contains x.1)
      = (fun x => x.1 != p) := by
    funext x
    simp only [List.contains_cons, List.contains_nil, Bool.or_false]
    rfl
  rw [hk]
  unfold Skel.filterEdges
  rw [List.filter_map, List.filter_map]
  apply List.map_congr_left
  intro x hx
  obtain ⟨hx1, hx2⟩ := List.mem_filter.mp hx
  have hxp : x.1 ≠ p := by simpa using hx2
  congr 1
  apply List.filter_congr
  intro el hel
  have hown := h.own x hx1 el hel
  rw [Bool.eq_iff_iff]
  simp only [Bool.not_eq_true', List.contains_eq_any_beq, List.any_eq_false, List.mem_map,
    forall_exists_index, and_imp, forall_apply_eq_imp_iff₂, beq_iff_eq, Bool.and_eq_true,
    Bool.not_eq_true, List.any_cons, List.any_nil, Bool.or_false, beq_eq_false_iff_ne, ne_eq]
  constructor
  · intro hno
    by_contra hinc
    have hthere : el.there = p := by
      unfold EdgeElement.here at hown
      unfold EdgeElement.there
      split at hown <;> simp_all
    obtain ⟨y, hy, hy1, hy2⟩ := h.mirror x hx1 el hel
    have : y = (p, l) := Skel.eq_of_fst_eq h.nodup hy hp (by rw [hy1, hthere])
    rw [this] at hy2
    exact hno el.flip hy2 rfl
  · intro hends el2 hel2 hid
    have hedge := h.sameId x hx1 _ hp el hel el2 hel2 hid
    have hown2 := h.own _ hp el2 hel2
    rw [hedge] at hends
    rcases el2.here_or with h1 | h1 <;> rw [h1] at hown2
    · exact hends.1 hown2
    · exact hends.2 hown2

theorem Edge.foldl_destroy_skel :
    ∀ (l : List EdgeElement) (s : State),
      (l.foldl (fun st el => Edge.destroy el.edge st) s).skel
        = l.foldl (fun g el => Skel.destroyEdge g el.edge) s.skel
  | [], _ => rfl
  | el :: rest, s => by
    simp only [List.foldl_cons]
    rw [Edge.foldl_destroy_skel rest, Edge.skel_destroy]

theorem Edge.foldl_destroy_frame :
    ∀ (l : List EdgeElement) (s : State),
      l.foldl (fun st el => Edge.destroy el.edge st) s
        = { s with m_nodeList := (l.foldl (fun st el => Edge.destroy el.edge st) s).m_nodeList }
  | [], _ => rfl
  | el :: rest, s => by
    simp only [List.foldl_cons]
    rw [Edge.foldl_destroy_frame rest]
    rfl

theorem Skel.ids_removeNodes (g : Skel) (dead : List Nat) :
    Skel.ids (Skel.removeNodes g dead) = g.ids.filter (fun p => !dead.contains p) := by
  unfold Skel.removeNodes
  rw [Skel.ids_filterEdges]
  simp [Skel.ids, List.filter_map, Function.comp_def]

theorem Skel.removeNodes_removeNodes (g : Skel) (p : Nat) (dead : List Nat) :
    Skel.removeNodes (Skel.removeNodes g [p]) dead = Skel.removeNodes g (p :: dead) := by
  unfold Skel.removeNodes
  rw [← Skel.filterEdges_filter _ (fun q => !dead.contains q), List.filter_filter,
    Skel.filterEdges_filterEdges]
  congr 1
  · apply List.filter_congr
    intro x _
    simp only [List.contains_cons, List.contains_nil, Bool.or_false, Bool.not_or]
    exact Bool.and_comm _ _
  · funext e
    simp only [List.contains_cons, List.contains_nil, Bool.or_false, Bool.not_or]
    cases (e.m_sourceNode == p) <;> cases (e.m_destNode == p) <;>
      cases (dead.contains e.m_sourceNode) <;> cases (dead.contains e.m_destNode) <;> rfl

theorem Skel.removeNodes_nil (g : Skel) : Skel.removeNodes g [] = g := by
  unfold Skel.removeNodes
  simp [Skel.filterEdges_true]

/-- The body of the loop of `removeNode`, on a sound graph. -/
theorem GraphLogic.deleteListed_spec {s t : State} {p : Nat}
    (hg : GraphOK s.skel s.nextId) (hr : GraphLogic.deleteListed p s = some t) :
    p ∈ s.ids ∧ t.skel = Skel.removeNodes s.skel [p] ∧
      ∃ l, t = { s with m_nodeList := l,
                        m_hintNode := if s.m_hintNode = some p then none else s.m_hintNode } := by
  unfold GraphLogic.deleteListed at hr
  cases hf : s.findNode p with
  | none => rw [hf] at hr; simp at hr
  | some n =>
    rw [hf] at hr
    simp only at hr
    unfold Node.destroy at hr
    split at hr
    · simp only [Option.some.injEq] at hr
      subst hr
      refine ⟨State.findNode_mem_ids hf, ?_, _, Edge.foldl_destroy_frame _ _⟩
      rw [Edge.foldl_destroy_skel]
      have h1 : State.skel ({ s with
          m_hintNode := if s.m_hintNode = some p then none else s.m_hintNode,
          m_nodeList := s.m_nodeList.filter (fun m => m.id != p) } : State)
          = Skel.removeNode s.skel p := by
        simp only [State.skel, Skel.removeNode, List.filter_map]
        rfl
      rw [h1]
      exact hg.destroyNode (State.findNode_skel hf)
    · simp at hr

/-- The loop of `removeNode`, on a sound graph. -/
theorem GraphLogic.deleteAll_spec :
    ∀ (dead : List Nat) {s t : State}, GraphOK s.skel s.nextId → 0 ∉ dead →
      GraphLogic.deleteAll dead s = some t →
      t.skel = Skel.removeNodes s.skel dead ∧
        ∃ l, t = { s with m_nodeList := l,
                          m_hintNode := s.m_hintNode.filter (fun h => !dead.contains h) }
  | [], s, t, _, _, hr => by
    simp only [GraphLogic.deleteAll, Option.some.injEq] at hr
    subst hr
    refine ⟨(Skel.removeNodes_nil _).symm, s.m_nodeList, ?_⟩
    cases hh : s.m_hintNode <;> simp [Option.filter, hh] <;> rw [← hh]
  | p :: rest, s, t, hg, h0, hr => by
    unfold GraphLogic.deleteAll at hr
    cases h1 : GraphLogic.deleteListed p s with
    | none => rw [h1] at hr; simp at hr
    | some s1 =>
      rw [h1] at hr
      simp only at hr
      obtain ⟨_, hsk1, l1, hs1⟩ := GraphLogic.deleteListed_spec hg h1
      have hp0 : (0 : Nat) ∉ [p] := by
        intro hc; apply h0; simp at hc; simp [hc]
      have hg1 : GraphOK s1.skel s1.nextId := by
        rw [hsk1]
        have : s1.nextId = s.nextId := by rw [hs1]
        rw [this]
        exact hg.removeNodes [p] hp0
      obtain ⟨hsk, l, ht⟩ := GraphLogic.deleteAll_spec rest hg1
        (fun hc => h0 (List.mem_cons_of_mem _ hc)) hr
      refine ⟨?_, l, ?_⟩
      · rw [hsk, hsk1, Skel.removeNodes_removeNodes]
      · rw [ht, hs1]
        simp only [State.mk.injEq, true_and, and_true]
        cases hh : s.m_hintNode with
        | none => simp [Option.filter]
        | some q =>
          by_cases hq : q = p
          · subst hq; simp [Option.filter]
          · have : ¬ (some q = some p) := by simpa using hq
            simp [Option.filter, hq, this]

/-! ## Subtrees -/

theorem Node.mem_children {n : Node} {c : Nat} (h : c ∈ n.children) :
    ∃ el ∈ n.m_edgeList, el.startsFromThisNode = true ∧ el.edge.m_secondary = false ∧
      el.edge.m_destNode = c := by
  unfold Node.children Node.edgesFrom at h
  obtain ⟨e, he, rfl⟩ := List.mem_map.mp h
  obtain ⟨he1, he2⟩ := List.mem_filter.mp he
  obtain ⟨el, hel, rfl⟩ := List.mem_map.mp he1
  obtain ⟨hel1, hel2⟩ := List.mem_filter.mp hel
  exact ⟨el, hel1, hel2, by simpa using he2, rfl⟩

theorem State.mem_subtreeStep {s : State} {acc : List Nat} {p : Nat}
    (h : p ∈ s.subtreeStep acc) :
    p ∈ acc ∨ ∃ q ∈ acc, ∃ n, s.findNode q = some n ∧ p ∈ n.children := by
  unfold State.subtreeStep at h
  rcases List.mem_append.mp (List.mem_dedup.mp h) with h1 | h1
  · exact Or.inl h1
  · right
    obtain ⟨q, hq, hp⟩ := List.mem_flatMap.mp h1
    refine ⟨q, hq, ?_⟩
    cases hf : s.findNode q with
    | none => rw [hf] at hp; simp at hp
    | some n => rw [hf] at hp; exact ⟨n, rfl, hp⟩

theorem State.subset_subtreeStep (s : State) (acc : List Nat) : acc ⊆ s.subtreeStep acc := by
  intro p hp
  unfold State.subtreeStep
  exact List.mem_dedup.mpr (List.mem_append.mpr (Or.inl hp))

/-- A property of the start node that children inherit holds in the whole
subtree. -/
theorem State.subtree_induction (s : State) (P : Nat → Prop) (a : Nat) (ha : P a)
    (hstep : ∀ q n c, P q → s.findNode q = some n → c ∈ n.children → P c) :
    ∀ p ∈ s.subtree a, P p := by
  unfold State.subtree
  generalize s.m_nodeList.length = k
  induction k with
  | zero =>
    intro p hp
    simp only [Function.iterate_zero, id_eq, List.mem_singleton] at hp
    rw [hp]; exact ha
  | succ k ih =>
    intro p hp
    rw [Function.iterate_succ_apply'] at hp
    rcases State.mem_subtreeStep hp with h1 | ⟨q, hq, n, hn, hc⟩
    · exact ih p h1
    · exact hstep q n p (ih q hq) hn hc

theorem State.self_mem_subtree (s : State) (a : Nat) : a ∈ s.subtree a := by
  unfold State.subtree
  generalize s.m_nodeList.length = k
  induction k with
  | zero => simp
  | succ k ih =>
    rw [Function.iterate_succ_apply']
    exact State.subset_subtreeStep s _ ih

theorem State.nodup_subtree (s : State) (a : Nat) : (s.subtree a).Nodup := by
  unfold State.subtree
  cases hk : s.m_nodeList.length with
  | zero => simp
  | succ k =>
    rw [Function.iterate_succ_apply']
    unfold State.subtreeStep
    exact List.nodup_dedup _

theorem WF.subtree_ne_root {s : State} (h : WF s) {a : Nat} (ha : a ≠ 0) :
    ∀ p ∈ s.subtree a, p ≠ 0 := by
  apply State.subtree_induction s (fun p => p ≠ 0) a ha
  intro q n c _ hn hc
  obtain ⟨el, hel, _, _, rfl⟩ := Node.mem_children hc
  exact h.graph.rootNoIn _ (State.findNode_skel hn) el hel

theorem WF.subtree_live {s : State} (h : WF s) {a : Nat} (ha : a ∈ s.ids) :
    ∀ p ∈ s.subtree a, p ∈ s.ids := by
  apply State.subtree_induction s (fun p => p ∈ s.ids) a ha
  intro q n c _ hn hc
  obtain ⟨el, hel, hst, _, rfl⟩ := Node.mem_children hc
  obtain ⟨y, hy, hy1, _⟩ := h.graph.mirror _ (State.findNode_skel hn) el hel
  rw [State.ids_eq_skel_ids]
  have : el.there = el.edge.m_destNode := by simp [EdgeElement.there, hst]
  rw [← this, ← hy1]
  exact Skel.mem_ids_of_mem hy

/-- The nodes `removeNode` deletes: the active node, or its subtree. -/
theorem WF.removeList_ne_root {s : State} (h : WF s) {a : Nat} (ha : a ≠ 0)
    (mods : KeyboardModifiers) :
    0 ∉ (if (mods.control && mods.shift) = true then s.subtree a else [a]) := by
  split
  · intro hc; exact h.subtree_ne_root ha 0 hc rfl
  · intro hc; simp at hc; exact ha hc.symm

/-- The state `removeNode` reaches before it refreshes the hint numbers. -/
theorem WF.afterDelete {s s1 : State} (h : WF s) {dead : List Nat} (h0 : 0 ∉ dead)
    (hr : GraphLogic.deleteAll dead s = some s1) :
    WF (({ s1 with m_activeNode := none } : State).emit .contentChanged) := by
  obtain ⟨hsk, l, hs1⟩ := GraphLogic.deleteAll_spec dead h.graph h0 hr
  refine ⟨?_, ?_, ?_⟩
  · show GraphOK s1.skel s1.nextId
    have : s1.nextId = s.nextId := by rw [hs1]
    rw [hsk, this]
    exact h.graph.removeNodes dead h0
  · intro a ha; cases ha
  · intro p hp
    show p ∈ s1.ids
    have hp2 : s1.m_hintNode = some p := hp
    rw [State.ids_eq_skel_ids, hsk, Skel.ids_removeNodes, ← State.ids_eq_skel_ids]
    have hp3 : s.m_hintNode.filter (fun h => !dead.contains h) = some p := by
      rw [← hp2, hs1]
    cases hh : s.m_hintNode with
    | none => rw [hh] at hp3; simp [Option.filter] at hp3
    | some q =>
      rw [hh] at hp3
      simp only [Option.filter] at hp3
      split at hp3
      · rename_i hq
        injection hp3 with hp3
        rw [← hp3]
        exact List.mem_filter.mpr ⟨h.hintLive q hh, hq⟩
      · cases hp3

theorem WF.removeNode {s t : State} (h : WF s) {mods : KeyboardModifiers}
    (hr : GraphLogic.removeNode mods s = some t) : WF t := by
  unfold GraphLogic.removeNode at hr
  split at hr
  · simp only [Option.some.injEq] at hr
    subst hr; exact h.transfer rfl rfl h.activeLive h.hintLive
  · rename_i a ha
    split at hr
    · simp at hr
    · rename_i first hf
      split at hr
      · simp only [Option.some.injEq] at hr
        subst hr; exact h.transfer rfl rfl h.activeLive h.hintLive
      · rename_i hne
        have ha0 : a ≠ 0 := by rw [← h.head_id hf]; exact hne
        simp only at hr
        split at hr
        · simp at hr
        · rename_i s1 hs1
          have h1 := h.afterDelete (h.removeList_ne_root ha0 mods) hs1
          split at hr
          · exact h1.showNodeNumbers hr
          · simp only [Option.some.injEq] at hr
            subst hr; exact h1

/-! ## The widget versions -/

theorem GraphWidget.widgetSetActiveNode_spec {node : Option Nat} {s t : State}
    (h : GraphWidget.setActiveNode node s = some t) :
    t.skel = s.skel ∧ (∃ p, node = some p ∧ p ∈ s.ids) ∧
      ∃ l, t = { s with m_nodeList := l, m_activeNode := node } := by
  unfold GraphWidget.setActiveNode at h
  have hb : ∀ b n, (Node.setActive n b).id = n.id ∧ (Node.setActive n b).m_edgeList = n.m_edgeList :=
    fun _ _ => ⟨rfl, rfl⟩
  cases ha : s.m_activeNode with
  | none =>
    rw [ha] at h
    simp only at h
    cases node with
    | none => simp at h
    | some p =>
      simp only at h
      obtain ⟨h1, h2⟩ := State.updNode_eq_some h
      subst h2
      refine ⟨?_, ⟨p, rfl, h1⟩, _, rfl⟩
      rw [State.skel_mapNode_same _ _ _ (hb true)]; rfl
  | some a =>
    rw [ha] at h
    simp only at h
    cases h1 : s.updNode a (fun n => n.setActive false) with
    | none => rw [h1] at h; simp at h
    | some s1 =>
      rw [h1] at h
      simp only at h
      obtain ⟨_, hs1⟩ := State.updNode_eq_some h1
      have hsk : s1.skel = s.skel := by rw [hs1, State.skel_mapNode_same _ _ _ (hb false)]
      have hids : s1.ids = s.ids := by rw [State.ids_eq_skel_ids, hsk, ← State.ids_eq_skel_ids]
      cases node with
      | none => simp at h
      | some p =>
        simp only at h
        obtain ⟨h2, h3⟩ := State.updNode_eq_some h
        subst h3
        refine ⟨?_, ⟨p, rfl, ?_⟩,
          (s1.m_nodeList.map (fun n => if n.id = p then n.setActive true else n)), ?_⟩
        · rw [State.skel_mapNode_same _ _ _ (hb true)]; exact hsk
        · have : p ∈ s1.ids := h2
          rw [hids] at this; exact this
        · rw [hs1]; rfl

theorem WF.widgetSetActiveNode {s t : State} (h : WF s) {node : Option Nat}
    (hr : GraphWidget.setActiveNode node s = some t) : WF t := by
  obtain ⟨hsk, ⟨p, hp, hlive⟩, l, rfl⟩ := GraphWidget.widgetSetActiveNode_spec hr
  refine h.transfer hsk rfl ?_ h.hintLive
  intro a ha
  have : some a = some p := by rw [← hp]; exact ha.symm
  cases this; exact hlive

/-- The outcomes of `GraphWidget::addEdge(source, destination)`. -/
theorem GraphWidget.widgetAddEdge_spec {source destination : Option Nat} {s t : State}
    (h : GraphWidget.addEdge source destination s = some t) :
    ∃ first, s.m_nodeList.head? = some first ∧
      ((destination = some first.id ∧
          t = s.emit (.notification .rootCannotBeEdgeTarget)) ∨
       (destination ≠ some first.id ∧ ∃ src dst, source.bind s.findNode = some src ∧
          destination.bind s.findNode = some dst ∧
          ((src.isConnected destination = true ∧
              t = s.emit (.notification .edgeAlreadyExists)) ∨
           (src.isConnected destination = false ∧
              t.skel = Skel.addElem (Skel.addElem s.skel src.id
                  ⟨GraphLogic.newEdge s src dst, true⟩) dst.id
                  ⟨GraphLogic.newEdge s src dst, false⟩ ∧
              ∃ l, t = { s with m_nodeList := l,
                                nextId := s.nextId + 1,
                                signals := s.signals ++
                                  (if (GraphLogic.newEdge s src dst).m_secondary
                                    then [.notification .addedAsSecondary] else []) ++
                                  [.contentChanged] })))) := by
  unfold GraphWidget.addEdge at h
  cases hf : s.m_nodeList.head? with
  | none => rw [hf] at h; simp at h
  | some first =>
    rw [hf] at h
    simp only at h
    refine ⟨first, rfl, ?_⟩
    by_cases hd : destination = some first.id
    · left
      rw [if_pos hd] at h
      simp only [Option.some.injEq] at h
      exact ⟨hd, h.symm⟩
    · right
      rw [if_neg hd] at h
      refine ⟨hd, ?_⟩
      cases hsrc : source.bind s.findNode with
      | none => rw [hsrc] at h; simp at h
      | some src =>
        cases hdst : destination.bind s.findNode with
        | none => rw [hsrc, hdst] at h; simp at h
        | some dst =>
          rw [hsrc, hdst] at h
          simp only at h
          refine ⟨src, dst, rfl, rfl, ?_⟩
          by_cases hc : src.isConnected destination = true
          · left
            rw [if_pos hc] at h
            simp only [Option.some.injEq] at h
            exact ⟨hc, h.symm⟩
          · right
            rw [if_neg hc, State.ite_emit] at h
            simp only [Option.some.injEq] at h
            refine ⟨by simpa using hc, ?_, t.m_nodeList, ?_⟩
            · rw [← h, State.skel_emit, State.skel_mapNode_addEdge, State.skel_mapNode_addEdge]
              rfl
            · rw [← h]
              simp [GraphLogic.newEdge, State.emit, State.mapNode]

theorem WF.widgetAddEdge {s t : State} (h : WF s) {source destination : Option Nat}
    (hr : GraphWidget.addEdge source destination s = some t) : WF t := by
  obtain ⟨first, hf, hcase⟩ := GraphWidget.widgetAddEdge_spec hr
  rcases hcase with ⟨_, rfl⟩ | ⟨hd, src, dst, hsrc, hdst, hcase2⟩
  · exact h.transfer rfl rfl h.activeLive h.hintLive
  · obtain ⟨_, hs2⟩ := State.bind_findNode hsrc
    rcases hcase2 with ⟨_, rfl⟩ | ⟨_, hsk, l, ht⟩
    · exact h.transfer rfl rfl h.activeLive h.hintLive
    · have hids : t.ids = s.ids := by
        rw [State.ids_eq_skel_ids, hsk, Skel.ids_addElem, Skel.ids_addElem,
          ← State.ids_eq_skel_ids]
      have hn : t.nextId = s.nextId + 1 := by rw [ht]
      refine ⟨?_, ?_, ?_⟩
      · rw [hsk, hn]; exact h.graph_newEdge hf hd hs2 hdst
      · rw [hids]; intro p hp; apply h.activeLive; rw [← hp, ht]
      · rw [hids]; intro p hp; apply h.hintLive; rw [← hp, ht]

theorem Node.deleteEdge_nextId (n : Node) (otherEnd : Option Nat) (s : State) :
    (n.deleteEdge otherEnd s).nextId = s.nextId := by
  unfold Node.deleteEdge; split <;> rfl

theorem Node.deleteEdge_activeNode (n : Node) (otherEnd : Option Nat) (s : State) :
    (n.deleteEdge otherEnd s).m_activeNode = s.m_activeNode := by
  unfold Node.deleteEdge; split <;> rfl

theorem Node.deleteEdge_hintNode (n : Node) (otherEnd : Option Nat) (s : State) :
    (n.deleteEdge otherEnd s).m_hintNode = s.m_hintNode := by
  unfold Node.deleteEdge; split <;> rfl

theorem WF.widgetRemoveEdge {s t : State} (h : WF s) {source destination : Option Nat}
    (hr : GraphWidget.removeEdge source destination s = some t) : WF t := by
  unfold GraphWidget.removeEdge at hr
  cases hsrc : source.bind s.findNode with
  | none => rw [hsrc] at hr; simp at hr
  | some src =>
    rw [hsrc] at hr
    simp only at hr
    obtain ⟨_, hs2⟩ := State.bind_findNode hsrc
    split at hr
    · simp only [Option.some.injEq] at hr
      subst hr; exact h.transfer rfl rfl h.activeLive h.hintLive
    · simp only [Option.some.injEq] at hr
      subst hr
      obtain ⟨hg, hids⟩ := h.graph_deleteEdge hs2 destination
      refine ⟨?_, ?_, ?_⟩
      · show GraphOK (src.deleteEdge destination s).skel (src.deleteEdge destination s).nextId
        rw [Node.deleteEdge_nextId]; exact hg
      · show ∀ a, (src.deleteEdge destination s).m_activeNode = some a →
          a ∈ (src.deleteEdge destination s).ids
        rw [hids, Node.deleteEdge_activeNode]; exact h.activeLive
      · show ∀ a, (src.deleteEdge destination s).m_hintNode = some a →
          a ∈ (src.deleteEdge destination s).ids
        rw [hids, Node.deleteEdge_hintNode]; exact h.hintLive

theorem WF.nodeSelected {s t : State} (h : WF s) {node : Option Nat}
    (hr : GraphWidget.nodeSelected node s = some t) : WF t := by
  unfold GraphWidget.nodeSelected at hr
  have h0 : WF (GraphWidget.showingAllNodeNumbers false s) := h.showingAllNodeNumbers false
  have h1 : WF ({ GraphWidget.showingAllNodeNumbers false s with
      m_showingNodeNumbers := false, m_editingNode := false } : State) :=
    h0.transfer rfl rfl h0.activeLive h0.hintLive
  simp only at hr
  split at hr
  · simp at hr
  · split at hr
    · obtain ⟨t1, ht1, rfl⟩ := Option.map_eq_some'.mp hr
      have := h1.widgetAddEdge ht1
      exact this.transfer rfl rfl this.activeLive this.hintLive
    · split at hr
      · obtain ⟨t1, ht1, rfl⟩ := Option.map_eq_some'.mp hr
        have := h1.widgetRemoveEdge ht1
        exact this.transfer rfl rfl this.activeLive this.hintLive
      · exact h1.widgetSetActiveNode hr

theorem WF.widgetBeginWith {s t : State} (h : WF s) {number : Nat} {b : Bool}
    (hr : GraphWidget.showingNodeNumbersBeginWithNumber number b s = some t) : WF t := by
  unfold GraphWidget.showingNodeNumbersBeginWithNumber at hr
  have h1 := h.beginWithLoop number b
  simp only at hr
  split at hr
  · exact h1.nodeSelected hr
  · split at hr
    · simp only [Option.some.injEq] at hr
      subst hr
      have h2 : WF ({ ({ s with
          m_nodeList := (GraphLogic.beginWithLoop number b 0 s.m_nodeList s.m_hintNode).1,
          m_hintNode := (GraphLogic.beginWithLoop number b 0 s.m_nodeList s.m_hintNode).2.2 } : State)
          with m_showingNodeNumbers := false } : State) :=
        h1.transfer rfl rfl h1.activeLive h1.hintLive
      exact h2.showingAllNodeNumbers false
    · simp only [Option.some.injEq] at hr
      subst hr
      exact h1

theorem WF.widgetShowNodeNumbers {s t : State} (h : WF s)
    (hr : GraphWidget.showNodeNumbers s = some t) : WF t := by
  unfold GraphWidget.showNodeNumbers at hr
  split at hr
  · split at hr
    · simp at hr
    · rename_i first rest hl
      simp only [Option.some.injEq] at hr
      subst hr
      have hl2 : (GraphLogic.showingAllNodeNumbers true s).m_nodeList = first :: rest := hl
      have hsk : State.skel ({ s with
          m_nodeList := first.showNumber 0 true true :: rest,
          m_hintNode := some first.id } : State) = s.skel := by
        rw [← GraphLogic.skel_showingAllNodeNumbers true s]
        simp only [State.skel, hl2, List.map_cons]
        rfl
      refine h.transfer hsk rfl h.activeLive ?_
      intro p hp
      simp only [Option.some.injEq] at hp
      subst hp
      have : first.id ∈ (GraphLogic.showingAllNodeNumbers true s).ids := by
        simp [State.ids, hl2]
      rw [State.ids_eq_skel_ids, GraphLogic.skel_showingAllNodeNumbers,
        ← State.ids_eq_skel_ids] at this
      exact this
  · exact WF.widgetBeginWith (h.showingAllNodeNumbers false) hr

theorem WF.widgetRemoveNode {s t : State} (h : WF s) {mods : KeyboardModifiers}
    (hr : GraphWidget.removeNode mods s = some t) : WF t := by
  unfold GraphWidget.removeNode at hr
  split at hr
  · simp only [Option.some.injEq] at hr
    subst hr; exact h.transfer rfl rfl h.activeLive h.hintLive
  · rename_i a ha
    split at hr
    · simp at hr
    · rename_i first hf
      split at hr
      · simp only [Option.some.injEq] at hr
        subst hr; exact h.transfer rfl rfl h.activeLive h.hintLive
      · rename_i hne
        have ha0 : a ≠ 0 := by rw [← h.head_id hf]; exact hne
        simp only at hr
        split at hr
        · simp at hr
        · rename_i s1 hs1
          have h1 := h.afterDelete (h.removeList_ne_root ha0 mods) hs1
          split at hr
          · exact h1.widgetShowNodeNumbers hr
          · simp only [Option.some.injEq] at hr
            subst hr; exact h1

theorem WF.insertNode {s t : State} (h : WF s)
    (hr : GraphWidget.insertNode s = some t) : WF t := by
  unfold GraphWidget.insertNode at hr
  split at hr
  · simp only [Option.some.injEq] at hr
    subst hr; exact h.transfer rfl rfl h.activeLive h.hintLive
  · rename_i a ha
    split at hr
    · simp at hr
    · simp only at hr
      have h1 : WF ({ s.emit .contentChanged with
          m_nodeList := s.m_nodeList ++ [({ id := s.nextId } : Node)],
          nextId := s.nextId + 1 } : State) := by
        have hsk : State.skel ({ s.emit .contentChanged with
            m_nodeList := s.m_nodeList ++ [({ id := s.nextId } : Node)],
            nextId := s.nextId + 1 } : State) = s.skel ++ [(s.nextId, [])] := by
          simp [State.skel]
        have hids : State.ids ({ s.emit .contentChanged with
            m_nodeList := s.m_nodeList ++ [({ id := s.nextId } : Node)],
            nextId := s.nextId + 1 } : State) = s.ids ++ [s.nextId] := by
          simp [State.ids]
        refine ⟨?_, ?_, ?_⟩
        · rw [hsk]; exact h.graph.appendNode
        · rw [hids]; intro p hp
          exact List.mem_append.mpr (Or.inl (h.activeLive p hp))
        · rw [hids]; intro p hp
          exact List.mem_append.mpr (Or.inl (h.hintLive p hp))
      split at hr
      · simp at hr
      · rename_i s2 hs2
        have h2 := h1.widgetAddEdge hs2
        split at hr
        · simp at hr
        · rename_i s3 hs3
          have h3 := h2.widgetSetActiveNode hs3
          have h4 : WF ((GraphWidget.editNode s3).emit .contentChanged) := by
            unfold GraphWidget.editNode
            split <;> exact h3.transfer rfl rfl h3.activeLive h3.hintLive
          split at hr
          · exact h4.widgetShowNodeNumbers hr
          · simp only [Option.some.injEq] at hr
            subst hr; exact h4

/-! ## Reachable states are well-formed -/

theorem addFirstNode_ctor : GraphLogic.addFirstNode GraphLogic.ctor = some newDocument := by
  decide

theorem widget_addFirstNode_ctor :
    GraphWidget.addFirstNode GraphWidget.ctor = some newScene := by
  decide

theorem WF.init : WF newDocument := by
  refine ⟨⟨?_, ?_, ?_, ?_, ?_, ?_, ?_, ?_, ?_⟩, ?_, ?_⟩ <;>
    simp [QtMindMap.newDocument, State.skel, State.ids, Skel.ids]

theorem WF.initWidget : WF newScene := by
  refine ⟨⟨?_, ?_, ?_, ?_, ?_, ?_, ?_, ?_, ?_⟩, ?_, ?_⟩ <;>
    simp [QtMindMap.newScene, State.skel, State.ids, Skel.ids]

theorem WF.run {s t : State} (h : WF s) (op : Op) (hr : op.run s = some t) : WF t := by
  cases op with
  | insertNode => exact h.insertNode hr
  | removeNode mods => exact h.removeNode hr
  | addEdge source destination => exact h.addEdge hr
  | removeEdge source destination => exact h.removeEdge hr
  | selectNode node => exact h.selectNode hr
  | nodeEdited =>
    simp only [Op.run, Option.some.injEq] at hr
    subst hr; exact h.nodeEdited
  | addEdgeSlot =>
    simp only [Op.run, Option.some.injEq] at hr
    subst hr; exact h.transfer rfl rfl h.activeLive h.hintLive
  | removeEdgeSlot =>
    simp only [Op.run, Option.some.injEq] at hr
    subst hr; exact h.transfer rfl rfl h.activeLive h.hintLive
  | hintMode => exact h.hintMode hr
  | nodeLostFocus =>
    simp only [Op.run, Option.some.injEq] at hr
    subst hr; exact h.nodeLostFocus
  | appendNumber num => exact h.appendNumber hr
  | delNumber => exact h.delNumber hr
  | applyNumber => exact h.applyNumber hr
  | widgetRemoveNode mods => exact h.widgetRemoveNode hr
  | widgetAddEdge source destination => exact h.widgetAddEdge hr
  | widgetRemoveEdge source destination => exact h.widgetRemoveEdge hr
  | widgetNodeSelected node => exact h.nodeSelected hr

theorem Reachable.wf {s : State} (h : Reachable s) : WF s := by
  induction h with
  | init => exact WF.init
  | initWidget => exact WF.initWidget
  | step op _ hr ih => exact ih.run op hr

theorem Reachable.of_runOps :
    ∀ (ops : List Op) {s t : State}, Reachable s → runOps ops s = some t → Reachable t
  | [], s, t, h, hr => by
    simp only [QtMindMap.runOps, Option.some.injEq] at hr
    subst hr; exact h
  | op :: rest, s, t, h, hr => by
    unfold QtMindMap.runOps at hr
    cases h1 : op.run s with
    | none => rw [h1] at hr; simp at hr
    | some s1 =>
      rw [h1] at hr
      exact Reachable.of_runOps rest (Reachable.step op h h1) hr

/-! ## The claims -/

/-- C1: when the active node is the root (the first node of the node list),
`removeNode`, with or without the subtree modifier, returns the state it was
given with nothing but the notification "Base node cannot be deleted."
appended to the log: node list, edges and active node are as before.  This
holds for `GraphLogic::removeNode` and for `GraphWidget::removeNode`. -/
theorem removeNode_root_protected (s : State) (r : Node) (mods : KeyboardModifiers)
    (hroot : s.m_nodeList.head? = some r) (hact : s.m_activeNode = some r.id) :
    GraphLogic.removeNode mods s
        = some { s with signals := s.signals ++ [.notification .baseNodeCannotBeDeleted] } ∧
      GraphWidget.removeNode mods s
        = some { s with signals := s.signals ++ [.notification .baseNodeCannotBeDeleted] } := by
  constructor
  · unfold GraphLogic.removeNode
    rw [hact, hroot]
    simp [State.emit, hact]
  · unfold GraphWidget.removeNode
    rw [hact, hroot]
    simp [State.emit, hact]

theorem removeNode_root_protected_witness :
    newDocument.m_nodeList.head? = some { id := 0 } ∧ newDocument.m_activeNode = some 0 ∧
      (GraphLogic.removeNode { control := true, shift := true } newDocument
          = some { newDocument with
              signals := newDocument.signals ++ [.notification .baseNodeCannotBeDeleted] } ∧
        GraphWidget.removeNode { control := true, shift := true } newDocument
          = some { newDocument with
              signals := newDocument.signals ++ [.notification .baseNodeCannotBeDeleted] }) :=
  ⟨rfl, rfl, removeNode_root_protected newDocument { id := 0 } { control := true, shift := true }
    rfl rfl⟩

theorem State.allEdges_eq_skel (s : State) :
    s.allEdges = s.skel.flatMap
      (fun x => (x.2.filter (fun el => el.startsFromThisNode)).map (fun el => el.edge)) := by
  unfold State.allEdges State.skel Node.edgesFrom
  rw [List.flatMap_map]

theorem State.allEdges_congr {s t : State} (h : t.skel = s.skel) : t.allEdges = s.allEdges := by
  rw [State.allEdges_eq_skel, State.allEdges_eq_skel, h]

theorem State.mem_allEdges {s : State} {e : Edge} :
    e ∈ s.allEdges ↔ ∃ n ∈ s.m_nodeList, (⟨e, true⟩ : EdgeElement) ∈ n.m_edgeList := by
  unfold State.allEdges Node.edgesFrom
  simp only [List.mem_flatMap, List.mem_map, List.mem_filter]
  constructor
  · rintro ⟨n, hn, el, ⟨hel, hst⟩, rfl⟩
    refine ⟨n, hn, ?_⟩
    have : (⟨el.edge, true⟩ : EdgeElement) = el := by
      cases el; simp at hst; simp [hst]
    rw [this]; exact hel
  · rintro ⟨n, hn, hel⟩
    exact ⟨n, hn, ⟨e, true⟩, ⟨hel, rfl⟩, rfl⟩

theorem State.mem_skel_of_mem {s : State} {n : Node} (h : n ∈ s.m_nodeList) :
    (n.id, n.m_edgeList) ∈ s.skel :=
  List.mem_map.mpr ⟨n, h, rfl⟩

/-- C2: in every reachable state the root (address 0, the node of the new
document) is still the first node of the list; `addEdge(x, root)` creates no
edge for any source pointer `x` (in `GraphLogic` it is defined and leaves
every incidence list as it was, in `GraphWidget` it only emits "Root element
cannot be an edge target."); and no element of any incidence list, hence no
edge of `allEdges`, has the root as its destination. -/
theorem root_never_edge_target (s : State) (hs : Reachable s) :
    ∃ r, s.m_nodeList.head? = some r ∧ r.id = 0 ∧
      (∀ x : Option Nat,
        (∃ t, GraphLogic.addEdge x (some r.id) s = some t ∧ t.skel = s.skel ∧
          t.allEdges = s.allEdges) ∧
        GraphWidget.addEdge x (some r.id) s
          = some (s.emit (.notification .rootCannotBeEdgeTarget))) ∧
      (∀ n ∈ s.m_nodeList, ∀ el ∈ n.m_edgeList, el.edge.m_destNode ≠ r.id) ∧
      (∀ e ∈ s.allEdges, e.m_destNode ≠ r.id) := by
  have h := hs.wf
  obtain ⟨r, hr, hr0⟩ := h.exists_head
  have hrl : r.id ∈ s.ids := List.mem_map.mpr ⟨r, List.mem_of_mem_head? hr, rfl⟩
  have hno : ∀ n ∈ s.m_nodeList, ∀ el ∈ n.m_edgeList, el.edge.m_destNode ≠ r.id := by
    intro n hn el hel
    rw [hr0]
    exact h.graph.rootNoIn _ (State.mem_skel_of_mem hn) el hel
  refine ⟨r, hr, hr0, ?_, hno, ?_⟩
  · intro x
    constructor
    · cases ha : s.m_activeNode with
      | none =>
        refine ⟨s.emit (.notification .noActiveNode), ?_, rfl, rfl⟩
        unfold GraphLogic.addEdge
        rw [ha]
      | some a =>
        obtain ⟨t1, ht1⟩ := GraphLogic.setActiveNode_defined (some r.id) s h.activeLive
          (fun p hp => by cases hp; exact hrl)
        obtain ⟨hsk, _, _⟩ := GraphLogic.setActiveNode_spec ht1
        refine ⟨t1.emit (.notification .rootCannotBeEdgeTarget), ?_, hsk,
          State.allEdges_congr hsk⟩
        unfold GraphLogic.addEdge
        rw [ha, hr]
        simp [ht1]
    · unfold GraphWidget.addEdge
      rw [hr]
      simp
  · intro e he
    obtain ⟨n, hn, hel⟩ := State.mem_allEdges.mp he
    exact hno n hn _ hel

theorem chainDoc_reachable : Reachable chainDoc :=
  Reachable.of_runOps [.insertNode, .insertNode, .insertNode] Reachable.init (by decide)

theorem root_never_edge_target_witness :
    Reachable chainDoc ∧
    ∃ r, chainDoc.m_nodeList.head? = some r ∧ r.id = 0 ∧
      (∀ x : Option Nat,
        (∃ t, GraphLogic.addEdge x (some r.id) chainDoc = some t ∧
          t.skel = chainDoc.skel ∧ t.allEdges = chainDoc.allEdges) ∧
        GraphWidget.addEdge x (some r.id) chainDoc
          = some (chainDoc.emit (.notification .rootCannotBeEdgeTarget))) ∧
      (∀ n ∈ chainDoc.m_nodeList, ∀ el ∈ n.m_edgeList, el.edge.m_destNode ≠ r.id) ∧
      (∀ e ∈ chainDoc.allEdges, e.m_destNode ≠ r.id) :=
  ⟨chainDoc_reachable, root_never_edge_target chainDoc chainDoc_reachable⟩

/-! ### Looking nodes up after the graph has changed -/

theorem State.findNode_map_skel (s : State) (p : Nat) :
    (s.findNode p).map (fun n => (n.id, n.m_edgeList)) = s.skel.find? (fun x => x.1 == p) := by
  unfold State.findNode State.skel
  rw [List.find?_map]
  rfl

theorem State.head_map_skel (s : State) :
    s.m_nodeList.head?.map (fun n => (n.id, n.m_edgeList)) = s.skel.head? := by
  unfold State.skel
  cases s.m_nodeList <;> rfl

/-- If the graph of `s1` is the graph of `s` with every incidence list
rewritten by `F`, a live pointer of `s` is live in `s1` and finds the
rewritten list. -/
theorem State.findNode_of_skel_map {s s1 : State} {p : Nat} {n : Node}
    (F : Nat × List EdgeElement → Nat × List EdgeElement) (hF : ∀ x, (F x).1 = x.1)
    (hsk : s1.skel = s.skel.map F) (hn : s.findNode p = some n) :
    ∃ n1, s1.findNode p = some n1 ∧ n1.id = n.id ∧
      n1.m_edgeList = (F (n.id, n.m_edgeList)).2 := by
  have h1 := State.findNode_map_skel s1 p
  rw [hsk, List.find?_map] at h1
  have h2 : (fun x : Nat × List EdgeElement => x.1 == p) ∘ F = (fun x => x.1 == p) := by
    funext x; simp [Function.comp, hF]
  rw [h2, ← State.findNode_map_skel s p, hn] at h1
  simp only [Option.map_some'] at h1
  cases hf : s1.findNode p with
  | none => rw [hf] at h1; simp at h1
  | some n1 =>
    rw [hf] at h1
    simp only [Option.map_some', Option.some.injEq] at h1
    refine ⟨n1, rfl, ?_, ?_⟩
    · have := congrArg Prod.fst h1
      simp only [hF] at this
      exact this
    · exact congrArg Prod.snd h1

theorem State.head_of_skel_map {s s1 : State} {first : Node}
    (F : Nat × List EdgeElement → Nat × List EdgeElement) (hF : ∀ x, (F x).1 = x.1)
    (hsk : s1.skel = s.skel.map F) (hf : s.m_nodeList.head? = some first) :
    ∃ f1, s1.m_nodeList.head? = some f1 ∧ f1.id = first.id := by
  have h1 := State.head_map_skel s1
  rw [hsk, List.head?_map, ← State.head_map_skel s, hf] at h1
  cases hh : s1.m_nodeList.head? with
  | none => rw [hh] at h1; simp at h1
  | some f1 =>
    rw [hh] at h1
    simp only [Option.map_some', Option.some.injEq] at h1
    refine ⟨f1, rfl, ?_⟩
    have := congrArg Prod.fst h1
    simp only [hF] at this
    exact this

theorem State.ids_of_skel_map {s s1 : State}
    (F : Nat × List EdgeElement → Nat × List EdgeElement) (hF : ∀ x, (F x).1 = x.1)
    (hsk : s1.skel = s.skel.map F) : s1.ids = s.ids := by
  rw [State.ids_eq_skel_ids, State.ids_eq_skel_ids, hsk]
  simp [Skel.ids, List.map_map, Function.comp_def, hF]

/-- A call of `GraphLogic::addEdge` that changed the set of edges went through
the branch that builds an edge. -/
theorem GraphLogic.addEdge_created {source destination : Option Nat} {s t : State}
    (h : GraphLogic.addEdge source destination s = some t) (hnew : t.skel ≠ s.skel) :
    ∃ a first src dst, s.m_activeNode = some a ∧ s.m_nodeList.head? = some first ∧
      destination ≠ some first.id ∧ source.bind s.findNode = some src ∧
      destination.bind s.findNode = some dst ∧ src.isConnected destination = false ∧
      t.skel = Skel.addElem (Skel.addElem s.skel src.id ⟨GraphLogic.newEdge s src dst, true⟩)
        dst.id ⟨GraphLogic.newEdge s src dst, false⟩ ∧
      ∃ l, t = { s with m_nodeList := l, m_activeNode := destination,
                        nextId := s.nextId + 1,
                        signals := s.signals ++
                          (if (GraphLogic.newEdge s src dst).m_secondary
                            then [.notification .addedAsSecondary] else []) ++
                          [.contentChanged] } := by
  rcases GraphLogic.addEdge_spec h with ⟨_, rfl⟩ | ⟨a, first, ha, hf, hcase⟩
  · exact absurd rfl hnew
  · rcases hcase with ⟨_, hsk, _⟩ | ⟨hd, src, dst, hsrc, hdst, hcase2⟩
    · exact absurd hsk hnew
    · rcases hcase2 with ⟨_, hsk, _⟩ | ⟨hc, hsk, l, ht⟩
      · exact absurd hsk hnew
      · exact ⟨a, first, src, dst, ha, hf, hd, hsrc, hdst, hc, hsk, l, ht⟩

/-- `addEdge` between two nodes that are connected: no edge is made, the
notification is "There is already an edge between these two nodes.". -/
theorem GraphLogic.addEdge_connected {s : State} {source destination : Option Nat} {act : Nat}
    {first src dst : Node} (ha : s.m_activeNode = some act) (hact : act ∈ s.ids)
    (hf : s.m_nodeList.head? = some first) (hd : destination ≠ some first.id)
    (hsrc : source.bind s.findNode = some src) (hdst : destination.bind s.findNode = some dst)
    (hc : src.isConnected destination = true) :
    ∃ t, GraphLogic.addEdge source destination s = some t ∧ t.skel = s.skel ∧
      t.signals = s.signals ++ [.notification .edgeAlreadyExists] := by
  obtain ⟨hd1, hd2⟩ := State.bind_findNode hdst
  obtain ⟨t1, ht1⟩ := GraphLogic.setActiveNode_defined destination s
    (fun a h => by rw [ha] at h; cases h; exact hact)
    (fun p hp => by rw [hd1] at hp; cases hp; exact State.findNode_mem_ids hd2)
  obtain ⟨hsk, _, l, hl⟩ := GraphLogic.setActiveNode_spec ht1
  refine ⟨t1.emit (.notification .edgeAlreadyExists), ?_, hsk, ?_⟩
  · unfold GraphLogic.addEdge
    rw [ha, hf]
    simp only [if_neg hd, hsrc, hdst, if_pos hc, ht1, Option.map_some']
  · rw [hl]; rfl

/-- `addEdge` into the root: no edge is made, the notification is "Root
element cannot be an edge target.". -/
theorem GraphLogic.addEdge_root {s : State} {source destination : Option Nat} {act : Nat}
    {first : Node} (ha : s.m_activeNode = some act) (hact : act ∈ s.ids)
    (hf : s.m_nodeList.head? = some first) (hd : destination = some first.id) :
    ∃ t, GraphLogic.addEdge source destination s = some t ∧ t.skel = s.skel ∧
      t.signals = s.signals ++ [.notification .rootCannotBeEdgeTarget] := by
  obtain ⟨t1, ht1⟩ := GraphLogic.setActiveNode_defined destination s
    (fun a h => by rw [ha] at h; cases h; exact hact)
    (fun p hp => by
      rw [hd] at hp; cases hp
      exact List.mem_map.mpr ⟨first, List.mem_of_mem_head? hf, rfl⟩)
  obtain ⟨hsk, _, l, hl⟩ := GraphLogic.setActiveNode_spec ht1
  refine ⟨t1.emit (.notification .rootCannotBeEdgeTarget), ?_, hsk, ?_⟩
  · unfold GraphLogic.addEdge
    rw [ha, hf]
    simp only [if_pos hd, ht1, Option.map_some']
  · rw [hl]; rfl

/-- C3 (amended): after `addEdge(a, b)` has made an edge, a second
`addEdge(a, b)` makes no edge and notifies "There is already an edge between
these two nodes."; `addEdge(b, a)` makes no edge either and gives the same
notification unless `a` is the root, in which case the notification is "Root
element cannot be an edge target.". -/
theorem addEdge_twice (s s1 : State) (a b : Option Nat)
    (h1 : GraphLogic.addEdge a b s = some s1) (hnew : s1.allEdges ≠ s.allEdges) :
    (∃ t, GraphLogic.addEdge a b s1 = some t ∧ t.skel = s1.skel ∧
        t.allEdges = s1.allEdges ∧
        t.signals = s1.signals ++ [.notification .edgeAlreadyExists]) ∧
    (∃ t, GraphLogic.addEdge b a s1 = some t ∧ t.skel = s1.skel ∧
        t.allEdges = s1.allEdges ∧
        t.signals = s1.signals ++
          [.notification (if a = s.m_nodeList.head?.map (fun n => n.id)
            then .rootCannotBeEdgeTarget else .edgeAlreadyExists)]) := by
  have hnew2 : s1.skel ≠ s.skel := fun hsk => hnew (State.allEdges_congr hsk)
  obtain ⟨act, first, src, dst, _, hf, hd, hsrc, hdst, _, hsk, l, hs1⟩ :=
    GraphLogic.addEdge_created h1 hnew2
  obtain ⟨ha1, hsrc2⟩ := State.bind_findNode hsrc
  obtain ⟨hb1, hdst2⟩ := State.bind_findNode hdst
  rw [Skel.addElem_addElem] at hsk
  have hF : ∀ x : Nat × List EdgeElement,
      ((fun x : Nat × List EdgeElement => (x.1, x.2 ++
        ((if x.1 = src.id then [(⟨GraphLogic.newEdge s src dst, true⟩ : EdgeElement)] else []) ++
        (if x.1 = dst.id then [(⟨GraphLogic.newEdge s src dst, false⟩ : EdgeElement)] else []))))
        x).1 = x.1 := fun _ => rfl
  obtain ⟨f1, hf1, hf1id⟩ := State.head_of_skel_map _ hF hsk hf
  obtain ⟨src1, hsrc1, hsrc1id, hsrc1l⟩ := State.findNode_of_skel_map _ hF hsk hsrc2
  obtain ⟨dst1, hdst1, hdst1id, hdst1l⟩ := State.findNode_of_skel_map _ hF hsk hdst2
  have hids : s1.ids = s.ids := State.ids_of_skel_map _ hF hsk
  have hact1 : s1.m_activeNode = some dst.id := by rw [hs1, hb1]
  have hactl : dst.id ∈ s1.ids := by rw [hids]; exact State.findNode_mem_ids hdst2
  have hsrcb : a.bind s1.findNode = some src1 := by rw [ha1]; exact hsrc1
  have hdstb : b.bind s1.findNode = some dst1 := by rw [hb1]; exact hdst1
  have hconn1 : src1.isConnected b = true := by
    unfold Node.isConnected
    rw [hsrc1l, hb1]
    apply List.any_eq_true.mpr
    refine ⟨⟨GraphLogic.newEdge s src dst, true⟩, ?_, ?_⟩
    · simp
    · simp [GraphLogic.newEdge]
  have hconn2 : dst1.isConnected a = true := by
    unfold Node.isConnected
    rw [hdst1l, ha1]
    apply List.any_eq_true.mpr
    refine ⟨⟨GraphLogic.newEdge s src dst, false⟩, ?_, ?_⟩
    · simp
    · simp [GraphLogic.newEdge]
  constructor
  · obtain ⟨t, ht, htsk, hts⟩ := GraphLogic.addEdge_connected hact1 hactl hf1
      (by rw [hf1id]; exact hd) hsrcb hdstb hconn1
    exact ⟨t, ht, htsk, State.allEdges_congr htsk, hts⟩
  · by_cases hroot : a = s.m_nodeList.head?.map (fun n => n.id)
    · rw [if_pos hroot]
      have : a = some f1.id := by rw [hroot, hf, hf1id]; rfl
      obtain ⟨t, ht, htsk, hts⟩ := GraphLogic.addEdge_root hact1 hactl hf1 this
      exact ⟨t, ht, htsk, State.allEdges_congr htsk, hts⟩
    · rw [if_neg hroot]
      have : a ≠ some f1.id := by
        intro hc; apply hroot; rw [hc, hf, hf1id]; rfl
      obtain ⟨t, ht, htsk, hts⟩ := GraphLogic.addEdge_connected hact1 hactl hf1 this hdstb hsrcb
        hconn2
      exact ⟨t, ht, htsk, State.allEdges_congr htsk, hts⟩

theorem addEdge_twice_witness :
    GraphLogic.addEdge (some 1) (some 5) chainDoc = some chainShortcut ∧
    chainShortcut.allEdges ≠ chainDoc.allEdges ∧
    ((∃ t, GraphLogic.addEdge (some 1) (some 5) chainShortcut = some t ∧
        t.skel = chainShortcut.skel ∧ t.allEdges = chainShortcut.allEdges ∧
        t.signals = chainShortcut.signals ++ [.notification .edgeAlreadyExists]) ∧
     (∃ t, GraphLogic.addEdge (some 5) (some 1) chainShortcut = some t ∧
        t.skel = chainShortcut.skel ∧ t.allEdges = chainShortcut.allEdges ∧
        t.signals = chainShortcut.signals ++
          [.notification (if some 1 = chainDoc.m_nodeList.head?.map (fun n => n.id)
            then .rootCannotBeEdgeTarget else .edgeAlreadyExists)])) :=
  ⟨by decide, by decide,
    addEdge_twice chainDoc chainShortcut (some 1) (some 5) (by decide) (by decide)⟩

theorem rootPairDoc_reachable : Reachable rootPairDoc :=
  Reachable.of_runOps [.insertNode, .nodeLostFocus, .removeEdgeSlot, .selectNode (some 0)]
    Reachable.init (by decide)

/-- C3 as stated fails when `a` is the root: in a reachable document
`addEdge(root, 1)` makes an edge, and the following `addEdge(1, root)` does not
notify "There is already an edge between these two nodes." (it stops at the
root check). -/
theorem addEdge_reverse_counterexample :
    ¬ ∀ (s s1 : State) (a b : Option Nat), Reachable s →
      GraphLogic.addEdge a b s = some s1 → s1.allEdges ≠ s.allEdges →
      (∃ t, GraphLogic.addEdge a b s1 = some t ∧ t.allEdges = s1.allEdges ∧
        t.signals = s1.signals ++ [.notification .edgeAlreadyExists]) ∧
      (∃ t, GraphLogic.addEdge b a s1 = some t ∧ t.allEdges = s1.allEdges ∧
        t.signals = s1.signals ++ [.notification .edgeAlreadyExists]) := by
  intro h
  obtain ⟨_, t, ht, _, hts⟩ := h rootPairDoc rootPairJoined (some 0) (some 1)
    rootPairDoc_reachable (by decide) (by decide)
  have h2 : GraphLogic.addEdge (some 1) (some 0) rootPairJoined
      = some ((GraphLogic.addEdge (some 1) (some 0) rootPairJoined).getD rootPairJoined) := by
    decide
  rw [h2] at ht
  simp only [Option.some.injEq] at ht
  subst ht
  revert hts
  decide

theorem State.mem_skel {s : State} {y : Nat × List EdgeElement} (h : y ∈ s.skel) :
    ∃ m ∈ s.m_nodeList, m.id = y.1 ∧ m.m_edgeList = y.2 := by
  obtain ⟨m, hm, rfl⟩ := List.mem_map.mp h
  exact ⟨m, hm, rfl, rfl⟩

/-- In a well-formed state the edge of every element of an incidence list is
among `allEdges`. -/
theorem WF.edge_mem_allEdges {s : State} (h : WF s) {n : Node} (hn : n ∈ s.m_nodeList)
    {el : EdgeElement} (hel : el ∈ n.m_edgeList) : el.edge ∈ s.allEdges := by
  apply State.mem_allEdges.mpr
  cases hst : el.startsFromThisNode with
  | true =>
    refine ⟨n, hn, ?_⟩
    have : (⟨el.edge, true⟩ : EdgeElement) = el := by rw [← hst]
    rw [this]; exact hel
  | false =>
    obtain ⟨y, hy, _, hy2⟩ := h.graph.mirror _ (State.mem_skel_of_mem hn) el hel
    obtain ⟨m, hm, _, hml⟩ := State.mem_skel hy
    refine ⟨m, hm, ?_⟩
    rw [hml]
    have : el.flip = ⟨el.edge, true⟩ := by simp [EdgeElement.flip, hst]
    rw [← this]; exact hy2

/-- In a well-formed state an edge of `allEdges` is in the incidence lists of
both its ends. -/
theorem WF.allEdges_incident {s : State} (h : WF s) {e : Edge} (he : e ∈ s.allEdges) :
    (∃ n, s.findNode e.m_sourceNode = some n ∧ (⟨e, true⟩ : EdgeElement) ∈ n.m_edgeList) ∧
    (∃ n, s.findNode e.m_destNode = some n ∧ (⟨e, false⟩ : EdgeElement) ∈ n.m_edgeList) := by
  obtain ⟨m, hm, hel⟩ := State.mem_allEdges.mp he
  have hx := State.mem_skel_of_mem hm
  have hown := h.graph.own _ hx _ hel
  have hlook : ∀ (y : Nat × List EdgeElement), y ∈ s.skel →
      ∃ n, s.findNode y.1 = some n ∧ n.m_edgeList = y.2 := by
    intro y hy
    obtain ⟨n, hn⟩ := State.exists_findNode
      (by rw [State.ids_eq_skel_ids]; exact Skel.mem_ids_of_mem hy)
    refine ⟨n, hn, ?_⟩
    have := Skel.eq_of_fst_eq h.graph.nodup (State.findNode_skel hn) hy rfl
    exact congrArg Prod.snd this
  constructor
  · obtain ⟨n, hn, hnl⟩ := hlook _ hx
    simp only [EdgeElement.here, if_true] at hown
    refine ⟨n, by rw [hown]; exact hn, ?_⟩
    rw [hnl]; exact hel
  · obtain ⟨y, hy, hy1, hy2⟩ := h.graph.mirror _ hx _ hel
    obtain ⟨n, hn, hnl⟩ := hlook y hy
    simp only [EdgeElement.there, if_true] at hy1
    refine ⟨n, by rw [← hy1]; exact hn, ?_⟩
    rw [hnl]; exact hy2

/-- C4 (amended): in every reachable state, for a node `a` and a pointer `b`,
`a->isConnected(b)` is true if and only if some edge has `a` as an end and has
`b` as an end.  For `a ≠ b` this is an edge whose ends are `a` and `b`, in
either direction; for `a = b` it is any edge at `a`, not only an edge from
`a` to `a`. -/
theorem isConnected_iff (s : State) (hs : Reachable s) (a b : Nat) (n : Node)
    (hn : s.findNode a = some n) :
    (n.isConnected (some b) = true ↔
      ∃ e ∈ s.allEdges, (e.m_sourceNode = a ∨ e.m_destNode = a) ∧
        (e.m_sourceNode = b ∨ e.m_destNode = b)) ∧
    (a ≠ b → (n.isConnected (some b) = true ↔
      ∃ e ∈ s.allEdges, (e.m_sourceNode = a ∧ e.m_destNode = b) ∨
        (e.m_sourceNode = b ∧ e.m_destNode = a))) ∧
    (n.isConnected (some a) = true ↔
      ∃ e ∈ s.allEdges, e.m_sourceNode = a ∨ e.m_destNode = a) := by
  have h := hs.wf
  obtain ⟨hnm, hnid⟩ := State.findNode_some hn
  have key : ∀ c : Nat, (n.isConnected (some c) = true ↔
      ∃ e ∈ s.allEdges, (e.m_sourceNode = a ∨ e.m_destNode = a) ∧
        (e.m_sourceNode = c ∨ e.m_destNode = c)) := by
    intro c
    constructor
    · intro hc
      unfold Node.isConnected at hc
      obtain ⟨el, hel, hp⟩ := List.any_eq_true.mp hc
      simp only [Bool.or_eq_true, beq_iff_eq, Option.some.injEq] at hp
      have hown := h.graph.own _ (State.mem_skel_of_mem hnm) el hel
      simp only [hnid] at hown
      refine ⟨el.edge, h.edge_mem_allEdges hnm hel, ?_, hp⟩
      rcases el.here_or with h1 | h1
      · left; rw [← h1]; exact hown
      · right; rw [← h1]; exact hown
    · rintro ⟨e, he, ha, hc⟩
      obtain ⟨⟨n1, hn1, hel1⟩, ⟨n2, hn2, hel2⟩⟩ := h.allEdges_incident he
      unfold Node.isConnected
      apply List.any_eq_true.mpr
      rcases ha with ha | ha
      · rw [ha, hn] at hn1
        cases hn1
        exact ⟨_, hel1, by simpa using hc⟩
      · rw [ha, hn] at hn2
        cases hn2
        exact ⟨_, hel2, by simpa using hc⟩
  refine ⟨key b, ?_, ?_⟩
  · intro hab
    rw [key b]
    constructor
    · rintro ⟨e, he, h1, h2⟩
      refine ⟨e, he, ?_⟩
      rcases h1 with h1 | h1 <;> rcases h2 with h2 | h2
      · exact absurd (h1.symm.trans h2) hab
      · exact Or.inl ⟨h1, h2⟩
      · exact Or.inr ⟨h2, h1⟩
      · exact absurd (h1.symm.trans h2) hab
    · rintro ⟨e, he, ⟨h1, h2⟩ | ⟨h1, h2⟩⟩
      · exact ⟨e, he, Or.inl h1, Or.inr h2⟩
      · exact ⟨e, he, Or.inr h2, Or.inl h1⟩
  · rw [key a]
    constructor
    · rintro ⟨e, he, h1, _⟩; exact ⟨e, he, h1⟩
    · rintro ⟨e, he, h1⟩; exact ⟨e, he, h1, h1⟩

theorem isConnected_iff_witness :
    Reachable chainDoc ∧ chainDoc.findNode 3 = some ((chainDoc.findNode 3).getD { id := 0 }) ∧
    ((((chainDoc.findNode 3).getD { id := 0 }).isConnected (some 5) = true ↔
      ∃ e ∈ chainDoc.allEdges, (e.m_sourceNode = 3 ∨ e.m_destNode = 3) ∧
        (e.m_sourceNode = 5 ∨ e.m_destNode = 5)) ∧
    (3 ≠ 5 → (((chainDoc.findNode 3).getD { id := 0 }).isConnected (some 5) = true ↔
      ∃ e ∈ chainDoc.allEdges, (e.m_sourceNode = 3 ∧ e.m_destNode = 5) ∨
        (e.m_sourceNode = 5 ∧ e.m_destNode = 3))) ∧
    (((chainDoc.findNode 3).getD { id := 0 }).isConnected (some 3) = true ↔
      ∃ e ∈ chainDoc.allEdges, e.m_sourceNode = 3 ∨ e.m_destNode = 3)) :=
  ⟨chainDoc_reachable, by decide,
    isConnected_iff chainDoc chainDoc_reachable 3 5 _ (by decide)⟩

/-- C4 as stated fails for `a = b`: node 1 of the chain is connected to itself
according to `isConnected`, yet no edge runs from 1 to 1. -/
theorem isConnected_self_counterexample :
    ¬ ∀ (s : State) (a b : Nat) (n : Node), Reachable s → s.findNode a = some n →
      (n.isConnected (some b) = true ↔
        ∃ e ∈ s.allEdges, (e.m_sourceNode = a ∧ e.m_destNode = b) ∨
          (e.m_sourceNode = b ∧ e.m_destNode = a)) := by
  intro h
  have h1 := h chainDoc 1 1 ((chainDoc.findNode 1).getD { id := 0 }) chainDoc_reachable
    (by decide)
  revert h1
  decide

theorem State.mem_allEdges_skel {s : State} {e : Edge} :
    e ∈ s.allEdges ↔ ∃ x ∈ s.skel, (⟨e, true⟩ : EdgeElement) ∈ x.2 := by
  rw [State.mem_allEdges]
  constructor
  · rintro ⟨n, hn, hel⟩
    exact ⟨_, State.mem_skel_of_mem hn, hel⟩
  · rintro ⟨x, hx, hel⟩
    obtain ⟨m, hm, _, hml⟩ := State.mem_skel hx
    exact ⟨m, hm, by rw [hml]; exact hel⟩

/-- The outcomes of `GraphWidget::addEdge` that change the graph. -/
theorem GraphWidget.widgetAddEdge_created {source destination : Option Nat} {s t : State}
    (h : GraphWidget.addEdge source destination s = some t) (hnew : t.skel ≠ s.skel) :
    ∃ first src dst, s.m_nodeList.head? = some first ∧
      destination ≠ some first.id ∧ source.bind s.findNode = some src ∧
      destination.bind s.findNode = some dst ∧ src.isConnected destination = false ∧
      t.skel = Skel.addElem (Skel.addElem s.skel src.id ⟨GraphLogic.newEdge s src dst, true⟩)
        dst.id ⟨GraphLogic.newEdge s src dst, false⟩ := by
  obtain ⟨first, hf, hcase⟩ := GraphWidget.widgetAddEdge_spec h
  rcases hcase with ⟨_, rfl⟩ | ⟨hd, src, dst, hsrc, hdst, hcase2⟩
  · exact absurd rfl hnew
  · rcases hcase2 with ⟨_, rfl⟩ | ⟨hc, hsk, _⟩
    · exact absurd rfl hnew
    · exact ⟨first, src, dst, hf, hd, hsrc, hdst, hc, hsk⟩

/-- The edge a successful `addEdge` has built: it is the one new edge, it runs
from the source to the destination, and it is secondary exactly if some
non-secondary edge ended in the destination before. -/
theorem WF.newEdge_props {s s1 : State} (h : WF s) {source destination : Option Nat}
    {src dst : Node} (hsrc : source.bind s.findNode = some src)
    (hdst : destination.bind s.findNode = some dst)
    (hsk : s1.skel = Skel.addElem (Skel.addElem s.skel src.id
      ⟨GraphLogic.newEdge s src dst, true⟩) dst.id ⟨GraphLogic.newEdge s src dst, false⟩) :
    ∃ e : Edge, (∀ e2, e2 ∈ s1.allEdges ↔ e2 ∈ s.allEdges ∨ e2 = e) ∧ e ∉ s.allEdges ∧
      some e.m_sourceNode = source ∧ some e.m_destNode = destination ∧
      (e.m_secondary = true ↔
        ∃ e0 ∈ s.allEdges, some e0.m_destNode = destination ∧ e0.m_secondary = false) := by
  obtain ⟨ha1, hsrc2⟩ := State.bind_findNode hsrc
  obtain ⟨hb1, hdst2⟩ := State.bind_findNode hdst
  rw [Skel.addElem_addElem] at hsk
  refine ⟨GraphLogic.newEdge s src dst, ?_, ?_, ?_, ?_, ?_⟩
  · intro e2
    rw [State.mem_allEdges_skel, State.mem_allEdges_skel, hsk]
    constructor
    · rintro ⟨x, hx, hel⟩
      obtain ⟨y, hy, rfl⟩ := List.mem_map.mp hx
      rcases List.mem_append.mp hel with h1 | h1
      · exact Or.inl ⟨y, hy, h1⟩
      · right
        rcases List.mem_append.mp h1 with h2 | h2
        · split at h2
          · simp only [List.mem_singleton, EdgeElement.mk.injEq, and_true] at h2
            exact h2
          · simp at h2
        · split at h2
          · simp at h2
          · simp at h2
    · rintro (⟨x, hx, hel⟩ | rfl)
      · exact ⟨_, List.mem_map.mpr ⟨x, hx, rfl⟩, List.mem_append.mpr (Or.inl hel)⟩
      · refine ⟨_, List.mem_map.mpr ⟨_, State.findNode_skel hsrc2, rfl⟩, ?_⟩
        simp
  · intro hmem
    obtain ⟨x, hx, hel⟩ := State.mem_allEdges_skel.mp hmem
    have := (h.graph.fresh x hx).2 _ hel
    simp [GraphLogic.newEdge] at this
  · rw [ha1]; rfl
  · rw [hb1]; rfl
  · show (!(dst.edgesToThis true).isEmpty) = true ↔ _
    rw [Bool.not_eq_true', ← Bool.not_eq_true, Node.edgesToThis_isEmpty]
    constructor
    · intro hne
      obtain ⟨el, hel⟩ := List.exists_mem_of_ne_nil _ hne
      obtain ⟨hel1, hel2⟩ := List.mem_filter.mp hel
      simp only [EdgeElement.isParentLink, Bool.and_eq_true, Bool.not_eq_true'] at hel2
      have hmem := (State.findNode_some hdst2).1
      refine ⟨el.edge, h.edge_mem_allEdges hmem hel1, ?_, hel2.2⟩
      have hown := h.graph.own _ (State.mem_skel_of_mem hmem) el hel1
      simp only [EdgeElement.here, hel2.1, Bool.false_eq_true, if_false] at hown
      rw [hb1, hown]
    · rintro ⟨e0, he0, hd0, hs0⟩ hnil
      obtain ⟨_, ⟨n, hn, hel⟩⟩ := h.allEdges_incident he0
      rw [hb1] at hd0
      simp only [Option.some.injEq] at hd0
      rw [hd0, hdst2] at hn
      cases hn
      have : (⟨e0, false⟩ : EdgeElement) ∈ dst.m_edgeList.filter EdgeElement.isParentLink :=
        List.mem_filter.mpr ⟨hel, by simp [EdgeElement.isParentLink, hs0]⟩
      rw [hnil] at this
      simp at this

/-- C5: whenever `addEdge(source, destination)` makes an edge in a reachable
state (`GraphLogic::addEdge` or `GraphWidget::addEdge`), there is exactly one
new edge, it runs from `source` to `destination`, and its `secondary` flag is
true exactly if some non-secondary edge ended in `destination` immediately
before the call; in particular an edge into a node no edge ended in is not
secondary. -/
theorem addEdge_secondary_flag (s s1 : State) (hs : Reachable s) (source destination : Option Nat)
    (hcall : GraphLogic.addEdge source destination s = some s1 ∨
      GraphWidget.addEdge source destination s = some s1)
    (hnew : s1.allEdges ≠ s.allEdges) :
    ∃ e : Edge, (∀ e2, e2 ∈ s1.allEdges ↔ e2 ∈ s.allEdges ∨ e2 = e) ∧ e ∉ s.allEdges ∧
      some e.m_sourceNode = source ∧ some e.m_destNode = destination ∧
      (e.m_secondary = true ↔
        ∃ e0 ∈ s.allEdges, some e0.m_destNode = destination ∧ e0.m_secondary = false) ∧
      ((∀ e0 ∈ s.allEdges, some e0.m_destNode ≠ destination) → e.m_secondary = false) := by
  have hnew2 : s1.skel ≠ s.skel := fun hsk => hnew (State.allEdges_congr hsk)
  have key : ∃ e : Edge, (∀ e2, e2 ∈ s1.allEdges ↔ e2 ∈ s.allEdges ∨ e2 = e) ∧ e ∉ s.allEdges ∧
      some e.m_sourceNode = source ∧ some e.m_destNode = destination ∧
      (e.m_secondary = true ↔
        ∃ e0 ∈ s.allEdges, some e0.m_destNode = destination ∧ e0.m_secondary = false) := by
    rcases hcall with h1 | h1
    · obtain ⟨_, _, src, dst, _, _, _, hsrc, hdst, _, hsk, _⟩ :=
        GraphLogic.addEdge_created h1 hnew2
      exact hs.wf.newEdge_props hsrc hdst hsk
    · obtain ⟨_, src, dst, _, _, hsrc, hdst, _, hsk⟩ :=
        GraphWidget.widgetAddEdge_created h1 hnew2
      exact hs.wf.newEdge_props hsrc hdst hsk
  obtain ⟨e, h1, h2, h3, h4, h5⟩ := key
  refine ⟨e, h1, h2, h3, h4, h5, ?_⟩
  intro hnone
  cases hsec : e.m_secondary with
  | false => rfl
  | true =>
    obtain ⟨e0, he0, hd0, _⟩ := h5.mp hsec
    exact absurd hd0 (hnone e0 he0)

theorem addEdge_secondary_flag_witness :
    Reachable chainDoc ∧
    (GraphLogic.addEdge (some 1) (some 5) chainDoc = some chainShortcut ∨
      GraphWidget.addEdge (some 1) (some 5) chainDoc = some chainShortcut) ∧
    chainShortcut.allEdges ≠ chainDoc.allEdges ∧
    ∃ e : Edge, (∀ e2, e2 ∈ chainShortcut.allEdges ↔ e2 ∈ chainDoc.allEdges ∨ e2 = e) ∧
      e ∉ chainDoc.allEdges ∧
      some e.m_sourceNode = some 1 ∧ some e.m_destNode = some 5 ∧
      (e.m_secondary = true ↔
        ∃ e0 ∈ chainDoc.allEdges, some e0.m_destNode = some 5 ∧ e0.m_secondary = false) ∧
      ((∀ e0 ∈ chainDoc.allEdges, some e0.m_destNode ≠ some 5) → e.m_secondary = false) :=
  ⟨chainDoc_reachable, Or.inl (by decide), by decide,
    addEdge_secondary_flag chainDoc chainShortcut chainDoc_reachable (some 1) (some 5)
      (Or.inl (by decide)) (by decide)⟩

/-- C6 (amended): for every sequence of operations run on a new document and
every node `d`, a following `addEdge(x, d)` that makes an edge makes it
secondary if a non-secondary edge into `d` is present at that time, and
non-secondary if none is present, be it that no edge into `d` was ever made
or that the earlier ones have been removed or are all secondary. -/
theorem addEdge_into_same_destination (ops : List Op) (s2 s3 : State) (x d : Nat)
    (hops : runOps ops newDocument = some s2)
    (hadd : GraphLogic.addEdge (some x) (some d) s2 = some s3)
    (e : Edge) (he : e ∈ s3.allEdges) (hnew : e ∉ s2.allEdges) :
    e.m_sourceNode = x ∧ e.m_destNode = d ∧
    ((∃ e0 ∈ s2.allEdges, e0.m_destNode = d ∧ e0.m_secondary = false) → e.m_secondary = true) ∧
    ((∀ e0 ∈ s2.allEdges, e0.m_destNode = d → e0.m_secondary = true) →
      e.m_secondary = false) := by
  have hs2 : Reachable s2 := Reachable.of_runOps ops Reachable.init hops
  have hnew2 : s3.skel ≠ s2.skel := by
    intro hsk
    apply hnew
    rw [← State.allEdges_congr hsk]; exact he
  obtain ⟨_, _, src, dst, _, _, _, hsrc, hdst, _, hsk, _⟩ := GraphLogic.addEdge_created hadd hnew2
  obtain ⟨e1, h1, _, h3, h4, h5⟩ := hs2.wf.newEdge_props hsrc hdst hsk
  have hee : e = e1 := by
    rcases (h1 e).mp he with h | h
    · exact absurd h hnew
    · exact h
  subst hee
  simp only [Option.some.injEq] at h3 h4 h5
  refine ⟨h3, h4, ?_, ?_⟩
  · intro hex
    exact h5.mpr hex
  · intro hall
    cases hsec : e.m_secondary with
    | false => rfl
    | true =>
      obtain ⟨e0, he0, hd0, hs0⟩ := h5.mp hsec
      rw [hall e0 he0 hd0] at hs0
      exact absurd hs0 (by decide)

theorem addEdge_into_same_destination_witness :
    runOps [.insertNode, .insertNode, .insertNode] newDocument = some chainDoc ∧
    GraphLogic.addEdge (some 1) (some 5) chainDoc = some chainShortcut ∧
    (⟨7, 1, 5, true⟩ : Edge) ∈ chainShortcut.allEdges ∧
    (⟨7, 1, 5, true⟩ : Edge) ∉ chainDoc.allEdges ∧
    ((⟨7, 1, 5, true⟩ : Edge).m_sourceNode = 1 ∧ (⟨7, 1, 5, true⟩ : Edge).m_destNode = 5 ∧
    ((∃ e0 ∈ chainDoc.allEdges, e0.m_destNode = 5 ∧ e0.m_secondary = false) →
      (⟨7, 1, 5, true⟩ : Edge).m_secondary = true) ∧
    ((∀ e0 ∈ chainDoc.allEdges, e0.m_destNode = 5 → e0.m_secondary = true) →
      (⟨7, 1, 5, true⟩ : Edge).m_secondary = false)) :=
  ⟨by decide, by decide, by decide, by decide,
    addEdge_into_same_destination [.insertNode, .insertNode, .insertNode] chainDoc chainShortcut
      1 5 (by decide) (by decide) ⟨7, 1, 5, true⟩ (by decide) (by decide)⟩

theorem oneChildDoc_reachable : Reachable oneChildDoc :=
  Reachable.of_runOps [.insertNode] Reachable.init (by decide)

/-- C6 as stated fails: after `insertNode` has made the edge 0 -> 1 into node
1 and that edge has been deleted again (Escape, D, pick the root), the next
successful `addEdge(0, 1)` makes an edge that is not secondary. -/
theorem later_edge_not_secondary_counterexample :
    ¬ ∀ (s1 s2 s3 : State) (ops : List Op) (x d : Nat), Reachable s1 →
      (∃ e ∈ s1.allEdges, e.m_destNode = d) → runOps ops s1 = some s2 →
      GraphLogic.addEdge (some x) (some d) s2 = some s3 →
      ∀ e ∈ s3.allEdges, e ∉ s2.allEdges → e.m_secondary = true := by
  intro h
  have h1 := h oneChildDoc rootPairDoc rootPairJoined
    [.nodeLostFocus, .removeEdgeSlot, .selectNode (some 0)] 0 1 oneChildDoc_reachable
    (by decide) (by decide) (by decide) ⟨3, 0, 1, false⟩ (by decide) (by decide)
  exact absurd h1 (by decide)

/-! ### The list of all edges -/

/-- In a well-formed state `allEdges` lists every edge once. -/
theorem WF.allEdges_nodup {s : State} (h : WF s) : s.allEdges.Nodup := by
  rw [State.allEdges_eq_skel]
  apply List.nodup_flatMap.mpr
  constructor
  · intro x hx
    apply List.Nodup.map_on
    · intro a ha b hb hab
      have ha1 := List.mem_filter.mp ha
      have hb1 := List.mem_filter.mp hb
      apply EdgeElement.ext_iff2.mpr
      exact ⟨hab, by rw [ha1.2, hb1.2]⟩
    · exact ((h.graph.keys x hx).of_map _).filter _
  · have hnd : s.skel.Nodup := h.graph.nodup.of_map _
    apply hnd.pairwise_of_forall_ne
    intro x hx y hy hxy
    intro e hex hey
    obtain ⟨a, ha, rfl⟩ := List.mem_map.mp hex
    obtain ⟨b, hb, hab⟩ := List.mem_map.mp hey
    have ha1 := List.mem_filter.mp ha
    have hb1 := List.mem_filter.mp hb
    have hoa := h.graph.own x hx a ha1.1
    have hob := h.graph.own y hy b hb1.1
    simp only [EdgeElement.here, ha1.2, if_true] at hoa
    simp only [EdgeElement.here, hb1.2, if_true] at hob
    apply hxy
    apply Skel.eq_of_fst_eq h.graph.nodup hx hy
    rw [← hoa, ← hob, hab]

theorem State.allEdges_of_filterEdges {s t : State} (k : Edge → Bool)
    (hsk : t.skel = Skel.filterEdges s.skel k) : t.allEdges = s.allEdges.filter k := by
  rw [State.allEdges_eq_skel, State.allEdges_eq_skel, hsk]
  unfold Skel.filterEdges
  generalize s.skel = g
  induction g with
  | nil => rfl
  | cons x rest ih =>
    simp only [List.map_cons, List.flatMap_cons, List.filter_append]
    rw [ih]
    congr 1
    rw [List.filter_map, List.filter_filter, List.filter_filter]
    congr 1
    apply List.filter_congr
    intro el _
    simp [Function.comp, Bool.and_comm]

/-- Taking one edge out of a well-formed state, seen on `allEdges`. -/
theorem WF.allEdges_remove {s t : State} (h : WF s) {e : Edge} (he : e ∈ s.allEdges)
    (hsk : t.skel = Skel.filterEdges s.skel (fun e2 => e2.id != e.id)) :
    t.allEdges = s.allEdges.filter (fun e2 => e2 != e) ∧
      t.allEdges.length + 1 = s.allEdges.length := by
  have h1 : t.allEdges = s.allEdges.filter (fun e2 => e2 != e) := by
    rw [State.allEdges_of_filterEdges _ hsk]
    apply List.filter_congr
    intro e2 he2
    obtain ⟨x, hx, hel⟩ := State.mem_allEdges_skel.mp he
    obtain ⟨y, hy, hel2⟩ := State.mem_allEdges_skel.mp he2
    by_cases hid : e2.id = e.id
    · have : e2 = e := h.graph.sameId y hy x hx _ hel2 _ hel hid
      subst this
      simp
    · have hne : e2 ≠ e := fun hc => hid (by rw [hc])
      have h1 : (e2.id != e.id) = true := bne_iff_ne.mpr hid
      have h2 : (e2 != e) = true := bne_iff_ne.mpr hne
      rw [h1, h2]
  refine ⟨h1, ?_⟩
  rw [h1, ← h.allEdges_nodup.erase_eq_filter, List.length_erase_of_mem he]
  have : 0 < s.allEdges.length := List.length_pos_of_mem he
  omega

/-- What `removeEdge(a, b)` does in a reachable state with an active node:
the call is defined.  If `a->isConnected(b)` is false it removes nothing and
notifies "There no edge between these two nodes.".  If it is true, "content
changed" is signalled and either exactly one edge is removed, an edge with
ends `a` and `b` in whichever direction it was stored, every other edge
staying in place; or `a = b`, no edge runs from `a` to `a`, and nothing is
removed (the node is connected to itself through its other edges).  For
`a ≠ b` it is always the first case. -/
theorem removeEdge_effect (s : State) (hs : Reachable s) (a b : Nat) (n : Node)
    (hact : s.m_activeNode ≠ none) (hn : s.findNode a = some n) (hb : b ∈ s.ids) :
    ∃ t, GraphLogic.removeEdge (some a) (some b) s = some t ∧
      (n.isConnected (some b) = false →
        t.skel = s.skel ∧ t.allEdges = s.allEdges ∧
          t.signals = s.signals ++ [.notification .noSuchEdge]) ∧
      (n.isConnected (some b) = true →
        t.signals = s.signals ++ [.contentChanged] ∧
        ((∃ e ∈ s.allEdges,
            ((e.m_sourceNode = a ∧ e.m_destNode = b) ∨ (e.m_sourceNode = b ∧ e.m_destNode = a)) ∧
            t.skel = Skel.filterEdges s.skel (fun e2 => e2.id != e.id) ∧
            t.allEdges = s.allEdges.filter (fun e2 => e2 != e) ∧
            t.allEdges.length + 1 = s.allEdges.length) ∨
         (a = b ∧ (∀ e ∈ s.allEdges, ¬ (e.m_sourceNode = a ∧ e.m_destNode = a)) ∧
            t.skel = s.skel ∧ t.allEdges = s.allEdges))) ∧
      (n.isConnected (some b) = true → a ≠ b →
        ∃ e ∈ s.allEdges,
          ((e.m_sourceNode = a ∧ e.m_destNode = b) ∨ (e.m_sourceNode = b ∧ e.m_destNode = a)) ∧
          t.allEdges = s.allEdges.filter (fun e2 => e2 != e) ∧
          t.allEdges.length + 1 = s.allEdges.length) := by
  have h := hs.wf
  obtain ⟨hnm, hnid⟩ := State.findNode_some hn
  obtain ⟨act, ha⟩ := Option.ne_none_iff_exists'.mp hact
  have hn2 : s.findNode n.id = some n := by rw [hnid]; exact hn
  obtain ⟨hg, hids⟩ := h.graph_deleteEdge hn2 (some b)
  -- the call is defined
  have hex : ∃ t, GraphLogic.removeEdge (some a) (some b) s = some t := by
    unfold GraphLogic.removeEdge
    rw [ha]
    simp only [Option.some_bind, hn]
    by_cases hc : n.isConnected (some b) = true
    · obtain ⟨t1, ht1⟩ := GraphLogic.setActiveNode_defined (some b) (n.deleteEdge (some b) s)
        (fun p hp => by
          rw [Node.deleteEdge_activeNode] at hp
          rw [hids]; exact h.activeLive p hp)
        (fun p hp => by cases hp; rw [hids]; exact hb)
      simp [hc, ht1]
    · obtain ⟨t1, ht1⟩ := GraphLogic.setActiveNode_defined (some b) s h.activeLive
        (fun p hp => by cases hp; exact hb)
      simp [hc, ht1]
  obtain ⟨t, ht⟩ := hex
  have hfirst : n.isConnected (some b) = true →
      t.signals = s.signals ++ [.contentChanged] ∧
      ((∃ e ∈ s.allEdges,
          ((e.m_sourceNode = a ∧ e.m_destNode = b) ∨ (e.m_sourceNode = b ∧ e.m_destNode = a)) ∧
          t.skel = Skel.filterEdges s.skel (fun e2 => e2.id != e.id) ∧
          t.allEdges = s.allEdges.filter (fun e2 => e2 != e) ∧
          t.allEdges.length + 1 = s.allEdges.length) ∨
       (a = b ∧ (∀ e ∈ s.allEdges, ¬ (e.m_sourceNode = a ∧ e.m_destNode = a)) ∧
          t.skel = s.skel ∧ t.allEdges = s.allEdges)) := by
    intro hc
    rcases GraphLogic.removeEdge_spec ht with ⟨hnone, _⟩ | ⟨_, src, _, hsrc, hcase⟩
    · rw [ha] at hnone; cases hnone
    · simp only [Option.some_bind, hn, Option.some.injEq] at hsrc
      subst hsrc
      rcases hcase with ⟨hc2, _⟩ | ⟨_, hsk, _, l, hl⟩
      · rw [hc] at hc2; cases hc2
      · refine ⟨by rw [hl], ?_⟩
        rw [Node.skel_deleteEdge] at hsk
        cases hfind : n.m_edgeList.find? (n.deleteEdgeTest (some b)) with
        | some el =>
          left
          rw [hfind] at hsk
          simp only at hsk
          have hel : el ∈ n.m_edgeList := List.mem_of_find?_eq_some hfind
          have htest := List.find?_some hfind
          rw [h.graph.destroyEdge_of_mem (State.findNode_skel hn2) hel] at hsk
          have hemem := h.edge_mem_allEdges hnm hel
          obtain ⟨h1, h2⟩ := h.allEdges_remove hemem hsk
          refine ⟨el.edge, hemem, ?_, hsk, h1, h2⟩
          simp only [Node.deleteEdgeTest, Bool.or_eq_true, Bool.and_eq_true, beq_iff_eq,
            Option.some.injEq, hnid] at htest
          rcases htest with ⟨h3, h4⟩ | ⟨h3, h4⟩
          · exact Or.inr ⟨h3, h4⟩
          · exact Or.inl ⟨h3, h4⟩
        | none =>
          right
          rw [hfind] at hsk
          simp only at hsk
          have hnone : ∀ el ∈ n.m_edgeList, n.deleteEdgeTest (some b) el = false := by
            intro el hel
            have := List.find?_eq_none.mp hfind el hel
            simpa using this
          have hab : a = b := by
            by_contra hab
            unfold Node.isConnected at hc
            obtain ⟨el, hel, hp⟩ := List.any_eq_true.mp hc
            simp only [Bool.or_eq_true, beq_iff_eq, Option.some.injEq] at hp
            have hown := h.graph.own _ (State.mem_skel_of_mem hnm) el hel
            simp only [hnid] at hown
            have ht2 := hnone el hel
            simp only [Node.deleteEdgeTest, Bool.or_eq_false_iff, Bool.and_eq_false_imp,
              beq_iff_eq, Option.some.injEq, hnid, beq_eq_false_iff_ne, ne_eq] at ht2
            unfold EdgeElement.here at hown
            split at hown
            · rcases hp with hp | hp
              · exact hab (hown.symm.trans hp)
              · exact ht2.2 hown hp
            · rcases hp with hp | hp
              · exact ht2.1 hp hown
              · exact hab (hown.symm.trans hp)
          refine ⟨hab, ?_, hsk, State.allEdges_congr hsk⟩
          rintro e he ⟨hes, hed⟩
          obtain ⟨⟨n1, hn1, hel1⟩, _⟩ := h.allEdges_incident he
          rw [hes, hn] at hn1
          cases hn1
          have ht2 := hnone _ hel1
          simp [Node.deleteEdgeTest, hnid, hes, hed, hab] at ht2
  refine ⟨t, ht, ?_, hfirst, ?_⟩
  · intro hc
    rcases GraphLogic.removeEdge_spec ht with ⟨hnone, _⟩ | ⟨_, src, _, hsrc, hcase⟩
    · rw [ha] at hnone; cases hnone
    · simp only [Option.some_bind, hn, Option.some.injEq] at hsrc
      subst hsrc
      rcases hcase with ⟨_, hsk, _, l, hl⟩ | ⟨hc2, _⟩
      · exact ⟨hsk, State.allEdges_congr hsk, by rw [hl]⟩
      · rw [hc] at hc2; cases hc2
  · intro hc hab
    rcases (hfirst hc).2 with ⟨e, he, hends, _, h1, h2⟩ | ⟨hab2, _⟩
    · exact ⟨e, he, hends, h1, h2⟩
    · exact absurd hab2 hab

theorem removeEdge_effect_witness :
    Reachable chainDoc ∧ chainDoc.m_activeNode ≠ none ∧
    chainDoc.findNode 3 = some ((chainDoc.findNode 3).getD { id := 0 }) ∧ 5 ∈ chainDoc.ids ∧
    ∃ t, GraphLogic.removeEdge (some 3) (some 5) chainDoc = some t ∧
      (((chainDoc.findNode 3).getD { id := 0 }).isConnected (some 5) = false →
        t.skel = chainDoc.skel ∧ t.allEdges = chainDoc.allEdges ∧
          t.signals = chainDoc.signals ++ [.notification .noSuchEdge]) ∧
      (((chainDoc.findNode 3).getD { id := 0 }).isConnected (some 5) = true →
        t.signals = chainDoc.signals ++ [.contentChanged] ∧
        ((∃ e ∈ chainDoc.allEdges,
            ((e.m_sourceNode = 3 ∧ e.m_destNode = 5) ∨ (e.m_sourceNode = 5 ∧ e.m_destNode = 3)) ∧
            t.skel = Skel.filterEdges chainDoc.skel (fun e2 => e2.id != e.id) ∧
            t.allEdges = chainDoc.allEdges.filter (fun e2 => e2 != e) ∧
            t.allEdges.length + 1 = chainDoc.allEdges.length) ∨
         (3 = 5 ∧ (∀ e ∈ chainDoc.allEdges, ¬ (e.m_sourceNode = 3 ∧ e.m_destNode = 3)) ∧
            t.skel = chainDoc.skel ∧ t.allEdges = chainDoc.allEdges))) ∧
      (((chainDoc.findNode 3).getD { id := 0 }).isConnected (some 5) = true → 3 ≠ 5 →
        ∃ e ∈ chainDoc.allEdges,
          ((e.m_sourceNode = 3 ∧ e.m_destNode = 5) ∨ (e.m_sourceNode = 5 ∧ e.m_destNode = 3)) ∧
          t.allEdges = chainDoc.allEdges.filter (fun e2 => e2 != e) ∧
          t.allEdges.length + 1 = chainDoc.allEdges.length) :=
  ⟨chainDoc_reachable, by decide, by decide, by decide,
    removeEdge_effect chainDoc chainDoc_reachable 3 5 _ (by decide) (by decide) (by decide)⟩

/-- A true `isConnected` does not by itself mean that an edge is removed:
node 5 of the chain is the active node and `isConnected(5, 5)` is true
(through the edge 3 -> 5), but `removeEdge(5, 5)` removes no edge. -/
theorem removeEdge_self_counterexample :
    ¬ ∀ (s t : State) (a b : Nat) (n : Node), Reachable s → s.m_activeNode ≠ none →
      s.findNode a = some n → b ∈ s.ids →
      GraphLogic.removeEdge (some a) (some b) s = some t →
      n.isConnected (some b) = true → t.allEdges.length + 1 = s.allEdges.length := by
  intro h
  have h1 := h chainDoc ((GraphLogic.removeEdge (some 5) (some 5) chainDoc).getD chainDoc) 5 5
    ((chainDoc.findNode 5).getD { id := 0 }) chainDoc_reachable (by decide) (by decide)
    (by decide) (by decide) (by decide)
  revert h1
  decide

/-- C7, where the code departs from it: in the chain 0 -> 1 -> 3 -> 5 with
node 5 active, `isConnected(5, 5)` is true (through the edge 3 -> 5) although
no edge runs from node 5 to node 5.  `removeEdge(5, 5)` therefore takes the
branch that deletes, `Node::deleteEdge` finds no edge whose two ends are node
5, and the call ends with every edge in place, "content changed" signalled
and no notification that there is no such edge. -/
theorem removeEdge_self_slip :
    ((chainDoc.findNode 5).getD { id := 0 }).isConnected (some 5) = true ∧
    (∀ e ∈ chainDoc.allEdges, ¬ (e.m_sourceNode = 5 ∧ e.m_destNode = 5)) ∧
    ∃ t, GraphLogic.removeEdge (some 5) (some 5) chainDoc = some t ∧
      t.allEdges = chainDoc.allEdges ∧ t.skel = chainDoc.skel ∧
      t.signals = chainDoc.signals ++ [.contentChanged] :=
  ⟨by decide, by decide,
    (GraphLogic.removeEdge (some 5) (some 5) chainDoc).getD chainDoc,
    by decide, by decide, by decide, by decide⟩

/-! ### `removeNode` in detail -/

theorem GraphLogic.selectNode_noActive {s t : State} {node : Option Nat}
    (hr : GraphLogic.selectNode node s = some t) (ha : s.m_activeNode = none) :
    t.skel = s.skel := by
  unfold GraphLogic.selectNode at hr
  simp only at hr
  have hsk1 : State.skel ({ GraphLogic.showingAllNodeNumbers false s with
      m_showingNodeNumbers := false } : State) = s.skel :=
    GraphLogic.skel_showingAllNodeNumbers false s
  have ha1 : State.m_activeNode ({ GraphLogic.showingAllNodeNumbers false s with
      m_showingNodeNumbers := false } : State) = none := ha
  split at hr
  · obtain ⟨t1, ht1, rfl⟩ := Option.map_eq_some'.mp hr
    unfold GraphLogic.addEdge at ht1
    rw [ha1] at ht1
    simp only [Option.some.injEq] at ht1
    subst ht1
    exact hsk1
  · split at hr
    · obtain ⟨t1, ht1, rfl⟩ := Option.map_eq_some'.mp hr
      unfold GraphLogic.removeEdge at ht1
      rw [ha1] at ht1
      simp only [Option.some.injEq] at ht1
      subst ht1
      exact hsk1
    · rw [(GraphLogic.setActiveNode_spec hr).1]
      exact hsk1

theorem GraphLogic.beginWith_noActive {s t : State} {number : Nat} {b : Bool}
    (hr : GraphLogic.showingNodeNumbersBeginWithNumber number b s = some t)
    (ha : s.m_activeNode = none) :
    t.skel = s.skel := by
  unfold GraphLogic.showingNodeNumbersBeginWithNumber at hr
  have hsk1 := GraphLogic.beginWithLoop_skel number b 0 s.m_nodeList s.m_hintNode
  simp only at hr
  split at hr
  · rw [GraphLogic.selectNode_noActive hr ha]
    exact hsk1
  · split at hr
    · simp only [Option.some.injEq] at hr
      subst hr
      rw [GraphLogic.skel_showingAllNodeNumbers]
      exact hsk1
    · simp only [Option.some.injEq] at hr
      subst hr
      exact hsk1

theorem GraphLogic.showNodeNumbers_noActive {s t : State} (ha : s.m_activeNode = none)
    (hr : GraphLogic.showNodeNumbers s = some t) :
    t.skel = s.skel ∧ (s.m_hintNumber = [] → t.m_activeNode = none) := by
  unfold GraphLogic.showNodeNumbers at hr
  split at hr
  · split at hr
    · simp at hr
    · rename_i first rest hl
      simp only [Option.some.injEq] at hr
      subst hr
      refine ⟨?_, fun _ => ha⟩
      rw [← GraphLogic.skel_showingAllNodeNumbers true s]
      simp only [State.skel, hl, List.map_cons]
      rfl
  · rename_i hne
    refine ⟨?_, ?_⟩
    · rw [GraphLogic.beginWith_noActive hr ha]
      exact GraphLogic.skel_showingAllNodeNumbers false s
    · intro hnil
      rw [hnil] at hne
      simp at hne

theorem GraphLogic.ids_showingAllNodeNumbers (b : Bool) (s : State) :
    (GraphLogic.showingAllNodeNumbers b s).ids = s.ids := by
  rw [State.ids_eq_skel_ids, GraphLogic.skel_showingAllNodeNumbers, ← State.ids_eq_skel_ids]

/-- With no active node `selectNode` is defined for a null or live pointer. -/
theorem GraphLogic.selectNode_defined_noActive {s : State} {node : Option Nat}
    (ha : s.m_activeNode = none) (hnode : ∀ p, node = some p → p ∈ s.ids) :
    ∃ t, GraphLogic.selectNode node s = some t := by
  unfold GraphLogic.selectNode
  simp only
  have ha1 : State.m_activeNode ({ GraphLogic.showingAllNodeNumbers false s with
      m_showingNodeNumbers := false } : State) = none := ha
  split
  · unfold GraphLogic.addEdge
    rw [ha1]
    exact ⟨_, rfl⟩
  · split
    · unfold GraphLogic.removeEdge
      rw [ha1]
      exact ⟨_, rfl⟩
    · apply GraphLogic.setActiveNode_defined
      · intro a hc
        rw [ha1] at hc; cases hc
      · intro p hp
        show p ∈ (GraphLogic.showingAllNodeNumbers false s).ids
        rw [GraphLogic.ids_showingAllNodeNumbers]
        exact hnode p hp

/-- In a well-formed state with no active node the refresh of the hint numbers
is defined. -/
theorem WF.showNodeNumbers_defined {s : State} (h : WF s) (ha : s.m_activeNode = none) :
    ∃ t, GraphLogic.showNodeNumbers s = some t := by
  unfold GraphLogic.showNodeNumbers
  split
  · obtain ⟨first, hf, _⟩ := (h.showingAllNodeNumbers true).exists_head
    cases hl : (GraphLogic.showingAllNodeNumbers true s).m_nodeList with
    | nil => rw [hl] at hf; simp at hf
    | cons a rest => exact ⟨_, rfl⟩
  · have h0 := h.showingAllNodeNumbers false
    have h1 := h0.beginWithLoop (QString.toInt s.m_hintNumber) true
    unfold GraphLogic.showingNodeNumbersBeginWithNumber
    simp only
    split
    · exact GraphLogic.selectNode_defined_noActive ha h1.hintLive
    · split
      · exact ⟨_, rfl⟩
      · exact ⟨_, rfl⟩

theorem Skel.mem_removeNodes {g : Skel} {dead : List Nat} {x : Nat × List EdgeElement}
    (h : x ∈ Skel.removeNodes g dead) :
    ∃ y ∈ g, y.1 ∉ dead ∧ x = (y.1, y.2.filter (fun el =>
      !dead.contains el.edge.m_sourceNode && !dead.contains el.edge.m_destNode)) := by
  unfold Skel.removeNodes at h
  obtain ⟨y, hy, rfl⟩ := Skel.mem_filterEdges.mp h
  obtain ⟨hy1, hy2⟩ := List.mem_filter.mp hy
  exact ⟨y, hy1, by simpa using hy2, rfl⟩

/-- `delete node` is defined for a live node that has no edge to itself. -/
theorem GraphLogic.deleteListed_defined {s : State} {p : Nat} {n : Node}
    (hg : GraphOK s.skel s.nextId) (hn : s.findNode p = some n)
    (hloop : ∀ el ∈ n.m_edgeList, el.edge.m_sourceNode ≠ el.edge.m_destNode) :
    ∃ t, GraphLogic.deleteListed p s = some t := by
  unfold GraphLogic.deleteListed
  rw [hn]
  simp only
  unfold Node.destroy
  have hx := State.findNode_skel hn
  have hnd : (n.m_edgeList.map (fun el => el.edge.id)).Nodup := by
    apply List.Nodup.map_on
    · intro a ha b hb hab
      have hedge := hg.sameId _ hx _ hx a ha b hb hab
      have hoa := hg.own _ hx a ha
      have hob := hg.own _ hx b hb
      apply EdgeElement.ext_iff2.mpr
      refine ⟨hedge, ?_⟩
      by_contra hst
      apply hloop a ha
      unfold EdgeElement.here at hoa hob
      rw [← hedge] at hob
      cases hsa : a.startsFromThisNode <;> cases hsb : b.startsFromThisNode <;>
        simp_all
    · exact (hg.keys _ hx).of_map _
  rw [if_pos hnd]
  exact ⟨_, rfl⟩

/-- The loop of `removeNode` is defined when the listed nodes are live,
distinct and without edges to themselves. -/
theorem GraphLogic.deleteAll_defined :
    ∀ (dead : List Nat) (s : State), GraphOK s.skel s.nextId → 0 ∉ dead → dead.Nodup →
      (∀ p ∈ dead, p ∈ s.ids) →
      (∀ x ∈ s.skel, x.1 ∈ dead → ∀ el ∈ x.2, el.edge.m_sourceNode ≠ el.edge.m_destNode) →
      ∃ t, GraphLogic.deleteAll dead s = some t
  | [], s, _, _, _, _, _ => ⟨s, rfl⟩
  | p :: rest, s, hg, h0, hnd, hlive, hloop => by
    obtain ⟨n, hn⟩ := State.exists_findNode (hlive p (List.mem_cons_self _ _))
    obtain ⟨s1, hs1⟩ := GraphLogic.deleteListed_defined hg hn
      (hloop _ (State.findNode_skel hn) (List.mem_cons_self _ _))
    obtain ⟨_, hsk1, l1, hl1⟩ := GraphLogic.deleteListed_spec hg hs1
    have hp0 : (0 : Nat) ∉ [p] := by
      intro hc; apply h0; simp at hc; simp [hc]
    have hg1 : GraphOK s1.skel s1.nextId := by
      rw [hsk1]
      have : s1.nextId = s.nextId := by rw [hl1]
      rw [this]
      exact hg.removeNodes [p] hp0
    have hnd2 := List.nodup_cons.mp hnd
    obtain ⟨t, ht⟩ := GraphLogic.deleteAll_defined rest s1 hg1
      (fun hc => h0 (List.mem_cons_of_mem _ hc)) hnd2.2
      (by
        intro q hq
        rw [State.ids_eq_skel_ids, hsk1, Skel.ids_removeNodes, ← State.ids_eq_skel_ids]
        apply List.mem_filter.mpr
        refine ⟨hlive q (List.mem_cons_of_mem _ hq), ?_⟩
        have : q ≠ p := fun hc => hnd2.1 (hc ▸ hq)
        simpa using this)
      (by
        intro x hx hxr el hel
        rw [hsk1] at hx
        obtain ⟨y, hy, _, rfl⟩ := Skel.mem_removeNodes hx
        exact hloop y hy (List.mem_cons_of_mem _ hxr) el (List.mem_filter.mp hel).1)
    refine ⟨t, ?_⟩
    unfold GraphLogic.deleteAll
    rw [hs1]
    exact ht

/-- The edges left after nodes have been removed from a well-formed state. -/
theorem WF.allEdges_removeNodes {s t : State} (h : WF s) {dead : List Nat}
    (hsk : t.skel = Skel.removeNodes s.skel dead) (e : Edge) :
    e ∈ t.allEdges ↔ e ∈ s.allEdges ∧ e.m_sourceNode ∉ dead ∧ e.m_destNode ∉ dead := by
  rw [State.mem_allEdges_skel, State.mem_allEdges_skel, hsk]
  constructor
  · rintro ⟨x, hx, hel⟩
    obtain ⟨y, hy, _, rfl⟩ := Skel.mem_removeNodes hx
    obtain ⟨hel1, hel2⟩ := List.mem_filter.mp hel
    exact ⟨⟨y, hy, hel1⟩, by simpa using hel2⟩
  · rintro ⟨⟨x, hx, hel⟩, hs1, hd1⟩
    have hown := h.graph.own x hx _ hel
    simp only [EdgeElement.here, if_true] at hown
    refine ⟨(x.1, x.2.filter (fun el =>
      !dead.contains el.edge.m_sourceNode && !dead.contains el.edge.m_destNode)), ?_, ?_⟩
    · unfold Skel.removeNodes
      apply Skel.mem_filterEdges.mpr
      refine ⟨x, List.mem_filter.mpr ⟨hx, ?_⟩, rfl⟩
      rw [← hown]; simpa using hs1
    · apply List.mem_filter.mpr
      exact ⟨hel, by simpa using ⟨hs1, hd1⟩⟩

/-- C8 (amended): let `n` be the active node of a reachable state, not the
root, and `dead` the nodes `removeNode` is to delete (`n` alone, or its subtree
with Ctrl+Shift).  Whenever `removeNode` returns: `n` and the other nodes of
`dead` have left the node list, the remaining nodes keep their order, the
incidence list of every remaining node is its old list without the edges that
touched a deleted node (so no remaining edge has `n` as source or
destination, and every other edge is where it was), `allEdges` are the old
edges with both ends alive, and the active-node reference is empty provided
hint mode is off or no digit has been typed (otherwise the refresh of the hint
numbers may select a node).  `removeNode` does return when no deleted node has
an edge to itself. -/
theorem removeNode_effect (s : State) (hs : Reachable s) (n : Nat) (mods : KeyboardModifiers)
    (dead : List Nat) (hact : s.m_activeNode = some n)
    (hroot : s.m_nodeList.head?.map (fun m => m.id) ≠ some n)
    (hdead : dead = if (mods.control && mods.shift) = true then s.subtree n else [n]) :
    (∀ t, GraphLogic.removeNode mods s = some t →
      n ∈ dead ∧ t.skel = Skel.removeNodes s.skel dead ∧ n ∉ t.ids ∧
      t.ids = s.ids.filter (fun p => !dead.contains p) ∧
      (∀ m ∈ t.m_nodeList, ∀ el ∈ m.m_edgeList,
        el.edge.m_sourceNode ∉ dead ∧ el.edge.m_destNode ∉ dead) ∧
      (∀ m ∈ t.m_nodeList, ∃ m0 ∈ s.m_nodeList, m0.id = m.id ∧
        m.m_edgeList = m0.m_edgeList.filter (fun el =>
          !dead.contains el.edge.m_sourceNode && !dead.contains el.edge.m_destNode)) ∧
      (∀ e, e ∈ t.allEdges ↔ e ∈ s.allEdges ∧ e.m_sourceNode ∉ dead ∧ e.m_destNode ∉ dead) ∧
      ((s.m_showingNodeNumbers = false ∨ s.m_hintNumber = []) → t.m_activeNode = none)) ∧
    ((∀ m ∈ s.m_nodeList, m.id ∈ dead →
        ∀ el ∈ m.m_edgeList, el.edge.m_sourceNode ≠ el.edge.m_destNode) →
      ∃ t, GraphLogic.removeNode mods s = some t) := by
  have h := hs.wf
  obtain ⟨first, hf, hf0⟩ := h.exists_head
  have hne : ¬ n = first.id := by
    intro hc; apply hroot; rw [hf, hc]; rfl
  have hn0 : n ≠ 0 := by rw [← hf0]; exact hne
  have h0 : 0 ∉ dead := by rw [hdead]; exact h.removeList_ne_root hn0 mods
  have hnmem : n ∈ dead := by
    rw [hdead]; split
    · exact State.self_mem_subtree s n
    · simp
  constructor
  · intro t hr
    unfold GraphLogic.removeNode at hr
    rw [hact, hf] at hr
    simp only [if_neg hne, ← hdead] at hr
    cases hda : GraphLogic.deleteAll dead s with
    | none => rw [hda] at hr; simp at hr
    | some s1 =>
      rw [hda] at hr
      simp only at hr
      obtain ⟨hsk1, l, hl⟩ := GraphLogic.deleteAll_spec dead h.graph h0 hda
      have hshow : s1.m_showingNodeNumbers = s.m_showingNodeNumbers := by rw [hl]
      have hnum : s1.m_hintNumber = s.m_hintNumber := by rw [hl]
      have hfin : t.skel = s1.skel ∧
          ((s.m_showingNodeNumbers = false ∨ s.m_hintNumber = []) → t.m_activeNode = none) := by
        by_cases hsh : s1.m_showingNodeNumbers = true
        · have hsh2 : (({ s1 with m_activeNode := none } : State).emit
              .contentChanged).m_showingNodeNumbers = true := hsh
          rw [if_pos hsh2] at hr
          obtain ⟨hsk, hnone⟩ := GraphLogic.showNodeNumbers_noActive rfl hr
          refine ⟨hsk, ?_⟩
          rintro (hc | hc)
          · rw [hshow, hc] at hsh; cases hsh
          · apply hnone
            show s1.m_hintNumber = []
            rw [hnum]; exact hc
        · have hsh2 : ¬ (({ s1 with m_activeNode := none } : State).emit
              .contentChanged).m_showingNodeNumbers = true := hsh
          rw [if_neg hsh2] at hr
          simp only [Option.some.injEq] at hr
          subst hr
          exact ⟨rfl, fun _ => rfl⟩
      have hsk : t.skel = Skel.removeNodes s.skel dead := by rw [hfin.1, hsk1]
      have hids : t.ids = s.ids.filter (fun p => !dead.contains p) := by
        rw [State.ids_eq_skel_ids, hsk, Skel.ids_removeNodes, ← State.ids_eq_skel_ids]
      have hnodes : ∀ m ∈ t.m_nodeList, ∃ m0 ∈ s.m_nodeList, m0.id = m.id ∧
          m.m_edgeList = m0.m_edgeList.filter (fun el =>
            !dead.contains el.edge.m_sourceNode && !dead.contains el.edge.m_destNode) := by
        intro m hm
        have hmem := State.mem_skel_of_mem hm
        rw [hsk] at hmem
        obtain ⟨y, hy, _, hxy⟩ := Skel.mem_removeNodes hmem
        obtain ⟨m0, hm0, hm0id, hm0l⟩ := State.mem_skel hy
        refine ⟨m0, hm0, ?_, ?_⟩
        · rw [hm0id]; exact (congrArg Prod.fst hxy).symm
        · rw [hm0l]; exact congrArg Prod.snd hxy
      refine ⟨hnmem, hsk, ?_, hids, ?_, hnodes, h.allEdges_removeNodes hsk, hfin.2⟩
      · rw [hids]
        intro hc
        have := (List.mem_filter.mp hc).2
        simp only [Bool.not_eq_true', List.contains_eq_any_beq, List.any_eq_false, beq_iff_eq]
          at this
        exact this n hnmem rfl
      · intro m hm el hel
        obtain ⟨m0, _, _, hml⟩ := hnodes m hm
        rw [hml] at hel
        simpa using (List.mem_filter.mp hel).2
  · intro hloop
    have hnd : dead.Nodup := by
      rw [hdead]; split
      · exact State.nodup_subtree s n
      · simp
    have hlive : ∀ p ∈ dead, p ∈ s.ids := by
      rw [hdead]; split
      · exact h.subtree_live (h.activeLive n hact)
      · intro p hp
        simp only [List.mem_singleton] at hp
        rw [hp]; exact h.activeLive n hact
    obtain ⟨s1, hs1⟩ := GraphLogic.deleteAll_defined dead s h.graph h0 hnd hlive
      (by
        intro x hx hxd el hel
        obtain ⟨m, hm, hmid, hml⟩ := State.mem_skel hx
        exact hloop m hm (by rw [hmid]; exact hxd) el (by rw [hml]; exact hel))
    have h2 := h.afterDelete h0 hs1
    unfold GraphLogic.removeNode
    rw [hact, hf]
    simp only [if_neg hne, ← hdead, hs1]
    split
    · exact h2.showNodeNumbers_defined rfl
    · exact ⟨_, rfl⟩

theorem chainAtOne_reachable : Reachable chainAtOne :=
  Reachable.of_runOps chainAtOneOps Reachable.init (by decide)

theorem hintDoc_reachable : Reachable hintDoc :=
  Reachable.of_runOps hintDocOps Reachable.init (by decide)

theorem selfLoopDoc_reachable : Reachable selfLoopDoc :=
  Reachable.of_runOps selfLoopOps Reachable.init (by decide)

theorem removeNode_effect_witness :
    Reachable chainAtOne ∧ chainAtOne.m_activeNode = some 1 ∧
    chainAtOne.m_nodeList.head?.map (fun m => m.id) ≠ some 1 ∧
    [1, 3, 5] = (if (true && true) = true then chainAtOne.subtree 1 else [1]) ∧
    ((∀ t, GraphLogic.removeNode { control := true, shift := true } chainAtOne = some t →
      1 ∈ [1, 3, 5] ∧ t.skel = Skel.removeNodes chainAtOne.skel [1, 3, 5] ∧ 1 ∉ t.ids ∧
      t.ids = chainAtOne.ids.filter (fun p => !([1, 3, 5] : List Nat).contains p) ∧
      (∀ m ∈ t.m_nodeList, ∀ el ∈ m.m_edgeList,
        el.edge.m_sourceNode ∉ [1, 3, 5] ∧ el.edge.m_destNode ∉ [1, 3, 5]) ∧
      (∀ m ∈ t.m_nodeList, ∃ m0 ∈ chainAtOne.m_nodeList, m0.id = m.id ∧
        m.m_edgeList = m0.m_edgeList.filter (fun el =>
          !([1, 3, 5] : List Nat).contains el.edge.m_sourceNode &&
            !([1, 3, 5] : List Nat).contains el.edge.m_destNode)) ∧
      (∀ e, e ∈ t.allEdges ↔
        e ∈ chainAtOne.allEdges ∧ e.m_sourceNode ∉ [1, 3, 5] ∧ e.m_destNode ∉ [1, 3, 5]) ∧
      ((chainAtOne.m_showingNodeNumbers = false ∨ chainAtOne.m_hintNumber = []) →
        t.m_activeNode = none)) ∧
    ((∀ m ∈ chainAtOne.m_nodeList, m.id ∈ [1, 3, 5] →
        ∀ el ∈ m.m_edgeList, el.edge.m_sourceNode ≠ el.edge.m_destNode) →
      ∃ t, GraphLogic.removeNode { control := true, shift := true } chainAtOne = some t)) :=
  ⟨chainAtOne_reachable, by decide, by decide, by decide,
    removeNode_effect chainAtOne chainAtOne_reachable 1 { control := true, shift := true }
      [1, 3, 5] (by decide) (by decide) (by decide)⟩

/-- C8 as stated fails in hint mode: with eleven nodes, hint mode on and the
digit 1 typed, deleting the active node at position 10 leaves position 1 as
the only match of the typed number, so the refresh of the hint numbers selects
that node and the active-node reference is not empty afterwards. -/
theorem removeNode_active_counterexample :
    ¬ ∀ (s t : State) (n : Nat) (mods : KeyboardModifiers), Reachable s →
      s.m_activeNode = some n → s.m_nodeList.head?.map (fun m => m.id) ≠ some n →
      GraphLogic.removeNode mods s = some t → t.m_activeNode = none := by
  intro h
  have h1 := h hintDoc ((GraphLogic.removeNode {} hintDoc).getD hintDoc) 19 {} hintDoc_reachable
    (by decide) (by decide) (by decide)
  revert h1
  decide

/-- Deleting a node that has an edge to itself is undefined: `Node::~Node`
deletes the edge once for each of its two entries in the incidence list. -/
theorem removeNode_selfLoop_undefined :
    selfLoopDoc.m_activeNode = some 1 ∧ GraphLogic.removeNode {} selfLoopDoc = none := by
  decide

theorem eq_of_mem_of_length_le_one {α : Type} {l : List α} (h : l.length ≤ 1) {a b : α}
    (ha : a ∈ l) (hb : b ∈ l) : a = b := by
  match l, h with
  | [], _ => simp at ha
  | [x], _ =>
    simp only [List.mem_singleton] at ha hb
    rw [ha, hb]
  | _ :: _ :: _, h => simp at h

theorem length_le_one_of_nodup {α : Type} {l : List α} (hnd : l.Nodup)
    (h : ∀ a ∈ l, ∀ b ∈ l, a = b) : l.length ≤ 1 := by
  match l, hnd, h with
  | [], _, _ => simp
  | [_], _, _ => simp
  | x :: y :: t, hnd, h =>
    exfalso
    have hxy : x = y := h x (by simp) y (by simp)
    have := (List.nodup_cons.mp hnd).1
    apply this
    rw [hxy]; simp

/-- C9: in every reachable state every node has at most one non-secondary
incoming edge, counted in the node's own incidence list
(`edgesToThis()`) as well as among all edges of the document. -/
theorem one_parent_edge (s : State) (hs : Reachable s) :
    (∀ n ∈ s.m_nodeList, (n.edgesToThis true).length ≤ 1) ∧
    (∀ d : Nat,
      (s.allEdges.filter (fun e => e.m_destNode == d && !e.m_secondary)).length ≤ 1) := by
  have h := hs.wf
  constructor
  · intro n hn
    rw [Node.edgesToThis_true, List.length_map]
    exact h.graph.oneParent _ (State.mem_skel_of_mem hn)
  · intro d
    apply length_le_one_of_nodup (h.allEdges_nodup.filter _)
    intro e1 he1 e2 he2
    obtain ⟨hm1, hp1⟩ := List.mem_filter.mp he1
    obtain ⟨hm2, hp2⟩ := List.mem_filter.mp he2
    simp only [Bool.and_eq_true, beq_iff_eq, Bool.not_eq_true'] at hp1 hp2
    obtain ⟨_, ⟨n1, hn1, hel1⟩⟩ := h.allEdges_incident hm1
    obtain ⟨_, ⟨n2, hn2, hel2⟩⟩ := h.allEdges_incident hm2
    rw [hp1.1] at hn1
    rw [hp2.1, hn1] at hn2
    cases hn2
    have hlen := h.graph.oneParent _ (State.findNode_skel hn1)
    have ha : (⟨e1, false⟩ : EdgeElement) ∈ n1.m_edgeList.filter EdgeElement.isParentLink :=
      List.mem_filter.mpr ⟨hel1, by simp [EdgeElement.isParentLink, hp1.2]⟩
    have hb : (⟨e2, false⟩ : EdgeElement) ∈ n1.m_edgeList.filter EdgeElement.isParentLink :=
      List.mem_filter.mpr ⟨hel2, by simp [EdgeElement.isParentLink, hp2.2]⟩
    have := eq_of_mem_of_length_le_one hlen ha hb
    exact (EdgeElement.ext_iff2.mp this).1

theorem one_parent_edge_witness :
    Reachable chainShortcut ∧
    ((∀ n ∈ chainShortcut.m_nodeList, (n.edgesToThis true).length ≤ 1) ∧
    (∀ d : Nat,
      (chainShortcut.allEdges.filter
        (fun e => e.m_destNode == d && !e.m_secondary)).length ≤ 1)) :=
  ⟨Reachable.step (.addEdge (some 1) (some 5)) chainDoc_reachable (by decide),
    one_parent_edge chainShortcut
      (Reachable.step (.addEdge (some 1) (some 5)) chainDoc_reachable (by decide))⟩

theorem cycleDoc_reachable : Reachable cycleDoc :=
  Reachable.of_runOps cycleOps Reachable.init (by decide)

/-- C10 fails on the code: both sample documents are reachable from a new
document (they are the results of `selfLoopOps` and `cycleOps`); in the first
the only edge runs from node 1 to node 1 and is not secondary, in the second
the non-secondary edges 1 -> 3, 3 -> 5 and 5 -> 1 close a directed cycle. -/
theorem forest_violated :
    (runOps selfLoopOps newDocument = some selfLoopDoc ∧
      selfLoopDoc.allEdges = [⟨3, 1, 1, false⟩]) ∧
    (runOps cycleOps newDocument = some cycleDoc ∧
      cycleDoc.allEdges = [⟨4, 1, 3, false⟩, ⟨6, 3, 5, false⟩, ⟨7, 5, 1, false⟩]) := by
  decide

/-! ### The direction of a new node -/

theorem Node.staticCastInt_eq {x : ℚ} (h0 : 0 ≤ x) (z : Int) (h1 : (z : ℚ) ≤ x)
    (h2 : x < z + 1) : Node.staticCastInt x = z := by
  unfold Node.staticCastInt
  rw [if_pos h0]
  exact Int.floor_eq_iff.mpr ⟨h1, h2⟩

theorem Node.doubleModulo_of_lt {x d : ℚ} (h0 : 0 ≤ x) (h1 : x < d) :
    Node.doubleModulo x d = x := by
  have hd : 0 < d := lt_of_le_of_lt h0 h1
  unfold Node.doubleModulo
  rw [Node.staticCastInt_eq (div_nonneg h0 hd.le) 0 (by simpa using div_nonneg h0 hd.le)
    (by simpa using (div_lt_one hd).mpr h1)]
  simp

theorem GraphLogic.showAllFrom_labels_false :
    ∀ (i : Nat) (l : List Node),
      (GraphLogic.showAllFrom false i l).map Node.label = List.replicate l.length (-1, false)
  | _, [] => rfl
  | i, n :: rest => by
    simp only [GraphLogic.showAllFrom, List.map_cons, List.length_cons, List.replicate_succ]
    rw [GraphLogic.showAllFrom_labels_false (i + 1) rest]
    rfl

theorem GraphLogic.showAllFrom_labels_true :
    ∀ (i : Nat) (l : List Node),
      (GraphLogic.showAllFrom true i l).map Node.label
        = (List.range' i l.length).map (fun (k : Nat) => ((k : Int), false))
  | _, [] => rfl
  | i, n :: rest => by
    simp only [GraphLogic.showAllFrom, List.map_cons, List.length_cons, List.range'_succ]
    rw [GraphLogic.showAllFrom_labels_true (i + 1) rest]
    rfl

theorem GraphLogic.showAllFrom_ids (b : Bool) (i : Nat) (l : List Node) :
    (GraphLogic.showAllFrom b i l).map (fun n => n.id) = l.map (fun n => n.id) := by
  have h := congrArg (List.map Prod.fst) (GraphLogic.showAllFrom_skel b i l)
  simpa [List.map_map, Function.comp_def] using h

theorem GraphLogic.showAllFrom_idem (b : Bool) :
    ∀ (i j : Nat) (l : List Node),
      GraphLogic.showAllFrom b i (GraphLogic.showAllFrom b j l) = GraphLogic.showAllFrom b i l
  | _, _, [] => rfl
  | i, j, n :: rest => by
    simp only [GraphLogic.showAllFrom]
    rw [GraphLogic.showAllFrom_idem b (i + 1) (j + 1) rest]
    rfl

theorem GraphLogic.isHit_iff (number i : Nat) :
    GraphLogic.isHit number i
      = QString.startsWith (QString.number i) (QString.number number) := by
  unfold GraphLogic.isHit
  by_cases h : i = number
  · subst h
    simp [QString.startsWith]
  · simp [h]

theorem GraphLogic.beginWithLoop_labels (number : Nat) :
    ∀ (i : Nat) (l : List Node) (hint : Option Nat),
      (∀ n ∈ l, n.label = (-1, false)) →
      (GraphLogic.beginWithLoop number true i l hint).1.map Node.label
        = (List.range' i l.length).map (GraphLogic.hitLabel number)
  | _, [], _, _ => rfl
  | i, n :: rest, hint, h => by
    have hn := h n (List.mem_cons_self _ _)
    have hrest : ∀ m ∈ rest, m.label = (-1, false) :=
      fun m hm => h m (List.mem_cons_of_mem _ hm)
    unfold GraphLogic.beginWithLoop
    simp only [List.length_cons, List.range'_succ, List.map_cons]
    split
    · rename_i h1
      simp only [List.map_cons]
      rw [GraphLogic.beginWithLoop_labels number (i + 1) rest _ hrest]
      simp [GraphLogic.hitLabel, h1, Node.label, Node.showNumber]
    · rename_i h1
      split
      · rename_i h2
        simp only [List.map_cons]
        rw [GraphLogic.beginWithLoop_labels number (i + 1) rest _ hrest]
        simp [GraphLogic.hitLabel, h1, h2, Node.label, Node.showNumber]
      · rename_i h2
        simp only [List.map_cons]
        rw [GraphLogic.beginWithLoop_labels number (i + 1) rest _ hrest]
        simp [GraphLogic.hitLabel, h1, h2, hn]

theorem GraphLogic.beginWithLoop_hits (number : Nat) (b : Bool) :
    ∀ (i : Nat) (l : List Node) (hint : Option Nat),
      (GraphLogic.beginWithLoop number b i l hint).2.1
        = ((List.range' i l.length).filter (GraphLogic.isHit number)).length
  | _, [], _ => rfl
  | i, n :: rest, hint => by
    unfold GraphLogic.beginWithLoop
    simp only [List.length_cons, List.range'_succ]
    split
    · rename_i h1
      simp only []
      rw [GraphLogic.beginWithLoop_hits number b (i + 1) rest]
      simp [List.filter_cons, GraphLogic.isHit, h1]
    · rename_i h1
      split
      · rename_i h2
        simp only []
        rw [GraphLogic.beginWithLoop_hits number b (i + 1) rest]
        simp [List.filter_cons, GraphLogic.isHit, h1, h2]
      · rename_i h2
        simp only []
        rw [GraphLogic.beginWithLoop_hits number b (i + 1) rest]
        simp [List.filter_cons, GraphLogic.isHit, h1, h2]

theorem GraphLogic.beginWithLoop_none (number : Nat) (b : Bool) :
    ∀ (i : Nat) (l : List Node) (hint : Option Nat),
      (GraphLogic.beginWithLoop number b i l hint).2.1 = 0 →
      (GraphLogic.beginWithLoop number b i l hint).1 = l ∧
        (GraphLogic.beginWithLoop number b i l hint).2.2 = hint
  | _, [], _, _ => ⟨rfl, rfl⟩
  | i, n :: rest, hint, h => by
    unfold GraphLogic.beginWithLoop at h ⊢
    split
    · rename_i h1
      simp only [if_pos h1] at h
      omega
    · rename_i h1
      split
      · rename_i h2
        simp only [if_neg h1, if_pos h2] at h
        omega
      · rename_i h2
        simp only [if_neg h1, if_neg h2] at h
        obtain ⟨h3, h4⟩ := GraphLogic.beginWithLoop_none number b (i + 1) rest hint h
        simp only []
        rw [h3, h4]
        exact ⟨rfl, rfl⟩

theorem GraphLogic.beginWithLoop_hint_lt (number : Nat) (b : Bool) :
    ∀ (i : Nat) (l : List Node) (hint : Option Nat), number < i →
      (GraphLogic.beginWithLoop number b i l hint).2.2 = hint
  | _, [], _, _ => rfl
  | i, n :: rest, hint, h => by
    unfold GraphLogic.beginWithLoop
    rw [if_neg (by omega)]
    split
    · exact GraphLogic.beginWithLoop_hint_lt number b (i + 1) rest hint (by omega)
    · exact GraphLogic.beginWithLoop_hint_lt number b (i + 1) rest hint (by omega)

theorem GraphLogic.beginWithLoop_hint_at (number : Nat) (b : Bool) :
    ∀ (i : Nat) (l : List Node) (hint : Option Nat), i ≤ number → number - i < l.length →
      (GraphLogic.beginWithLoop number b i l hint).2.2 = (l.map (fun n => n.id))[number - i]?
  | _, [], _, _, h => by simp at h
  | i, n :: rest, hint, h1, h2 => by
    unfold GraphLogic.beginWithLoop
    by_cases h : i = number
    · rw [if_pos h]
      simp only []
      rw [GraphLogic.beginWithLoop_hint_lt number b (i + 1) rest _ (by omega)]
      subst h
      simp
    · have h3 : number - i = (number - (i + 1)) + 1 := by omega
      have h4 : number - (i + 1) < rest.length := by
        simp only [List.length_cons] at h2
        omega
      rw [if_neg h]
      split
      · simp only []
        rw [GraphLogic.beginWithLoop_hint_at number b (i + 1) rest hint (by omega) h4, h3]
        simp
      · simp only []
        rw [GraphLogic.beginWithLoop_hint_at number b (i + 1) rest hint (by omega) h4, h3]
        simp

theorem State.labels_mapNode (s : State) (p : Nat) {f : Node → Node}
    (hf : ∀ n, (f n).label = n.label) : (s.mapNode p f).labels = s.labels := by
  unfold State.labels State.mapNode
  simp only [List.map_map]
  apply List.map_congr_left
  intro n _
  simp only [Function.comp]
  split
  · exact hf n
  · rfl

theorem State.labels_updNode {s t : State} {p : Nat} {f : Node → Node}
    (hf : ∀ n, (f n).label = n.label) (h : s.updNode p f = some t) : t.labels = s.labels := by
  obtain ⟨_, rfl⟩ := State.updNode_eq_some h
  exact State.labels_mapNode s p hf

theorem GraphLogic.setActiveNode_labels {node : Option Nat} {s t : State}
    (h : GraphLogic.setActiveNode node s = some t) : t.labels = s.labels := by
  unfold GraphLogic.setActiveNode at h
  have hb : ∀ b n, (Node.setBorder n b).label = n.label := fun _ _ => rfl
  cases ha : s.m_activeNode with
  | none =>
    rw [ha] at h
    simp only at h
    cases node with
    | none =>
      simp only [Option.some.injEq] at h
      subst h
      rfl
    | some p =>
      simp only at h
      exact (State.labels_updNode (hb true) h).trans rfl
  | some a =>
    rw [ha] at h
    simp only at h
    cases h1 : s.updNode a (fun n => n.setBorder false) with
    | none => rw [h1] at h; simp at h
    | some s1 =>
      rw [h1] at h
      simp only at h
      have hs1 := State.labels_updNode (hb false) h1
      cases node with
      | none =>
        simp only [Option.some.injEq] at h
        subst h
        exact hs1
      | some p =>
        simp only at h
        rw [State.labels_updNode (hb true) h]
        exact hs1

theorem GraphLogic.showAllFrom_length (b : Bool) (i : Nat) (l : List Node) :
    (GraphLogic.showAllFrom b i l).length = l.length := by
  simpa using congrArg List.length (GraphLogic.showAllFrom_ids b i l)

theorem GraphLogic.showAllFrom_clear (i : Nat) (l : List Node) :
    ∀ n ∈ GraphLogic.showAllFrom false i l, n.label = (-1, false) := by
  intro n hn
  have h1 : n.label ∈ (GraphLogic.showAllFrom false i l).map Node.label :=
    List.mem_map_of_mem _ hn
  rw [GraphLogic.showAllFrom_labels_false] at h1
  exact (List.mem_replicate.mp h1).2

/-- F outside hint mode: the mode is entered with nothing typed, every node
is numbered with its list position and the first node is the hint node. -/
theorem GraphLogic.hintMode_on {s : State} (hshow : s.m_showingNodeNumbers = false)
    (hne : s.m_nodeList ≠ []) :
    ∃ l h, GraphLogic.hintMode s = some { s with
        m_showingNodeNumbers := true
        m_hintNumber := []
        m_nodeList := l
        m_hintNode := h } ∧
      l.map (fun n => (n.id, n.m_edgeList)) = s.skel ∧
      l.map (fun n => n.id) = s.ids ∧ l.length = s.m_nodeList.length := by
  unfold GraphLogic.hintMode GraphLogic.showNodeNumbers GraphLogic.showingAllNodeNumbers
  simp only [hshow, Bool.not_false, Bool.not_true, Bool.false_eq_true, if_false,
    List.isEmpty_nil, if_true]
  cases hl : GraphLogic.showAllFrom true 0 s.m_nodeList with
  | nil =>
    have := GraphLogic.showAllFrom_length true 0 s.m_nodeList
    rw [hl] at this
    exact absurd (List.length_eq_zero.mp this.symm) hne
  | cons first rest =>
    refine ⟨_, _, rfl, ?_, ?_, ?_⟩
    · have := GraphLogic.showAllFrom_skel true 0 s.m_nodeList
      rw [hl] at this
      exact this
    · have := GraphLogic.showAllFrom_ids true 0 s.m_nodeList
      rw [hl] at this
      exact this
    · have := GraphLogic.showAllFrom_length true 0 s.m_nodeList
      rw [hl] at this
      exact this

theorem GraphLogic.hits_eq (number n : Nat) :
    ((List.range' 0 n).filter (GraphLogic.isHit number)).length
      = ((List.range n).filter (fun i =>
          QString.startsWith (QString.number i) (QString.number number))).length := by
  rw [List.range_eq_range']
  congr 1
  apply List.filter_congr
  intro i _
  exact GraphLogic.isHit_iff number i

theorem GraphLogic.hitLabel_fst (number : Nat) (n : Nat) :
    ((List.range' 0 n).map (GraphLogic.hitLabel number)).map Prod.fst
      = (List.range n).map (fun i =>
          if QString.startsWith (QString.number i) (QString.number number)
          then (i : Int) else -1) := by
  rw [List.range_eq_range', List.map_map]
  apply List.map_congr_left
  intro i _
  simp only [Function.comp, GraphLogic.hitLabel]
  by_cases h : i = number
  · subst h
    simp [QString.startsWith]
  · rw [if_neg h]
    split <;> rfl

/-- A digit that leaves two or more hits: the numbers are narrowed to the
hits and nothing else happens. -/
theorem GraphLogic.appendNumber_many {s : State} {num : Nat}
    (h2 : 2 ≤ ((List.range s.m_nodeList.length).filter (fun i =>
      QString.startsWith (QString.number i)
        (QString.number (QString.toInt (s.m_hintNumber ++ QString.number num))))).length) :
    ∃ l h, GraphLogic.appendNumber num s = some { s with
        m_hintNumber := s.m_hintNumber ++ QString.number num
        m_nodeList := l
        m_hintNode := h } ∧
      l.map Node.label = (List.range' 0 s.m_nodeList.length).map
        (GraphLogic.hitLabel (QString.toInt (s.m_hintNumber ++ QString.number num))) ∧
      l.map (fun n => (n.id, n.m_edgeList)) = s.skel := by
  rw [← GraphLogic.hits_eq] at h2
  unfold GraphLogic.appendNumber GraphLogic.showingNodeNumbersBeginWithNumber
    GraphLogic.showingAllNodeNumbers
  simp only []
  have hlen := GraphLogic.showAllFrom_length false 0 s.m_nodeList
  have hh := GraphLogic.beginWithLoop_hits
    (QString.toInt (s.m_hintNumber ++ QString.number num)) true 0
    (GraphLogic.showAllFrom false 0 s.m_nodeList) s.m_hintNode
  rw [hlen] at hh
  rw [if_neg (by rw [hh]; omega), if_neg (by rw [hh]; omega)]
  refine ⟨_, _, rfl, ?_, ?_⟩
  · rw [GraphLogic.beginWithLoop_labels _ _ _ _ (GraphLogic.showAllFrom_clear 0 s.m_nodeList),
      hlen]
  · rw [GraphLogic.beginWithLoop_skel, GraphLogic.showAllFrom_skel]
    rfl

/-- A digit that leaves no hit: the mode is left and the numbers are
hidden. -/
theorem GraphLogic.appendNumber_zero {s : State} {num : Nat}
    (h0 : ∀ i < s.m_nodeList.length,
      QString.startsWith (QString.number i)
        (QString.number (QString.toInt (s.m_hintNumber ++ QString.number num))) = false) :
    GraphLogic.appendNumber num s = some { s with
      m_hintNumber := s.m_hintNumber ++ QString.number num
      m_showingNodeNumbers := false
      m_nodeList := GraphLogic.showAllFrom false 0 s.m_nodeList } := by
  have hz : ((List.range' 0 s.m_nodeList.length).filter (GraphLogic.isHit
      (QString.toInt (s.m_hintNumber ++ QString.number num)))).length = 0 := by
    rw [GraphLogic.hits_eq, List.length_eq_zero, List.filter_eq_nil_iff]
    intro i hi
    rw [h0 i (List.mem_range.mp hi)]
    simp
  unfold GraphLogic.appendNumber GraphLogic.showingNodeNumbersBeginWithNumber
    GraphLogic.showingAllNodeNumbers
  simp only []
  have hlen := GraphLogic.showAllFrom_length false 0 s.m_nodeList
  have hh := GraphLogic.beginWithLoop_hits
    (QString.toInt (s.m_hintNumber ++ QString.number num)) true 0
    (GraphLogic.showAllFrom false 0 s.m_nodeList) s.m_hintNode
  rw [hlen, hz] at hh
  obtain ⟨h3, h4⟩ := GraphLogic.beginWithLoop_none _ _ _ _ _ hh
  rw [if_neg (by rw [hh]; omega), if_pos hh, h3, h4, GraphLogic.showAllFrom_idem]

theorem State.numbers_of_labels {l : List Node} {x : List (Int × Bool)}
    (h : l.map Node.label = x) : l.map (fun n => n.m_number) = x.map Prod.fst := by
  rw [← h, List.map_map]
  rfl

theorem State.clear_of_labels {l : List Node} {k : Nat}
    (h : l.map Node.label = List.replicate k (-1, false)) :
    ∀ n ∈ l, n.m_number = -1 ∧ n.m_numberIsSpecial = false := by
  intro n hn
  have h1 : n.label ∈ l.map Node.label := List.mem_map_of_mem _ hn
  rw [h] at h1
  have h2 := (List.mem_replicate.mp h1).2
  exact ⟨congrArg Prod.fst h2, congrArg Prod.snd h2⟩

/-- A click (or a hit of the hint numbers) with no edge mode pending: the
numbers are hidden, hint mode is left and the node becomes the active
node. -/
theorem GraphLogic.selectNode_plain (s : State) (node : Option Nat)
    (hadd : s.m_edgeAdding = false) (hdel : s.m_edgeDeleting = false)
    (hact : ∀ a, s.m_activeNode = some a → a ∈ s.ids)
    (hnode : ∀ p, node = some p → p ∈ s.ids) :
    ∃ l, GraphLogic.selectNode node s = some { s with
        m_showingNodeNumbers := false
        m_nodeList := l
        m_activeNode := node } ∧
      l.map Node.label = List.replicate s.m_nodeList.length (-1, false) ∧
      l.map (fun n => (n.id, n.m_edgeList)) = s.skel := by
  unfold GraphLogic.selectNode
  simp only [GraphLogic.showingAllNodeNumbers]
  rw [if_neg (by simp [hadd]), if_neg (by simp [hdel])]
  have hids : ∀ q, q ∈ s.ids → q ∈ ({ s with
      m_nodeList := GraphLogic.showAllFrom false 0 s.m_nodeList
      m_showingNodeNumbers := false } : State).ids := by
    intro q hq
    unfold State.ids
    rw [GraphLogic.showAllFrom_ids]
    exact hq
  obtain ⟨t, ht⟩ := GraphLogic.setActiveNode_defined node ({ s with
      m_nodeList := GraphLogic.showAllFrom false 0 s.m_nodeList
      m_showingNodeNumbers := false } : State)
    (fun a ha => hids a (hact a ha)) (fun p hp => hids p (hnode p hp))
  have hl := GraphLogic.setActiveNode_labels ht
  obtain ⟨hsk, _, l, rfl⟩ := GraphLogic.setActiveNode_spec ht
  rw [ht]
  refine ⟨l, rfl, ?_, ?_⟩
  · exact hl.trans (GraphLogic.showAllFrom_labels_false 0 s.m_nodeList)
  · exact hsk.trans (GraphLogic.showAllFrom_skel false 0 s.m_nodeList)

/-- A digit that leaves one hit, the index that has been typed: the node at
this index is selected. -/
theorem GraphLogic.appendNumber_one (s : State) (num : Nat)
    (h1 : ((List.range s.m_nodeList.length).filter (fun i =>
      QString.startsWith (QString.number i)
        (QString.number (QString.toInt (s.m_hintNumber ++ QString.number num))))).length = 1)
    (hp : QString.toInt (s.m_hintNumber ++ QString.number num) < s.m_nodeList.length)
    (hadd : s.m_edgeAdding = false) (hdel : s.m_edgeDeleting = false)
    (hact : ∀ a, s.m_activeNode = some a → a ∈ s.ids) :
    ∃ l, GraphLogic.appendNumber num s = some { s with
        m_hintNumber := s.m_hintNumber ++ QString.number num
        m_showingNodeNumbers := false
        m_nodeList := l
        m_hintNode := s.ids[QString.toInt (s.m_hintNumber ++ QString.number num)]?
        m_activeNode := s.ids[QString.toInt (s.m_hintNumber ++ QString.number num)]? } ∧
      l.map Node.label = List.replicate s.m_nodeList.length (-1, false) ∧
      l.map (fun n => (n.id, n.m_edgeList)) = s.skel := by
  rw [← GraphLogic.hits_eq] at h1
  unfold GraphLogic.appendNumber GraphLogic.showingNodeNumbersBeginWithNumber
    GraphLogic.showingAllNodeNumbers
  simp only []
  have hlen := GraphLogic.showAllFrom_length false 0 s.m_nodeList
  have hh := GraphLogic.beginWithLoop_hits
    (QString.toInt (s.m_hintNumber ++ QString.number num)) true 0
    (GraphLogic.showAllFrom false 0 s.m_nodeList) s.m_hintNode
  rw [hlen, h1] at hh
  have hhint := GraphLogic.beginWithLoop_hint_at
    (QString.toInt (s.m_hintNumber ++ QString.number num)) true 0
    (GraphLogic.showAllFrom false 0 s.m_nodeList) s.m_hintNode (Nat.zero_le _)
    (by rw [hlen]; exact hp)
  rw [GraphLogic.showAllFrom_ids] at hhint
  have hsk := GraphLogic.beginWithLoop_skel
    (QString.toInt (s.m_hintNumber ++ QString.number num)) true 0
    (GraphLogic.showAllFrom false 0 s.m_nodeList) s.m_hintNode
  rw [GraphLogic.showAllFrom_skel] at hsk
  have hids : (GraphLogic.beginWithLoop
      (QString.toInt (s.m_hintNumber ++ QString.number num)) true 0
      (GraphLogic.showAllFrom false 0 s.m_nodeList) s.m_hintNode).1.map (fun n => n.id)
      = s.ids := by
    have := congrArg (List.map Prod.fst) hsk
    simpa [List.map_map, Function.comp_def, State.ids] using this
  have hlen2 : (GraphLogic.beginWithLoop
      (QString.toInt (s.m_hintNumber ++ QString.number num)) true 0
      (GraphLogic.showAllFrom false 0 s.m_nodeList) s.m_hintNode).1.length
      = s.m_nodeList.length := by
    simpa [State.ids] using congrArg List.length hids
  rw [if_pos hh]
  obtain ⟨l, hl1, hl2, hl3⟩ := GraphLogic.selectNode_plain
    { s with
      m_hintNumber := s.m_hintNumber ++ QString.number num
      m_nodeList := (GraphLogic.beginWithLoop
        (QString.toInt (s.m_hintNumber ++ QString.number num)) true 0
        (GraphLogic.showAllFrom false 0 s.m_nodeList) s.m_hintNode).1
      m_hintNode := (GraphLogic.beginWithLoop
        (QString.toInt (s.m_hintNumber ++ QString.number num)) true 0
        (GraphLogic.showAllFrom false 0 s.m_nodeList) s.m_hintNode).2.2 }
    (GraphLogic.beginWithLoop
        (QString.toInt (s.m_hintNumber ++ QString.number num)) true 0
        (GraphLogic.showAllFrom false 0 s.m_nodeList) s.m_hintNode).2.2
    hadd hdel
    (fun a ha => by
      show a ∈ List.map _ _
      rw [hids]
      exact hact a ha)
    (fun p hq => by
      show p ∈ List.map _ _
      rw [hids]
      rw [hhint] at hq
      exact List.getElem?_mem hq)
  refine ⟨l, ?_, ?_, ?_⟩
  · rw [hl1, hhint]
    rfl
  · rw [hl2, hlen2]
  · rw [hl3]
    exact hsk

theorem thirteenDoc_reachable : Reachable thirteenDoc :=
  Reachable.of_runOps thirteenOps Reachable.init (by decide)

theorem hintStartDoc_reachable : Reachable hintStartDoc :=
  Reachable.of_runOps hintStartOps Reachable.init (by decide)

/-- C17: in hint mode, when the digit `d` leaves two or more list positions
whose decimal representation starts with the number `p` typed so far,
`appendNumber(d)` is defined, hint mode stays on, and the nodes that show a
number are exactly those at these positions, each showing its own position;
ids, edges and the active node are as before. -/
theorem appendNumber_narrows (s : State) (d : Nat)
    (hshow : s.m_showingNodeNumbers = true)
    (h2 : 2 ≤ ((List.range s.m_nodeList.length).filter (fun i =>
      QString.startsWith (QString.number i)
        (QString.number (QString.toInt (s.m_hintNumber ++ QString.number d))))).length) :
    ∃ t, GraphLogic.appendNumber d s = some t ∧
      t.m_showingNodeNumbers = true ∧
      t.m_hintNumber = s.m_hintNumber ++ QString.number d ∧
      t.m_nodeList.map (fun n => n.m_number)
        = (List.range s.m_nodeList.length).map (fun i =>
            if QString.startsWith (QString.number i)
              (QString.number (QString.toInt (s.m_hintNumber ++ QString.number d)))
            then (i : Int) else -1) ∧
      t.skel = s.skel ∧ t.m_activeNode = s.m_activeNode := by
  obtain ⟨l, h, ht, hl, hsk⟩ := GraphLogic.appendNumber_many h2
  refine ⟨_, ht, hshow, rfl, ?_, hsk, rfl⟩
  rw [← GraphLogic.hitLabel_fst]
  exact State.numbers_of_labels hl

theorem appendNumber_narrows_witness :
    hintStartDoc.m_showingNodeNumbers = true ∧
      2 ≤ ((List.range hintStartDoc.m_nodeList.length).filter (fun i =>
        QString.startsWith (QString.number i)
          (QString.number
            (QString.toInt (hintStartDoc.m_hintNumber ++ QString.number 1))))).length ∧
      ∃ t, GraphLogic.appendNumber 1 hintStartDoc = some t ∧
        t.m_showingNodeNumbers = true ∧
        t.m_nodeList.map (fun n => n.m_number) = [-1, 1, -1, -1, -1, -1, -1, -1, -1, -1, 10] := by
  obtain ⟨t, h1, h2, _, h4, _⟩ := appendNumber_narrows hintStartDoc 1 (by decide) (by decide)
  exact ⟨by decide, by decide, t, h1, h2, by rw [h4]; decide⟩

/-- C18: when no list position has a decimal representation that starts
with the number typed so far extended by the digit `d`, `appendNumber(d)`
leaves hint mode: the flag is false, no node shows a number, and the active
node, the ids and the edges are as before (the state differs only in the
typed number, the flag and the numbers shown). -/
theorem appendNumber_no_match (s : State) (d : Nat)
    (h0 : ∀ i < s.m_nodeList.length,
      QString.startsWith (QString.number i)
        (QString.number (QString.toInt (s.m_hintNumber ++ QString.number d))) = false) :
    ∃ t, GraphLogic.appendNumber d s = some t ∧
      t.m_showingNodeNumbers = false ∧
      (∀ n ∈ t.m_nodeList, n.m_number = -1) ∧
      t.m_activeNode = s.m_activeNode ∧
      t.skel = s.skel ∧
      t = { s with
        m_hintNumber := s.m_hintNumber ++ QString.number d
        m_showingNodeNumbers := false
        m_nodeList := GraphLogic.showAllFrom false 0 s.m_nodeList } := by
  refine ⟨_, GraphLogic.appendNumber_zero h0, rfl, ?_, rfl, ?_, rfl⟩
  · intro n hn
    exact congrArg Prod.fst (GraphLogic.showAllFrom_clear 0 s.m_nodeList n hn)
  · exact GraphLogic.showAllFrom_skel false 0 s.m_nodeList

theorem appendNumber_no_match_witness :
    hintDoc.m_showingNodeNumbers = true ∧
      (∀ i < hintDoc.m_nodeList.length,
        QString.startsWith (QString.number i)
          (QString.number (QString.toInt (hintDoc.m_hintNumber ++ QString.number 5))) = false) ∧
      ∃ t, GraphLogic.appendNumber 5 hintDoc = some t ∧
        t.m_showingNodeNumbers = false ∧ t.m_activeNode = hintDoc.m_activeNode := by
  obtain ⟨t, h1, h2, _, h4, _⟩ := appendNumber_no_match hintDoc 5 (by decide)
  exact ⟨by decide, by decide, t, h1, h2, h4⟩

/-- C16: for a reachable document of thirteen nodes that is not in hint mode
and has no edge mode pending, F and the digit 1 leave hint mode on with
numbers on exactly the list positions 1, 10, 11 and 12; the digit 0 then
selects the node at position 10: it is the active node, hint mode is off and
no node shows a number. -/
theorem hint_narrowing (s : State) (hs : Reachable s)
    (hlen : s.m_nodeList.length = 13)
    (hshow : s.m_showingNodeNumbers = false)
    (hadd : s.m_edgeAdding = false) (hdel : s.m_edgeDeleting = false) :
    ∃ s1 s2 s3, GraphLogic.hintMode s = some s1 ∧
      GraphLogic.appendNumber 1 s1 = some s2 ∧
      GraphLogic.appendNumber 0 s2 = some s3 ∧
      s2.m_showingNodeNumbers = true ∧
      s2.m_nodeList.map (fun n => n.m_number)
        = [-1, 1, -1, -1, -1, -1, -1, -1, -1, -1, 10, 11, 12] ∧
      s3.m_activeNode = s.ids[10]? ∧ (∃ p, s.ids[10]? = some p) ∧
      s3.m_showingNodeNumbers = false ∧
      (∀ n ∈ s3.m_nodeList, n.m_number = -1) ∧
      s3.skel = s.skel := by
  have hwf := hs.wf
  have hne : s.m_nodeList ≠ [] := by
    intro h
    rw [h] at hlen
    simp at hlen
  obtain ⟨l1, h1, hs1, hsk1, hid1, hlen1⟩ := GraphLogic.hintMode_on hshow hne
  rw [hlen] at hlen1
  have h2 : 2 ≤ ((List.range ({ s with
      m_showingNodeNumbers := true
      m_hintNumber := []
      m_nodeList := l1
      m_hintNode := h1 } : State).m_nodeList.length).filter (fun i =>
      QString.startsWith (QString.number i)
        (QString.number (QString.toInt (({ s with
          m_showingNodeNumbers := true
          m_hintNumber := []
          m_nodeList := l1
          m_hintNode := h1 } : State).m_hintNumber ++ QString.number 1))))).length := by
    dsimp only
    rw [hlen1]
    decide
  obtain ⟨l2, h2', hs2, hl2, hsk2⟩ := GraphLogic.appendNumber_many h2
  dsimp only at hl2
  rw [hlen1] at hl2
  have hsk2' : l2.map (fun n => (n.id, n.m_edgeList)) = s.skel := hsk2.trans hsk1
  have hlen2 : l2.length = 13 := by
    simpa using congrArg List.length hl2
  have hid2 : l2.map (fun n => n.id) = s.ids := by
    have := congrArg (List.map Prod.fst) hsk2'
    simpa [List.map_map, Function.comp_def, State.skel, State.ids] using this
  obtain ⟨l3, hs3, hl3, hsk3⟩ := GraphLogic.appendNumber_one
    { s with
      m_showingNodeNumbers := true
      m_hintNumber := [] ++ QString.number 1
      m_nodeList := l2
      m_hintNode := h2' } 0
    (by dsimp only; rw [hlen2]; decide)
    (by dsimp only; rw [hlen2]; decide)
    hadd hdel
    (fun a ha => by
      show a ∈ l2.map _
      rw [hid2]
      exact hwf.activeLive a ha)
  refine ⟨_, _, _, hs1, hs2, hs3, rfl, ?_, ?_, ?_, rfl, ?_, ?_⟩
  · rw [State.numbers_of_labels hl2]
    decide
  · show (l2.map (fun n => n.id))[QString.toInt (([] ++ QString.number 1) ++ QString.number 0)]?
      = _
    rw [hid2]
    rfl
  · have : 10 < s.ids.length := by
      simp only [State.ids, List.length_map, hlen]
      decide
    exact ⟨s.ids[10], List.getElem?_eq_getElem this⟩
  · intro n hn
    exact (State.clear_of_labels hl3 n hn).1
  · exact hsk3.trans hsk2'

theorem hint_narrowing_witness :
    Reachable thirteenDoc ∧ thirteenDoc.m_nodeList.length = 13 ∧
      thirteenDoc.m_showingNodeNumbers = false ∧
      thirteenDoc.m_edgeAdding = false ∧ thirteenDoc.m_edgeDeleting = false ∧
      ∃ s1 s2 s3, GraphLogic.hintMode thirteenDoc = some s1 ∧
        GraphLogic.appendNumber 1 s1 = some s2 ∧
        GraphLogic.appendNumber 0 s2 = some s3 ∧
        s3.m_activeNode = thirteenDoc.ids[10]? ∧
        s3.m_showingNodeNumbers = false := by
  obtain ⟨s1, s2, s3, h1, h2, h3, _, _, h6, _, h8, _⟩ :=
    hint_narrowing thirteenDoc thirteenDoc_reachable (by decide) (by decide) (by decide)
      (by decide)
  exact ⟨thirteenDoc_reachable, by decide, by decide, by decide, by decide,
    s1, s2, s3, h1, h2, h3, h6, h8⟩

theorem strayNumbersDoc_reachable : Reachable strayNumbersDoc :=
  Reachable.of_runOps strayNumbersOps Reachable.init (by decide)

set_option maxRecDepth 4000 in
theorem staleNumbersDoc_reachable : Reachable staleNumbersDoc :=
  Reachable.of_runOps staleNumbersOps Reachable.init (by decide)

/-- C20 fails on the code: in a new document F turns hint mode on, the digit
1 hits no index and turns it off again with "1" left in `m_hintNumber`, and
Backspace then takes the digit away and numbers the nodes although hint mode
is off: the state is reachable, `m_showingNodeNumbers` is false and the root
shows the number 0. -/
theorem numbers_outside_hint_mode :
    Reachable strayNumbersDoc ∧
    (runOps [.hintMode] newDocument).map (fun s => s.m_showingNodeNumbers) = some true ∧
    (runOps [.hintMode, .appendNumber 1] newDocument).map
      (fun s => (s.m_showingNodeNumbers, s.m_hintNumber, s.labels)) = some (false, [1], [(-1, false)]) ∧
    runOps strayNumbersOps newDocument = some strayNumbersDoc ∧
    strayNumbersDoc.m_showingNodeNumbers = false ∧
    strayNumbersDoc.m_nodeList.map (fun n => n.m_number) = [0] :=
  ⟨strayNumbersDoc_reachable, by decide, by decide, by decide, by decide, by decide⟩

set_option maxRecDepth 4000 in
/-- Outside hint mode the number a marked node shows need not be its list
position: after the operations `staleNumbersOps` hint mode is off, the typed
number is 2, and the one marked node shows the number 2 but stands at list
position 1 (Backspace outside hint mode has numbered the nodes, and Delete
outside hint mode does not number them anew). -/
theorem marked_node_off_position :
    Reachable staleNumbersDoc ∧
    runOps staleNumbersOps newDocument = some staleNumbersDoc ∧
    staleNumbersDoc.m_showingNodeNumbers = false ∧
    staleNumbersDoc.m_hintNumber = [2] ∧
    QString.toInt staleNumbersDoc.m_hintNumber = 2 ∧
    staleNumbersDoc.labels.take 3 = [(-1, false), (2, true), (-1, false)] ∧
    (staleNumbersDoc.m_nodeList.map (fun n => n.m_numberIsSpecial)).indexOf true = 1 :=
  ⟨staleNumbersDoc_reachable, by decide, by decide, by decide, by decide, by decide,
    by decide⟩

/-! ### The hint overlay stays in order -/

theorem State.sameHints_refl (s : State) : s.sameHints s := ⟨rfl, rfl, rfl⟩

theorem State.sameHints_trans {s t u : State} (h1 : s.sameHints t) (h2 : t.sameHints u) :
    s.sameHints u :=
  ⟨h2.1.trans h1.1, h2.2.1.trans h1.2.1, h2.2.2.trans h1.2.2⟩

theorem HintOK.frame {s t : State} (h : HintOK s) (hf : s.sameHints t) : HintOK t := by
  obtain ⟨h1, h2, h3⟩ := hf
  constructor
  · rw [h1]; exact h.oneSpecial
  · rw [h1, h2]; exact h.specialNumber
  · rw [h1, h3]; exact h.inPlace

theorem HintOK.of_clear {t : State} (h : ∀ x ∈ t.labels, x = (-1, false)) : HintOK t := by
  constructor
  · have : t.labels.filter (fun x => x.2) = [] := by
      rw [List.filter_eq_nil_iff]
      intro x hx
      rw [h x hx]
      simp
    rw [this]
    simp
  · intro x hx hx2
    rw [h x hx] at hx2
    simp at hx2
  · intro _ i x hx
    left
    rw [h x (List.getElem?_mem hx)]

theorem HintOK.of_sublist {s t : State} (h : HintOK s)
    (hl : t.labels.Sublist (s.labels ++ [(-1, false)]))
    (hn : t.m_hintNumber = s.m_hintNumber) (hsh : t.m_showingNodeNumbers = false) :
    HintOK t := by
  constructor
  · have h1 := (hl.filter (fun x => x.2)).length_le
    have h2 : (s.labels ++ [((-1 : Int), false)]).filter (fun x => x.2)
        = s.labels.filter (fun x => x.2) := by
      simp [List.filter_append]
    rw [h2] at h1
    exact h1.trans h.oneSpecial
  · intro x hx hx2
    rw [hn]
    rcases List.mem_append.mp (hl.subset hx) with h1 | h1
    · exact h.specialNumber x h1 hx2
    · simp only [List.mem_singleton] at h1
      rw [h1] at hx2
      simp at hx2
  · intro h1
    rw [hsh] at h1
    simp at h1

theorem GraphLogic.hitLabel_snd (number i : Nat) :
    (GraphLogic.hitLabel number i).2 = decide (i = number) := by
  unfold GraphLogic.hitLabel
  by_cases h : i = number
  · simp [h]
  · rw [if_neg h]
    split <;> simp [h]

theorem GraphLogic.hitLabel_fst_cases (number i : Nat) :
    (GraphLogic.hitLabel number i).1 = -1 ∨ (GraphLogic.hitLabel number i).1 = (i : Int) := by
  unfold GraphLogic.hitLabel
  split
  · right; rfl
  · split
    · right; rfl
    · left; rfl

theorem HintOK.of_fresh {t : State} {n : Nat}
    (hl : t.labels = (List.range' 0 n).map (GraphLogic.hitLabel (QString.toInt t.m_hintNumber))) :
    HintOK t := by
  constructor
  · rw [hl, List.filter_map]
    simp only [List.length_map]
    have h1 : (List.range' 0 n).filter
        ((fun x : Int × Bool => x.2) ∘ GraphLogic.hitLabel (QString.toInt t.m_hintNumber))
        = (List.range' 0 n).filter (fun i => i == QString.toInt t.m_hintNumber) := by
      apply List.filter_congr
      intro i _
      simp only [Function.comp, GraphLogic.hitLabel_snd]
      by_cases h : i = QString.toInt t.m_hintNumber <;> simp [h]
    rw [h1, ← List.countP_eq_length_filter]
    exact List.nodup_iff_count_le_one.mp (List.nodup_range' 0 n) _
  · intro x hx hx2 _
    rw [hl] at hx
    obtain ⟨i, _, rfl⟩ := List.mem_map.mp hx
    rw [GraphLogic.hitLabel_snd] at hx2
    have : i = QString.toInt t.m_hintNumber := of_decide_eq_true hx2
    unfold GraphLogic.hitLabel
    rw [if_pos this, this]
  · intro _ i x hx
    rw [hl, List.getElem?_map] at hx
    cases h1 : (List.range' 0 n)[i]? with
    | none => rw [h1] at hx; simp at hx
    | some k =>
      rw [h1] at hx
      simp only [Option.map_some', Option.some.injEq] at hx
      have hk : k = i := by
        have h2 := List.getElem?_eq_some_iff.mp h1
        obtain ⟨h3, h4⟩ := h2
        rw [List.getElem_range'] at h4
        omega
      subst hx
      subst hk
      exact GraphLogic.hitLabel_fst_cases _ _

theorem HintOK.of_all {t : State} {m : Nat} (hn : t.m_hintNumber = [])
    (hl : t.labels = (0, true) :: (List.range' 1 m).map (fun (k : Nat) => ((k : Int), false))) :
    HintOK t := by
  constructor
  · rw [hl]
    have : ((List.range' 1 m).map (fun (k : Nat) => ((k : Int), false))).filter (fun x => x.2) = [] := by
      rw [List.filter_eq_nil_iff]
      intro x hx
      obtain ⟨k, _, rfl⟩ := List.mem_map.mp hx
      simp
    simp [List.filter_cons, this]
  · intro x _ _ h
    exact absurd hn h
  · intro _ i x hx
    rw [hl] at hx
    cases i with
    | zero =>
      simp only [List.getElem?_cons_zero, Option.some.injEq] at hx
      subst hx
      right; rfl
    | succ j =>
      simp only [List.getElem?_cons_succ, List.getElem?_map] at hx
      cases h1 : (List.range' 1 m)[j]? with
      | none => rw [h1] at hx; simp at hx
      | some k =>
        rw [h1] at hx
        simp only [Option.map_some', Option.some.injEq] at hx
        have h2 := List.getElem?_eq_some_iff.mp h1
        obtain ⟨h3, h4⟩ := h2
        rw [List.getElem_range'] at h4
        subst hx
        right
        show (k : Int) = ((j + 1 : Nat) : Int)
        congr 1
        omega

theorem State.sameHints_emit (s : State) (sig : Signal) : s.sameHints (s.emit sig) :=
  ⟨rfl, rfl, rfl⟩

theorem State.sameHints_mapNode (s : State) (p : Nat) {f : Node → Node}
    (hf : ∀ n, (f n).label = n.label) : s.sameHints (s.mapNode p f) :=
  ⟨State.labels_mapNode s p hf, rfl, rfl⟩

theorem State.sameHints_addEdge (s : State) (p : Nat) (edge : Edge) (b : Bool) :
    s.sameHints (s.mapNode p (fun n => n.addEdge edge b)) :=
  State.sameHints_mapNode s p (fun _ => rfl)

theorem State.sameHints_removeEdgeFromList (s : State) (p : Nat) (edge : Nat) :
    s.sameHints (s.mapNode p (fun n => n.removeEdgeFromList edge)) :=
  State.sameHints_mapNode s p (fun _ => rfl)

theorem Edge.sameHints_destroy (e : Edge) (s : State) : s.sameHints (Edge.destroy e s) :=
  State.sameHints_trans (State.sameHints_removeEdgeFromList s _ _)
    (State.sameHints_removeEdgeFromList _ _ _)

theorem Node.sameHints_deleteEdge (n : Node) (otherEnd : Option Nat) (s : State) :
    s.sameHints (n.deleteEdge otherEnd s) := by
  unfold Node.deleteEdge
  split
  · exact Edge.sameHints_destroy _ s
  · exact State.sameHints_refl s

theorem GraphLogic.setActiveNode_sameHints {node : Option Nat} {s t : State}
    (h : GraphLogic.setActiveNode node s = some t) : s.sameHints t := by
  have hl := GraphLogic.setActiveNode_labels h
  obtain ⟨_, _, l, rfl⟩ := GraphLogic.setActiveNode_spec h
  exact ⟨hl, rfl, rfl⟩

theorem GraphWidget.widgetSetActiveNode_sameHints {node : Option Nat} {s t : State}
    (h : GraphWidget.setActiveNode node s = some t) : s.sameHints t := by
  have hb : ∀ b n, (Node.setActive n b).label = n.label := fun _ _ => rfl
  have hl : t.labels = s.labels := by
    unfold GraphWidget.setActiveNode at h
    cases ha : s.m_activeNode with
    | none =>
      rw [ha] at h
      simp only at h
      cases node with
      | none => simp at h
      | some p =>
        simp only at h
        exact (State.labels_updNode (hb true) h).trans rfl
    | some a =>
      rw [ha] at h
      simp only at h
      cases h1 : s.updNode a (fun n => n.setActive false) with
      | none => rw [h1] at h; simp at h
      | some s1 =>
        rw [h1] at h
        simp only at h
        have hs1 := State.labels_updNode (hb false) h1
        cases node with
        | none => simp at h
        | some p =>
          simp only at h
          rw [State.labels_updNode (hb true) h]
          exact hs1
  obtain ⟨_, _, l, rfl⟩ := GraphWidget.widgetSetActiveNode_spec h
  exact ⟨hl, rfl, rfl⟩

theorem State.sameHints_ite_emit (s : State) (c : Bool) (sig : Signal) :
    s.sameHints (if c then s.emit sig else s) := by
  cases c <;> exact ⟨rfl, rfl, rfl⟩

theorem GraphLogic.addEdge_sameHints {source destination : Option Nat} {s t : State}
    (h : GraphLogic.addEdge source destination s = some t) : s.sameHints t := by
  unfold GraphLogic.addEdge at h
  cases ha : s.m_activeNode with
  | none =>
    rw [ha] at h
    simp only [Option.some.injEq] at h
    subst h
    exact ⟨rfl, rfl, rfl⟩
  | some a =>
    rw [ha] at h
    simp only at h
    cases hf : s.m_nodeList.head? with
    | none => rw [hf] at h; simp at h
    | some first =>
      rw [hf] at h
      simp only at h
      by_cases hd : destination = some first.id
      · rw [if_pos hd] at h
        obtain ⟨t1, ht1, rfl⟩ := Option.map_eq_some'.mp h
        exact State.sameHints_trans (GraphLogic.setActiveNode_sameHints ht1)
          (State.sameHints_emit _ _)
      · rw [if_neg hd] at h
        cases hsrc : source.bind s.findNode with
        | none => rw [hsrc] at h; simp at h
        | some src =>
          cases hdst : destination.bind s.findNode with
          | none => rw [hsrc, hdst] at h; simp at h
          | some dst =>
            rw [hsrc, hdst] at h
            simp only at h
            by_cases hc : src.isConnected destination = true
            · rw [if_pos hc] at h
              obtain ⟨t1, ht1, rfl⟩ := Option.map_eq_some'.mp h
              exact State.sameHints_trans (GraphLogic.setActiveNode_sameHints ht1)
                (State.sameHints_emit _ _)
            · rw [if_neg hc] at h
              obtain ⟨t1, ht1, rfl⟩ := Option.map_eq_some'.mp h
              refine State.sameHints_trans ?_ (State.sameHints_emit _ _)
              refine State.sameHints_trans ?_ (GraphLogic.setActiveNode_sameHints ht1)
              refine State.sameHints_trans ?_ (State.sameHints_addEdge _ _ _ _)
              refine State.sameHints_trans ?_ (State.sameHints_addEdge _ _ _ _)
              have := State.sameHints_ite_emit s (!(dst.edgesToThis true).isEmpty)
                (.notification .addedAsSecondary)
              exact ⟨this.1, this.2.1, this.2.2⟩

theorem GraphLogic.removeEdge_sameHints {source destination : Option Nat} {s t : State}
    (h : GraphLogic.removeEdge source destination s = some t) : s.sameHints t := by
  unfold GraphLogic.removeEdge at h
  cases ha : s.m_activeNode with
  | none =>
    rw [ha] at h
    simp only [Option.some.injEq] at h
    subst h
    exact ⟨rfl, rfl, rfl⟩
  | some a =>
    rw [ha] at h
    simp only at h
    cases hsrc : source.bind s.findNode with
    | none => rw [hsrc] at h; simp at h
    | some src =>
      rw [hsrc] at h
      simp only at h
      split at h
      · obtain ⟨t1, ht1, rfl⟩ := Option.map_eq_some'.mp h
        exact State.sameHints_trans (GraphLogic.setActiveNode_sameHints ht1)
          (State.sameHints_emit _ _)
      · obtain ⟨t1, ht1, rfl⟩ := Option.map_eq_some'.mp h
        exact State.sameHints_trans (Node.sameHints_deleteEdge src destination s)
          (State.sameHints_trans (GraphLogic.setActiveNode_sameHints ht1)
            (State.sameHints_emit _ _))

theorem GraphWidget.widgetAddEdge_sameHints {source destination : Option Nat} {s t : State}
    (h : GraphWidget.addEdge source destination s = some t) : s.sameHints t := by
  unfold GraphWidget.addEdge at h
  cases hf : s.m_nodeList.head? with
  | none => rw [hf] at h; simp at h
  | some first =>
    rw [hf] at h
    simp only at h
    by_cases hd : destination = some first.id
    · rw [if_pos hd] at h
      simp only [Option.some.injEq] at h
      subst h
      exact ⟨rfl, rfl, rfl⟩
    · rw [if_neg hd] at h
      cases hsrc : source.bind s.findNode with
      | none => rw [hsrc] at h; simp at h
      | some src =>
        cases hdst : destination.bind s.findNode with
        | none => rw [hsrc, hdst] at h; simp at h
        | some dst =>
          rw [hsrc, hdst] at h
          simp only at h
          by_cases hc : src.isConnected destination = true
          · rw [if_pos hc] at h
            simp only [Option.some.injEq] at h
            subst h
            exact ⟨rfl, rfl, rfl⟩
          · rw [if_neg hc] at h
            simp only [Option.some.injEq] at h
            subst h
            refine State.sameHints_trans ?_ (State.sameHints_emit _ _)
            refine State.sameHints_trans ?_ (State.sameHints_addEdge _ _ _ _)
            refine State.sameHints_trans ?_ (State.sameHints_addEdge _ _ _ _)
            have := State.sameHints_ite_emit s (!(dst.edgesToThis true).isEmpty)
              (.notification .addedAsSecondary)
            exact ⟨this.1, this.2.1, this.2.2⟩

theorem GraphWidget.widgetRemoveEdge_sameHints {source destination : Option Nat} {s t : State}
    (h : GraphWidget.removeEdge source destination s = some t) : s.sameHints t := by
  unfold GraphWidget.removeEdge at h
  cases hsrc : source.bind s.findNode with
  | none => rw [hsrc] at h; simp at h
  | some src =>
    rw [hsrc] at h
    simp only at h
    split at h
    · simp only [Option.some.injEq] at h
      subst h
      exact ⟨rfl, rfl, rfl⟩
    · simp only [Option.some.injEq] at h
      subst h
      exact State.sameHints_trans (Node.sameHints_deleteEdge src destination s)
        (State.sameHints_emit _ _)

theorem GraphLogic.showingAll_clear (s : State) :
    ∀ x ∈ (GraphLogic.showingAllNodeNumbers false s).labels, x = (-1, false) := by
  intro x hx
  unfold State.labels GraphLogic.showingAllNodeNumbers at hx
  rw [GraphLogic.showAllFrom_labels_false] at hx
  exact (List.mem_replicate.mp hx).2

theorem HintOK.of_sameHints_clear {s t : State} (h : ∀ x ∈ s.labels, x = (-1, false))
    (hf : s.sameHints t) : HintOK t :=
  HintOK.of_clear (by rw [hf.1]; exact h)

theorem GraphLogic.selectNode_hintOK {node : Option Nat} {s t : State}
    (h : GraphLogic.selectNode node s = some t) : HintOK t := by
  unfold GraphLogic.selectNode at h
  simp only at h
  have hc : ∀ x ∈ ({ GraphLogic.showingAllNodeNumbers false s with
      m_showingNodeNumbers := false } : State).labels, x = (-1, false) :=
    GraphLogic.showingAll_clear s
  split at h
  · obtain ⟨t1, ht1, rfl⟩ := Option.map_eq_some'.mp h
    have := GraphLogic.addEdge_sameHints ht1
    exact HintOK.of_sameHints_clear hc ⟨this.1, this.2.1, this.2.2⟩
  · split at h
    · obtain ⟨t1, ht1, rfl⟩ := Option.map_eq_some'.mp h
      have := GraphLogic.removeEdge_sameHints ht1
      exact HintOK.of_sameHints_clear hc ⟨this.1, this.2.1, this.2.2⟩
    · exact HintOK.of_sameHints_clear hc (GraphLogic.setActiveNode_sameHints h)

theorem GraphWidget.nodeSelected_hintOK {node : Option Nat} {s t : State}
    (h : GraphWidget.nodeSelected node s = some t) : HintOK t := by
  unfold GraphWidget.nodeSelected at h
  simp only at h
  have hc : ∀ x ∈ ({ GraphWidget.showingAllNodeNumbers false s with
      m_showingNodeNumbers := false, m_editingNode := false } : State).labels,
      x = (-1, false) :=
    GraphLogic.showingAll_clear s
  split at h
  · simp at h
  · split at h
    · obtain ⟨t1, ht1, rfl⟩ := Option.map_eq_some'.mp h
      have := GraphWidget.widgetAddEdge_sameHints ht1
      exact HintOK.of_sameHints_clear hc ⟨this.1, this.2.1, this.2.2⟩
    · split at h
      · obtain ⟨t1, ht1, rfl⟩ := Option.map_eq_some'.mp h
        have := GraphWidget.widgetRemoveEdge_sameHints ht1
        exact HintOK.of_sameHints_clear hc ⟨this.1, this.2.1, this.2.2⟩
      · exact HintOK.of_sameHints_clear hc (GraphWidget.widgetSetActiveNode_sameHints h)

theorem GraphLogic.beginWith_hintOK (s : State) {t : State}
    (hclear : ∀ n ∈ s.m_nodeList, n.label = (-1, false))
    (h : GraphLogic.showingNodeNumbersBeginWithNumber (QString.toInt s.m_hintNumber) true s
      = some t) : HintOK t := by
  unfold GraphLogic.showingNodeNumbersBeginWithNumber at h
  simp only at h
  split at h
  · exact GraphLogic.selectNode_hintOK h
  · split at h
    · simp only [Option.some.injEq] at h
      subst h
      exact HintOK.of_clear (GraphLogic.showingAll_clear _)
    · simp only [Option.some.injEq] at h
      subst h
      exact HintOK.of_fresh (GraphLogic.beginWithLoop_labels _ 0 _ _ hclear)

theorem GraphWidget.widgetBeginWith_hintOK (s : State) {t : State}
    (hclear : ∀ n ∈ s.m_nodeList, n.label = (-1, false))
    (h : GraphWidget.showingNodeNumbersBeginWithNumber (QString.toInt s.m_hintNumber) true s
      = some t) : HintOK t := by
  unfold GraphWidget.showingNodeNumbersBeginWithNumber at h
  simp only at h
  split at h
  · exact GraphWidget.nodeSelected_hintOK h
  · split at h
    · simp only [Option.some.injEq] at h
      subst h
      exact HintOK.of_clear (GraphLogic.showingAll_clear _)
    · simp only [Option.some.injEq] at h
      subst h
      exact HintOK.of_fresh (GraphLogic.beginWithLoop_labels _ 0 _ _ hclear)

theorem GraphLogic.showAll_first {l rest : List Node} {first : Node}
    (hl : GraphLogic.showAllFrom true 0 l = first :: rest) :
    (first.showNumber 0 true true :: rest).map Node.label
      = (0, true) :: (List.range' 1 rest.length).map (fun (k : Nat) => ((k : Int), false)) := by
  have h1 := GraphLogic.showAllFrom_labels_true 0 l
  have h2 : l.length = rest.length + 1 := by
    have := GraphLogic.showAllFrom_length true 0 l
    rw [hl] at this
    simpa using this.symm
  rw [hl, h2, List.range'_succ] at h1
  simp only [List.map_cons, List.cons.injEq] at h1
  simp only [List.map_cons]
  rw [h1.2]
  rfl

theorem GraphLogic.showNodeNumbers_hintOK {s t : State}
    (h : GraphLogic.showNodeNumbers s = some t) : HintOK t := by
  unfold GraphLogic.showNodeNumbers at h
  split at h
  · rename_i he
    cases hl : (GraphLogic.showingAllNodeNumbers true s).m_nodeList with
    | nil => rw [hl] at h; simp at h
    | cons first rest =>
      rw [hl] at h
      simp only [Option.some.injEq] at h
      subst h
      exact HintOK.of_all (List.isEmpty_iff.mp he) (GraphLogic.showAll_first hl)
  · exact GraphLogic.beginWith_hintOK (GraphLogic.showingAllNodeNumbers false s)
      (GraphLogic.showAllFrom_clear 0 s.m_nodeList) h

theorem GraphWidget.widgetShowNodeNumbers_hintOK {s t : State}
    (h : GraphWidget.showNodeNumbers s = some t) : HintOK t := by
  unfold GraphWidget.showNodeNumbers at h
  split at h
  · rename_i he
    cases hl : (GraphWidget.showingAllNodeNumbers true s).m_nodeList with
    | nil => rw [hl] at h; simp at h
    | cons first rest =>
      rw [hl] at h
      simp only [Option.some.injEq] at h
      subst h
      exact HintOK.of_all (List.isEmpty_iff.mp he) (GraphLogic.showAll_first hl)
  · exact GraphWidget.widgetBeginWith_hintOK (GraphWidget.showingAllNodeNumbers false s)
      (GraphLogic.showAllFrom_clear 0 s.m_nodeList) h

theorem GraphLogic.hintMode_hintOK {s t : State} (h : GraphLogic.hintMode s = some t) :
    HintOK t := by
  unfold GraphLogic.hintMode at h
  simp only at h
  split at h
  · simp only [Option.some.injEq] at h
    subst h
    exact HintOK.of_clear (GraphLogic.showingAll_clear _)
  · exact GraphLogic.showNodeNumbers_hintOK h

theorem GraphLogic.appendNumber_hintOK {num : Nat} {s t : State}
    (h : GraphLogic.appendNumber num s = some t) : HintOK t := by
  unfold GraphLogic.appendNumber at h
  exact GraphLogic.beginWith_hintOK
    (GraphLogic.showingAllNodeNumbers false
      { s with m_hintNumber := s.m_hintNumber ++ QString.number num })
    (GraphLogic.showAllFrom_clear 0 s.m_nodeList) h

theorem GraphLogic.delNumber_hintOK {s t : State} (hs : HintOK s)
    (h : GraphLogic.delNumber s = some t) : HintOK t := by
  unfold GraphLogic.delNumber at h
  split at h
  · simp only [Option.some.injEq] at h
    subst h
    exact hs
  · exact GraphLogic.showNodeNumbers_hintOK h

theorem GraphLogic.applyNumber_hintOK {s t : State} (hs : HintOK s)
    (h : GraphLogic.applyNumber s = some t) : HintOK t := by
  unfold GraphLogic.applyNumber at h
  split at h
  · exact GraphLogic.selectNode_hintOK h
  · simp only [Option.some.injEq] at h
    subst h
    exact hs

theorem GraphLogic.nodeLostFocus_hintOK {s : State} (hs : HintOK s) :
    HintOK (GraphLogic.nodeLostFocus s) := by
  unfold GraphLogic.nodeLostFocus
  split
  · exact hs.frame ⟨rfl, rfl, rfl⟩
  · split
    · exact hs.frame ⟨rfl, rfl, rfl⟩
    · split
      · exact hs.frame ⟨rfl, rfl, rfl⟩
      · split
        · exact HintOK.of_clear (GraphLogic.showingAll_clear _)
        · exact hs

theorem Node.foldl_destroy_sameHints :
    ∀ (els : List EdgeElement) (s : State),
      s.sameHints (els.foldl (fun st el => Edge.destroy el.edge st) s)
  | [], s => State.sameHints_refl s
  | el :: rest, s => by
    simp only [List.foldl_cons]
    exact State.sameHints_trans (Edge.sameHints_destroy el.edge s)
      (Node.foldl_destroy_sameHints rest _)

theorem GraphLogic.deleteListed_labels {node : Nat} {s t : State}
    (h : GraphLogic.deleteListed node s = some t) :
    t.labels.Sublist s.labels ∧ t.m_hintNumber = s.m_hintNumber ∧
      t.m_showingNodeNumbers = s.m_showingNodeNumbers := by
  unfold GraphLogic.deleteListed at h
  cases hf : s.findNode node with
  | none => rw [hf] at h; simp at h
  | some n =>
    rw [hf] at h
    simp only at h
    unfold Node.destroy at h
    split at h
    · simp only [Option.some.injEq] at h
      subst h
      obtain ⟨h1, h2, h3⟩ := Node.foldl_destroy_sameHints n.m_edgeList
        { s with
          m_hintNode := if s.m_hintNode = some node then none else s.m_hintNode
          m_nodeList := s.m_nodeList.filter (fun m => m.id != node) }
      refine ⟨?_, h2, h3⟩
      rw [h1]
      exact List.Sublist.map _ (List.filter_sublist _)
    · simp at h

theorem GraphLogic.deleteAll_labels :
    ∀ (dead : List Nat) {s t : State}, GraphLogic.deleteAll dead s = some t →
      t.labels.Sublist s.labels ∧ t.m_hintNumber = s.m_hintNumber ∧
        t.m_showingNodeNumbers = s.m_showingNodeNumbers
  | [], s, t, h => by
    simp only [GraphLogic.deleteAll, Option.some.injEq] at h
    subst h
    exact ⟨List.Sublist.refl _, rfl, rfl⟩
  | node :: rest, s, t, h => by
    unfold GraphLogic.deleteAll at h
    cases h1 : GraphLogic.deleteListed node s with
    | none => rw [h1] at h; simp at h
    | some s1 =>
      rw [h1] at h
      simp only at h
      obtain ⟨a1, a2, a3⟩ := GraphLogic.deleteListed_labels h1
      obtain ⟨b1, b2, b3⟩ := GraphLogic.deleteAll_labels rest h
      exact ⟨b1.trans a1, b2.trans a2, b3.trans a3⟩

theorem HintOK.of_shrink {s t : State} (h : HintOK s) (hl : t.labels.Sublist s.labels)
    (hn : t.m_hintNumber = s.m_hintNumber) (hsh : t.m_showingNodeNumbers = false) :
    HintOK t :=
  h.of_sublist (hl.trans (List.sublist_append_left _ _)) hn hsh

theorem GraphLogic.removeNode_hintOK {mods : KeyboardModifiers} {s t : State} (hs : HintOK s)
    (h : GraphLogic.removeNode mods s = some t) : HintOK t := by
  unfold GraphLogic.removeNode at h
  cases ha : s.m_activeNode with
  | none =>
    rw [ha] at h
    simp only [Option.some.injEq] at h
    subst h
    exact hs.frame ⟨rfl, rfl, rfl⟩
  | some a =>
    rw [ha] at h
    simp only at h
    cases hf : s.m_nodeList.head? with
    | none => rw [hf] at h; simp at h
    | some first =>
      rw [hf] at h
      simp only at h
      split at h
      · simp only [Option.some.injEq] at h
        subst h
        exact hs.frame ⟨rfl, rfl, rfl⟩
      · split at h
        · simp at h
        · rename_i s1 h1
          obtain ⟨a1, a2, a3⟩ := GraphLogic.deleteAll_labels _ h1
          split at h
          · exact GraphLogic.showNodeNumbers_hintOK h
          · rename_i hsh
            simp only [Option.some.injEq] at h
            subst h
            exact hs.of_shrink a1 a2 (by simpa [State.emit] using hsh)

theorem GraphWidget.widgetRemoveNode_hintOK {mods : KeyboardModifiers} {s t : State}
    (hs : HintOK s) (h : GraphWidget.removeNode mods s = some t) : HintOK t := by
  unfold GraphWidget.removeNode at h
  cases ha : s.m_activeNode with
  | none =>
    rw [ha] at h
    simp only [Option.some.injEq] at h
    subst h
    exact hs.frame ⟨rfl, rfl, rfl⟩
  | some a =>
    rw [ha] at h
    simp only at h
    cases hf : s.m_nodeList.head? with
    | none => rw [hf] at h; simp at h
    | some first =>
      rw [hf] at h
      simp only at h
      split at h
      · simp only [Option.some.injEq] at h
        subst h
        exact hs.frame ⟨rfl, rfl, rfl⟩
      · split at h
        · simp at h
        · rename_i s1 h1
          obtain ⟨a1, a2, a3⟩ := GraphLogic.deleteAll_labels _ h1
          split at h
          · exact GraphWidget.widgetShowNodeNumbers_hintOK h
          · rename_i hsh
            simp only [Option.some.injEq] at h
            subst h
            exact hs.of_shrink a1 a2 (by simpa [State.emit] using hsh)

theorem GraphWidget.editNode_sameHints (s : State) : s.sameHints (GraphWidget.editNode s) := by
  unfold GraphWidget.editNode
  split <;> exact ⟨rfl, rfl, rfl⟩

theorem GraphWidget.insertNode_hintOK {s t : State} (hs : HintOK s)
    (h : GraphWidget.insertNode s = some t) : HintOK t := by
  unfold GraphWidget.insertNode at h
  cases ha : s.m_activeNode with
  | none =>
    rw [ha] at h
    simp only [Option.some.injEq] at h
    subst h
    exact hs.frame ⟨rfl, rfl, rfl⟩
  | some a =>
    rw [ha] at h
    simp only at h
    cases hf : s.findNode a with
    | none => rw [hf] at h; simp at h
    | some n =>
      rw [hf] at h
      simp only at h
      split at h
      · simp at h
      · rename_i s2 h2
        split at h
        · simp at h
        · rename_i s3 h3
          split at h
          · exact GraphWidget.widgetShowNodeNumbers_hintOK h
          · rename_i hsh
            simp only [Option.some.injEq] at h
            subst h
            have f2 := GraphWidget.widgetAddEdge_sameHints h2
            have f3 := GraphWidget.widgetSetActiveNode_sameHints h3
            have f4 := State.sameHints_trans (State.sameHints_trans f2 f3)
              (State.sameHints_trans (GraphWidget.editNode_sameHints s3)
                (State.sameHints_emit _ .contentChanged))
            refine hs.of_sublist ?_ f4.2.1 (by simpa using hsh)
            rw [f4.1]
            show List.Sublist (List.map Node.label (s.m_nodeList ++ [_])) _
            rw [List.map_append]
            exact List.Sublist.refl _

theorem HintOK.preserved {s t : State} (h : HintOK s) (op : Op) (hr : op.run s = some t) :
    HintOK t := by
  cases op with
  | insertNode => exact GraphWidget.insertNode_hintOK h hr
  | removeNode mods => exact GraphLogic.removeNode_hintOK h hr
  | addEdge source destination => exact h.frame (GraphLogic.addEdge_sameHints hr)
  | removeEdge source destination => exact h.frame (GraphLogic.removeEdge_sameHints hr)
  | selectNode node => exact GraphLogic.selectNode_hintOK hr
  | nodeEdited =>
    simp only [Op.run, Option.some.injEq] at hr
    subst hr
    unfold GraphLogic.nodeEdited
    split <;> exact h.frame ⟨rfl, rfl, rfl⟩
  | addEdgeSlot =>
    simp only [Op.run, Option.some.injEq] at hr
    subst hr; exact h.frame ⟨rfl, rfl, rfl⟩
  | removeEdgeSlot =>
    simp only [Op.run, Option.some.injEq] at hr
    subst hr; exact h.frame ⟨rfl, rfl, rfl⟩
  | hintMode => exact GraphLogic.hintMode_hintOK hr
  | nodeLostFocus =>
    simp only [Op.run, Option.some.injEq] at hr
    subst hr; exact GraphLogic.nodeLostFocus_hintOK h
  | appendNumber num => exact GraphLogic.appendNumber_hintOK hr
  | delNumber => exact GraphLogic.delNumber_hintOK h hr
  | applyNumber => exact GraphLogic.applyNumber_hintOK h hr
  | widgetRemoveNode mods => exact GraphWidget.widgetRemoveNode_hintOK h hr
  | widgetAddEdge source destination => exact h.frame (GraphWidget.widgetAddEdge_sameHints hr)
  | widgetRemoveEdge source destination =>
    exact h.frame (GraphWidget.widgetRemoveEdge_sameHints hr)
  | widgetNodeSelected node => exact GraphWidget.nodeSelected_hintOK hr

theorem Reachable.hintOK {s : State} (h : Reachable s) : HintOK s := by
  induction h with
  | init => exact HintOK.of_clear (by decide)
  | initWidget => exact HintOK.of_clear (by decide)
  | step op _ hr ih => exact ih.preserved op hr

/-- C19: in every reachable state at most one node is marked as the hint
target (`m_numberIsSpecial`), and while a number is typed a marked node shows
exactly that number; in hint mode the marked node also stands at the list
position that has been typed. -/
theorem hint_target_unique (s : State) (h : Reachable s) :
    (s.m_nodeList.filter (fun n => n.m_numberIsSpecial)).length ≤ 1 ∧
    (∀ n ∈ s.m_nodeList, n.m_numberIsSpecial = true → s.m_hintNumber ≠ [] →
      n.m_number = (QString.toInt s.m_hintNumber : Int)) ∧
    (s.m_showingNodeNumbers = true → ∀ (i : Nat) (n : Node), s.m_nodeList[i]? = some n →
      n.m_numberIsSpecial = true → s.m_hintNumber ≠ [] →
      i = QString.toInt s.m_hintNumber) := by
  have hk := h.hintOK
  have hmem : ∀ n ∈ s.m_nodeList, n.label ∈ s.labels :=
    fun n hn => List.mem_map_of_mem _ hn
  refine ⟨?_, ?_, ?_⟩
  · have h1 := hk.oneSpecial
    unfold State.labels at h1
    rw [List.filter_map, List.length_map] at h1
    exact h1
  · intro n hn hsp hne
    exact hk.specialNumber n.label (hmem n hn) hsp hne
  · intro hsh i n hi hsp hne
    have h1 : s.labels[i]? = some n.label := by
      unfold State.labels
      rw [List.getElem?_map, hi]
      rfl
    have h2 := hk.specialNumber n.label (hmem n (List.getElem?_mem hi)) hsp hne
    rcases hk.inPlace hsh i n.label h1 with h3 | h3
    · rw [h2] at h3
      omega
    · rw [h2] at h3
      exact_mod_cast h3.symm

theorem hint_target_unique_witness :
    Reachable hintDoc ∧ hintDoc.m_hintNumber ≠ [] ∧
      (hintDoc.m_nodeList.filter (fun n => n.m_numberIsSpecial)).length ≤ 1 ∧
      ∀ n ∈ hintDoc.m_nodeList, n.m_numberIsSpecial = true →
        n.m_number = (QString.toInt hintDoc.m_hintNumber : Int) :=
  ⟨hintDoc_reachable, by decide, (hint_target_unique hintDoc hintDoc_reachable).1,
    fun n hn hsp => (hint_target_unique hintDoc hintDoc_reachable).2.1 n hn hsp (by decide)⟩

/-! ### A unique hit is the index that has been typed -/

theorem QString.foldl_numberAux :
    ∀ (fuel n : Nat) (acc : List Nat), n < fuel →
      (QString.numberAux fuel n acc).foldl (fun a d => 10 * a + d) 0
        = acc.foldl (fun a d => 10 * a + d) n
  | 0, _, _, h => absurd h (Nat.not_lt_zero _)
  | fuel + 1, n, acc, h => by
    unfold QString.numberAux
    split
    · simp
    · rename_i h10
      rw [QString.foldl_numberAux fuel (n / 10) (n % 10 :: acc) (by omega)]
      simp only [List.foldl_cons]
      congr 1
      omega

theorem QString.le_foldl (l : List Nat) :
    ∀ a : Nat, a ≤ l.foldl (fun a d => 10 * a + d) a := by
  induction l with
  | nil => intro a; exact le_refl a
  | cons d rest ih =>
    intro a
    simp only [List.foldl_cons]
    exact le_trans (by omega) (ih (10 * a + d))

theorem QString.foldl_number (n : Nat) :
    (QString.number n).foldl (fun a d => 10 * a + d) 0 = n := by
  unfold QString.number
  rw [QString.foldl_numberAux (n + 1) n [] (by omega)]
  rfl

/-- An index whose decimal digits start with the digits of `p` is at least
`p`. -/
theorem QString.le_of_startsWith {i p : Nat}
    (h : QString.startsWith (QString.number i) (QString.number p) = true) : p ≤ i := by
  unfold QString.startsWith at h
  obtain ⟨rest, hr⟩ := List.isPrefixOf_iff_prefix.mp h
  have h1 := QString.foldl_number i
  rw [← hr, List.foldl_append, QString.foldl_number p] at h1
  rw [← h1]
  exact QString.le_foldl rest p

theorem GraphLogic.isHit_self (p : Nat) : GraphLogic.isHit p p = true := by
  simp [GraphLogic.isHit]

/-- When the loop counts one hit, the typed number is an index of the list
and it is the only index that is hit. -/
theorem GraphLogic.one_hit {p n : Nat}
    (h : ((List.range' 0 n).filter (GraphLogic.isHit p)).length = 1) :
    p < n ∧ ∀ i < n, GraphLogic.isHit p i = true → i = p := by
  obtain ⟨x, hx⟩ := List.length_eq_one.mp h
  have hmem : ∀ i, i < n → GraphLogic.isHit p i = true → i = x := by
    intro i hi hh
    have : i ∈ (List.range' 0 n).filter (GraphLogic.isHit p) :=
      List.mem_filter.mpr ⟨by simp [List.mem_range']; omega, hh⟩
    rw [hx] at this
    simpa using this
  have hx1 : x ∈ (List.range' 0 n).filter (GraphLogic.isHit p) := by rw [hx]; simp
  obtain ⟨hx2, hx3⟩ := List.mem_filter.mp hx1
  have hxn : x < n := by
    simp [List.mem_range'] at hx2
    omega
  have hpx : p ≤ x := by
    rw [GraphLogic.isHit_iff] at hx3
    exact QString.le_of_startsWith hx3
  have hpn : p < n := by omega
  have hpx' : p = x := hmem p hpn (GraphLogic.isHit_self p)
  refine ⟨hpn, ?_⟩
  intro i hi hh
  rw [hpx']
  exact hmem i hi hh

/-- C28: an index whose decimal digits start with the digits of `p` is at
least `p`; so when the loop of `showingNodeNumbersBeginWithNumber(p, ..)`
counts exactly one hit, `p` is an index of the node list and the only index
hit, `m_hintNode` is the node at index `p` when the loop ends, and the node
handed to `selectNode` (`nodeSelected` in the widget) is that node, whatever
`m_hintNode` was before. -/
theorem unique_hit_is_index (s : State) (p : Nat) (b : Bool) :
    (∀ i, QString.startsWith (QString.number i) (QString.number p) = true → p ≤ i) ∧
    ((GraphLogic.beginWithLoop p b 0 s.m_nodeList s.m_hintNode).2.1 = 1 →
      p < s.m_nodeList.length ∧
      (∀ i < s.m_nodeList.length,
        QString.startsWith (QString.number i) (QString.number p) = true → i = p) ∧
      (GraphLogic.beginWithLoop p b 0 s.m_nodeList s.m_hintNode).2.2 = s.ids[p]? ∧
      (∃ a, s.ids[p]? = some a ∧ a ∈ s.ids) ∧
      GraphLogic.showingNodeNumbersBeginWithNumber p b s
        = GraphLogic.selectNode s.ids[p]? { s with
            m_nodeList := (GraphLogic.beginWithLoop p b 0 s.m_nodeList s.m_hintNode).1
            m_hintNode := s.ids[p]? } ∧
      GraphWidget.showingNodeNumbersBeginWithNumber p b s
        = GraphWidget.nodeSelected s.ids[p]? { s with
            m_nodeList := (GraphLogic.beginWithLoop p b 0 s.m_nodeList s.m_hintNode).1
            m_hintNode := s.ids[p]? }) := by
  refine ⟨fun i hi => QString.le_of_startsWith hi, ?_⟩
  intro h
  have h1 := h
  rw [GraphLogic.beginWithLoop_hits] at h1
  obtain ⟨hp, huniq⟩ := GraphLogic.one_hit h1
  have hhint := GraphLogic.beginWithLoop_hint_at p b 0 s.m_nodeList s.m_hintNode
    (Nat.zero_le _) (by simpa using hp)
  have hhint' : (GraphLogic.beginWithLoop p b 0 s.m_nodeList s.m_hintNode).2.2 = s.ids[p]? := by
    rw [hhint]
    rfl
  have hlen : p < s.ids.length := by
    simpa [State.ids] using hp
  refine ⟨hp, ?_, hhint', ⟨s.ids[p], List.getElem?_eq_getElem hlen, List.getElem_mem _⟩, ?_, ?_⟩
  · intro i hi hs
    exact huniq i hi (by rw [GraphLogic.isHit_iff]; exact hs)
  · unfold GraphLogic.showingNodeNumbersBeginWithNumber
    simp only [h, if_true, hhint']
  · unfold GraphWidget.showingNodeNumbersBeginWithNumber
    simp only [h, if_true, hhint']

theorem unique_hit_is_index_witness :
    (GraphLogic.beginWithLoop 10 true 0 hintDoc.m_nodeList hintDoc.m_hintNode).2.1 = 1 ∧
      10 < hintDoc.m_nodeList.length ∧
      (GraphLogic.beginWithLoop 10 true 0 hintDoc.m_nodeList hintDoc.m_hintNode).2.2
        = hintDoc.ids[10]? :=
  ⟨by decide, ((unique_hit_is_index hintDoc 10 true).2 (by decide)).1,
    ((unique_hit_is_index hintDoc 10 true).2 (by decide)).2.2.1⟩

/-! ### Edge operations that fail -/

/-- What a failing `addEdge` or `removeEdge` of `GraphLogic` leaves behind:
`setActiveNode(destination)` has run and one notification has been sent; ids,
edges and the address counter are as before. -/
theorem GraphLogic.failed_call {s t1 : State} {destination : Option Nat} (m : Msg)
    (ht1 : GraphLogic.setActiveNode destination s = some t1) :
    (t1.emit (.notification m)).skel = s.skel ∧
      (t1.emit (.notification m)).allEdges = s.allEdges ∧
      (t1.emit (.notification m)).nextId = s.nextId ∧
      (t1.emit (.notification m)).m_activeNode = destination ∧
      (t1.emit (.notification m)).signals = s.signals ++ [.notification m] ∧
      (t1.emit (.notification m)).labels = s.labels := by
  have hl := GraphLogic.setActiveNode_labels ht1
  obtain ⟨hsk, _, l, rfl⟩ := GraphLogic.setActiveNode_spec ht1
  exact ⟨hsk, State.allEdges_congr hsk, rfl, rfl, rfl, hl⟩

/-- C26, as the code has it: in a reachable state with an active node, an
`addEdge(source, destination)` that fails (the destination is the root, or
the two nodes are connected already) and a `removeEdge(source, destination)`
that fails (the two nodes are not connected) leave the node list and the
edges as they were, but `destination` becomes the active node. -/
theorem failed_edge_operation (s : State) (hs : Reachable s) (source destination : Option Nat)
    (a : Nat) (ha : s.m_activeNode = some a) :
    (∀ first, s.m_nodeList.head? = some first → destination = some first.id →
      ∃ t, GraphLogic.addEdge source destination s = some t ∧
        t.skel = s.skel ∧ t.allEdges = s.allEdges ∧ t.nextId = s.nextId ∧
        t.m_activeNode = destination ∧
        t.signals = s.signals ++ [.notification .rootCannotBeEdgeTarget]) ∧
    (∀ first src dst, s.m_nodeList.head? = some first → destination ≠ some first.id →
      source.bind s.findNode = some src → destination.bind s.findNode = some dst →
      src.isConnected destination = true →
      ∃ t, GraphLogic.addEdge source destination s = some t ∧
        t.skel = s.skel ∧ t.allEdges = s.allEdges ∧ t.nextId = s.nextId ∧
        t.m_activeNode = destination ∧
        t.signals = s.signals ++ [.notification .edgeAlreadyExists]) ∧
    (∀ src, source.bind s.findNode = some src → (∀ p, destination = some p → p ∈ s.ids) →
      src.isConnected destination = false →
      ∃ t, GraphLogic.removeEdge source destination s = some t ∧
        t.skel = s.skel ∧ t.allEdges = s.allEdges ∧ t.nextId = s.nextId ∧
        t.m_activeNode = destination ∧
        t.signals = s.signals ++ [.notification .noSuchEdge]) := by
  have hwf := hs.wf
  have hact : ∀ b, s.m_activeNode = some b → b ∈ s.ids := hwf.activeLive
  refine ⟨?_, ?_, ?_⟩
  · intro first hf hd
    obtain ⟨t1, ht1⟩ := GraphLogic.setActiveNode_defined destination s hact
      (fun p hp => by
        rw [hd] at hp; cases hp
        exact List.mem_map.mpr ⟨first, List.mem_of_mem_head? hf, rfl⟩)
    obtain ⟨h1, h2, h3, h4, h5, _⟩ :=
      GraphLogic.failed_call .rootCannotBeEdgeTarget ht1
    refine ⟨_, ?_, h1, h2, h3, h4, h5⟩
    unfold GraphLogic.addEdge
    rw [ha, hf]
    simp only [if_pos hd, ht1, Option.map_some']
  · intro first src dst hf hd hsrc hdst hc
    obtain ⟨hd1, hd2⟩ := State.bind_findNode hdst
    obtain ⟨t1, ht1⟩ := GraphLogic.setActiveNode_defined destination s hact
      (fun p hp => by rw [hd1] at hp; cases hp; exact State.findNode_mem_ids hd2)
    obtain ⟨h1, h2, h3, h4, h5, _⟩ := GraphLogic.failed_call .edgeAlreadyExists ht1
    refine ⟨_, ?_, h1, h2, h3, h4, h5⟩
    unfold GraphLogic.addEdge
    rw [ha, hf]
    simp only [if_neg hd, hsrc, hdst, if_pos hc, ht1, Option.map_some']
  · intro src hsrc hlive hc
    obtain ⟨t1, ht1⟩ := GraphLogic.setActiveNode_defined destination s hact hlive
    obtain ⟨h1, h2, h3, h4, h5, _⟩ := GraphLogic.failed_call .noSuchEdge ht1
    refine ⟨_, ?_, h1, h2, h3, h4, h5⟩
    unfold GraphLogic.removeEdge
    rw [ha, hsrc]
    simp only [hc, Bool.not_false, if_true, ht1, Option.map_some']

theorem failed_edge_operation_witness :
    Reachable chainDoc ∧ chainDoc.m_activeNode = some 5 ∧
      chainDoc.m_nodeList.head? = some (chainDoc.m_nodeList.headD { id := 0 }) ∧
      (∃ t, GraphLogic.addEdge (some 5) (some 0) chainDoc = some t ∧
        t.skel = chainDoc.skel ∧ t.m_activeNode = some 0) := by
  obtain ⟨t, h1, h2, _, _, h5, _⟩ :=
    (failed_edge_operation chainDoc chainDoc_reachable (some 5) (some 0) 5 (by decide)).1
      (chainDoc.m_nodeList.headD { id := 0 }) (by decide) (by decide)
  exact ⟨chainDoc_reachable, by decide, by decide, t, h1, h2, h5⟩

/-- C26 as stated fails: in the chain 0 -> 1 -> 3 -> 5 with node 5 active,
`addEdge(5, 0)` fails because node 0 is the root, and node 0 is the active
node afterwards. -/
theorem failed_addEdge_moves_active_counterexample :
    ¬ ∀ (s t : State) (source destination : Option Nat) (first : Node),
      Reachable s → s.m_nodeList.head? = some first → destination = some first.id →
      GraphLogic.addEdge source destination s = some t →
      t.m_activeNode = s.m_activeNode := by
  intro h
  have h1 := h chainDoc ((GraphLogic.addEdge (some 5) (some 0) chainDoc).getD chainDoc)
    (some 5) (some 0) (chainDoc.m_nodeList.headD { id := 0 }) chainDoc_reachable (by decide) (by decide)
    (by decide)
  revert h1
  decide

/-! ### Selecting a node -/

theorem State.ids_mapNode (s : State) (p : Nat) {f : Node → Node}
    (hf : ∀ n, (f n).id = n.id) : (s.mapNode p f).ids = s.ids := by
  unfold State.ids State.mapNode
  simp only [List.map_map]
  apply List.map_congr_left
  intro n _
  simp only [Function.comp]
  split
  · exact hf n
  · rfl

theorem State.ids_addEdge (s : State) (p : Nat) (edge : Edge) (b : Bool) :
    (s.mapNode p (fun n => n.addEdge edge b)).ids = s.ids :=
  State.ids_mapNode s p (fun _ => rfl)

theorem State.ids_removeEdgeFromList (s : State) (p : Nat) (edge : Nat) :
    (s.mapNode p (fun n => n.removeEdgeFromList edge)).ids = s.ids :=
  State.ids_mapNode s p (fun _ => rfl)

theorem Edge.ids_destroy (e : Edge) (s : State) : (Edge.destroy e s).ids = s.ids := by
  unfold Edge.destroy
  rw [State.ids_removeEdgeFromList, State.ids_removeEdgeFromList]

theorem Node.ids_deleteEdge (n : Node) (otherEnd : Option Nat) (s : State) :
    (n.deleteEdge otherEnd s).ids = s.ids := by
  unfold Node.deleteEdge
  split
  · exact Edge.ids_destroy _ s
  · rfl

/-- `GraphLogic::addEdge(source, destination)` returns when the destination
is live and the source is live unless there is no active node. -/
theorem GraphLogic.addEdge_defined {s : State} (hwf : WF s) {source : Option Nat} {d : Nat}
    (hd : d ∈ s.ids) (hsrc : ∀ a, s.m_activeNode = some a → ∃ p, source = some p ∧ p ∈ s.ids) :
    ∃ t, GraphLogic.addEdge source (some d) s = some t := by
  unfold GraphLogic.addEdge
  cases ha : s.m_activeNode with
  | none => exact ⟨_, rfl⟩
  | some a =>
    simp only
    obtain ⟨first, hf, _⟩ := hwf.exists_head
    rw [hf]
    simp only
    have hact : ∀ b, s.m_activeNode = some b → b ∈ s.ids := hwf.activeLive
    by_cases hroot : some d = some first.id
    · rw [if_pos hroot]
      obtain ⟨t1, ht1⟩ := GraphLogic.setActiveNode_defined (some d) s hact
        (fun p hp => by cases hp; exact hd)
      rw [ht1]
      exact ⟨_, rfl⟩
    · rw [if_neg hroot]
      obtain ⟨p, rfl, hp⟩ := hsrc a ha
      obtain ⟨src, hs1⟩ := State.exists_findNode hp
      obtain ⟨dst, hd1⟩ := State.exists_findNode hd
      simp only [Option.some_bind, hs1, hd1]
      split
      · obtain ⟨t1, ht1⟩ := GraphLogic.setActiveNode_defined (some d) s hact
          (fun p hp => by cases hp; exact hd)
        rw [ht1]
        exact ⟨_, rfl⟩
      · have key : ∀ u : State, u.ids = s.ids → u.m_activeNode = s.m_activeNode →
            ∃ t, (GraphLogic.setActiveNode (some d) u).map
              (fun t => t.emit .contentChanged) = some t := by
          intro u hu1 hu2
          obtain ⟨t1, ht1⟩ := GraphLogic.setActiveNode_defined (some d) u
            (fun b hb => by rw [hu1]; rw [hu2] at hb; exact hact b hb)
            (fun q hq => by cases hq; rw [hu1]; exact hd)
          rw [ht1]
          exact ⟨_, rfl⟩
        apply key
        · rw [State.ids_addEdge, State.ids_addEdge]
          split <;> rfl
        · split <;> rfl

/-- `GraphLogic::removeEdge(source, destination)` returns when the
destination is live and the source is live unless there is no active node. -/
theorem GraphLogic.removeEdge_defined {s : State} (hwf : WF s) {source : Option Nat} {d : Nat}
    (hd : d ∈ s.ids) (hsrc : ∀ a, s.m_activeNode = some a → ∃ p, source = some p ∧ p ∈ s.ids) :
    ∃ t, GraphLogic.removeEdge source (some d) s = some t := by
  unfold GraphLogic.removeEdge
  cases ha : s.m_activeNode with
  | none => exact ⟨_, rfl⟩
  | some a =>
    simp only
    have hact : ∀ b, s.m_activeNode = some b → b ∈ s.ids := hwf.activeLive
    obtain ⟨p, rfl, hp⟩ := hsrc a ha
    obtain ⟨src, hs1⟩ := State.exists_findNode hp
    simp only [Option.some_bind, hs1]
    split
    · obtain ⟨t1, ht1⟩ := GraphLogic.setActiveNode_defined (some d) s hact
        (fun p hp => by cases hp; exact hd)
      rw [ht1]
      exact ⟨_, rfl⟩
    · obtain ⟨t1, ht1⟩ := GraphLogic.setActiveNode_defined (some d) (src.deleteEdge (some d) s)
        (fun b hb => by
          rw [Node.ids_deleteEdge]
          rw [Node.deleteEdge_activeNode] at hb
          exact hact b hb)
        (fun q hq => by cases hq; rw [Node.ids_deleteEdge]; exact hd)
      rw [ht1]
      exact ⟨_, rfl⟩

theorem GraphLogic.selectNode_clear {node : Option Nat} {s t : State}
    (h : GraphLogic.selectNode node s = some t) :
    t.m_showingNodeNumbers = false ∧ ∀ m ∈ t.m_nodeList, m.label = (-1, false) := by
  unfold GraphLogic.selectNode at h
  simp only at h
  have hc : ∀ x ∈ ({ GraphLogic.showingAllNodeNumbers false s with
      m_showingNodeNumbers := false } : State).labels, x = (-1, false) :=
    GraphLogic.showingAll_clear s
  have key : ∀ u : State, ({ GraphLogic.showingAllNodeNumbers false s with
      m_showingNodeNumbers := false } : State).sameHints u →
      u.m_showingNodeNumbers = false ∧ ∀ m ∈ u.m_nodeList, m.label = (-1, false) := by
    intro u hu
    refine ⟨hu.2.2, ?_⟩
    intro m hm
    apply hc
    rw [← hu.1]
    exact List.mem_map_of_mem _ hm
  split at h
  · obtain ⟨t1, ht1, rfl⟩ := Option.map_eq_some'.mp h
    exact key t1 (GraphLogic.addEdge_sameHints ht1)
  · split at h
    · obtain ⟨t1, ht1, rfl⟩ := Option.map_eq_some'.mp h
      exact key t1 (GraphLogic.removeEdge_sameHints ht1)
    · exact key t (GraphLogic.setActiveNode_sameHints h)

/-- C21: in a reachable state, `selectNode(n)` for a live node `n` returns;
afterwards hint mode is off and no node shows a number.  With edge adding
pending the result is the one of `addEdge(m_activeNode, n)`, called after
the numbers have been hidden, with `m_edgeAdding` cleared; otherwise, with
edge deleting pending, it is the one of `removeEdge(m_activeNode, n)` with
`m_edgeDeleting` cleared; otherwise `n` is the active node and the nodes and
edges are as before. -/
theorem selectNode_dispatch (s : State) (hs : Reachable s) (n : Nat) (hn : n ∈ s.ids) :
    ∃ t, GraphLogic.selectNode (some n) s = some t ∧
      t.m_showingNodeNumbers = false ∧ (∀ m ∈ t.m_nodeList, m.m_number = -1) ∧
      (s.m_edgeAdding = true →
        t.m_edgeAdding = false ∧ t.m_edgeDeleting = s.m_edgeDeleting ∧
        ∃ u, GraphLogic.addEdge s.m_activeNode (some n)
            { GraphLogic.showingAllNodeNumbers false s with m_showingNodeNumbers := false }
            = some u ∧
          t = { u with m_edgeAdding := false }) ∧
      (s.m_edgeAdding = false → s.m_edgeDeleting = true →
        t.m_edgeDeleting = false ∧
        ∃ u, GraphLogic.removeEdge s.m_activeNode (some n)
            { GraphLogic.showingAllNodeNumbers false s with m_showingNodeNumbers := false }
            = some u ∧
          t = { u with m_edgeDeleting := false }) ∧
      (s.m_edgeAdding = false → s.m_edgeDeleting = false →
        t.m_activeNode = some n ∧ t.skel = s.skel ∧ t.allEdges = s.allEdges ∧
        t.nextId = s.nextId) := by
  have hwf := hs.wf
  have h1 : WF ({ GraphLogic.showingAllNodeNumbers false s with
      m_showingNodeNumbers := false } : State) :=
    (hwf.showingAllNodeNumbers false).transfer rfl rfl
      (hwf.showingAllNodeNumbers false).activeLive (hwf.showingAllNodeNumbers false).hintLive
  have hids : ({ GraphLogic.showingAllNodeNumbers false s with
      m_showingNodeNumbers := false } : State).ids = s.ids :=
    GraphLogic.ids_showingAllNodeNumbers false s
  have hsrc : ∀ a, ({ GraphLogic.showingAllNodeNumbers false s with
      m_showingNodeNumbers := false } : State).m_activeNode = some a →
      ∃ p, s.m_activeNode = some p ∧ p ∈ ({ GraphLogic.showingAllNodeNumbers false s with
        m_showingNodeNumbers := false } : State).ids :=
    fun a ha => ⟨a, ha, h1.activeLive a ha⟩
  have hex : ∃ t, GraphLogic.selectNode (some n) s = some t := by
    unfold GraphLogic.selectNode
    simp only
    split
    · obtain ⟨u, hu⟩ := GraphLogic.addEdge_defined h1 (by rw [hids]; exact hn) hsrc
      exact ⟨_, congrArg (Option.map _) hu⟩
    · split
      · obtain ⟨u, hu⟩ := GraphLogic.removeEdge_defined h1 (by rw [hids]; exact hn) hsrc
        exact ⟨_, congrArg (Option.map _) hu⟩
      · exact GraphLogic.setActiveNode_defined (some n) _ h1.activeLive
          (fun p hp => by cases hp; rw [hids]; exact hn)
  obtain ⟨t, ht⟩ := hex
  obtain ⟨hc1, hc2⟩ := GraphLogic.selectNode_clear ht
  refine ⟨t, ht, hc1, fun m hm => congrArg Prod.fst (hc2 m hm), ?_, ?_, ?_⟩
  · intro hadd
    unfold GraphLogic.selectNode at ht
    simp only [GraphLogic.showingAllNodeNumbers] at ht
    rw [if_pos hadd] at ht
    obtain ⟨u, hu, rfl⟩ := Option.map_eq_some'.mp ht
    refine ⟨rfl, ?_, u, hu, rfl⟩
    rcases GraphLogic.addEdge_spec hu with ⟨_, rfl⟩ | ⟨a, first, _, _, hcase⟩
    · rfl
    · rcases hcase with ⟨_, _, l, rfl⟩ | ⟨_, src, dst, _, _, hcase2⟩
      · rfl
      · rcases hcase2 with ⟨_, _, l, rfl⟩ | ⟨_, _, l, rfl⟩ <;> rfl
  · intro hadd hdel
    unfold GraphLogic.selectNode at ht
    simp only [GraphLogic.showingAllNodeNumbers] at ht
    rw [if_neg (by simp [hadd]), if_pos hdel] at ht
    obtain ⟨u, hu, rfl⟩ := Option.map_eq_some'.mp ht
    exact ⟨rfl, u, hu, rfl⟩
  · intro hadd hdel
    obtain ⟨l, hl, _, hsk⟩ := GraphLogic.selectNode_plain s (some n) hadd hdel hwf.activeLive
      (fun p hp => by cases hp; exact hn)
    rw [ht] at hl
    simp only [Option.some.injEq] at hl
    subst hl
    exact ⟨rfl, hsk, State.allEdges_congr hsk, rfl⟩

theorem selectNode_dispatch_witness :
    Reachable chainDoc ∧ 1 ∈ chainDoc.ids ∧
      ∃ t, GraphLogic.selectNode (some 1) chainDoc = some t ∧
        t.m_showingNodeNumbers = false ∧ t.m_activeNode = some 1 := by
  obtain ⟨t, h1, h2, _, _, _, h6⟩ :=
    selectNode_dispatch chainDoc chainDoc_reachable 1 (by decide)
  exact ⟨chainDoc_reachable, by decide, t, h1, h2, (h6 (by decide) (by decide)).1⟩

/-! ### Key events and mode flags -/

/-- C23, as the code has it: Escape runs `nodeLostFocus`, which cancels the
first mode that is set in the order text edit, edge adding, edge deleting,
hint mode and leaves the other three flags as they are; it sends "Edge adding
cancelled." and "Edge deleting cancelled." for the two edge modes and
nothing for text edit and for hint mode, and it does nothing when no flag is
set.  `GraphWidget::nodeLostFocus` does the same, but needs a live active
node to leave text edit. -/
theorem escape_cancels (s : State) (g : Geometry) (mods : KeyboardModifiers) :
    GraphLogic.processKeyEvent { key := .escape, modifiers := mods } (s, g)
      = some (GraphLogic.nodeLostFocus s, g) ∧
    (s.m_editingNode = true →
      GraphLogic.nodeLostFocus s = { s with m_editingNode := false }) ∧
    (s.m_editingNode = false → s.m_edgeAdding = true →
      GraphLogic.nodeLostFocus s = { s with
        m_edgeAdding := false
        signals := s.signals ++ [.notification .edgeAddingCancelled] }) ∧
    (s.m_editingNode = false → s.m_edgeAdding = false → s.m_edgeDeleting = true →
      GraphLogic.nodeLostFocus s = { s with
        m_edgeDeleting := false
        signals := s.signals ++ [.notification .edgeDeletingCancelled] }) ∧
    (s.m_editingNode = false → s.m_edgeAdding = false → s.m_edgeDeleting = false →
      s.m_showingNodeNumbers = true →
      GraphLogic.nodeLostFocus s = { s with
        m_showingNodeNumbers := false
        m_hintNumber := []
        m_nodeList := GraphLogic.showAllFrom false 0 s.m_nodeList }) ∧
    (s.m_editingNode = false → s.m_edgeAdding = false → s.m_edgeDeleting = false →
      s.m_showingNodeNumbers = false → GraphLogic.nodeLostFocus s = s) ∧
    ((s.m_editingNode = false ∨ ∃ a, s.m_activeNode = some a ∧ a ∈ s.ids) →
      GraphWidget.nodeLostFocus s = some (GraphLogic.nodeLostFocus s)) := by
  refine ⟨rfl, ?_, ?_, ?_, ?_, ?_, ?_⟩
  · intro h1
    simp [GraphLogic.nodeLostFocus, h1]
  · intro h1 h2
    simp [GraphLogic.nodeLostFocus, h1, h2, State.emit]
  · intro h1 h2 h3
    simp [GraphLogic.nodeLostFocus, h1, h2, h3, State.emit]
  · intro h1 h2 h3 h4
    simp [GraphLogic.nodeLostFocus, h1, h2, h3, h4, GraphLogic.showingAllNodeNumbers]
  · intro h1 h2 h3 h4
    simp [GraphLogic.nodeLostFocus, h1, h2, h3, h4]
  · intro h
    unfold GraphWidget.nodeLostFocus GraphLogic.nodeLostFocus
    by_cases h1 : s.m_editingNode = true
    · rcases h with h | ⟨a, ha, hlive⟩
      · rw [h] at h1
        simp at h1
      · obtain ⟨n, hn⟩ := State.exists_findNode hlive
        simp [h1, ha, hn]
    · rw [if_neg h1, if_neg h1]
      split
      · rfl
      · split
        · rfl
        · split
          · rfl
          · rfl

theorem escape_cancels_witness :
    (GraphLogic.nodeEdited (GraphLogic.addEdgeSlot newDocument)).m_editingNode = true ∧
      GraphLogic.nodeLostFocus (GraphLogic.nodeEdited (GraphLogic.addEdgeSlot newDocument))
        = { GraphLogic.nodeEdited (GraphLogic.addEdgeSlot newDocument) with
            m_editingNode := false } ∧
      (GraphLogic.nodeLostFocus
        (GraphLogic.nodeEdited (GraphLogic.addEdgeSlot newDocument))).m_edgeAdding = true :=
  ⟨by decide,
    (escape_cancels (GraphLogic.nodeEdited (GraphLogic.addEdgeSlot newDocument))
      smallScene {}).2.1 (by decide),
    by decide⟩

/-- C23 as stated fails: with text edit on (F2 in a new document), Escape
sends no notification. -/
theorem escape_silent_counterexample :
    ¬ ∀ (s : State) (g : Geometry), s.m_editingNode = true →
      ∃ r m, GraphLogic.processKeyEvent { key := .escape } (s, g) = some r ∧
        r.1.signals = s.signals ++ [.notification m] := by
  intro h
  obtain ⟨r, m, h1, h2⟩ := h (GraphLogic.nodeEdited newDocument) smallScene (by decide)
  have h3 : r = (GraphLogic.nodeLostFocus (GraphLogic.nodeEdited newDocument), smallScene) := by
    have : GraphLogic.processKeyEvent { key := .escape }
        (GraphLogic.nodeEdited newDocument, smallScene)
        = some (GraphLogic.nodeLostFocus (GraphLogic.nodeEdited newDocument), smallScene) := rfl
    rw [this] at h1
    exact (Option.some.inj h1).symm
  rw [h3] at h2
  have h4 : (GraphLogic.nodeLostFocus (GraphLogic.nodeEdited newDocument)).signals = [] := by
    decide
  have h5 : (GraphLogic.nodeEdited newDocument).signals = [] := by decide
  simp only [h4, h5] at h2
  simp at h2

theorem GraphLogic.processKeyEvent_editing {event : QKeyEvent} {s : State} {g : Geometry}
    (he : s.m_editingNode = true) (hk : event.key ≠ .escape) {a : Nat}
    (ha : s.m_activeNode = some a) (hlive : a ∈ s.ids) :
    GraphLogic.processKeyEvent event (s, g) = some (Node.keyPressEvent event s, g) := by
  obtain ⟨n, hn⟩ := State.exists_findNode hlive
  unfold GraphLogic.processKeyEvent
  rw [if_neg hk]
  simp [he, ha, hn]

theorem Node.keyPressEvent_flags (event : QKeyEvent) (s : State) :
    (Node.keyPressEvent event s).m_editingNode = s.m_editingNode ∧
      (Node.keyPressEvent event s).m_edgeAdding = s.m_edgeAdding ∧
      (Node.keyPressEvent event s).m_edgeDeleting = s.m_edgeDeleting ∧
      (Node.keyPressEvent event s).m_showingNodeNumbers = s.m_showingNodeNumbers := by
  unfold Node.keyPressEvent
  split <;> exact ⟨rfl, rfl, rfl, rfl⟩

/-- C22, as the code has it: the four mode flags are set independently of
each other.  Outside text edit, key A sets `m_edgeAdding`, key D sets
`m_edgeDeleting`, key F2 sets `m_editingNode` when there is an active node
and key F turns hint mode on, each leaving the other three flags as they
are; in text edit every key but Escape goes to the editor of the active node
and changes none of the four flags. -/
theorem mode_flags_independent (s : State) (g : Geometry) (mods : KeyboardModifiers) :
    (s.m_editingNode = false →
      GraphLogic.processKeyEvent { key := .a, modifiers := mods } (s, g)
        = some (GraphLogic.addEdgeSlot s, g) ∧
      (GraphLogic.addEdgeSlot s).m_edgeAdding = true ∧
      (GraphLogic.addEdgeSlot s).m_edgeDeleting = s.m_edgeDeleting ∧
      (GraphLogic.addEdgeSlot s).m_showingNodeNumbers = s.m_showingNodeNumbers ∧
      (GraphLogic.addEdgeSlot s).m_editingNode = false) ∧
    (s.m_editingNode = false →
      GraphLogic.processKeyEvent { key := .d, modifiers := mods } (s, g)
        = some (GraphLogic.removeEdgeSlot s, g) ∧
      (GraphLogic.removeEdgeSlot s).m_edgeDeleting = true ∧
      (GraphLogic.removeEdgeSlot s).m_edgeAdding = s.m_edgeAdding ∧
      (GraphLogic.removeEdgeSlot s).m_showingNodeNumbers = s.m_showingNodeNumbers ∧
      (GraphLogic.removeEdgeSlot s).m_editingNode = false) ∧
    (s.m_editingNode = false → s.m_activeNode ≠ none →
      GraphLogic.processKeyEvent { key := .f2, modifiers := mods } (s, g)
        = some (GraphLogic.nodeEdited s, g) ∧
      (GraphLogic.nodeEdited s).m_editingNode = true ∧
      (GraphLogic.nodeEdited s).m_edgeAdding = s.m_edgeAdding ∧
      (GraphLogic.nodeEdited s).m_edgeDeleting = s.m_edgeDeleting ∧
      (GraphLogic.nodeEdited s).m_showingNodeNumbers = s.m_showingNodeNumbers) ∧
    (s.m_editingNode = false → s.m_showingNodeNumbers = false → s.m_nodeList ≠ [] →
      ∃ t, GraphLogic.processKeyEvent { key := .f, modifiers := mods } (s, g) = some (t, g) ∧
        t.m_showingNodeNumbers = true ∧ t.m_edgeAdding = s.m_edgeAdding ∧
        t.m_edgeDeleting = s.m_edgeDeleting ∧ t.m_editingNode = false) ∧
    (s.m_editingNode = true → ∀ (event : QKeyEvent) (a : Nat), event.key ≠ .escape →
      s.m_activeNode = some a → a ∈ s.ids →
      ∃ t, GraphLogic.processKeyEvent event (s, g) = some (t, g) ∧
        t.m_editingNode = true ∧ t.m_edgeAdding = s.m_edgeAdding ∧
        t.m_edgeDeleting = s.m_edgeDeleting ∧
        t.m_showingNodeNumbers = s.m_showingNodeNumbers) := by
  refine ⟨?_, ?_, ?_, ?_, ?_⟩
  · intro he
    refine ⟨?_, rfl, rfl, rfl, he⟩
    simp [GraphLogic.processKeyEvent, he]
  · intro he
    refine ⟨?_, rfl, rfl, rfl, he⟩
    simp [GraphLogic.processKeyEvent, he]
  · intro he ha
    refine ⟨?_, ?_⟩
    · simp [GraphLogic.processKeyEvent, he]
    · unfold GraphLogic.nodeEdited
      cases hs : s.m_activeNode with
      | none => exact absurd hs ha
      | some a => exact ⟨rfl, rfl, rfl, rfl⟩
  · intro he hsh hne
    obtain ⟨l, h, h1, _⟩ := GraphLogic.hintMode_on hsh hne
    refine ⟨{ s with
        m_showingNodeNumbers := true
        m_hintNumber := []
        m_nodeList := l
        m_hintNode := h }, ?_, rfl, rfl, rfl, he⟩
    simp [GraphLogic.processKeyEvent, he, h1]
  · intro he event a hk ha hlive
    obtain ⟨h1, h2, h3, h4⟩ := Node.keyPressEvent_flags event s
    exact ⟨_, GraphLogic.processKeyEvent_editing he hk ha hlive, h1.trans he, h2, h3, h4⟩

theorem mode_flags_independent_witness :
    (GraphLogic.addEdgeSlot newDocument).m_editingNode = false ∧
      GraphLogic.processKeyEvent { key := .d }
          (GraphLogic.addEdgeSlot newDocument, smallScene)
        = some (GraphLogic.removeEdgeSlot (GraphLogic.addEdgeSlot newDocument), smallScene) ∧
      (GraphLogic.removeEdgeSlot (GraphLogic.addEdgeSlot newDocument)).m_edgeDeleting = true ∧
      (GraphLogic.removeEdgeSlot (GraphLogic.addEdgeSlot newDocument)).m_edgeAdding = true :=
  ⟨by decide,
    ((mode_flags_independent (GraphLogic.addEdgeSlot newDocument) smallScene {}).2.1
      (by decide)).1,
    by decide, by decide⟩

/-- The operations behind `allModesDoc` are the keys A, D, F and F2. -/
theorem allModesDoc_reachable : KeyReachable allModesDoc :=
  KeyReachable.key { key := .f2 } smallScene smallScene
    (KeyReachable.key { key := .f } smallScene smallScene
      (KeyReachable.key { key := .d } smallScene smallScene
        (KeyReachable.key { key := .a } smallScene smallScene KeyReachable.init rfl)
        rfl)
      rfl)
    rfl

/-- C22 as stated fails: after the keys A, D, F and F2 in a new document all
four mode flags are set. -/
theorem mode_flags_overlap_counterexample :
    ¬ ∀ s : State, KeyReachable s →
      ([s.m_editingNode, s.m_edgeAdding, s.m_edgeDeleting, s.m_showingNodeNumbers].count true
        ≤ 1) := by
  intro h
  have h1 := h allModesDoc allModesDoc_reachable
  revert h1
  decide

/-! ### Moving nodes -/

theorem Node.itemChange_congr {g g' : Geometry} (h1 : g'.sceneRect = g.sceneRect)
    (h2 : g'.boundingRect = g.boundingRect) (node : Nat) (value : QPointF) :
    Node.itemChange g' node value = Node.itemChange g node value := by
  unfold Node.itemChange
  rw [h1, h2]

theorem Node.itemChange_inside (g : Geometry) (node : Nat) (value : QPointF)
    (h : QRectF.contains
      { left := g.sceneRect.left, top := g.sceneRect.top,
        right := g.sceneRect.right - (g.boundingRect node).right,
        bottom := g.sceneRect.bottom - (g.boundingRect node).bottom } value = true) :
    Node.itemChange g node value = value := by
  unfold Node.itemChange
  simp [h]

theorem Node.setPos_frame (node : Nat) (pos : QPointF) (sg : State × Geometry) :
    (Node.setPos node pos sg).2.sceneRect = sg.2.sceneRect ∧
      (Node.setPos node pos sg).2.boundingRect = sg.2.boundingRect ∧
      (∀ id, id ≠ node → (Node.setPos node pos sg).2.pos id = sg.2.pos id) ∧
      ∃ k, (Node.setPos node pos sg).1
        = { sg.1 with signals := sg.1.signals ++ List.replicate k Signal.contentChanged } := by
  unfold Node.setPos
  split
  · exact ⟨rfl, rfl, fun _ _ => rfl, 0, by simp⟩
  · split
    · exact ⟨rfl, rfl, fun _ _ => rfl, 0, by simp⟩
    · refine ⟨rfl, rfl, fun id hid => ?_, 1, rfl⟩
      simp [Function.update, hid]

theorem Node.setPos_pos (node : Nat) (pos : QPointF) (sg : State × Geometry) :
    (Node.setPos node pos sg).2.pos node
      = if sg.2.pos node = pos then pos else Node.itemChange sg.2 node pos := by
  unfold Node.setPos
  by_cases h : sg.2.pos node = pos
  · rw [if_pos h, if_pos h, h]
  · rw [if_neg h, if_neg h]
    by_cases h2 : Node.itemChange sg.2 node pos = sg.2.pos node
    · rw [if_pos h2, h2]
    · rw [if_neg h2]
      simp [Function.update]

theorem Node.moveBy_pos (node : Nat) (dx dy : Int) (sg : State × Geometry) :
    (Node.moveBy node dx dy sg).2.pos node
      = if dx = 0 ∧ dy = 0 then sg.2.pos node
        else Node.itemChange sg.2 node
          { x := (sg.2.pos node).x + dx, y := (sg.2.pos node).y + dy } := by
  unfold Node.moveBy
  rw [Node.setPos_pos]
  by_cases h : dx = 0 ∧ dy = 0
  · obtain ⟨h1, h2⟩ := h
    subst h1 h2
    simp
  · rw [if_neg h, if_neg]
    intro h2
    apply h
    have hx := congrArg QPointF.x h2
    have hy := congrArg QPointF.y h2
    simp only at hx hy
    constructor
    · have : (dx : ℚ) = 0 := by linarith
      exact_mod_cast this
    · have : (dy : ℚ) = 0 := by linarith
      exact_mod_cast this

theorem Node.foldl_moveBy (dx dy : Int) :
    ∀ (l : List Nat) (sg : State × Geometry), l.Nodup →
      (l.foldl (fun acc node => Node.moveBy node dx dy acc) sg).2.sceneRect = sg.2.sceneRect ∧
      (l.foldl (fun acc node => Node.moveBy node dx dy acc) sg).2.boundingRect
        = sg.2.boundingRect ∧
      (∀ id ∈ l, (l.foldl (fun acc node => Node.moveBy node dx dy acc) sg).2.pos id
        = if dx = 0 ∧ dy = 0 then sg.2.pos id
          else Node.itemChange sg.2 id
            { x := (sg.2.pos id).x + dx, y := (sg.2.pos id).y + dy }) ∧
      (∀ id, id ∉ l →
        (l.foldl (fun acc node => Node.moveBy node dx dy acc) sg).2.pos id = sg.2.pos id) ∧
      ∃ k, (l.foldl (fun acc node => Node.moveBy node dx dy acc) sg).1
        = { sg.1 with signals := sg.1.signals ++ List.replicate k Signal.contentChanged }
  | [], sg, _ => ⟨rfl, rfl, fun _ h => absurd h (List.not_mem_nil _), fun _ _ => rfl, 0, by simp⟩
  | node :: l, sg, hnd => by
    have hnd2 := List.nodup_cons.mp hnd
    obtain ⟨i1, i2, i3, i4, k, i5⟩ := Node.foldl_moveBy dx dy l (Node.moveBy node dx dy sg) hnd2.2
    obtain ⟨f1, f2, f3, j, f4⟩ :=
      Node.setPos_frame node
        { x := (sg.2.pos node).x + dx, y := (sg.2.pos node).y + dy } sg
    change (Node.moveBy node dx dy sg).2.sceneRect = _ at f1
    change (Node.moveBy node dx dy sg).2.boundingRect = _ at f2
    change ∀ id, id ≠ node → (Node.moveBy node dx dy sg).2.pos id = _ at f3
    change (Node.moveBy node dx dy sg).1 = _ at f4
    simp only [List.foldl_cons]
    refine ⟨i1.trans f1, i2.trans f2, ?_, ?_, j + k, ?_⟩
    · intro id hid
      rcases List.mem_cons.mp hid with h | h
      · subst h
        rw [i4 id hnd2.1, Node.moveBy_pos]
      · have hne : id ≠ node := fun e => hnd2.1 (e ▸ h)
        rw [i3 id h, f3 id hne, Node.itemChange_congr f1 f2]
    · intro id hid
      have hne : id ≠ node := fun e => hid (e ▸ List.mem_cons_self _ _)
      have hnl : id ∉ l := fun e => hid (List.mem_cons_of_mem _ e)
      rw [i4 id hnl, f3 id hne]
    · rw [i5, f4]
      dsimp only
      rw [List.replicate_add, List.append_assoc]

theorem GraphLogic.move_subtree_aux (s : State) (g : Geometry) (x y : Int)
    (mods : KeyboardModifiers) (a : Nat) (ha : s.m_activeNode = some a) (hlive : a ∈ s.ids)
    (hc : mods.control = true) (hsh : mods.shift = true) :
    ∃ r, GraphLogic.move x y mods (s, g) = some r ∧
      r.2.sceneRect = g.sceneRect ∧ r.2.boundingRect = g.boundingRect ∧
      (∀ id ∈ s.subtree a, r.2.pos id
        = if x = 0 ∧ y = 0 then g.pos id
          else Node.itemChange g id { x := (g.pos id).x + x, y := (g.pos id).y + y }) ∧
      (∀ id, id ∉ s.subtree a → r.2.pos id = g.pos id) ∧
      ∃ k, r.1 = { s with signals := s.signals ++ List.replicate k Signal.contentChanged } := by
  obtain ⟨n, hn⟩ := State.exists_findNode hlive
  obtain ⟨i1, i2, i3, i4, k, i5⟩ :=
    Node.foldl_moveBy x y (s.subtree a) (s, g) (State.nodup_subtree s a)
  have hmove : GraphLogic.move x y mods (s, g)
      = some (((s.subtree a).foldl (fun acc node => Node.moveBy node x y acc) (s, g)).1.emit
          Signal.contentChanged,
        ((s.subtree a).foldl (fun acc node => Node.moveBy node x y acc) (s, g)).2) := by
    unfold GraphLogic.move
    simp only [ha, hn, hc, hsh, Bool.and_self, if_true]
  refine ⟨_, hmove, i1, i2, i3, i4, k + 1, ?_⟩
  dsimp only
  rw [i5]
  dsimp only [State.emit]
  rw [List.replicate_succ', List.append_assoc]

/-- C24, as the code has it: with Ctrl and Shift held, a move by (x, y) is
defined whenever the active node is alive; it puts every node of the subtree
of the active node where `itemChange` lets it go from its old position plus
(x, y), which is exactly that position whenever it lies inside the fence (the
rectangle of the scene made smaller by the size of the node), and it leaves
every other node, the rectangle of the scene, the sizes of the nodes and, but
for `contentChanged` signals, the document as they are.  Outside text edit the
four cursor keys are such moves by 20. -/
theorem move_subtree (s : State) (g : Geometry) (x y : Int) (mods : KeyboardModifiers)
    (a : Nat) (ha : s.m_activeNode = some a) (hlive : a ∈ s.ids)
    (hc : mods.control = true) (hsh : mods.shift = true) :
    (∃ r, GraphLogic.move x y mods (s, g) = some r ∧
      r.2.sceneRect = g.sceneRect ∧ r.2.boundingRect = g.boundingRect ∧
      (∀ id ∈ s.subtree a, r.2.pos id
        = if x = 0 ∧ y = 0 then g.pos id
          else Node.itemChange g id { x := (g.pos id).x + x, y := (g.pos id).y + y }) ∧
      (∀ id ∈ s.subtree a,
        QRectF.contains
          { left := g.sceneRect.left, top := g.sceneRect.top,
            right := g.sceneRect.right - (g.boundingRect id).right,
            bottom := g.sceneRect.bottom - (g.boundingRect id).bottom }
          { x := (g.pos id).x + x, y := (g.pos id).y + y } = true →
        r.2.pos id = { x := (g.pos id).x + x, y := (g.pos id).y + y }) ∧
      (∀ id, id ∉ s.subtree a → r.2.pos id = g.pos id) ∧
      ∃ k, r.1 = { s with signals := s.signals ++ List.replicate k Signal.contentChanged }) ∧
    (s.m_editingNode = false →
      GraphLogic.processKeyEvent { key := .up, modifiers := mods } (s, g)
        = GraphLogic.move 0 (-20) mods (s, g) ∧
      GraphLogic.processKeyEvent { key := .down, modifiers := mods } (s, g)
        = GraphLogic.move 0 20 mods (s, g) ∧
      GraphLogic.processKeyEvent { key := .left, modifiers := mods } (s, g)
        = GraphLogic.move (-20) 0 mods (s, g) ∧
      GraphLogic.processKeyEvent { key := .right, modifiers := mods } (s, g)
        = GraphLogic.move 20 0 mods (s, g)) := by
  obtain ⟨r, h1, h2, h3, h4, h5, h6⟩ := GraphLogic.move_subtree_aux s g x y mods a ha hlive hc hsh
  refine ⟨⟨r, h1, h2, h3, h4, ?_, h5, h6⟩, ?_⟩
  · intro id hid hin
    rw [h4 id hid]
    split
    · rename_i h0
      obtain ⟨hx, hy⟩ := h0
      subst hx hy
      simp
    · exact Node.itemChange_inside g id _ hin
  · intro he
    simp [GraphLogic.processKeyEvent, he, GraphLogic.moveUp, GraphLogic.moveDown,
      GraphLogic.moveLeft, GraphLogic.moveRight, hc]

theorem appScene_clamps :
    Node.itemChange appScene 5
        { x := (appScene.pos 5).x + ((20 : Int) : ℚ), y := (appScene.pos 5).y + ((0 : Int) : ℚ) }
      = { x := 360, y := 0 } := by
  simp [Node.itemChange, appScene, QRectF.contains]
  norm_num

theorem move_subtree_witness :
    chainAtOne.m_activeNode = some 1 ∧ 1 ∈ chainAtOne.ids ∧ 3 ∈ chainAtOne.subtree 1 ∧
      0 ∉ chainAtOne.subtree 1 ∧
      ∃ r, GraphLogic.move 20 0 { control := true, shift := true } (chainAtOne, appScene)
          = some r ∧
        r.2.pos 3 = { x := 120, y := 0 } ∧ r.2.pos 0 = { x := 0, y := 0 } := by
  refine ⟨by decide, by decide, by decide, by decide, ?_⟩
  obtain ⟨r, h1, _, _, _, h5, h6, _⟩ :=
    (move_subtree chainAtOne appScene 20 0 { control := true, shift := true } 1
      (by decide) (by decide) rfl rfl).1
  refine ⟨r, h1, ?_, ?_⟩
  · rw [h5 3 (by decide) (by simp [QRectF.contains, appScene]; norm_num)]
    simp [appScene]
    norm_num
  · rw [h6 0 (by decide)]
    simp [appScene]

/-- C24 as stated fails: in the scene of the application, with the chain 1, 3,
5 as the subtree of the active node and node 5 standing at (350, 0), a move by
(20, 0) with Ctrl and Shift puts node 5 at (360, 0), the right border of its
fence, and not at (370, 0). -/
theorem move_clamped_counterexample :
    ¬ ∀ (s : State) (g : Geometry) (x y : Int) (mods : KeyboardModifiers) (a : Nat),
      Reachable s → s.m_activeNode = some a → mods.control = true → mods.shift = true →
      ∃ r, GraphLogic.move x y mods (s, g) = some r ∧
        ∀ id ∈ s.subtree a, r.2.pos id = { x := (g.pos id).x + x, y := (g.pos id).y + y } := by
  intro h
  obtain ⟨r, h1, h2⟩ := h chainAtOne appScene 20 0 { control := true, shift := true } 1
    chainAtOne_reachable (by decide) rfl rfl
  obtain ⟨r2, h3, _, _, h4, _⟩ :=
    GraphLogic.move_subtree_aux chainAtOne appScene 20 0 { control := true, shift := true } 1
      (by decide) (by decide) rfl rfl
  rw [h1] at h3
  cases h3
  have h5 := h2 5 (by decide)
  have h6 := h4 5 (by decide)
  rw [if_neg (by decide), appScene_clamps] at h6
  rw [h6] at h5
  have h7 := congrArg QPointF.x h5
  simp [appScene] at h7
  norm_num at h7

/-! ### The active flag -/

theorem State.sameMarks_refl (s : State) : s.sameMarks s := ⟨rfl, rfl, rfl⟩

theorem State.sameMarks_trans {s t u : State} (h1 : s.sameMarks t) (h2 : t.sameMarks u) :
    s.sameMarks u :=
  ⟨h2.1.trans h1.1, h2.2.1.trans h1.2.1, h2.2.2.trans h1.2.2⟩

theorem ActiveOK.iff_marks (s : State) :
    ActiveOK s ↔ ∀ x ∈ s.marks, (x.2 = true ↔ s.m_activeNode = some x.1) := by
  unfold ActiveOK State.marks
  constructor
  · intro h x hx
    obtain ⟨n, hn, rfl⟩ := List.mem_map.mp hx
    exact h n hn
  · intro h n hn
    exact h n.mark (List.mem_map_of_mem _ hn)

theorem ActiveOK.of_sameMarks {s t : State} (h : ActiveOK s) (hst : s.sameMarks t) :
    ActiveOK t := by
  rw [ActiveOK.iff_marks] at h ⊢
  rw [hst.1, hst.2.1]
  exact h

theorem State.marks_mapNode (s : State) (p : Nat) {f : Node → Node}
    (hf : ∀ n, (f n).mark = n.mark) : (s.mapNode p f).marks = s.marks := by
  unfold State.marks State.mapNode
  simp only [List.map_map]
  apply List.map_congr_left
  intro n _
  simp only [Function.comp]
  split
  · exact hf n
  · rfl

theorem State.sameMarks_emit (s : State) (sig : Signal) : s.sameMarks (s.emit sig) :=
  ⟨rfl, rfl, rfl⟩

theorem State.sameMarks_ite_emit (s : State) (c : Bool) (sig : Signal) :
    s.sameMarks (if c then s.emit sig else s) := by
  cases c <;> exact ⟨rfl, rfl, rfl⟩

theorem State.marks_addEdge (s : State) (p : Nat) (edge : Edge) (b : Bool) :
    s.sameMarks (s.mapNode p (fun n => n.addEdge edge b)) :=
  ⟨State.marks_mapNode s p (fun _ => rfl), rfl, rfl⟩

theorem State.marks_removeEdgeFromList (s : State) (p : Nat) (edge : Nat) :
    s.sameMarks (s.mapNode p (fun n => n.removeEdgeFromList edge)) :=
  ⟨State.marks_mapNode s p (fun _ => rfl), rfl, rfl⟩

theorem Edge.marks_destroy (e : Edge) (s : State) : s.sameMarks (Edge.destroy e s) :=
  State.sameMarks_trans (State.marks_removeEdgeFromList s _ _)
    (State.marks_removeEdgeFromList _ _ _)

theorem Node.marks_deleteEdge (n : Node) (otherEnd : Option Nat) (s : State) :
    s.sameMarks (n.deleteEdge otherEnd s) := by
  unfold Node.deleteEdge
  split
  · exact Edge.marks_destroy _ s
  · exact State.sameMarks_refl s

theorem Node.foldl_destroy_marks :
    ∀ (els : List EdgeElement) (s : State),
      s.sameMarks (els.foldl (fun st el => Edge.destroy el.edge st) s)
  | [], s => State.sameMarks_refl s
  | el :: rest, s => by
    simp only [List.foldl_cons]
    exact State.sameMarks_trans (Edge.marks_destroy el.edge s)
      (Node.foldl_destroy_marks rest _)

theorem GraphLogic.showAllFrom_marks (b : Bool) :
    ∀ (i : Nat) (l : List Node), (GraphLogic.showAllFrom b i l).map Node.mark = l.map Node.mark
  | _, [] => rfl
  | i, n :: rest => by
    simp only [GraphLogic.showAllFrom, List.map_cons]
    rw [GraphLogic.showAllFrom_marks b (i + 1) rest]
    rfl

theorem GraphWidget.widgetAddEdge_marks {source destination : Option Nat} {s t : State}
    (h : GraphWidget.addEdge source destination s = some t) : s.sameMarks t := by
  unfold GraphWidget.addEdge at h
  cases hf : s.m_nodeList.head? with
  | none => rw [hf] at h; simp at h
  | some first =>
    rw [hf] at h
    simp only at h
    by_cases hd : destination = some first.id
    · rw [if_pos hd] at h
      simp only [Option.some.injEq] at h
      subst h
      exact ⟨rfl, rfl, rfl⟩
    · rw [if_neg hd] at h
      cases hsrc : source.bind s.findNode with
      | none => rw [hsrc] at h; simp at h
      | some src =>
        cases hdst : destination.bind s.findNode with
        | none => rw [hsrc, hdst] at h; simp at h
        | some dst =>
          rw [hsrc, hdst] at h
          simp only at h
          by_cases hc : src.isConnected destination = true
          · rw [if_pos hc] at h
            simp only [Option.some.injEq] at h
            subst h
            exact ⟨rfl, rfl, rfl⟩
          · rw [if_neg hc] at h
            simp only [Option.some.injEq] at h
            subst h
            refine State.sameMarks_trans ?_ (State.sameMarks_emit _ _)
            refine State.sameMarks_trans ?_ (State.marks_addEdge _ _ _ _)
            refine State.sameMarks_trans ?_ (State.marks_addEdge _ _ _ _)
            have := State.sameMarks_ite_emit s (!(dst.edgesToThis true).isEmpty)
              (.notification .addedAsSecondary)
            exact ⟨this.1, this.2.1, this.2.2⟩

theorem GraphWidget.widgetRemoveEdge_marks {source destination : Option Nat} {s t : State}
    (h : GraphWidget.removeEdge source destination s = some t) : s.sameMarks t := by
  unfold GraphWidget.removeEdge at h
  cases hsrc : source.bind s.findNode with
  | none => rw [hsrc] at h; simp at h
  | some src =>
    rw [hsrc] at h
    simp only at h
    split at h
    · simp only [Option.some.injEq] at h
      subst h
      exact ⟨rfl, rfl, rfl⟩
    · simp only [Option.some.injEq] at h
      subst h
      exact State.sameMarks_trans (Node.marks_deleteEdge src destination s)
        (State.sameMarks_emit _ _)

theorem GraphLogic.deleteListed_marks {node : Nat} {s t : State}
    (h : GraphLogic.deleteListed node s = some t) :
    t.marks.Sublist s.marks ∧ (∀ x ∈ t.marks, x.1 ≠ node) ∧
      t.m_showingNodeNumbers = s.m_showingNodeNumbers := by
  unfold GraphLogic.deleteListed at h
  cases hf : s.findNode node with
  | none => rw [hf] at h; simp at h
  | some n =>
    rw [hf] at h
    simp only at h
    unfold Node.destroy at h
    split at h
    · simp only [Option.some.injEq] at h
      subst h
      obtain ⟨h1, _, h3⟩ := Node.foldl_destroy_marks n.m_edgeList
        { s with
          m_hintNode := if s.m_hintNode = some node then none else s.m_hintNode
          m_nodeList := s.m_nodeList.filter (fun m => m.id != node) }
      refine ⟨?_, ?_, h3⟩
      · rw [h1]
        exact List.Sublist.map _ (List.filter_sublist _)
      · rw [h1]
        intro x hx
        obtain ⟨m, hm, rfl⟩ := List.mem_map.mp hx
        have := (List.mem_filter.mp hm).2
        simpa [Node.mark] using this
    · simp at h

theorem GraphLogic.deleteAll_marks :
    ∀ (dead : List Nat) {s t : State}, GraphLogic.deleteAll dead s = some t →
      t.marks.Sublist s.marks ∧ (∀ x ∈ t.marks, x.1 ∉ dead) ∧
        t.m_showingNodeNumbers = s.m_showingNodeNumbers
  | [], s, t, h => by
    simp only [GraphLogic.deleteAll, Option.some.injEq] at h
    subst h
    exact ⟨List.Sublist.refl _, fun _ _ => List.not_mem_nil _, rfl⟩
  | node :: rest, s, t, h => by
    unfold GraphLogic.deleteAll at h
    cases h1 : GraphLogic.deleteListed node s with
    | none => rw [h1] at h; simp at h
    | some s1 =>
      rw [h1] at h
      simp only at h
      obtain ⟨a1, a2, a3⟩ := GraphLogic.deleteListed_marks h1
      obtain ⟨b1, b2, b3⟩ := GraphLogic.deleteAll_marks rest h
      refine ⟨b1.trans a1, ?_, b3.trans a3⟩
      intro x hx hmem
      rcases List.mem_cons.mp hmem with e | e
      · exact a2 x (b1.subset hx) e
      · exact b2 x hx e

theorem GraphWidget.widgetSetActiveNode_eval (s : State) (p : Nat) (hp : p ∈ s.ids)
    (ha : ∀ a, s.m_activeNode = some a → a ∈ s.ids) :
    GraphWidget.setActiveNode (some p) s = some { s with
      m_activeNode := some p
      m_nodeList := s.m_nodeList.map (fun n =>
        if n.id = p then n.setActive true
        else if s.m_activeNode = some n.id then n.setActive false else n) } := by
  unfold GraphWidget.setActiveNode
  cases hact : s.m_activeNode with
  | none =>
    simp only
    have hp2 : p ∈ State.ids ({ s with m_activeNode := some p } : State) := hp
    rw [State.updNode_of_mem _ hp2]
    simp [State.mapNode]
  | some a =>
    simp only
    rw [State.updNode_of_mem _ (ha a hact)]
    simp only
    have hp2 : p ∈ State.ids
        ({ s.mapNode a (fun n => n.setActive false) with m_activeNode := some p } : State) := by
      simp only [State.ids, State.mapNode, List.map_map]
      have : (fun n : Node => n.id) ∘ (fun n => if n.id = a then n.setActive false else n)
          = fun n => n.id := by
        funext n
        simp only [Function.comp]
        split <;> rfl
      rw [this]
      exact hp
    rw [State.updNode_of_mem _ hp2]
    simp only [State.mapNode, List.map_map, Option.some.injEq]
    congr 1
    apply List.map_congr_left
    intro n _
    simp only [Function.comp]
    by_cases h1 : n.id = a
    · rw [if_pos h1]
      show (if n.id = p then (n.setActive false).setActive true else n.setActive false) = _
      by_cases h2 : n.id = p
      · rw [if_pos h2, if_pos h2]
        rfl
      · rw [if_neg h2, if_neg h2, if_pos (by rw [h1])]
    · rw [if_neg h1]
      by_cases h2 : n.id = p
      · rw [if_pos h2, if_pos h2]
      · rw [if_neg h2, if_neg h2, if_neg (fun e => h1 e.symm)]

theorem GraphWidget.widgetSetActiveNode_live {node : Option Nat} {s t : State}
    (h : GraphWidget.setActiveNode node s = some t) :
    (∃ p, node = some p ∧ p ∈ s.ids) ∧ ∀ a, s.m_activeNode = some a → a ∈ s.ids := by
  refine ⟨(GraphWidget.widgetSetActiveNode_spec h).2.1, ?_⟩
  intro a ha
  unfold GraphWidget.setActiveNode at h
  rw [ha] at h
  simp only at h
  cases h1 : s.updNode a (fun n => n.setActive false) with
  | none => rw [h1] at h; simp at h
  | some s1 => exact (State.updNode_eq_some h1).1

theorem ActiveOK.of_marks {s t : State} (h : ActiveOK s) (hm : t.marks = s.marks)
    (ha : t.m_activeNode = s.m_activeNode) : ActiveOK t := by
  rw [ActiveOK.iff_marks] at h ⊢
  rw [hm, ha]
  exact h

theorem ActiveOK.afterSetActive {node : Option Nat} {s t : State} (hs : ActiveOK s)
    (h : GraphWidget.setActiveNode node s = some t) :
    ActiveOK t ∧ t.m_showingNodeNumbers = s.m_showingNodeNumbers := by
  obtain ⟨⟨p, rfl, hp⟩, ha⟩ := GraphWidget.widgetSetActiveNode_live h
  rw [GraphWidget.widgetSetActiveNode_eval s p hp ha] at h
  simp only [Option.some.injEq] at h
  subst h
  refine ⟨?_, rfl⟩
  intro n hn
  simp only [List.mem_map] at hn
  obtain ⟨m, hm, rfl⟩ := hn
  by_cases h1 : m.id = p
  · rw [if_pos h1]
    simp [Node.setActive, h1]
  · rw [if_neg h1]
    by_cases h2 : s.m_activeNode = some m.id
    · rw [if_pos h2]
      simp only [Node.setActive, Bool.false_eq_true, Option.some.injEq, false_iff]
      exact fun e => h1 e.symm
    · rw [if_neg h2]
      have h3 := hs m hm
      constructor
      · intro e
        exact absurd (h3.mp e) h2
      · intro e
        exact absurd (Option.some.inj e).symm h1

theorem ActiveOK.afterSelect {node : Option Nat} {s t : State} (hs : ActiveOK s)
    (h : GraphWidget.nodeSelected node s = some t) :
    ActiveOK t ∧ t.m_showingNodeNumbers = false := by
  unfold GraphWidget.nodeSelected at h
  have h1 : ActiveOK ({ GraphWidget.showingAllNodeNumbers false s with
      m_showingNodeNumbers := false, m_editingNode := false } : State) :=
    hs.of_marks (GraphLogic.showAllFrom_marks false 0 s.m_nodeList) rfl
  simp only at h
  split at h
  · simp at h
  · split at h
    · obtain ⟨t1, ht1, rfl⟩ := Option.map_eq_some'.mp h
      have h2 := GraphWidget.widgetAddEdge_marks ht1
      exact ⟨(h1.of_sameMarks h2).of_marks rfl rfl, h2.2.2⟩
    · split at h
      · obtain ⟨t1, ht1, rfl⟩ := Option.map_eq_some'.mp h
        have h2 := GraphWidget.widgetRemoveEdge_marks ht1
        exact ⟨(h1.of_sameMarks h2).of_marks rfl rfl, h2.2.2⟩
      · exact h1.afterSetActive h

theorem ActiveOK.afterInsert {s t : State} (hw : WF s) (hs : ActiveOK s)
    (hsh : s.m_showingNodeNumbers = false) (h : GraphWidget.insertNode s = some t) :
    ActiveOK t ∧ t.m_showingNodeNumbers = false := by
  unfold GraphWidget.insertNode at h
  split at h
  · simp only [Option.some.injEq] at h
    subst h
    exact ⟨hs.of_marks rfl rfl, hsh⟩
  · rename_i a ha
    split at h
    · simp at h
    · simp only at h
      have h1 : ActiveOK ({ s with
          m_nodeList := s.m_nodeList ++ [({ id := s.nextId } : Node)],
          nextId := s.nextId + 1 } : State) := by
        intro n hn
        rcases List.mem_append.mp hn with hn1 | hn1
        · exact hs n hn1
        · have hn2 : n = ({ id := s.nextId } : Node) := by simpa using hn1
          subst hn2
          have hlive := hw.activeLive a ha
          rw [State.ids_eq_skel_ids] at hlive
          obtain ⟨x, hx, hxa⟩ := Skel.mem_ids.mp hlive
          have hlt := (hw.graph.fresh x hx).1
          constructor
          · intro e
            simp at e
          · intro e
            have e2 : s.m_activeNode = some s.nextId := e
            rw [ha] at e2
            have e3 := Option.some.inj e2
            omega
      split at h
      · simp at h
      · rename_i s2 hs2
        have m2 := GraphWidget.widgetAddEdge_marks hs2
        have h2 := h1.of_sameMarks m2
        split at h
        · simp at h
        · rename_i s3 hs3
          obtain ⟨h3, m3⟩ := h2.afterSetActive hs3
          have hsh3 : s3.m_showingNodeNumbers = false := by
            rw [m3, m2.2.2]
            exact hsh
          have h4 : ActiveOK ((GraphWidget.editNode s3).emit .contentChanged) ∧
              ((GraphWidget.editNode s3).emit .contentChanged).m_showingNodeNumbers = false := by
            unfold GraphWidget.editNode
            split
            · exact ⟨h3.of_marks rfl rfl, hsh3⟩
            · exact ⟨h3.of_marks rfl rfl, hsh3⟩
          split at h
          · rename_i hc
            rw [h4.2] at hc
            exact absurd hc (by decide)
          · simp only [Option.some.injEq] at h
            subst h
            exact h4

theorem ActiveOK.afterRemove {mods : KeyboardModifiers} {s t : State} (hs : ActiveOK s)
    (hsh : s.m_showingNodeNumbers = false) (h : GraphWidget.removeNode mods s = some t) :
    ActiveOK t ∧ t.m_showingNodeNumbers = false := by
  unfold GraphWidget.removeNode at h
  split at h
  · simp only [Option.some.injEq] at h
    subst h
    exact ⟨hs.of_marks rfl rfl, hsh⟩
  · rename_i a ha
    split at h
    · simp at h
    · rename_i first hf
      split at h
      · simp only [Option.some.injEq] at h
        subst h
        exact ⟨hs.of_marks rfl rfl, hsh⟩
      · simp only at h
        split at h
        · simp at h
        · rename_i s1 hs1
          obtain ⟨d1, d2, d3⟩ := GraphLogic.deleteAll_marks _ hs1
          have hdead : a ∈ (if (mods.control && mods.shift) = true then s.subtree a else [a]) := by
            split
            · exact State.self_mem_subtree s a
            · exact List.mem_singleton.mpr rfl
          have h4 : ActiveOK (({ s1 with m_activeNode := none } : State).emit .contentChanged) ∧
              (({ s1 with m_activeNode := none } : State).emit
                .contentChanged).m_showingNodeNumbers = false := by
            refine ⟨?_, d3.trans hsh⟩
            rw [ActiveOK.iff_marks]
            intro x hx
            have hx1 : x ∈ s1.marks := hx
            have hx2 := (ActiveOK.iff_marks s).mp hs x (d1.subset hx1)
            constructor
            · intro e
              have e2 := hx2.mp e
              rw [ha] at e2
              have e3 := Option.some.inj e2
              exact absurd (e3 ▸ hdead) (d2 x hx1)
            · intro e
              cases e
          split at h
          · rename_i hc
            rw [h4.2] at hc
            exact absurd hc (by decide)
          · simp only [Option.some.injEq] at h
            subst h
            exact h4

theorem WidgetReachable.reachable {s : State} (h : WidgetReachable s) : Reachable s := by
  induction h with
  | init => exact Reachable.initWidget
  | insertNode _ hr ih => exact Reachable.step .insertNode ih hr
  | nodeSelected node _ hr ih => exact Reachable.step (.widgetNodeSelected node) ih hr
  | addEdge source destination _ hr ih =>
    exact Reachable.step (.widgetAddEdge source destination) ih hr
  | removeEdge source destination _ hr ih =>
    exact Reachable.step (.widgetRemoveEdge source destination) ih hr
  | removeNode mods _ hr ih => exact Reachable.step (.widgetRemoveNode mods) ih hr
  | addEdgeSlot _ ih => exact Reachable.step .addEdgeSlot ih rfl
  | removeEdgeSlot _ ih => exact Reachable.step .removeEdgeSlot ih rfl

theorem WidgetReachable.activeOK {s : State} (h : WidgetReachable s) :
    ActiveOK s ∧ s.m_showingNodeNumbers = false := by
  induction h with
  | init =>
    refine ⟨?_, rfl⟩
    intro n hn
    have : n = ({ id := 0, m_isActive := true } : Node) := by
      simpa [newScene] using hn
    subst this
    simp [newScene]
  | insertNode hs hr ih => exact ih.1.afterInsert hs.reachable.wf ih.2 hr
  | nodeSelected node _ hr ih => exact ih.1.afterSelect hr
  | addEdge source destination _ hr ih =>
    have m := GraphWidget.widgetAddEdge_marks hr
    exact ⟨ih.1.of_sameMarks m, m.2.2.trans ih.2⟩
  | removeEdge source destination _ hr ih =>
    have m := GraphWidget.widgetRemoveEdge_marks hr
    exact ⟨ih.1.of_sameMarks m, m.2.2.trans ih.2⟩
  | removeNode mods _ hr ih => exact ih.1.afterRemove ih.2 hr
  | addEdgeSlot _ ih => exact ⟨ih.1.of_marks rfl rfl, ih.2⟩
  | removeEdgeSlot _ ih => exact ⟨ih.1.of_marks rfl rfl, ih.2⟩

theorem GraphLogic.setActiveNode_eval (s : State) (node : Option Nat)
    (hn : ∀ p, node = some p → p ∈ s.ids) (ha : ∀ a, s.m_activeNode = some a → a ∈ s.ids) :
    GraphLogic.setActiveNode node s = some { s with
      m_activeNode := node
      m_nodeList := s.m_nodeList.map (fun n =>
        if node = some n.id then n.setBorder true
        else if s.m_activeNode = some n.id then n.setBorder false else n) } := by
  unfold GraphLogic.setActiveNode
  have hids : ∀ a, State.ids (s.mapNode a (fun n => n.setBorder false)) = s.ids := by
    intro a
    simp only [State.ids, State.mapNode, List.map_map]
    apply List.map_congr_left
    intro n _
    simp only [Function.comp]
    split <;> rfl
  cases hact : s.m_activeNode with
  | none =>
    simp only
    cases node with
    | none => simp
    | some p =>
      simp only
      have hp2 : p ∈ State.ids ({ s with m_activeNode := some p } : State) := hn p rfl
      rw [State.updNode_of_mem _ hp2]
      simp only [State.mapNode, Option.some.injEq]
      congr 1
      apply List.map_congr_left
      intro n _
      by_cases h2 : n.id = p
      · rw [if_pos h2, if_pos (by rw [h2])]
      · rw [if_neg h2, if_neg (fun e => h2 e.symm),
          if_neg (show ¬ (none : Option Nat) = some n.id from fun e => by cases e)]
  | some a =>
    simp only
    rw [State.updNode_of_mem _ (ha a hact)]
    simp only
    cases node with
    | none =>
      simp only [State.mapNode, Option.some.injEq]
      congr 1
      apply List.map_congr_left
      intro n _
      rw [if_neg (show ¬ (none : Option Nat) = some n.id from fun e => by cases e)]
      by_cases h1 : n.id = a
      · rw [if_pos h1, if_pos (by rw [h1])]
      · rw [if_neg h1, if_neg (fun e => h1 e.symm)]
    | some p =>
      simp only
      have hp2 : p ∈ State.ids
          ({ s.mapNode a (fun n => n.setBorder false) with m_activeNode := some p } : State) := by
        have := hn p rfl
        rw [← hids a] at this
        exact this
      rw [State.updNode_of_mem _ hp2]
      simp only [State.mapNode, List.map_map, Option.some.injEq]
      congr 1
      apply List.map_congr_left
      intro n _
      simp only [Function.comp]
      by_cases h1 : n.id = a
      · rw [if_pos h1]
        show (if n.id = p then (n.setBorder false).setBorder true else n.setBorder false) = _
        by_cases h2 : n.id = p
        · rw [if_pos h2, if_pos (by rw [h2])]
          rfl
        · rw [if_neg h2, if_neg (fun e => h2 e.symm), if_pos (by rw [h1])]
      · rw [if_neg h1]
        by_cases h2 : n.id = p
        · rw [if_pos h2, if_pos (by rw [h2])]
        · rw [if_neg h2, if_neg (fun e => h2 e.symm), if_neg (fun e => h1 e.symm)]

theorem length_le_one_of_same {a : Nat} :
    ∀ {l : List Nat}, l.Nodup → (∀ x ∈ l, x = a) → l.length ≤ 1
  | [], _, _ => by simp
  | [_], _, _ => by simp
  | x :: y :: r, hnd, h => by
    have hx := h x (List.mem_cons_self _ _)
    have hy := h y (List.mem_cons_of_mem _ (List.mem_cons_self _ _))
    have := (List.nodup_cons.mp hnd).1
    rw [hx, hy] at this
    exact absurd (List.mem_cons_self _ _) this

theorem ActiveOK.length_le_one {s : State} (hs : ActiveOK s) (hnd : s.ids.Nodup) :
    (s.m_nodeList.filter (fun n => n.m_isActive)).length ≤ 1 := by
  have hsub : ((s.m_nodeList.filter (fun n => n.m_isActive)).map (fun n => n.id)).Sublist s.ids :=
    List.Sublist.map _ (List.filter_sublist _)
  have hnd2 := hnd.sublist hsub
  cases hact : s.m_activeNode with
  | none =>
    have : s.m_nodeList.filter (fun n => n.m_isActive) = [] := by
      rw [List.filter_eq_nil_iff]
      intro n hn e
      have := (hs n hn).mp e
      rw [hact] at this
      cases this
    rw [this]
    simp
  | some a =>
    have hall : ∀ x ∈ (s.m_nodeList.filter (fun n => n.m_isActive)).map (fun n => n.id),
        x = a := by
      intro x hx
      obtain ⟨n, hn, rfl⟩ := List.mem_map.mp hx
      obtain ⟨hn1, hn2⟩ := List.mem_filter.mp hn
      have := (hs n hn1).mp hn2
      rw [hact] at this
      exact (Option.some.inj this).symm
    have := length_le_one_of_same hnd2 hall
    simpa using this

theorem ActiveOK.setActive_list {s : State} (hs : ActiveOK s) (p : Nat) :
    s.m_nodeList.map (fun n =>
        if n.id = p then n.setActive true
        else if s.m_activeNode = some n.id then n.setActive false else n)
      = s.m_nodeList.map (fun n => { n with m_isActive := decide (n.id = p) }) := by
  apply List.map_congr_left
  intro n hn
  by_cases h1 : n.id = p
  · rw [if_pos h1]
    simp [Node.setActive, h1]
  · rw [if_neg h1]
    by_cases h2 : s.m_activeNode = some n.id
    · rw [if_pos h2]
      simp [Node.setActive, h1]
    · rw [if_neg h2]
      have h3 : n.m_isActive = false := by
        cases h4 : n.m_isActive with
        | false => rfl
        | true => exact absurd ((hs n hn).mp h4) h2
      cases n
      simp only at h3
      subst h3
      simp [h1]

theorem sceneDoc_widgetReachable : WidgetReachable sceneDoc :=
  WidgetReachable.nodeSelected (some 1)
    (WidgetReachable.insertNode (WidgetReachable.insertNode WidgetReachable.init rfl) rfl) rfl

/-- C27: in every state the widget reaches from a new document through
`insertNode`, selections, `addEdge`, `removeEdge` and `removeNode`, at most
one node of the list has `m_isActive` set, a node has it set exactly when
`m_activeNode` points to it, and the active node, if there is one, is in the
list with the flag set.  `GraphWidget::setActiveNode(p)` for a node `p` of the
list is defined and leaves `m_isActive` set on `p` and on no other node, the
previous holder included.  `GraphLogic::setActiveNode` is defined as well; the
flag it moves in the same way is `m_hasBorder`. -/
theorem active_flag_unique (s : State) (hs : WidgetReachable s) :
    (s.m_nodeList.filter (fun n => n.m_isActive)).length ≤ 1 ∧
    (∀ n ∈ s.m_nodeList, (n.m_isActive = true ↔ s.m_activeNode = some n.id)) ∧
    (∀ a, s.m_activeNode = some a → ∃ n ∈ s.m_nodeList, n.id = a ∧ n.m_isActive = true) ∧
    (∀ p ∈ s.ids, GraphWidget.setActiveNode (some p) s = some { s with
        m_activeNode := some p
        m_nodeList := s.m_nodeList.map (fun n => { n with m_isActive := decide (n.id = p) }) }) ∧
    (∀ node : Option Nat, (∀ p, node = some p → p ∈ s.ids) →
      GraphLogic.setActiveNode node s = some { s with
        m_activeNode := node
        m_nodeList := s.m_nodeList.map (fun n =>
          if node = some n.id then n.setBorder true
          else if s.m_activeNode = some n.id then n.setBorder false else n) }) := by
  have hw := hs.reachable.wf
  obtain ⟨hok, _⟩ := hs.activeOK
  have hnd : s.ids.Nodup := by
    rw [State.ids_eq_skel_ids]
    exact hw.graph.nodup
  refine ⟨hok.length_le_one hnd, hok, ?_, ?_, ?_⟩
  · intro a ha
    obtain ⟨n, hn, hna⟩ := List.mem_map.mp (hw.activeLive a ha)
    exact ⟨n, hn, hna, (hok n hn).mpr (by rw [ha, hna])⟩
  · intro p hp
    rw [GraphWidget.widgetSetActiveNode_eval s p hp hw.activeLive, hok.setActive_list p]
  · intro node hnode
    exact GraphLogic.setActiveNode_eval s node hnode hw.activeLive

theorem active_flag_unique_witness :
    WidgetReachable sceneDoc ∧ sceneDoc.m_activeNode = some 1 ∧
      (sceneDoc.m_nodeList.filter (fun n => n.m_isActive)).length ≤ 1 ∧
      (sceneDoc.m_nodeList.filter (fun n => n.m_isActive)).map (fun n => n.id) = [1] :=
  ⟨sceneDoc_widgetReachable, by decide,
    (active_flag_unique sceneDoc sceneDoc_widgetReachable).1, by decide⟩

/-! ### Rounding to a double -/

theorem Double.ulpLoop_spec (step : Nat) (t : Nat) :
    ∀ (fuel unit : Nat),
      (∃ j, j ≤ fuel ∧ Double.ulpLoop step fuel t unit = unit * step ^ j) ∧
      (Double.ulpLoop step fuel t unit = unit ∨
        2 ^ 53 * Double.ulpLoop step fuel t unit ≤ t) ∧
      (t < 2 ^ 53 * (unit * step ^ (fuel + 1)) →
        t < 2 ^ 53 * (Double.ulpLoop step fuel t unit * step))
  | 0, unit => by
    have h0 : Double.ulpLoop step 0 t unit = unit := rfl
    rw [h0]
    exact ⟨⟨0, le_refl _, by simp⟩, Or.inl rfl, fun h => by simpa using h⟩
  | fuel + 1, unit => by
    unfold Double.ulpLoop
    by_cases h : t < 2 ^ 53 * (unit * step)
    · rw [if_pos h]
      exact ⟨⟨0, Nat.zero_le _, by simp⟩, Or.inl rfl, fun _ => h⟩
    · rw [if_neg h]
      obtain ⟨⟨j, hj, h1⟩, h2, h3⟩ := Double.ulpLoop_spec step t fuel (unit * step)
      refine ⟨⟨j + 1, by omega, ?_⟩, ?_, ?_⟩
      · rw [h1, pow_succ]
        ring
      · right
        rcases h2 with h2 | h2
        · rw [h2]
          exact not_lt.mp h
        · exact h2
      · intro hb
        apply h3
        have : unit * step * step ^ (fuel + 1) = unit * step ^ (fuel + 1 + 1) := by
          rw [pow_succ step (fuel + 1)]
          ring
        rw [this]
        exact hb

/-- The spacing of the doubles around `t`, for `t` below `2^2624`: a power
of two `u` with `t < 2^53 * u`, the least one (`u = 1`, or `t` has at least
53 binary digits above `u`). -/
theorem Double.ulp_spec (t : Nat) (ht : t < (2 ^ 64) ^ 41) :
    (∃ k, Double.ulp t = 2 ^ k) ∧ t < 2 ^ 53 * Double.ulp t ∧
      (Double.ulp t = 1 ∨ 2 ^ 53 * Double.ulp t ≤ 2 * t) := by
  obtain ⟨⟨j1, _, a1⟩, a2, a3⟩ := Double.ulpLoop_spec (2 ^ 64) t 40 1
  obtain ⟨⟨j2, _, b1⟩, b2, b3⟩ :=
    Double.ulpLoop_spec 2 t 64 (Double.ulpLoop (2 ^ 64) 40 t 1)
  have hbig : t < 2 ^ 53 * (1 * (2 ^ 64) ^ (40 + 1)) := by
    have : ((2 : Nat) ^ 64) ^ 41 ≤ 2 ^ 53 * (1 * (2 ^ 64) ^ (40 + 1)) := by
      rw [one_mul]
      exact Nat.le_mul_of_pos_left _ (by decide)
    exact lt_of_lt_of_le ht this
  have a4 := a3 hbig
  have b4 := b3 (by
    have : Double.ulpLoop (2 ^ 64) 40 t 1 * 2 ^ (64 + 1)
        = Double.ulpLoop (2 ^ 64) 40 t 1 * 2 ^ 64 * 2 := by
      rw [pow_succ]
      ring
    rw [this]
    omega)
  unfold Double.ulp
  simp only []
  generalize hu1 : Double.ulpLoop (2 ^ 64) 40 t 1 = u1 at *
  generalize hu2 : Double.ulpLoop 2 64 t u1 = u2 at *
  by_cases h : t < 2 ^ 53 * u2
  · rw [if_pos h]
    refine ⟨⟨64 * j1 + j2, ?_⟩, h, ?_⟩
    · rw [b1, a1, one_mul, ← pow_mul, ← pow_add]
    · left
      rcases b2 with b2 | b2
      · rcases a2 with a2 | a2
        · rw [b2, a2]
        · rw [b2] at h
          omega
      · omega
  · rw [if_neg h]
    refine ⟨⟨64 * j1 + j2 + 1, ?_⟩, by omega, Or.inr (by omega)⟩
    rw [b1, a1, one_mul, ← pow_mul, ← pow_add, pow_succ]
    ring

/-- What `Double.roundNat a q` is, for `q > 0` and `a / q` below `2^2624`: a
multiple `k * u` of the spacing `u` of the doubles around `a / q`, with
`k ≤ 2^53`, at most half a spacing away from `a / q`, and with `k` even when
it is exactly half a spacing away. -/
theorem Double.roundNat_spec (a q : Nat) (hq : 0 < q) (ht : a / q < (2 ^ 64) ^ 41) :
    ∃ k, Double.roundNat a q = k * Double.ulp (a / q) ∧ k ≤ 2 ^ 53 ∧
      2 * (Double.roundNat a q * q) ≤ 2 * a + q * Double.ulp (a / q) ∧
      2 * a ≤ 2 * (Double.roundNat a q * q) + q * Double.ulp (a / q) ∧
      ((2 * (Double.roundNat a q * q) = 2 * a + q * Double.ulp (a / q) ∨
        2 * a = 2 * (Double.roundNat a q * q) + q * Double.ulp (a / q)) → k % 2 = 0) := by
  obtain ⟨⟨e, he⟩, h1, _⟩ := Double.ulp_spec (a / q) ht
  have hu : 0 < Double.ulp (a / q) := by rw [he]; exact pow_pos (by decide) e
  unfold Double.roundNat
  simp only []
  generalize Double.ulp (a / q) = u at *
  have hd : 0 < q * u := Nat.mul_pos hq hu
  have hdm := Nat.div_add_mod a (q * u)
  have hr := Nat.mod_lt a hd
  have hqt : a / (q * u) < 2 ^ 53 := by
    rw [← Nat.div_div_eq_div_mul]
    exact Nat.div_lt_of_lt_mul (by rw [Nat.mul_comm]; exact h1)
  generalize a / (q * u) = qt at *
  generalize a % (q * u) = r at *
  have hprod : ∀ k : Nat, k * u * q = q * u * k := fun k => by ring
  by_cases hc : 2 * r > q * u ∨ (2 * r = q * u ∧ qt % 2 = 1)
  · rw [if_pos hc]
    refine ⟨qt + 1, rfl, by omega, ?_, ?_, ?_⟩
    · rw [hprod]
      have : q * u * (qt + 1) = q * u * qt + q * u := by ring
      rcases hc with hc | ⟨hc, _⟩ <;> omega
    · rw [hprod]
      have : q * u * (qt + 1) = q * u * qt + q * u := by ring
      omega
    · rw [hprod]
      have : q * u * (qt + 1) = q * u * qt + q * u := by ring
      intro h
      rcases hc with hc | ⟨hc, hodd⟩
      · omega
      · omega
  · rw [if_neg hc]
    refine ⟨qt, rfl, by omega, ?_, ?_, ?_⟩
    · rw [hprod]
      omega
    · rw [hprod]
      have h2 : ¬ 2 * r > q * u := fun h => hc (Or.inl h)
      omega
    · rw [hprod]
      intro h
      have h2 : ¬ 2 * r > q * u := fun h => hc (Or.inl h)
      have h3 : ¬ (2 * r = q * u ∧ qt % 2 = 1) := fun h => hc (Or.inr h)
      rcases h with h | h
      · omega
      · have : 2 * r = q * u := by omega
        have : ¬ qt % 2 = 1 := fun h4 => h3 ⟨this, h4⟩
        omega

theorem Double.roundNat_le (a q : Nat) (ht : a / q < (2 ^ 64) ^ 41) :
    Double.roundNat a q ≤ 2 * (a / q) + 1 := by
  obtain ⟨⟨e, he⟩, _, h2⟩ := Double.ulp_spec (a / q) ht
  have hu : 0 < Double.ulp (a / q) := by rw [he]; exact pow_pos (by decide) e
  unfold Double.roundNat
  simp only []
  generalize Double.ulp (a / q) = u at *
  have hqt : a / (q * u) * u ≤ a / q := by
    rw [← Nat.div_div_eq_div_mul]
    exact Nat.div_mul_le_self _ _
  generalize a / (q * u) = qt at *
  generalize a / q = t at *
  have hadd : (qt + 1) * u = qt * u + u := by ring
  split <;> omega

theorem Double.round_bounds (p : Int) (q : Nat) (hp : 0 ≤ p)
    (ht : p.toNat / q < (2 ^ 64) ^ 41) :
    0 ≤ Double.round p q ∧ Double.round p q ≤ 2 * ((p.toNat / q : Nat) : Int) + 1 := by
  unfold Double.round
  rw [if_pos hp]
  have := Double.roundNat_le p.toNat q ht
  constructor
  · exact Int.natCast_nonneg _
  · exact_mod_cast this

theorem Machine.Node.twoPi_bounds :
    (0 : Int) < Machine.Node.m_twoPi ∧ (Double.scale : Int) ≤ Machine.Node.m_twoPi ∧
      (Machine.Node.m_twoPi : Int) ≤ 7 * (Double.scale : Int) ∧
      (0 : Int) ≤ Machine.Node.m_pi ∧ (Machine.Node.m_pi : Int) ≤ Machine.Node.m_twoPi ∧
      300 * (Double.scale : Nat) < (2 ^ 64) ^ 41 ∧ 0 < Double.scale := by
  decide

/-- For an edge whose angle lies in `[0, 2π]` the number pushed onto `tmp` is
defined: the quotient handed to `static_cast<int>` fits an `int`. -/
theorem Machine.Node.tmpAngle_defined (it : Machine.EdgeAngle) (h0 : 0 ≤ it.angle)
    (h1 : it.angle ≤ Machine.Node.m_twoPi) : ∃ x, Machine.Node.tmpAngle it = some x := by
  obtain ⟨b1, b2, b3, b4, b5, b6, b7⟩ := Machine.Node.twoPi_bounds
  have h0' : (0 : Int) ≤ it.angle := h0
  have h1' : (it.angle : Int) ≤ Machine.Node.m_twoPi := h1
  have hs : (1 : Int) ≤ (Double.scale : Int) := by exact_mod_cast b7
  unfold Machine.Node.tmpAngle
  split
  · exact ⟨_, rfl⟩
  · unfold Machine.Node.doubleModulo
    rw [if_neg (ne_of_gt b1)]
    -- the sum m_pi + angle
    have hp0 : (0 : Int) ≤ Machine.Node.m_pi + it.angle := by delta Double at *; omega
    have hp1 : (Machine.Node.m_pi + it.angle).toNat ≤ 14 * Double.scale := by
      have : ((Machine.Node.m_pi + it.angle).toNat : Int) ≤ 14 * (Double.scale : Int) := by
        rw [Int.toNat_of_nonneg hp0]
        delta Double at *
        omega
      exact_mod_cast this
    obtain ⟨x0, x1⟩ := Double.round_bounds (Machine.Node.m_pi + it.angle) 1 hp0
      (by rw [Nat.div_one]; delta Double at *; omega)
    rw [Nat.div_one] at x1
    have hx : (Double.add Machine.Node.m_pi it.angle : Int) ≤ 29 * (Double.scale : Int) := by
      have h2 : (((Machine.Node.m_pi + it.angle).toNat : Nat) : Int)
          ≤ 14 * (Double.scale : Int) := by exact_mod_cast hp1
      have h3 : (Double.round (Machine.Node.m_pi + it.angle) 1 : Int)
          ≤ 2 * (((Machine.Node.m_pi + it.angle).toNat : Nat) : Int) + 1 := x1
      show (Double.round (Machine.Node.m_pi + it.angle) 1 : Int) ≤ _
      delta Double at *
      omega
    have hx0 : (0 : Int) ≤ Double.add Machine.Node.m_pi it.angle := x0
    generalize Double.add Machine.Node.m_pi it.angle = x at hx hx0 ⊢
    -- the quotient
    have hq0 : (0 : Int) ≤ x * (Double.scale : Int) :=
      Int.mul_nonneg hx0 (Int.natCast_nonneg _)
    have hT : 0 < Machine.Node.m_twoPi.toNat := by
      have : (0 : Int) < (Machine.Node.m_twoPi.toNat : Int) := by
        rw [Int.toNat_of_nonneg b1.le]; exact b1
      exact_mod_cast this
    have hST : Double.scale ≤ Machine.Node.m_twoPi.toNat := by
      have : (Double.scale : Int) ≤ (Machine.Node.m_twoPi.toNat : Int) := by
        rw [Int.toNat_of_nonneg b1.le]; exact b2
      exact_mod_cast this
    have hxn : (x * (Double.scale : Int)).toNat = x.toNat * Double.scale := by
      have : ((x * (Double.scale : Int)).toNat : Int) = ((x.toNat * Double.scale : Nat) : Int) := by
        rw [Int.toNat_of_nonneg hq0]
        push_cast
        rw [Int.toNat_of_nonneg hx0]
      exact_mod_cast this
    have hxle : x.toNat ≤ 29 * Double.scale := by
      have : (x.toNat : Int) ≤ 29 * (Double.scale : Int) := by
        rw [Int.toNat_of_nonneg hx0]; exact hx
      exact_mod_cast this
    have hquot : (x * (Double.scale : Int)).toNat / Machine.Node.m_twoPi.toNat ≤ x.toNat := by
      rw [hxn]
      calc x.toNat * Double.scale / Machine.Node.m_twoPi.toNat
          ≤ x.toNat * Double.scale / Double.scale := Nat.div_le_div_left hST b7
        _ = x.toNat := Nat.mul_div_cancel _ b7
    obtain ⟨y0, y1⟩ := Double.round_bounds (x * (Double.scale : Int)) Machine.Node.m_twoPi.toNat
      hq0 (by delta Double at *; omega)
    have hdiv : Double.div x Machine.Node.m_twoPi
        = Double.round (x * (Double.scale : Int)) Machine.Node.m_twoPi.toNat := by
      unfold Double.div
      rw [if_pos b1]
    have hy : (Double.div x Machine.Node.m_twoPi : Int) ≤ 59 * (Double.scale : Int) := by
      rw [hdiv]
      have h2 : (((x * (Double.scale : Int)).toNat / Machine.Node.m_twoPi.toNat : Nat) : Int)
          ≤ (x.toNat : Int) := by exact_mod_cast hquot
      have h3 : (x.toNat : Int) ≤ 29 * (Double.scale : Int) := by exact_mod_cast hxle
      have h4 : (Double.round (x * (Double.scale : Int)) Machine.Node.m_twoPi.toNat : Int)
          ≤ 2 * (((x * (Double.scale : Int)).toNat / Machine.Node.m_twoPi.toNat : Nat) : Int) + 1 :=
        y1
      generalize (Double.round (x * (Double.scale : Int)) Machine.Node.m_twoPi.toNat : Int) = r
        at h4 ⊢
      generalize (((x * (Double.scale : Int)).toNat / Machine.Node.m_twoPi.toNat : Nat) : Int) = c
        at h2 h4
      delta Double at *
      omega
    have hy0 : (0 : Int) ≤ Double.div x Machine.Node.m_twoPi := by
      rw [hdiv]
      exact y0
    generalize Double.div x Machine.Node.m_twoPi = y at hy hy0 ⊢
    have hz : Machine.Node.staticCastInt y = some (y / (Double.scale : Int)) := by
      unfold Machine.Node.staticCastInt
      simp only []
      rw [if_pos hy0]
      have hs0 : (0 : Int) < (Double.scale : Int) := by exact_mod_cast b7
      have hz0 : (0 : Int) ≤ y / (Double.scale : Int) := Int.ediv_nonneg hy0 hs0.le
      have hz1 : y / (Double.scale : Int) < 60 := by
        apply Int.ediv_lt_of_lt_mul hs0
        delta Double at *
        omega
      rw [if_pos ⟨by delta Double at *; omega, by delta Double at *; omega⟩]
    rw [hz]
    exact ⟨_, rfl⟩

theorem Machine.Node.tmpAngles_defined :
    ∀ (l : List Machine.EdgeAngle),
      (∀ e ∈ l, 0 ≤ e.angle ∧ e.angle ≤ Machine.Node.m_twoPi) →
      ∃ tmp, Machine.Node.tmpAngles l = some tmp
  | [], _ => ⟨[], rfl⟩
  | it :: rest, h => by
    obtain ⟨a, ha⟩ := Machine.Node.tmpAngle_defined it (h it (List.mem_cons_self _ _)).1
      (h it (List.mem_cons_self _ _)).2
    obtain ⟨r, hr⟩ := Machine.Node.tmpAngles_defined rest
      (fun e he => h e (List.mem_cons_of_mem _ he))
    exact ⟨a :: r, by simp [Machine.Node.tmpAngles, ha, hr]⟩

/-- For edges whose angles lie in `[0, 2π]` the sorted list `tmp` is
defined. -/
theorem Machine.Node.sortedAngles_defined (l : List Machine.EdgeAngle)
    (h : ∀ e ∈ l, 0 ≤ e.angle ∧ e.angle ≤ Machine.Node.m_twoPi) :
    ∃ tmp, Machine.Node.sortedAngles l = some tmp := by
  obtain ⟨raw, hraw⟩ := Machine.Node.tmpAngles_defined l h
  exact ⟨_, by unfold Machine.Node.sortedAngles; rw [hraw]; rfl⟩

/-! ### The direction of a new node in double arithmetic -/

/-- What the loop of `calculateBiggestAngle` leaves in `(max_prev, max)`, the
gaps being the differences as the machine computes them: the pair it started
with when no gap between neighbours is bigger, and otherwise the first gap
between neighbours that no later gap exceeds. -/
theorem Machine.Node.gapLoop_rounded (rest : List Double) : ∀ (prev max_prev max : Double),
    (Machine.Node.gapLoop rest prev max_prev max = (max_prev, max) ∧
      ∀ p ∈ (prev :: rest).zip rest, Double.sub p.2 p.1 ≤ max) ∨
    ∃ pre a b post, (prev :: rest).zip rest = pre ++ (a, b) :: post ∧
      Machine.Node.gapLoop rest prev max_prev max = (a, Double.sub b a) ∧
      max < Double.sub b a ∧
      (∀ p ∈ pre, Double.sub p.2 p.1 < Double.sub b a) ∧
      ∀ p ∈ post, Double.sub p.2 p.1 ≤ Double.sub b a := by
  induction rest with
  | nil => intro prev max_prev max; left; simp [Machine.Node.gapLoop]
  | cons x rest ih =>
    intro prev max_prev max
    have hz : (prev :: x :: rest).zip (x :: rest) = (prev, x) :: (x :: rest).zip rest := rfl
    rw [hz]
    by_cases h : Double.sub x prev > max
    · have hg : Machine.Node.gapLoop (x :: rest) prev max_prev max
          = Machine.Node.gapLoop rest x prev (Double.sub x prev) := by
        simp [Machine.Node.gapLoop, h]
      rw [hg]
      right
      rcases ih x prev (Double.sub x prev) with
        ⟨h1, h2⟩ | ⟨pre, a, b, post, h1, h2, h3, h4, h5⟩
      · exact ⟨[], prev, x, _, rfl, h1, h, by simp, h2⟩
      · refine ⟨(prev, x) :: pre, a, b, post, by rw [h1]; rfl, h2, lt_trans h h3, ?_, h5⟩
        intro p hp
        rcases List.mem_cons.mp hp with rfl | hp
        · exact h3
        · exact h4 p hp
    · have hg : Machine.Node.gapLoop (x :: rest) prev max_prev max
          = Machine.Node.gapLoop rest x max_prev max := by
        simp [Machine.Node.gapLoop, h]
      rw [hg]
      have h' : Double.sub x prev ≤ max := not_lt.mp h
      rcases ih x max_prev max with ⟨h1, h2⟩ | ⟨pre, a, b, post, h1, h2, h3, h4, h5⟩
      · left
        refine ⟨h1, ?_⟩
        intro p hp
        rcases List.mem_cons.mp hp with rfl | hp
        · exact h'
        · exact h2 p hp
      · right
        refine ⟨(prev, x) :: pre, a, b, post, by rw [h1]; rfl, h2, h3, ?_, h5⟩
        intro p hp
        rcases List.mem_cons.mp hp with rfl | hp
        · exact lt_of_le_of_lt h' h3
        · exact h4 p hp

theorem Machine.Node.biggestGap_rounded (tmp : List Double) :
    (Machine.Node.biggestGap tmp = (tmp.getLastD 0, Machine.Node.wrapGap tmp) ∧
      ∀ p ∈ tmp.zip tmp.tail, Double.sub p.2 p.1 ≤ Machine.Node.wrapGap tmp) ∨
    ∃ pre a b post, tmp.zip tmp.tail = pre ++ (a, b) :: post ∧
      Machine.Node.biggestGap tmp = (a, Double.sub b a) ∧
      Machine.Node.wrapGap tmp < Double.sub b a ∧
      (∀ p ∈ pre, Double.sub p.2 p.1 < Double.sub b a) ∧
      ∀ p ∈ post, Double.sub p.2 p.1 ≤ Double.sub b a := by
  cases tmp with
  | nil => left; simp [Machine.Node.biggestGap, Machine.Node.gapLoop]
  | cons x rest => exact Machine.Node.gapLoop_rounded rest x _ _

theorem Machine.Node.calculateBiggestAngle_some {l : List Machine.EdgeAngle}
    (h : 2 ≤ l.length) {tmp : List Double} (ht : Machine.Node.sortedAngles l = some tmp) :
    Machine.Node.calculateBiggestAngle l
      = Machine.Node.angleOfGap (Machine.Node.biggestGap tmp) := by
  match l, h, ht with
  | _ :: _ :: _, _, ht =>
    simp only [Machine.Node.calculateBiggestAngle]
    rw [ht]

theorem Double.round_examples :
    Double.ofInt 1 = Double.scale ∧
    Double.round (2 ^ 53 + 1) 1 = 2 ^ 53 ∧ Double.round (2 ^ 53 + 3) 1 = 2 ^ 53 + 4 ∧
    Double.round (-(2 ^ 53 + 1)) 1 = -(2 ^ 53) ∧ Double.round 7 2 = 4 ∧ Double.round 5 2 = 2 ∧
    Double.add (Double.ofParts 0x1999999999999a 56) (Double.ofParts 0x1999999999999a 55)
      = Double.ofParts 0x13333333333334 54 := by
  decide

/-- The three constants as hexadecimal doubles: `0x1.921fb54442d18p+1`,
`0x1.2d97c7f3321d2p+2` and `0x1.921fb54442d18p+2`. -/
theorem Machine.Node.constants :
    Machine.Node.m_pi = Double.ofParts 0x1921fb54442d18 51 ∧
    Machine.Node.m_oneAndHalfPi = Double.ofParts 0x12d97c7f3321d2 50 ∧
    Machine.Node.m_twoPi = Double.ofParts 0x1921fb54442d18 50 := by
  decide

/-- C13, as the code has it: for a node with two or more edges for which the
sorted list `tmp` is defined, the gaps being the differences as the code
computes them, the gap across the end of the sorted list is selected whenever
no gap between neighbours is strictly bigger (so also when one is equally
big); otherwise the selected gap is the first biggest gap between
neighbours: every earlier gap is strictly smaller and no later gap is
bigger. -/
theorem selected_gap_ties (l : List Machine.EdgeAngle) (h : 2 ≤ l.length)
    (tmp : List Double) (ht : Machine.Node.sortedAngles l = some tmp) :
    Machine.Node.calculateBiggestAngle l
      = Machine.Node.angleOfGap (Machine.Node.biggestGap tmp) ∧
    ((∀ p ∈ tmp.zip tmp.tail, Double.sub p.2 p.1 ≤ Machine.Node.wrapGap tmp) →
      Machine.Node.biggestGap tmp = (tmp.getLastD 0, Machine.Node.wrapGap tmp)) ∧
    ((∃ p ∈ tmp.zip tmp.tail, Machine.Node.wrapGap tmp < Double.sub p.2 p.1) →
      ∃ pre a b post, tmp.zip tmp.tail = pre ++ (a, b) :: post ∧
        Machine.Node.biggestGap tmp = (a, Double.sub b a) ∧
        Machine.Node.wrapGap tmp < Double.sub b a ∧
        (∀ p ∈ pre, Double.sub p.2 p.1 < Double.sub b a) ∧
        ∀ p ∈ post, Double.sub p.2 p.1 ≤ Double.sub b a) := by
  refine ⟨Machine.Node.calculateBiggestAngle_some h ht, ?_, ?_⟩
  · intro hall
    rcases Machine.Node.biggestGap_rounded tmp with
      ⟨h1, _⟩ | ⟨pre, a, b, post, h1, _, h3, _, _⟩
    · exact h1
    · have hmem : (a, b) ∈ tmp.zip tmp.tail := by rw [h1]; simp
      exact absurd (hall (a, b) hmem) (not_le.mpr h3)
  · rintro ⟨p, hp, hlt⟩
    rcases Machine.Node.biggestGap_rounded tmp with
      ⟨_, h2⟩ | ⟨pre, a, b, post, h1, h2, h3, h4, h5⟩
    · exact absurd (h2 p hp) (not_le.mpr hlt)
    · exact ⟨pre, a, b, post, h1, h2, h3, h4, h5⟩

/-- The run of the loop on edges leaving at 90 and 270 degrees: the gap
between the two and the gap across the end of the list are both computed as
`m_pi`, and the gap across the end, which starts at 270 degrees, stays
selected. -/
theorem Machine.opposite_eval :
    Machine.Node.sortedAngles Machine.oppositeEdges
      = some (Machine.oppositeEdges.map (fun e => e.angle)) ∧
    Machine.oppositeEdges.map (fun e => e.angle)
      = [Double.div Machine.Node.m_pi (Double.ofInt 2), Machine.Node.m_oneAndHalfPi] ∧
    Machine.Node.wrapGap (Machine.oppositeEdges.map (fun e => e.angle)) = Machine.Node.m_pi ∧
    Double.sub Machine.Node.m_oneAndHalfPi (Double.div Machine.Node.m_pi (Double.ofInt 2))
      = Machine.Node.m_pi ∧
    Machine.Node.biggestGap (Machine.oppositeEdges.map (fun e => e.angle))
      = (Machine.Node.m_oneAndHalfPi, Machine.Node.m_pi) := by
  decide

theorem selected_gap_ties_witness :
    2 ≤ Machine.oppositeEdges.length ∧
    Machine.Node.sortedAngles Machine.oppositeEdges
      = some (Machine.oppositeEdges.map (fun e => e.angle)) ∧
    (∀ p ∈ (Machine.oppositeEdges.map (fun e => e.angle)).zip
        (Machine.oppositeEdges.map (fun e => e.angle)).tail,
      Double.sub p.2 p.1 ≤ Machine.Node.wrapGap (Machine.oppositeEdges.map (fun e => e.angle))) ∧
    Machine.Node.biggestGap (Machine.oppositeEdges.map (fun e => e.angle))
      = ((Machine.oppositeEdges.map (fun e => e.angle)).getLastD 0,
          Machine.Node.wrapGap (Machine.oppositeEdges.map (fun e => e.angle))) :=
  ⟨by decide, Machine.opposite_eval.1, by decide,
    (selected_gap_ties Machine.oppositeEdges (by decide) _ Machine.opposite_eval.1).2.1
      (by decide)⟩

/-- C13 as stated fails: with edges leaving at 90 and 270 degrees both gaps
are computed as `m_pi`, and the selected gap is the one across the end of the
list, which starts at 270 degrees and not at the smaller angle. -/
theorem first_gap_counterexample :
    ¬ ∀ (l : List Machine.EdgeAngle) (tmp : List Double), 2 ≤ l.length →
      Machine.Node.sortedAngles l = some tmp →
      ∀ p ∈ tmp.zip tmp.tail, Double.sub p.2 p.1 = (Machine.Node.biggestGap tmp).2 →
        (Machine.Node.biggestGap tmp).1 ≤ p.1 := by
  intro h
  have h1 := h Machine.oppositeEdges _ (by decide) Machine.opposite_eval.1
    (Double.div Machine.Node.m_pi (Double.ofInt 2), Machine.Node.m_oneAndHalfPi) (by decide)
    (by decide)
  revert h1
  decide

end QtMindMap
